import Mathlib

/-!
# A verification development for the command-line SQL engine (`db.cpp`)

Shallow embedding of the table record codec, the catalog store and the query
execution engine of `src/Project-p2/db.cpp` (and of the join printer of
`src/Project-p1/db.cpp`), followed by theorems about them.

Conventions of the embedding
* a C `int` is an `Int`; where the C arithmetic can leave the 32-bit range the
  result is reduced with `wrap32` (two's complement), a `long long` with `wrap64`;
* an `unsigned char` is a `Nat` below 256, a buffer is a `List Nat`;
* a C string is the `List Nat` of its characters, without the terminating NUL;
* the declarations of `db.h` are not among the sources: enumerations are
  inductive types named after their C constants, and struct layouts that the
  code depends on are taken as parameters.
-/

namespace DB

/-! ## Machine integers and buffers -/

/-- Value of a 32-bit two's-complement `int` holding the integer `x`. -/
def wrap32 (x : Int) : Int := (x + 2147483648) % 4294967296 - 2147483648

/-- Value of a 64-bit two's-complement `long long` holding the integer `x`. -/
def wrap64 (x : Int) : Int :=
  (x + 9223372036854775808) % 18446744073709551616 - 9223372036854775808

/-- Column types: the type-name token values of `db.h` (`T_INT`, `T_CHAR`, `T_VARCHAR`). -/
inductive ColType where
  | T_INT
  | T_CHAR
  | T_VARCHAR
  deriving DecidableEq, Repr

open ColType

/-- Column descriptor `cd_entry`. -/
structure cd_entry where
  col_name : List Nat
  col_id : Int
  col_type : ColType
  col_len : Int
  not_null : Bool
  deriving DecidableEq, Repr

/-- Table descriptor `tpd_entry` as the handlers see it: the name and the column
array found at `cd_offset`; `num_columns` is the length of that array. -/
structure tpd_entry where
  table_name : List Nat
  cols : List cd_entry
  deriving DecidableEq, Repr

/-- Field `num_columns` of a descriptor. -/
def tpd_entry.num_columns (t : tpd_entry) : Nat := t.cols.length

/-! ## Record size -/

/-- `round4(n) = (n + 3) & ~3` on `int`. -/
def round4 (n : Int) : Int := Int.land (wrap32 (n + 3)) (Int.lnot 3)

/-- Loop body of `compute_record_size_from_tpd`: `rec += 1 + 4` for an INT column,
`rec += 1 + col_len` otherwise. -/
def rec_step (rec : Int) (col : cd_entry) : Int :=
  if col.col_type = T_INT then wrap32 (rec + (1 + 4))
  else wrap32 (rec + wrap32 (1 + col.col_len))

/-- `compute_record_size_from_tpd`. -/
def compute_record_size_from_tpd (tpd : tpd_entry) : Int :=
  round4 (tpd.cols.foldl rec_step 0)

/-- Payload width of a column: 4 for INT, `col_len` for CHAR/VARCHAR. -/
def payload_width (col : cd_entry) : Int :=
  if col.col_type = T_INT then 4 else col.col_len

/-- The mathematical sum over the columns of `1 + payload width`. -/
def width_sum (cols : List cd_entry) : Int :=
  (cols.map (fun c => 1 + payload_width c)).sum

/-! ## Buffers, C strings -/

/-- Read of `buf[off]` (an `unsigned char`); a read outside the buffer is outside
the model and yields 0. -/
def byte_at (buf : List Nat) (off : Int) : Nat :=
  if off < 0 then 0 else buf.getD off.toNat 0

/-- The `n` bytes `buf[off .. off+n-1]`, as `memcpy(dst, buf + off, n)` reads them. -/
def slice (buf : List Nat) (off : Int) : Nat → List Nat
  | 0 => []
  | n + 1 => byte_at buf off :: slice buf (off + 1) n

/-- Store of `buf[off] = v`; a store outside the buffer is outside the model and
leaves the buffer as it is. -/
def store (buf : List Nat) (off : Int) (v : Nat) : List Nat :=
  if off < 0 then buf else buf.set off.toNat v

/-- Copy of `memcpy(buf + off, src, src.length)`. -/
def memcpy (buf : List Nat) (off : Int) : List Nat → List Nat
  | [] => buf
  | b :: bs => memcpy (store buf off b) (off + 1) bs

/-- The four bytes of an `int32_t` in memory (little-endian). -/
def int32_bytes (x : Int) : List Nat :=
  let u := (x % 4294967296).toNat
  [u % 256, u / 256 % 256, u / 65536 % 256, u / 16777216 % 256]

/-- The `int32_t` that `memcpy(&val, buf + off, 4)` yields. -/
def read_int32 (buf : List Nat) (off : Int) : Int :=
  wrap32 (byte_at buf off + 256 * byte_at buf (off + 1)
    + 65536 * byte_at buf (off + 2) + 16777216 * byte_at buf (off + 3) : Nat)

/-- The C string that starts a buffer: the bytes before the first NUL. -/
def cstr (buf : List Nat) : List Nat := buf.takeWhile (fun b => b != 0)

/-- ASCII `tolower`. -/
def tolower (c : Nat) : Nat := if 65 ≤ c ∧ c ≤ 90 then c + 32 else c

/-- Function `strcmp` on two C strings: the difference of the first pair of
characters that differ (the terminating NUL counts as 0). -/
def strcmp : List Nat → List Nat → Int
  | [], [] => 0
  | [], b :: _ => 0 - (b : Int)
  | a :: _, [] => (a : Int)
  | a :: as, b :: bs => if a = b then strcmp as bs else (a : Int) - (b : Int)

/-- Function `strcasecmp`: as `strcmp` after `tolower`. -/
def strcasecmp : List Nat → List Nat → Int
  | [], [] => 0
  | [], b :: _ => 0 - (tolower b : Int)
  | a :: _, [] => (tolower a : Int)
  | a :: as, b :: bs =>
    if tolower a = tolower b then strcasecmp as bs else (tolower a : Int) - (tolower b : Int)

/-- Value of the leading decimal digits of a string. -/
def digits_value (s : List Nat) : Nat :=
  (s.takeWhile (fun c => decide (48 ≤ c ∧ c ≤ 57))).foldl (fun a c => 10 * a + (c - 48)) 0

/-- Function `strtol(s, NULL, 10)` on the digit strings the lexer produces for an
integer literal, with a 64-bit `long`: the value, or `LONG_MAX` when out of range. -/
def strtol (s : List Nat) : Int := min (digits_value s : Int) 9223372036854775807

/-- Function `atoi` on a digit string: `(int) strtol(s, NULL, 10)`. -/
def atoi (s : List Nat) : Int := wrap32 (strtol s)

/-! ## Record layout -/

/-- The offset loop shared by `extract_field_at_column`, the WHERE evaluators, the
sort, the aggregates and the printer:
`for (i = 0; i < k; i++) offset += 1 + (INT ? 4 : col_len)`, from `offset`. -/
def offset_loop (offset : Int) : List cd_entry → Nat → Int
  | _, 0 => offset
  | [], _ + 1 => offset
  | c :: cs, k + 1 => offset_loop (wrap32 (offset + wrap32 (1 + payload_width c))) cs k

/-- Byte offset of column `k` in a record. -/
def col_offset (cols : List cd_entry) (k : Nat) : Int := offset_loop 0 cols k

/-- A decoded field value, as SELECT prints it. -/
inductive Value where
  | null
  | int (v : Int)
  | str (s : List Nat)
  deriving DecidableEq, Repr

/-- What `printf("%.*s", len, p)` prints: at most `len` characters of the C string at `p`. -/
def printf_prec (row : List Nat) (off : Int) (len : Nat) : List Nat :=
  cstr (slice row off len)

/-- Decoding of one output column in the print loop of `sem_select`: the length byte
at `off`, then `NULL`, the `int` copied from the payload, or the string. -/
def print_value (row : List Nat) (type : ColType) (off : Int) : Value :=
  let len := byte_at row off
  let off := wrap32 (off + 1)
  if type = T_INT then
    if len = 0 then Value.null else Value.int (read_int32 row off)
  else
    if len = 0 then Value.null else Value.str (printf_prec row off len)

/-! ## Tokens and return codes -/

/-- Token classes of `db.h`. -/
inductive TokClass where
  | keyword | identifier | symbol | type_name | constant | function_name | terminator | error
  deriving DecidableEq, Repr

/-- Token values of `db.h` that the handlers test. -/
inductive TokValue where
  | T_INT | T_CHAR | T_VARCHAR
  | K_CREATE | K_TABLE | K_NOT | K_NULL | K_DROP | K_LIST | K_SCHEMA | K_FOR | K_TO
  | K_INSERT | K_INTO | K_VALUES | K_DELETE | K_FROM | K_WHERE | K_UPDATE | K_SET
  | K_SELECT | K_ORDER | K_BY | K_DESC | K_IS | K_AND | K_OR | K_NATURAL | K_JOIN
  | F_SUM | F_AVG | F_COUNT
  | S_LEFT_PAREN | S_RIGHT_PAREN | S_COMMA | S_STAR | S_EQUAL | S_LESS | S_GREATER
  | IDENT | INT_LITERAL | STRING_LITERAL | EOC | INVALID
  deriving DecidableEq, Repr

/-- Return codes: `OK` is 0, the others are the nonzero error constants of `db.h`. -/
inductive RC where
  | OK
  | INVALID_TABLE_NAME | DUPLICATE_TABLE_NAME | TABLE_NOT_EXIST | INVALID_TABLE_DEFINITION
  | INVALID_COLUMN_NAME | DUPLICATE_COLUMN_NAME | COLUMN_NOT_EXIST | INVALID_TYPE_NAME
  | INVALID_COLUMN_DEFINITION | INVALID_COLUMN_LENGTH | INVALID_STATEMENT
  | INVALID_INSERT_DEFINITION | INVALID_SELECT_DEFINITION | TYPE_MISMATCH
  | NOT_NULL_CONSTRAINT_VIOLATION | FILE_OPEN_ERROR | FILE_WRITE_ERROR | MEMORY_ERROR
  | DBFILE_CORRUPTION | INVALID_UPDATE_DEFINITION
  deriving DecidableEq, Repr

/-- One node of the token list. -/
structure token where
  tok_string : List Nat
  tok_class : TokClass
  tok_value : TokValue
  deriving DecidableEq, Repr

/-- The test `class == keyword || class == identifier || class == type_name` that
every handler applies to a table or column name. -/
def is_name_token (t : token) : Bool :=
  t.tok_class = TokClass.keyword ∨ t.tok_class = TokClass.identifier
    ∨ t.tok_class = TokClass.type_name

/-! ## Table files -/

/-- Header `table_file_header` of a table file (`tpd_ptr` is zero on disk and is
left out). -/
structure table_file_header where
  file_size : Int
  record_size : Int
  num_records : Int
  record_offset : Int
  file_header_flag : Int
  deriving DecidableEq, Repr

/-- A table file `<table_name>.tab`: `data` holds the bytes of the file at their
absolute positions; the first `sizeof(table_file_header)` of them are the image of
the header, which the model keeps decoded in `hdr`. -/
structure TabFile where
  hdr : table_file_header
  data : List Nat
  deriving DecidableEq, Repr

/-- `row_pos`: `record_offset + row_idx * record_size`, computed in `long`. -/
def row_pos (hdr : table_file_header) (row_idx : Int) : Int :=
  hdr.record_offset + row_idx * hdr.record_size

/-- Header written by `write_header`: the header given, with `file_size` recomputed. -/
def write_header (hdr_in : table_file_header) : table_file_header :=
  { hdr_in with
    file_size := wrap32 (hdr_in.record_offset + wrap32 (hdr_in.record_size * hdr_in.num_records)) }

/-- Effect of `fseek(f, pos, SEEK_SET); fwrite(bytes, bytes.length, 1, f)` on the bytes
of a file: a gap between the end of the file and `pos` is filled with zeros. -/
def file_write (data : List Nat) (pos : Int) (bytes : List Nat) : List Nat :=
  let p := pos.toNat
  (data ++ List.replicate (p - data.length) 0).take p ++ bytes ++ data.drop (p + bytes.length)

/-- Effect of `fseek(f, pos, SEEK_SET); fread(buf, n, 1, f)` on `buf`: the bytes the
file has at `pos`, at most `n`, overwrite the start of `buf`. -/
def file_read (data : List Nat) (pos : Int) (n : Int) (buf : List Nat) : List Nat :=
  let got := (data.drop pos.toNat).take n.toNat
  got ++ buf.drop got.length

/-! ## INSERT -/

/-- Outcome of the column loop of `sem_insert_into`. -/
inductive InsertLoop where
  | done (cur : Nat) (row_buffer : List Nat)
  | fail (rc : RC) (marked : Nat)
  deriving DecidableEq, Repr

/-- Body of the column loop of `sem_insert_into` for one column: the field written at
`buffer_offset`, and the new `buffer_offset`; or the error code. -/
def insert_field (col : cd_entry) (tk : token) (row_buffer : List Nat) (buffer_offset : Int) :
    Except RC (List Nat × Int) :=
  if tk.tok_value = TokValue.K_NULL then
    if col.not_null then Except.error RC.NOT_NULL_CONSTRAINT_VIOLATION
    else
      Except.ok (store row_buffer buffer_offset 0,
        wrap32 (wrap32 (buffer_offset + 1) + payload_width col))
  else if col.col_type = T_INT then
    if tk.tok_value ≠ TokValue.INT_LITERAL then Except.error RC.TYPE_MISMATCH
    else
      let int_value := wrap32 (strtol tk.tok_string)
      Except.ok (memcpy (store row_buffer buffer_offset 4) (wrap32 (buffer_offset + 1))
          (int32_bytes int_value),
        wrap32 (wrap32 (buffer_offset + 1) + 4))
  else
    if tk.tok_value ≠ TokValue.STRING_LITERAL then Except.error RC.TYPE_MISMATCH
    else
      let string_length : Int := wrap32 tk.tok_string.length
      if string_length ≤ 0 ∨ string_length > col.col_len then
        Except.error RC.INVALID_COLUMN_LENGTH
      else
        Except.ok (memcpy (store row_buffer buffer_offset (string_length % 256).toNat)
            (wrap32 (buffer_offset + 1)) (tk.tok_string.take string_length.toNat),
          wrap32 (wrap32 (buffer_offset + 1) + col.col_len))

/-- The column loop of `sem_insert_into`: `cols` are the columns still to fill, `cur`
the index of the current token. `none` is a dereference past the end of the token list. -/
def insert_loop (toks : List token) :
    List cd_entry → Nat → List Nat → Int → Option InsertLoop
  | [], cur, row_buffer, _ => some (InsertLoop.done cur row_buffer)
  | col :: rest, cur, row_buffer, buffer_offset =>
    match toks.get? cur with
    | none => none
    | some tk =>
      if tk.tok_value ≠ TokValue.STRING_LITERAL ∧ tk.tok_value ≠ TokValue.INT_LITERAL
          ∧ tk.tok_value ≠ TokValue.K_NULL then
        some (InsertLoop.fail RC.INVALID_INSERT_DEFINITION cur)
      else
        match insert_field col tk row_buffer buffer_offset with
        | Except.error rc => some (InsertLoop.fail rc cur)
        | Except.ok (row_buffer', buffer_offset') =>
          match toks.get? (cur + 1) with
          | none => none
          | some nx =>
            if rest ≠ [] then
              if nx.tok_value ≠ TokValue.S_COMMA then
                some (InsertLoop.fail RC.INVALID_INSERT_DEFINITION (cur + 1))
              else insert_loop toks rest (cur + 2) row_buffer' buffer_offset'
            else
              if nx.tok_value ≠ TokValue.S_RIGHT_PAREN then
                some (InsertLoop.fail RC.INVALID_INSERT_DEFINITION (cur + 1))
              else insert_loop toks rest (cur + 2) row_buffer' buffer_offset'

/-- What `sem_insert_into` leaves behind: the return code, the index of the token whose
`tok_value` it set to `INVALID` (if any), and the table file (if it exists). -/
structure InsertResult where
  rc : RC
  marked : Option Nat
  file : Option TabFile
  deriving DecidableEq, Repr

/-- `sem_insert_into(t_list)`, with `t_list` the token at index `cur` of `toks`.
`lookup` is `get_tpd_from_list` on the loaded catalog, `fs` maps a table name to its
`.tab` file. File writes succeed. `none` is a dereference past the end of the token list. -/
def sem_insert_into (lookup : List Nat → Option tpd_entry) (fs : List Nat → Option TabFile)
    (toks : List token) (cur : Nat) : Option InsertResult :=
  match toks.get? cur with
  | none => none
  | some t0 =>
    if is_name_token t0 = false then
      some ⟨RC.INVALID_TABLE_NAME, some cur, fs t0.tok_string⟩
    else
      match lookup t0.tok_string with
      | none => some ⟨RC.TABLE_NOT_EXIST, some cur, fs t0.tok_string⟩
      | some table_descriptor =>
        match toks.get? (cur + 1) with
        | none => none
        | some t1 =>
          if t1.tok_value ≠ TokValue.K_VALUES then
            some ⟨RC.INVALID_STATEMENT, some (cur + 1), fs t0.tok_string⟩
          else
            match toks.get? (cur + 2) with
            | none => none
            | some t2 =>
              if t2.tok_value ≠ TokValue.S_LEFT_PAREN then
                some ⟨RC.INVALID_STATEMENT, some (cur + 2), fs t0.tok_string⟩
              else
                match fs t0.tok_string with
                | none => some ⟨RC.FILE_OPEN_ERROR, none, none⟩
                | some f =>
                  if f.hdr.num_records ≥ 100 then some ⟨RC.MEMORY_ERROR, none, some f⟩
                  else if f.hdr.record_size < 0 then some ⟨RC.MEMORY_ERROR, none, some f⟩
                  else
                    let row_buffer := List.replicate f.hdr.record_size.toNat 0
                    match insert_loop toks table_descriptor.cols (cur + 3) row_buffer 0 with
                    | none => none
                    | some (InsertLoop.fail rc m) => some ⟨rc, some m, some f⟩
                    | some (InsertLoop.done cur' row) =>
                      match toks.get? cur' with
                      | none => none
                      | some te =>
                        if te.tok_value ≠ TokValue.EOC then
                          some ⟨RC.INVALID_STATEMENT, some cur', some f⟩
                        else
                          let write_position := row_pos f.hdr f.hdr.num_records
                          let data := file_write f.data write_position row
                          let file_header :=
                            { f.hdr with num_records := wrap32 (f.hdr.num_records + 1) }
                          some ⟨RC.OK, none, some ⟨write_header file_header, data⟩⟩

/-! ## NATURAL JOIN helpers -/

instance : Inhabited cd_entry := ⟨⟨[], 0, T_INT, 0, false⟩⟩

/-- Element `columns[k]` of a column array; an index outside the array is outside the
model and yields a default entry. -/
def col_at (columns : List cd_entry) (k : Nat) : cd_entry := columns.getD k default

/-- The three outputs of `extract_field_at_column`. -/
structure Field where
  length : Nat
  int_value : Int
  str_value : List Nat
  deriving DecidableEq, Repr

/-- `extract_field_at_column(row_buffer, columns, col_index, str_value, &int_value, &length)`:
`str_value` and `int_value` come in as the caller initialised them. -/
def extract_field_at_column (row_buffer : List Nat) (columns : List cd_entry) (col_index : Nat)
    (str_value : List Nat) (int_value : Int) : Field :=
  let offset := col_offset columns col_index
  let length := byte_at row_buffer offset
  let offset := wrap32 (offset + 1)
  if (col_at columns col_index).col_type = T_INT then
    if length > 0 then ⟨length, read_int32 row_buffer offset, str_value⟩
    else ⟨length, 0, str_value⟩
  else
    if length > 0 then ⟨length, int_value, memcpy str_value 0 (slice row_buffer offset length)⟩
    else ⟨length, int_value, str_value⟩

/-- Function `memcmp(a, b, n)`: the difference of the first pair of bytes that differ. -/
def memcmp (a b : List Nat) : Nat → Int
  | 0 => 0
  | n + 1 =>
    if a.headD 0 = b.headD 0 then memcmp a.tail b.tail n
    else (a.headD 0 : Int) - (b.headD 0 : Int)

/-- `are_fields_equal(col, len1, val1, len2, val2)`; a value is the byte image that the
`void *` points to. -/
def are_fields_equal (col : cd_entry) (len1 : Nat) (val1 : List Nat) (len2 : Nat)
    (val2 : List Nat) : Bool :=
  if len1 = 0 ∧ len2 = 0 then true
  else if len1 = 0 ∨ len2 = 0 then false
  else if col.col_type = T_INT then decide (read_int32 val1 0 = read_int32 val2 0)
  else decide (len1 = len2) && decide (memcmp val1 val2 len1 = 0)

/-- The value pointer that `rows_match_on_common_columns` passes for a field:
`&int_val` for an INT column, `str_val` otherwise. -/
def field_value_ptr (columns : List cd_entry) (idx : Nat) (f : Field) : List Nat :=
  if (col_at columns idx).col_type = T_INT then int32_bytes f.int_value else f.str_value

/-- Body of the loop of `rows_match_on_common_columns` for the common column `c`. -/
def common_fields_equal (row1 row2 : List Nat) (cols1 cols2 : List cd_entry)
    (common_map1 common_map2 : List Nat) (c : Nat) : Bool :=
  let idx1 := common_map1.getD c 0
  let idx2 := common_map2.getD c 0
  let f1 := extract_field_at_column row1 cols1 idx1 (List.replicate 256 0) 0
  let f2 := extract_field_at_column row2 cols2 idx2 (List.replicate 256 0) 0
  are_fields_equal (col_at cols1 idx1) f1.length (field_value_ptr cols1 idx1 f1)
    f2.length (field_value_ptr cols2 idx2 f2)

/-- The loop of `rows_match_on_common_columns`, from index `c`, with `n` iterations left. -/
def rows_match_from (row1 row2 : List Nat) (cols1 cols2 : List cd_entry)
    (common_map1 common_map2 : List Nat) : Nat → Nat → Bool
  | _, 0 => true
  | c, n + 1 =>
    if common_fields_equal row1 row2 cols1 cols2 common_map1 common_map2 c = false then false
    else rows_match_from row1 row2 cols1 cols2 common_map1 common_map2 (c + 1) n

/-- `rows_match_on_common_columns`. -/
def rows_match_on_common_columns (row1 row2 : List Nat) (cols1 cols2 : List cd_entry)
    (common_map1 common_map2 : List Nat) (num_common : Nat) : Bool :=
  rows_match_from row1 row2 cols1 cols2 common_map1 common_map2 0 num_common

/-- Inner loop of `find_common_columns`: the first `j` with
`strcmp(name, cols2[j].col_name) == 0`, counting from `j`. -/
def find_same_name (name : List Nat) : List cd_entry → Nat → Option Nat
  | [], _ => none
  | c :: cs, j => if strcmp name c.col_name = 0 then some j else find_same_name name cs (j + 1)

/-- Outer loop of `find_common_columns`, from column `i` of the first table: the pairs
written to `col_map1` and `col_map2`. -/
def find_common_from (cols2 : List cd_entry) : List cd_entry → Nat → List (Nat × Nat)
  | [], _ => []
  | c :: cs, i =>
    match find_same_name c.col_name cols2 0 with
    | some j => (i, j) :: find_common_from cols2 cs (i + 1)
    | none => find_common_from cols2 cs (i + 1)

/-- `find_common_columns`: the list of pairs `(col_map1[c], col_map2[c])`; its length is
the returned `num_common`. -/
def find_common_columns (tpd1 tpd2 : tpd_entry) : List (Nat × Nat) :=
  find_common_from tpd2.cols tpd1.cols 0

/-! ## SELECT: the WHERE chain -/

/-- One entry of the array `conditions` of `sem_select`; `logical_operator` is `K_AND`,
`K_OR`, or 0 (`none`) for the last condition. -/
structure query_condition where
  col_name : List Nat
  operator_type : TokValue
  value_type : TokValue
  int_value : Int
  str_value : List Nat
  logical_operator : Option TokValue
  deriving DecidableEq, Repr

/-- The column search `for (k = 0; k < num_columns; k++) if (strcasecmp(cols[k].col_name,
name) == 0) { idx = k; break; }`, counting from `k`; `none` is `idx == -1`. -/
def find_column (name : List Nat) : List cd_entry → Nat → Option Nat
  | [], _ => none
  | c :: cs, k =>
    if strcasecmp c.col_name name = 0 then some k else find_column name cs (k + 1)

/-- The part of the lambdas `eval` and `eval_join` that follows the column search: the
test of condition `c` on the field of column `col_idx` of `row`. -/
def eval_field (c : query_condition) (row : List Nat) (cols : List cd_entry) (col_idx : Nat) :
    Bool :=
  let offset := col_offset cols col_idx
  let len := byte_at row offset
  let offset := wrap32 (offset + 1)
  if c.operator_type = TokValue.K_IS ∧ c.value_type = TokValue.K_NULL then decide (len = 0)
  else if c.operator_type = TokValue.K_IS ∧ c.value_type = TokValue.K_NOT then decide (len ≠ 0)
  else if len = 0 then false
  else if (col_at cols col_idx).col_type = T_INT then
    let val := read_int32 row offset
    if c.operator_type = TokValue.S_EQUAL then decide (val = c.int_value)
    else if c.operator_type = TokValue.S_LESS then decide (val < c.int_value)
    else if c.operator_type = TokValue.S_GREATER then decide (val > c.int_value)
    else false
  else
    let val_str := cstr (slice row offset len)
    let cmp := strcmp val_str c.str_value
    if c.operator_type = TokValue.S_EQUAL then decide (cmp = 0)
    else if c.operator_type = TokValue.S_LESS then decide (cmp < 0)
    else if c.operator_type = TokValue.S_GREATER then decide (cmp > 0)
    else false

/-- The lambda `eval(cond_idx, row, tpd)` of the single-table branch, for condition `c`. -/
def eval (c : query_condition) (row : List Nat) (tpd : tpd_entry) : Bool :=
  match find_column c.col_name tpd.cols 0 with
  | none => false
  | some col_idx => eval_field c row tpd.cols col_idx

/-- The lambda `eval_join(cond_idx)` of the join branch, for condition `c`: the column is
searched in table 1, then in table 2. -/
def eval_join (c : query_condition) (buf1 buf2 : List Nat) (tpd1 tpd2 : tpd_entry) : Bool :=
  match find_column c.col_name tpd1.cols 0 with
  | some col_idx => eval_field c buf1 tpd1.cols col_idx
  | none =>
    match find_column c.col_name tpd2.cols 0 with
    | some col_idx => eval_field c buf2 tpd2.cols col_idx
    | none => false

instance : Inhabited query_condition :=
  ⟨⟨[], TokValue.INVALID, TokValue.INVALID, 0, [], none⟩⟩

/-- The loop `for (k = 0; k < num_conditions - 1; k++)` that combines the conditions,
from index `k` with `n` iterations left; `ev` evaluates one condition. -/
def chain_loop (ev : query_condition → Bool) (conditions : List query_condition) :
    Nat → Nat → Bool → Bool
  | _, 0, current_res => current_res
  | k, n + 1, current_res =>
    let next_res := ev (conditions.getD (k + 1) default)
    let op := (conditions.getD k default).logical_operator
    if op = some TokValue.K_AND then
      chain_loop ev conditions (k + 1) n (current_res && next_res)
    else if op = some TokValue.K_OR then
      chain_loop ev conditions (k + 1) n (current_res || next_res)
    else chain_loop ev conditions (k + 1) n current_res

/-- The value of `match` for one row: `true` without conditions, else the first condition
combined with the following ones by `chain_loop`. -/
def where_match (ev : query_condition → Bool) (conditions : List query_condition) : Bool :=
  if conditions.length > 0 then
    chain_loop ev conditions 0 (conditions.length - 1) (ev (conditions.getD 0 default))
  else true

/-! ## SELECT: scan, join, sort -/

/-- The state `sem_select` has built when parsing is over: `table1` and `table2` are the
names as typed, `tpd1` and `tpd2` the descriptors found for them (`tpd2 = none` without a
join). -/
structure Query where
  is_star : Bool
  is_aggregate : Bool
  agg_funcs : List (TokValue × List Nat)
  sel_cols : List (List Nat)
  table1 : List Nat
  tpd1 : tpd_entry
  table2 : List Nat
  tpd2 : Option tpd_entry
  conditions : List query_condition
  has_order : Bool
  order_col : List Nat
  order_desc : Bool
  deriving Repr

/-- Field `has_join`. -/
def Query.has_join (q : Query) : Bool := q.tpd2.isSome

/-- The single-table branch of the loop `for (i = 0; i < h1.num_records; i++)`, from
record `i` with `n` records left: `buf1` is the record buffer, the result rows come out
in the order `add_result` stored them. -/
def scan_single (q : Query) (f1 : TabFile) : Nat → Nat → List Nat → List (List Nat)
  | _, 0, _ => []
  | i, n + 1, buf1 =>
    let buf1 := file_read f1.data (row_pos f1.hdr i) f1.hdr.record_size buf1
    if where_match (fun c => eval c buf1 q.tpd1) q.conditions then
      buf1 :: scan_single q f1 (i + 1) n buf1
    else scan_single q f1 (i + 1) n buf1

/-- The inner loop `for (j = 0; j < h2.num_records; j++)` of the join branch for the left
record `buf1`: the rows added, and the buffer `buf2` left behind. -/
def scan_right (q : Query) (tpd2 : tpd_entry) (f1 f2 : TabFile) (common : List (Nat × Nat))
    (buf1 : List Nat) : Nat → Nat → List Nat → List (List Nat) × List Nat
  | _, 0, buf2 => ([], buf2)
  | j, n + 1, buf2 =>
    let buf2 := file_read f2.data (row_pos f2.hdr j) f2.hdr.record_size buf2
    let rest := scan_right q tpd2 f1 f2 common buf1 (j + 1) n buf2
    if rows_match_on_common_columns buf1 buf2 q.tpd1.cols tpd2.cols
        (common.map Prod.fst) (common.map Prod.snd) common.length
      && where_match (fun c => eval_join c buf1 buf2 q.tpd1 tpd2) q.conditions then
      ((buf1.take f1.hdr.record_size.toNat ++ buf2.take f2.hdr.record_size.toNat) :: rest.1,
        rest.2)
    else rest

/-- The join branch of the loop over the left records. -/
def scan_join (q : Query) (tpd2 : tpd_entry) (f1 f2 : TabFile) (common : List (Nat × Nat)) :
    Nat → Nat → List Nat → List Nat → List (List Nat)
  | _, 0, _, _ => []
  | i, n + 1, buf1, buf2 =>
    let buf1 := file_read f1.data (row_pos f1.hdr i) f1.hdr.record_size buf1
    let r := scan_right q tpd2 f1 f2 common buf1 0 f2.hdr.num_records.toNat buf2
    r.1 ++ scan_join q tpd2 f1 f2 common (i + 1) n buf1 r.2

/-- The result set after the loop "Loop and Filter". The buffers from `malloc` start
as zeros. -/
def scan (q : Query) (f1 : TabFile) (f2 : Option TabFile) : List (List Nat) :=
  let buf1 := List.replicate f1.hdr.record_size.toNat 0
  match q.tpd2, f2 with
  | some tpd2, some f2 =>
    scan_join q tpd2 f1 f2 (find_common_columns q.tpd1 tpd2) 0 f1.hdr.num_records.toNat buf1
      (List.replicate f2.hdr.record_size.toNat 0)
  | _, _ => scan_single q f1 0 f1.hdr.num_records.toNat buf1

/-- The comparison `cmp` of the sort for two result rows: the key is column
`sort_col_idx` of `cols`, read at `base` in the row (0, or `h1.record_size` for a column of
table 2). -/
def sort_cmp (cols : List cd_entry) (sort_col_idx : Nat) (base : Nat) (order_desc : Bool)
    (r1 r2 : List Nat) : Int :=
  let row1 := r1.drop base
  let row2 := r2.drop base
  let off := col_offset cols sort_col_idx
  let len1 := byte_at row1 off
  let len2 := byte_at row2 off
  let off := wrap32 (off + 1)
  let cmp : Int :=
    if (col_at cols sort_col_idx).col_type = T_INT then
      let v1 := if len1 > 0 then read_int32 row1 off else 0
      let v2 := if len2 > 0 then read_int32 row2 off else 0
      if v1 < v2 then -1 else if v1 > v2 then 1 else 0
    else
      let s1 := if len1 > 0 then cstr (slice row1 off len1) else []
      let s2 := if len2 > 0 then cstr (slice row2 off len2) else []
      strcmp s1 s2
  if order_desc then wrap32 (-cmp) else cmp

/-- One run of the inner loop `for (j = 0; j < result_count - i - 1; j++)` of the bubble
sort, with `n` iterations left, on the rows from index `j` on: adjacent rows are swapped
when `cmp > 0`. -/
def bubble_pass (cmp : List Nat → List Nat → Int) : Nat → List (List Nat) → List (List Nat)
  | 0, rows => rows
  | _ + 1, [] => []
  | _ + 1, [r] => [r]
  | n + 1, r1 :: r2 :: rest =>
    if cmp r1 r2 > 0 then r2 :: bubble_pass cmp n (r1 :: rest)
    else r1 :: bubble_pass cmp n (r2 :: rest)

/-- The outer loop `for (i = 0; i < result_count - 1; i++)` of the bubble sort, from `i`
with `n` iterations left. -/
def bubble_sort (cmp : List Nat → List Nat → Int) : Nat → Nat → List (List Nat) →
    List (List Nat)
  | _, 0, rows => rows
  | i, n + 1, rows => bubble_sort cmp (i + 1) n (bubble_pass cmp (rows.length - i - 1) rows)

/-- The block "Sort" of `sem_select`. -/
def sort_results (q : Query) (f1 : TabFile) (results : List (List Nat)) : List (List Nat) :=
  if q.has_order ∧ results.length > 1 then
    match find_column q.order_col q.tpd1.cols 0, q.tpd2 with
    | some k, _ =>
      bubble_sort (sort_cmp q.tpd1.cols k 0 q.order_desc) 0 (results.length - 1) results
    | none, some tpd2 =>
      match find_column q.order_col tpd2.cols 0 with
      | some k =>
        bubble_sort (sort_cmp tpd2.cols k f1.hdr.record_size.toNat q.order_desc) 0
          (results.length - 1) results
      | none => results
    | none, none => results
  else results

/-! ## SELECT: aggregates and projection -/

/-- The test `strcmp(col_name, "*") == 0`. -/
def is_star_name (col_name : List Nat) : Bool := decide (strcmp col_name [42] = 0)

/-- Struct `AggregateResult`; `column_index = none` stands for -1. -/
structure AggregateResult where
  sum_value : Int
  row_count : Int
  column_index : Option Nat
  is_in_table1 : Bool
  deriving DecidableEq, Repr

/-- Body of the loop "Initialize aggregate results and locate columns" for one aggregate
`(type, col_name)`; an error is the `return INVALID_COLUMN_NAME`. -/
def agg_locate (q : Query) (a : TokValue × List Nat) : Except RC AggregateResult :=
  if a.1 = TokValue.F_COUNT ∧ is_star_name a.2 then Except.ok ⟨0, 0, none, true⟩
  else
    match find_column a.2 q.tpd1.cols 0, q.tpd2 with
    | some k, _ => Except.ok ⟨0, 0, some k, true⟩
    | none, none =>
      if a.1 ≠ TokValue.F_COUNT then Except.error RC.INVALID_COLUMN_NAME
      else Except.ok ⟨0, 0, none, true⟩
    | none, some tpd2 =>
      match find_column a.2 tpd2.cols 0 with
      | some k => Except.ok ⟨0, 0, some k, false⟩
      | none =>
        if a.1 ≠ TokValue.F_COUNT then Except.error RC.INVALID_COLUMN_NAME
        else Except.ok ⟨0, 0, none, false⟩

/-- The loop "Initialize aggregate results and locate columns". -/
def agg_init (q : Query) : List (TokValue × List Nat) → Except RC (List AggregateResult)
  | [] => Except.ok []
  | a :: rest =>
    match agg_locate q a with
    | Except.error rc => Except.error rc
    | Except.ok st =>
      match agg_init q rest with
      | Except.error rc => Except.error rc
      | Except.ok sts => Except.ok (st :: sts)

/-- Body of the loop "Compute aggregates" for one result row and one aggregate. -/
def agg_step (q : Query) (f1 : TabFile) (row : List Nat) (a : TokValue × List Nat)
    (st : AggregateResult) : AggregateResult :=
  if a.1 = TokValue.F_COUNT ∧ is_star_name a.2 then
    { st with row_count := wrap32 (st.row_count + 1) }
  else
    let row_data := if st.is_in_table1 then row else row.drop f1.hdr.record_size.toNat
    let cols := if st.is_in_table1 then q.tpd1.cols
      else match q.tpd2 with
        | some tpd2 => tpd2.cols
        | none => []
    let offset := col_offset cols (st.column_index.getD 0)
    let field_length := byte_at row_data offset
    let offset := wrap32 (offset + 1)
    if field_length > 0 then
      if a.1 = TokValue.F_COUNT then { st with row_count := wrap32 (st.row_count + 1) }
      else
        { st with
          sum_value := wrap64 (st.sum_value + read_int32 row_data offset)
          row_count := wrap32 (st.row_count + 1) }
    else st

/-- The inner loop `for (a = 0; a < num_agg_funcs; a++)` of "Compute aggregates" for one
result row. -/
def agg_row (q : Query) (f1 : TabFile) (row : List Nat) :
    List (TokValue × List Nat) → List AggregateResult → List AggregateResult
  | a :: as, st :: sts => agg_step q f1 row a st :: agg_row q f1 row as sts
  | _, _ => []

/-- The loop "Compute aggregates" over the result rows. -/
def agg_compute (q : Query) (f1 : TabFile) (results : List (List Nat))
    (init : List AggregateResult) : List AggregateResult :=
  results.foldl (fun sts row => agg_row q f1 row q.agg_funcs sts) init

/-- The number printed in the value row for one aggregate. -/
def agg_value (result_count : Nat) (a : TokValue × List Nat) (st : AggregateResult) : Int :=
  if a.1 = TokValue.F_SUM then st.sum_value
  else if a.1 = TokValue.F_AVG then
    if st.row_count > 0 then Int.tdiv st.sum_value st.row_count else 0
  else if is_star_name a.2 then (result_count : Int) else st.row_count

/-- The value row printed for the aggregates. -/
def agg_values (result_count : Nat) :
    List (TokValue × List Nat) → List AggregateResult → List Int
  | a :: as, st :: sts => agg_value result_count a st :: agg_values result_count as sts
  | _, _ => []

/-- Struct `OutCol` of the row printer. -/
structure OutCol where
  name : List Nat
  type : ColType
  len : Int
  offset : Int
  in_t1 : Bool
  deriving DecidableEq, Repr

/-- The loop that adds every column of one table to `out_cols` (the `is_star` case),
from column `k`; `all` is the whole column array. -/
def out_cols_of (all : List cd_entry) (in_t1 : Bool) : List cd_entry → Nat → List OutCol
  | [], _ => []
  | c :: cs, k =>
    ⟨c.col_name, c.col_type, c.col_len, col_offset all k, in_t1⟩ :: out_cols_of all in_t1 cs (k + 1)

/-- The entry added to `out_cols` for one name of an explicit column list, if the column
is found. -/
def out_col_named (q : Query) (name : List Nat) : Option OutCol :=
  match find_column name q.tpd1.cols 0, q.tpd2 with
  | some k, _ =>
    let c := col_at q.tpd1.cols k
    some ⟨c.col_name, c.col_type, c.col_len, col_offset q.tpd1.cols k, true⟩
  | none, none => none
  | none, some tpd2 =>
    match find_column name tpd2.cols 0 with
    | some k =>
      let c := col_at tpd2.cols k
      some ⟨c.col_name, c.col_type, c.col_len, col_offset tpd2.cols k, false⟩
    | none => none

/-- The block "Determine output columns" of `sem_select`. -/
def build_out_cols (q : Query) : List OutCol :=
  if q.is_star then
    out_cols_of q.tpd1.cols true q.tpd1.cols 0 ++
      (match q.tpd2 with
        | some tpd2 => out_cols_of tpd2.cols false tpd2.cols 0
        | none => [])
  else q.sel_cols.filterMap (out_col_named q)

/-- The values printed for one result row. -/
def print_row (f1 : TabFile) (out_cols : List OutCol) (row : List Nat) : List Value :=
  out_cols.map (fun oc =>
    print_value (if oc.in_t1 then row else row.drop f1.hdr.record_size.toNat) oc.type oc.offset)

/-- What `sem_select` prints and returns once the statement is parsed. -/
inductive SelectOutput where
  | failed (rc : RC)
  | aggregates (values : List Int)
  | rows (out_cols : List OutCol) (printed : List (List Value)) (result_count : Nat)
  deriving DecidableEq, Repr

/-- The result set of `sem_select` at the point "Output results": scanned, filtered,
joined and sorted. -/
def result_set (q : Query) (f1 : TabFile) (f2 : Option TabFile) : List (List Nat) :=
  sort_results q f1 (scan q f1 f2)

/-- The part "Execution" of `sem_select`, for the parsed statement `q`; `fs` maps a table
name to its `.tab` file. -/
def sem_select_exec (q : Query) (fs : List Nat → Option TabFile) : SelectOutput :=
  match fs q.table1 with
  | none => SelectOutput.failed RC.FILE_OPEN_ERROR
  | some f1 =>
    let f2 := if q.has_join then fs q.table2 else none
    if q.has_join ∧ f2 = none then SelectOutput.failed RC.FILE_OPEN_ERROR
    else
      let results := result_set q f1 f2
      if q.is_aggregate then
        match agg_init q q.agg_funcs with
        | Except.error rc => SelectOutput.failed rc
        | Except.ok init =>
          SelectOutput.aggregates
            (agg_values results.length q.agg_funcs (agg_compute q f1 results init))
      else
        let out_cols := build_out_cols q
        SelectOutput.rows out_cols (results.map (print_row f1 out_cols)) results.length

/-! ## The catalog `dbfile.bin`

The in-memory catalog `g_tpd_list` is the byte image of the file. Its header is
`list_size` at offset 0 and `num_tables` at offset 4 (the "8 byte header" of
`drop_tpd_from_list`), the first entry `tpd_start` follows at offset 8. The layout of
`tpd_entry` is declared in `db.h` and is a parameter. -/

/-- The part of the layout of `tpd_entry` that the catalog functions use. -/
structure Layout where
  sizeof_tpd_entry : Nat
  off_tpd_size : Nat
  off_table_name : Nat
  deriving DecidableEq, Repr

/-- `sizeof(tpd_list) - sizeof(tpd_entry)`: the offset of `tpd_start`. -/
def tpd_start : Nat := 8

/-- `sizeof(tpd_list)`. -/
def sizeof_tpd_list (L : Layout) : Nat := tpd_start + L.sizeof_tpd_entry

/-- Field `g_tpd_list->list_size`. -/
def list_size (g : List Nat) : Int := read_int32 g 0

/-- Field `g_tpd_list->num_tables`. -/
def num_tables (g : List Nat) : Int := read_int32 g 4

/-- Field `cur->tpd_size` of the entry at offset `cur`. -/
def tpd_size_at (L : Layout) (g : List Nat) (cur : Int) : Int :=
  read_int32 g (cur + L.off_tpd_size)

/-- The C string `cur->table_name` of the entry at offset `cur`. -/
def table_name_at (L : Layout) (g : List Nat) (cur : Int) : List Nat :=
  cstr (g.drop (cur + L.off_table_name).toNat)

/-- Store of an `int` field at offset `off`. -/
def write_int32 (g : List Nat) (off : Int) (v : Int) : List Nat :=
  memcpy g off (int32_bytes v)

/-- The bytes that `fwrite(g + off, size, 1, f)` writes; `size` is converted to `size_t`,
a negative one is outside the model and writes nothing. -/
def fwrite_bytes (g : List Nat) (off : Int) (size : Int) : List Nat :=
  slice g off size.toNat

/-- `initialize_tpd_list` when `dbfile.bin` exists with the content `file`: the return
code and the catalog in memory. -/
def initialize_tpd_list (file : List Nat) : RC × List Nat :=
  (if list_size file ≠ (file.length : Int) then RC.DBFILE_CORRUPTION else RC.OK, file)

/-- The loop of `get_tpd_from_list`, with `n` the value of `num_tables` before the test
`num_tables-- > 0`: the offset of the entry found, or `none` for `NULL`. -/
def get_tpd_loop (L : Layout) (g : List Nat) (tabname : List Nat) : Nat → Int → Option Int
  | 0, _ => none
  | n + 1, cur =>
    if strcasecmp (table_name_at L g cur) tabname = 0 then some cur
    else if n > 0 then get_tpd_loop L g tabname n (cur + tpd_size_at L g cur)
    else get_tpd_loop L g tabname n cur

/-- `get_tpd_from_list(tabname)` on the catalog `g`. -/
def get_tpd_from_list (L : Layout) (g : List Nat) (tabname : List Nat) : Option Int :=
  get_tpd_loop L g tabname (num_tables g).toNat tpd_start

/-- The branch "found it" of `drop_tpd_from_list` for the entry at `cur`, the `count`-th
of the list: the catalog in memory afterwards and the bytes written to `dbfile.bin`. -/
def drop_found (L : Layout) (g : List Nat) (cur : Int) (count : Nat) : List Nat × List Nat :=
  let old_size := list_size g
  if count = 0 then
    let g := write_int32 g 4 (wrap32 (num_tables g - 1))
    if num_tables g = 0 then
      let g := memcpy g 0 (List.replicate (sizeof_tpd_list L) 0)
      let g := write_int32 g 0 (sizeof_tpd_list L)
      (g, fwrite_bytes g 0 (sizeof_tpd_list L))
    else
      let g := write_int32 g 0 (wrap32 (list_size g - tpd_size_at L g cur))
      (g, fwrite_bytes g 0 tpd_start ++
        fwrite_bytes g (cur + tpd_size_at L g cur) (old_size - tpd_size_at L g cur - tpd_start))
  else
    let g := write_int32 g 4 (wrap32 (num_tables g - 1))
    let g := write_int32 g 0 (wrap32 (list_size g - tpd_size_at L g cur))
    (g, fwrite_bytes g 0 cur ++
      (if list_size g = cur then []
       else fwrite_bytes g (cur + tpd_size_at L g cur) (old_size - tpd_size_at L g cur - cur)))

/-- The loop of `drop_tpd_from_list`, with `n` the value of `num_tables` before the test
`num_tables-- > 0`; `none` is `found == false`. -/
def drop_tpd_loop (L : Layout) (g : List Nat) (tabname : List Nat) :
    Nat → Int → Nat → Option (List Nat × List Nat)
  | 0, _, _ => none
  | n + 1, cur, count =>
    if strcasecmp (table_name_at L g cur) tabname = 0 then some (drop_found L g cur count)
    else if n > 0 then drop_tpd_loop L g tabname n (cur + tpd_size_at L g cur) (count + 1)
    else drop_tpd_loop L g tabname n cur count

/-- The end of `drop_tpd_from_list`: `rc` stays 0 when the loop found the entry, and is
`INVALID_TABLE_NAME` when `found` is false. -/
def drop_result (g : List Nat) : Option (List Nat × List Nat) → RC × List Nat × Option (List Nat)
  | some (g', file) => (RC.OK, g', some file)
  | none => (RC.INVALID_TABLE_NAME, g, none)

/-- `drop_tpd_from_list(tabname)` on the catalog `g`, the file being writable: the return
code, the catalog in memory afterwards, and the new content of `dbfile.bin` if it was
rewritten. -/
def drop_tpd_from_list (L : Layout) (g : List Nat) (tabname : List Nat) :
    RC × List Nat × Option (List Nat) :=
  drop_result g (drop_tpd_loop L g tabname (num_tables g).toNat tpd_start 0)

/-- The image of a catalog with the entries `entries` (each the byte image of one
`tpd_entry` with its columns): header, then the entries; an empty catalog keeps a zeroed
placeholder entry after the header. -/
def catalog_image (L : Layout) (entries : List (List Nat)) : List Nat :=
  if entries = [] then
    int32_bytes (sizeof_tpd_list L) ++ int32_bytes 0 ++ List.replicate L.sizeof_tpd_entry 0
  else
    int32_bytes (tpd_start + entries.flatten.length : Nat) ++ int32_bytes entries.length
      ++ entries.flatten

/-- Well-formed entry image: the fixed part fits, `tpd_size` is the size of the image, and
`table_name` is terminated inside it. -/
def EntryWF (L : Layout) (e : List Nat) : Prop :=
  L.sizeof_tpd_entry ≤ e.length ∧ L.off_tpd_size + 4 ≤ e.length ∧
    tpd_size_at L e 0 = e.length ∧ 0 ∈ e.drop L.off_table_name ∧ ∀ b ∈ e, b < 256

/-- Well-formed catalog: well-formed entries whose total size fits an `int`. -/
def CatalogWF (L : Layout) (entries : List (List Nat)) : Prop :=
  (∀ e ∈ entries, EntryWF L e) ∧ sizeof_tpd_list L + entries.flatten.length < 2147483648

/-- Name of an entry image. -/
def entry_name (L : Layout) (e : List Nat) : List Nat := table_name_at L e 0

/-! ## Concrete tables and statements used by the closed theorems -/

/-- Descriptor of `create table t (c char(2147483647))`. -/
def huge_char_table : tpd_entry := ⟨[116], [⟨[99], 0, T_CHAR, 2147483647, false⟩]⟩

instance : Inhabited token := ⟨⟨[], TokClass.error, TokValue.INVALID⟩⟩

/-- The value that a token of a VALUES list denotes: `NULL`, the integer an integer
literal spells, or the characters of a string literal. -/
def literal_value (tk : token) : Value :=
  if tk.tok_value = TokValue.K_NULL then Value.null
  else if tk.tok_value = TokValue.INT_LITERAL then Value.int (digits_value tk.tok_string)
  else Value.str tk.tok_string

/-- The image of one field in a record: the length byte and the payload region. -/
def field_image (col : cd_entry) (tk : token) : List Nat :=
  if tk.tok_value = TokValue.K_NULL then 0 :: List.replicate (payload_width col).toNat 0
  else if col.col_type = T_INT then 4 :: int32_bytes (wrap32 (strtol tk.tok_string))
  else tk.tok_string.length :: (tk.tok_string
    ++ List.replicate ((payload_width col).toNat - tk.tok_string.length) 0)

/-- The images of the fields of the columns `cols`, for the value tokens at `cur`,
`cur + 2`, ... -/
def row_image (toks : List token) : List cd_entry → Nat → List Nat
  | [], _ => []
  | col :: rest, cur => field_image col (toks.getD cur default) ++ row_image toks rest (cur + 2)

/-- The combinations of column and value token that the column loop of `sem_insert_into`
accepts. -/
def Accepted (col : cd_entry) (tk : token) : Prop :=
  (tk.tok_value = TokValue.K_NULL ∧ col.not_null = false) ∨
  (tk.tok_value = TokValue.INT_LITERAL ∧ col.col_type = T_INT) ∨
  (tk.tok_value = TokValue.STRING_LITERAL ∧ col.col_type ≠ T_INT ∧
    1 ≤ tk.tok_string.length ∧ (tk.tok_string.length : Int) ≤ col.col_len)

/-- Descriptor of `create table t1 (id int, name char(10))`. -/
def t1_table : tpd_entry :=
  ⟨[116, 49], [⟨[105, 100], 0, T_INT, 4, false⟩, ⟨[110, 97, 109, 101], 1, T_CHAR, 10, false⟩]⟩

/-- The table file of `t1` as `create_table_data_file` leaves it, for a 24-byte header:
record size 16, no record. -/
def t1_empty_file : TabFile := ⟨⟨24, 16, 0, 24, 0⟩, List.replicate 24 0⟩

/-- Catalog lookup that knows the table `t1` only, under any letter case. -/
def t1_lookup (name : List Nat) : Option tpd_entry :=
  if strcasecmp [116, 49] name = 0 then some t1_table else none

/-- File system that holds `t1.tab` only, with the content `f`. -/
def t1_fs (f : TabFile) (name : List Nat) : Option TabFile :=
  if name = [116, 49] then some f else none

/-- Tokens of `t1 values (1, 'abc')`, the part of `insert into t1 values (1, 'abc')` that
`sem_insert_into` receives. -/
def insert_1_abc : List token :=
  [⟨[116, 49], TokClass.identifier, TokValue.IDENT⟩,
   ⟨[118, 97, 108, 117, 101, 115], TokClass.keyword, TokValue.K_VALUES⟩,
   ⟨[40], TokClass.symbol, TokValue.S_LEFT_PAREN⟩,
   ⟨[49], TokClass.constant, TokValue.INT_LITERAL⟩,
   ⟨[44], TokClass.symbol, TokValue.S_COMMA⟩,
   ⟨[97, 98, 99], TokClass.constant, TokValue.STRING_LITERAL⟩,
   ⟨[41], TokClass.symbol, TokValue.S_RIGHT_PAREN⟩,
   ⟨[], TokClass.terminator, TokValue.EOC⟩]

/-- Tokens of `t1 values (4294967297, NULL)`. -/
def insert_big_int : List token :=
  [⟨[116, 49], TokClass.identifier, TokValue.IDENT⟩,
   ⟨[118, 97, 108, 117, 101, 115], TokClass.keyword, TokValue.K_VALUES⟩,
   ⟨[40], TokClass.symbol, TokValue.S_LEFT_PAREN⟩,
   ⟨[52, 50, 57, 52, 57, 54, 55, 50, 57, 55], TokClass.constant, TokValue.INT_LITERAL⟩,
   ⟨[44], TokClass.symbol, TokValue.S_COMMA⟩,
   ⟨[110, 117, 108, 108], TokClass.keyword, TokValue.K_NULL⟩,
   ⟨[41], TokClass.symbol, TokValue.S_RIGHT_PAREN⟩,
   ⟨[], TokClass.terminator, TokValue.EOC⟩]

/-- The record that SELECT reads back at index `i` of a table file, into a fresh buffer. -/
def record_at (f : TabFile) (i : Int) : List Nat :=
  file_read f.data (row_pos f.hdr i) f.hdr.record_size
    (List.replicate f.hdr.record_size.toNat 0)

/-- The table file of `t1` after `insert into t1 values (1, 'abc')`: one record. -/
def t1_one_row_file : TabFile :=
  ⟨⟨40, 16, 1, 24, 0⟩, List.replicate 24 0 ++ [4, 1, 0, 0, 0, 3, 97, 98, 99, 0, 0, 0, 0, 0, 0, 0]⟩

/-- The matching rule for one common column, on the fields as
`extract_field_at_column` delivers them (`len` the length byte, `val` the bytes of the
value): both NULL is a match, exactly one NULL is none, otherwise the 32-bit integer
values are equal (INT column) or the lengths and the bytes are equal (string column). -/
def fields_match (type : ColType) (len1 : Nat) (val1 : List Nat) (len2 : Nat)
    (val2 : List Nat) : Prop :=
  (len1 = 0 ∧ len2 = 0) ∨
  (len1 ≠ 0 ∧ len2 ≠ 0 ∧
    (type = T_INT → read_int32 val1 0 = read_int32 val2 0) ∧
    (type ≠ T_INT → len1 = len2 ∧ ∀ i, i < len1 → val1.getD i 0 = val2.getD i 0))

/-- The matching rule for the common column number `c` of a pair of records. -/
def common_column_matches (row1 row2 : List Nat) (cols1 cols2 : List cd_entry)
    (common_map1 common_map2 : List Nat) (c : Nat) : Prop :=
  let idx1 := common_map1.getD c 0
  let idx2 := common_map2.getD c 0
  let f1 := extract_field_at_column row1 cols1 idx1 (List.replicate 256 0) 0
  let f2 := extract_field_at_column row2 cols2 idx2 (List.replicate 256 0) 0
  fields_match (col_at cols1 idx1).col_type f1.length (field_value_ptr cols1 idx1 f1)
    f2.length (field_value_ptr cols2 idx2 f2)

/-- One link of a WHERE chain: `acc AND next`, `acc OR next`; any other operator code
(the parser stores none between two conditions) leaves `acc`. -/
def chain_op (op : Option TokValue) (acc next : Bool) : Bool :=
  if op = some TokValue.K_AND then acc && next
  else if op = some TokValue.K_OR then acc || next
  else acc

/-- The left fold `((c0 op0 c1) op1 c2) ...` of a WHERE chain: each condition after the
first is combined with the result so far by the operator that precedes it, which is the
`logical_operator` stored in the condition before it. -/
def left_fold (ev : query_condition → Bool) (c0 : query_condition)
    (rest : List query_condition) : Bool :=
  (List.zip ((c0 :: rest).map (fun c => c.logical_operator)) rest).foldl
    (fun acc p => chain_op p.1 acc (ev p.2)) (ev c0)

/-- Descriptor of `create table abc (a int, b int, c int)`. -/
def abc_table : tpd_entry :=
  ⟨[97, 98, 99], [⟨[97], 0, T_INT, 4, false⟩, ⟨[98], 1, T_INT, 4, false⟩,
    ⟨[99], 2, T_INT, 4, false⟩]⟩

/-- Condition `a = 1`, followed by `OR`. -/
def cond_a1 : query_condition :=
  ⟨[97], TokValue.S_EQUAL, TokValue.INT_LITERAL, 1, [], some TokValue.K_OR⟩

/-- Condition `b = 2`, followed by `AND`. -/
def cond_b2 : query_condition :=
  ⟨[98], TokValue.S_EQUAL, TokValue.INT_LITERAL, 2, [], some TokValue.K_AND⟩

/-- Condition `c = 3`, the last of its chain. -/
def cond_c3 : query_condition :=
  ⟨[99], TokValue.S_EQUAL, TokValue.INT_LITERAL, 3, [], none⟩

/-- A record of `abc` with a = 1, b = 7, c = 5. -/
def abc_row_1_7_5 : List Nat := [4, 1, 0, 0, 0, 4, 7, 0, 0, 0, 4, 5, 0, 0, 0, 0]

/-- The non-NULL values of the INT column `k` of `cols` over the rows of a result set,
each read at the column's offset in the row: the length byte, then the `int`. -/
def column_values (cols : List cd_entry) (k : Nat) (rows : List (List Nat)) : List Int :=
  rows.filterMap (fun row =>
    if byte_at row (col_offset cols k) = 0 then none
    else some (read_int32 row (wrap32 (col_offset cols k + 1))))

/-- Descriptor of `create table v (x int)`. -/
def v_table : tpd_entry := ⟨[118], [⟨[120], 0, T_INT, 4, false⟩]⟩

/-- The table file of `v` with the three records 10, 20 and 3 (record size 8). -/
def v_file : TabFile :=
  ⟨⟨48, 8, 3, 24, 0⟩, List.replicate 24 0
    ++ [4, 10, 0, 0, 0, 0, 0, 0] ++ [4, 20, 0, 0, 0, 0, 0, 0] ++ [4, 3, 0, 0, 0, 0, 0, 0]⟩

/-- The table file of `v` without records. -/
def v_empty_file : TabFile := ⟨⟨24, 8, 0, 24, 0⟩, List.replicate 24 0⟩

/-- File system that holds `v.tab` only, with the content `f`. -/
def v_fs (f : TabFile) (name : List Nat) : Option TabFile :=
  if name = [118] then some f else none

/-- The parsed statement `select avg(x), count(*) from v`. -/
def select_avg_count : Query :=
  { is_star := false, is_aggregate := true,
    agg_funcs := [(TokValue.F_AVG, [120]), (TokValue.F_COUNT, [42])],
    sel_cols := [], table1 := [118], tpd1 := v_table, table2 := [], tpd2 := none,
    conditions := [], has_order := false, order_col := [], order_desc := false }

/-- A table file of `t1` that holds 100 records (all fields NULL). -/
def t1_full_file : TabFile := ⟨⟨1624, 16, 100, 24, 0⟩, List.replicate 1624 0⟩

/-- The records of a table file in file order: the records at the indices
0 .. num_records - 1. -/
def table_records (f : TabFile) : List (List Nat) :=
  (List.range f.hdr.num_records.toNat).map (fun (i : Nat) => record_at f (i : Int))

/-- The parsed statement `select * from t1 where id = 1`. -/
def select_t1_id_1 : Query :=
  { is_star := true, is_aggregate := false, agg_funcs := [], sel_cols := [],
    table1 := [116, 49], tpd1 := t1_table, table2 := [], tpd2 := none,
    conditions := [⟨[105, 100], TokValue.S_EQUAL, TokValue.INT_LITERAL, 1, [], none⟩],
    has_order := false, order_col := [], order_desc := false }

/-- The file holds every record its header counts: offsets and sizes are not negative and
the data reach to the end of the last record. -/
def FileCovers (f : TabFile) : Prop :=
  0 ≤ f.hdr.record_offset ∧ 0 ≤ f.hdr.record_size ∧
    row_pos f.hdr f.hdr.num_records ≤ f.data.length

instance (f : TabFile) : Decidable (FileCovers f) := by
  unfold FileCovers
  infer_instance

/-- The loop `for (c = 0; c < num_common; c++) if (common_map[c] == i) is_common = true`
of `print_join_header`. -/
def is_common (common_map : List Nat) (num_common : Nat) (i : Nat) : Bool :=
  (common_map.take num_common).any (fun m => m == i)

/-- The loop of `print_join_header` over the columns of one table that are not common,
from column `i`: the names added to the output list. -/
def remaining_names (common_map : List Nat) (num_common : Nat) : List cd_entry → Nat →
    List (List Nat)
  | [], _ => []
  | c :: cs, i =>
    if is_common common_map num_common i then remaining_names common_map num_common cs (i + 1)
    else c.col_name :: remaining_names common_map num_common cs (i + 1)

/-- The names of the output columns that `print_join_header` lists (the join printer of
`Project-p1`, also present in `Project-p2`): the common columns, taken from table 1, then
the remaining columns of table 1, then the remaining columns of table 2. -/
def print_join_header (tpd1 tpd2 : tpd_entry) (common_map1 common_map2 : List Nat)
    (num_common : Nat) : List (List Nat) :=
  (common_map1.take num_common).map (fun m => (col_at tpd1.cols m).col_name)
    ++ remaining_names common_map1 num_common tpd1.cols 0
    ++ remaining_names common_map2 num_common tpd2.cols 0

/-- Descriptor of `create table j1 (id int, a int)`. -/
def j1_table : tpd_entry :=
  ⟨[106, 49], [⟨[105, 100], 0, T_INT, 4, false⟩, ⟨[97], 1, T_INT, 4, false⟩]⟩

/-- Descriptor of `create table j2 (id int, b int)`. -/
def j2_table : tpd_entry :=
  ⟨[106, 50], [⟨[105, 100], 0, T_INT, 4, false⟩, ⟨[98], 1, T_INT, 4, false⟩]⟩

/-- The parsed statement `select * from j1 natural join j2`. -/
def select_star_join : Query :=
  { is_star := true, is_aggregate := false, agg_funcs := [], sel_cols := [],
    table1 := [106, 49], tpd1 := j1_table, table2 := [106, 50], tpd2 := some j2_table,
    conditions := [], has_order := false, order_col := [], order_desc := false }

/-- `add_tpd_to_list(tpd)` on the catalog `g`, the file being writable; `tpd` is the byte
image of the new entry. The catalog in memory afterwards and the new content of
`dbfile.bin`. -/
def add_tpd_to_list (L : Layout) (g : List Nat) (tpd : List Nat) : List Nat × List Nat :=
  let old_size := list_size g
  if num_tables g = 0 then
    let g := write_int32 g 4 (wrap32 (num_tables g + 1))
    let g := write_int32 g 0
      (wrap32 (list_size g + (tpd_size_at L tpd 0 - (L.sizeof_tpd_entry : Int))))
    (g, fwrite_bytes g 0 (old_size - (L.sizeof_tpd_entry : Int))
      ++ fwrite_bytes tpd 0 (tpd_size_at L tpd 0))
  else
    let g := write_int32 g 4 (wrap32 (num_tables g + 1))
    let g := write_int32 g 0 (wrap32 (list_size g + tpd_size_at L tpd 0))
    (g, fwrite_bytes g 0 old_size ++ fwrite_bytes tpd 0 (tpd_size_at L tpd 0))

/-- Equality of two names ignoring ASCII letter case. -/
def eq_ignoring_case (a b : List Nat) : Prop := a.map tolower = b.map tolower

instance (a b : List Nat) : Decidable (eq_ignoring_case a b) := by
  unfold eq_ignoring_case
  infer_instance

/-- Offset in the catalog image of the entry number `k`. -/
def entry_offset (entries : List (List Nat)) (k : Nat) : Nat :=
  tpd_start + (entries.take k).flatten.length

instance (L : Layout) (e : List Nat) : Decidable (EntryWF L e) := by
  unfold EntryWF
  infer_instance

instance (L : Layout) (entries : List (List Nat)) : Decidable (CatalogWF L entries) := by
  unfold CatalogWF
  infer_instance

/-- The table names of the entries are pairwise distinct ignoring letter case. -/
def names_distinct (L : Layout) (entries : List (List Nat)) : Prop :=
  entries.Pairwise (fun a b => ¬ eq_ignoring_case (entry_name L a) (entry_name L b))

/-- A layout of `tpd_entry` with `tpd_size` first, `table_name` after it, and 36 bytes
in all. -/
def layout36 : Layout := ⟨36, 0, 4⟩

/-- The image under `layout36` of an entry without columns whose name is the one
character `c`. -/
def entry_named (c : Nat) : List Nat := int32_bytes 36 ++ [c] ++ List.replicate 31 0

/-- `create_table_data_file(tpd)` when `<table_name>.tab` can be written: the new table
file, which holds the header only. `sizeof(table_file_header)` comes from `db.h` and is a
parameter. -/
def create_table_data_file (sizeof_table_file_header : Nat) (tpd : tpd_entry) : TabFile :=
  ⟨⟨sizeof_table_file_header, compute_record_size_from_tpd tpd, 0, sizeof_table_file_header, 0⟩,
    List.replicate sizeof_table_file_header 0⟩

/-- The invariant of a table file header that the specification states. -/
def header_invariant (h : table_file_header) : Prop :=
  h.file_size = h.record_offset + h.record_size * h.num_records

instance (h : table_file_header) : Decidable (header_invariant h) := by
  unfold header_invariant
  infer_instance

/-- Descriptor of `create table w (c char(100000000))`. -/
def wide_char_table : tpd_entry := ⟨[119], [⟨[99], 0, T_CHAR, 100000000, false⟩]⟩

/-- The header of `w.tab` in memory when `sem_insert_into` has stored the 22nd record and
added one to `num_records`, for a 24-byte header. -/
def wide_header_22 : table_file_header := ⟨2100000108, 100000004, 22, 24, 0⟩

/-- Descriptor of `create table u (ID int)`. -/
def upper_id_table : tpd_entry := ⟨[117], [⟨[73, 68], 0, T_INT, 4, false⟩]⟩

/-- Descriptor of `create table l (id int)`. -/
def lower_id_table : tpd_entry := ⟨[108], [⟨[105, 100], 0, T_INT, 4, false⟩]⟩

/-! ## The lexical analyzer

`get_token` scans the command with the pointer `cur`; the model keeps the characters
from `cur` on as a list. The constants `STRING_BREAK`, `NUMBER_BREAK`, `KEYWORD_OFFSET`,
`MAX_IDENT_LEN`, the numbers of `K_CREATE` and `F_SUM` and the array `keyword_table` are
defined in `db.h` and are parameters. A word or literal longer than `MAX_TOK_LEN`
overflows `temp_string` and is outside the model. -/

/-- The constants of `db.h` that `get_token` uses; `keyword_table` holds the first
`TOTAL_KEYWORDS_PLUS_TYPE_NAMES` entries of the array, and `value_of n` is the constant of
the enumeration of token values whose number is `n`. -/
structure LexConfig where
  STRING_BREAK : List Nat
  NUMBER_BREAK : List Nat
  keyword_table : List (List Nat)
  KEYWORD_OFFSET : Int
  K_CREATE : Int
  F_SUM : Int
  MAX_IDENT_LEN : Nat
  value_of : Int → TokValue

/-- Return value of `get_token`: 0, or the token value `INVALID`. -/
inductive LexRC where
  | zero | INVALID
  deriving DecidableEq, Repr

/-- The character `*cur`; at the end of the command it is the NUL, and the model reads a
NUL past it as well. -/
def peek (cur : List Nat) : Nat := cur.headD 0

/-- ASCII `isalpha`. -/
def isalpha (c : Nat) : Bool := (65 ≤ c && c ≤ 90) || (97 ≤ c && c ≤ 122)

/-- ASCII `isdigit`. -/
def isdigit (c : Nat) : Bool := 48 ≤ c && c ≤ 57

/-- ASCII `isalnum`. -/
def isalnum (c : Nat) : Bool := isalpha c || isdigit c

/-- The test `(isalnum(*cur)) || (*cur == '_')` that continues a word. -/
def is_word_char (c : Nat) : Bool := isalnum c || c == 95

/-- The test `(*cur) && (*cur != '\'')` that continues a string literal. -/
def is_literal_char (c : Nat) : Bool := c != 0 && c != 39

/-- The test `strchr(brk, c) != NULL`: the terminating NUL of `brk` is found as well. -/
def in_break (brk : List Nat) (c : Nat) : Bool := c == 0 || brk.contains c

/-- The search loop over `keyword_table`: the first `j` with
`strcasecmp(keyword_table[j], temp_string) == 0`, counting from `j`. -/
def find_keyword (temp_string : List Nat) : List (List Nat) → Nat → Option Nat
  | [], _ => none
  | k :: ks, j =>
    if strcasecmp k temp_string = 0 then some j else find_keyword temp_string ks (j + 1)

/-- The class `t_class` of the keyword found at index `j`. -/
def keyword_class (cfg : LexConfig) (j : Nat) : TokClass :=
  if cfg.KEYWORD_OFFSET + j < cfg.K_CREATE then TokClass.type_name
  else if cfg.KEYWORD_OFFSET + j ≥ cfg.F_SUM then TokClass.function_name
  else TokClass.keyword

/-- The token `add_to_list(tok_list, "", terminator, EOC)` appends. -/
def eoc_token : token := ⟨[], TokClass.terminator, TokValue.EOC⟩

/-- The `switch` of the symbol branch. -/
def symbol_value (c : Nat) : Option TokValue :=
  if c = 40 then some TokValue.S_LEFT_PAREN
  else if c = 41 then some TokValue.S_RIGHT_PAREN
  else if c = 44 then some TokValue.S_COMMA
  else if c = 42 then some TokValue.S_STAR
  else if c = 61 then some TokValue.S_EQUAL
  else if c = 60 then some TokValue.S_LESS
  else if c = 62 then some TokValue.S_GREATER
  else none

/-- What one iteration of the loop `while (!done)` does: the tokens it appends, whether
it sets `rc = INVALID`, the flag `done`, and `cur` afterwards. -/
structure LexStep where
  toks : List token
  invalid : Bool
  done : Bool
  cur : List Nat
  deriving DecidableEq, Repr

/-- The end of a branch that has appended the token `tk`: `if (!*cur)` the terminator is
appended and `done` is set. -/
def lex_finish (tk : token) (invalid : Bool) (cur : List Nat) : LexStep :=
  if peek cur = 0 then ⟨[tk, eoc_token], invalid, true, cur⟩ else ⟨[tk], invalid, invalid, cur⟩

/-- The token of a word that is followed by a break character: keyword, identifier, or
error when it is no keyword and longer than `MAX_IDENT_LEN`; the flag is `rc = INVALID`. -/
def classify_word (cfg : LexConfig) (temp_string : List Nat) : token × Bool :=
  match find_keyword temp_string cfg.keyword_table 0 with
  | some j => (⟨temp_string, keyword_class cfg j, cfg.value_of (cfg.KEYWORD_OFFSET + j)⟩, false)
  | none =>
    if temp_string.length ≤ cfg.MAX_IDENT_LEN then
      (⟨temp_string, TokClass.identifier, TokValue.IDENT⟩, false)
    else (⟨temp_string, TokClass.error, TokValue.INVALID⟩, true)

/-- Branch `isalpha(*cur)`, with `c` the character `*cur` and `rest` the ones after it. -/
def lex_word (cfg : LexConfig) (c : Nat) (rest : List Nat) : LexStep :=
  let temp_string := c :: rest.takeWhile is_word_char
  let cur := rest.dropWhile is_word_char
  if in_break cfg.STRING_BREAK (peek cur) = false then
    ⟨[⟨temp_string ++ [peek cur], TokClass.error, TokValue.INVALID⟩], true, true, cur.tail⟩
  else
    lex_finish (classify_word cfg temp_string).1 (classify_word cfg temp_string).2 cur

/-- Branch `isdigit(*cur)`. -/
def lex_number (cfg : LexConfig) (c : Nat) (rest : List Nat) : LexStep :=
  let temp_string := c :: rest.takeWhile isdigit
  let cur := rest.dropWhile isdigit
  if in_break cfg.NUMBER_BREAK (peek cur) = false then
    ⟨[⟨temp_string ++ [peek cur], TokClass.error, TokValue.INVALID⟩], true, true, cur.tail⟩
  else
    lex_finish ⟨temp_string, TokClass.constant, TokValue.INT_LITERAL⟩ false cur

/-- Branch `*cur == '\''`, with `rest` the characters after the quote: the first
character is copied whatever it is, then the ones up to a quote or the NUL. -/
def lex_string (rest : List Nat) : LexStep :=
  let temp_string := cstr (peek rest :: rest.tail.takeWhile is_literal_char)
  let cur := rest.tail.dropWhile is_literal_char
  if peek cur = 0 then
    ⟨[⟨temp_string, TokClass.error, TokValue.INVALID⟩], true, true, cur⟩
  else
    lex_finish ⟨temp_string, TokClass.constant, TokValue.STRING_LITERAL⟩ false cur.tail

/-- One iteration of the loop `while (!done)` of `get_token`, from `cur`. -/
def lex_step (cfg : LexConfig) (cur0 : List Nat) : LexStep :=
  let cur := cur0.dropWhile (fun c => c == 32)
  let c := peek cur
  if isalpha c then lex_word cfg c cur.tail
  else if isdigit c then lex_number cfg c cur.tail
  else
    match symbol_value c with
    | some t_value => lex_finish ⟨[c], TokClass.symbol, t_value⟩ false cur.tail
    | none =>
      if c = 39 then lex_string cur.tail
      else if c = 0 then ⟨[eoc_token], false, true, cur⟩
      else ⟨[⟨[c], TokClass.error, TokValue.INVALID⟩], true, true, cur.tail⟩

/-- The loop `while (!done)` of `get_token` with at most `fuel` iterations: the value
returned (`rc` is assigned only where `done` is set) and the tokens appended; `none` when
the iterations do not suffice. -/
def get_token_loop (cfg : LexConfig) : Nat → List Nat → Option (LexRC × List token)
  | 0, _ => none
  | fuel + 1, cur =>
    if (lex_step cfg cur).done then
      some (if (lex_step cfg cur).invalid then LexRC.INVALID else LexRC.zero,
        (lex_step cfg cur).toks)
    else
      (get_token_loop cfg fuel (lex_step cfg cur).cur).map
        (fun r => (r.1, (lex_step cfg cur).toks ++ r.2))

/-- `get_token(command, &tok_list)` with `tok_list` empty: the value returned and the
token list. Every iteration that does not set `done` consumes a character, so
`command.length + 1` iterations suffice. -/
def get_token (cfg : LexConfig) (command : List Nat) : Option (LexRC × List token) :=
  get_token_loop cfg (command.length + 1) command

/-- A small instance of the constants: break sets `" (),<>="` and `" ),"`, the keyword
table `int`, `char`, `create`, `table`, `select`, `sum` numbered from 10, and identifiers
of at most 16 characters. -/
def small_config : LexConfig :=
  { STRING_BREAK := [32, 40, 41, 44, 60, 62, 61],
    NUMBER_BREAK := [32, 41, 44],
    keyword_table := [[105, 110, 116], [99, 104, 97, 114], [99, 114, 101, 97, 116, 101],
      [116, 97, 98, 108, 101], [115, 101, 108, 101, 99, 116], [115, 117, 109]],
    KEYWORD_OFFSET := 10,
    K_CREATE := 12,
    F_SUM := 15,
    MAX_IDENT_LEN := 16,
    value_of := fun n =>
      if n = 10 then TokValue.T_INT else if n = 11 then TokValue.T_CHAR
      else if n = 12 then TokValue.K_CREATE else if n = 13 then TokValue.K_TABLE
      else if n = 14 then TokValue.K_SELECT else if n = 15 then TokValue.F_SUM
      else TokValue.INVALID }

/-- Tokens that are neither error tokens nor terminators. -/
def PlainTokens (body : List token) : Prop :=
  ∀ t ∈ body, t.tok_class ≠ TokClass.error ∧ t.tok_class ≠ TokClass.terminator

/-- The three shapes of one iteration of the loop of `get_token`: a plain token, and the
scan goes on with fewer characters; the end of the command, after at most one plain
token; an error token, which the terminator follows only if the token is a word longer
than `MAX_IDENT_LEN`. -/
def StepShape (cfg : LexConfig) (cur : List Nat) (s : LexStep) : Prop :=
  (s.done = false ∧ s.invalid = false ∧ s.cur.length < cur.length ∧
    ∃ tk, s.toks = [tk] ∧ PlainTokens [tk]) ∨
  (s.done = true ∧ s.invalid = false ∧
    (s.toks = [eoc_token] ∨ ∃ tk, s.toks = [tk, eoc_token] ∧ PlainTokens [tk])) ∨
  (s.done = true ∧ s.invalid = true ∧
    ∃ tk, tk.tok_class = TokClass.error ∧
      (s.toks = [tk] ∨ (s.toks = [tk, eoc_token] ∧ cfg.MAX_IDENT_LEN < tk.tok_string.length)))

/-- The shape of the result of `get_token`: plain tokens, then the terminator when the
value returned is 0, and one error token, with or without the terminator after it, when
the value is `INVALID`. -/
def ResultShape (cfg : LexConfig) (rc : LexRC) (ts : List token) : Prop :=
  (rc = LexRC.zero ∧ ∃ body, ts = body ++ [eoc_token] ∧ PlainTokens body) ∨
  (rc = LexRC.INVALID ∧ ∃ body tk, PlainTokens body ∧ tk.tok_class = TokClass.error ∧
    (ts = body ++ [tk] ∨
      (ts = body ++ [tk, eoc_token] ∧ cfg.MAX_IDENT_LEN < tk.tok_string.length)))

/-- The command of 17 letters `a`. -/
def long_word_command : List Nat := List.replicate 17 97

/-- The part of a result row that holds the record of table 1 (`in_t1`), or the record of
table 2, which follows it in a joined row. -/
def row_part (f1 : TabFile) (in_t1 : Bool) (row : List Nat) : List Nat :=
  if in_t1 then row else row.drop f1.hdr.record_size.toNat

/-- The columns of table 1 (`in_t1`) or of table 2 of a query. -/
def query_cols (q : Query) (in_t1 : Bool) : List cd_entry :=
  if in_t1 then q.tpd1.cols
  else match q.tpd2 with
    | some tpd2 => tpd2.cols
    | none => []

/-- The records in which the field of column `k` of `cols` is not NULL: the length byte at
the offset of the column is not 0. -/
def non_null_records (cols : List cd_entry) (k : Nat) (rows : List (List Nat)) :
    List (List Nat) :=
  rows.filter (fun row => decide (byte_at row (col_offset cols k) ≠ 0))

/-- The column `name` is resolved to column `k` of table 1 (`in_t1`), or, when table 1 has
no column of that name, to column `k` of the joined table 2. -/
def ResolvesTo (q : Query) (name : List Nat) (in_t1 : Bool) (k : Nat) : Prop :=
  (in_t1 = true ∧ find_column name q.tpd1.cols 0 = some k) ∨
  (in_t1 = false ∧ find_column name q.tpd1.cols 0 = none ∧
    ∃ tpd2, q.tpd2 = some tpd2 ∧ find_column name tpd2.cols 0 = some k)

/-- The table file of `v` with the three records 10, NULL and 3 (record size 8); the
payload of the NULL field holds the bytes of 7. -/
def v_null_file : TabFile :=
  ⟨⟨48, 8, 3, 24, 0⟩, List.replicate 24 0
    ++ [4, 10, 0, 0, 0, 0, 0, 0] ++ [0, 7, 0, 0, 0, 0, 0, 0] ++ [4, 3, 0, 0, 0, 0, 0, 0]⟩

/-- The parsed statement `select count(x), sum(x) from v`. -/
def select_count_sum : Query :=
  { is_star := false, is_aggregate := true,
    agg_funcs := [(TokValue.F_COUNT, [120]), (TokValue.F_SUM, [120])], sel_cols := [],
    table1 := [118], tpd1 := v_table, table2 := [], tpd2 := none,
    conditions := [], has_order := false, order_col := [], order_desc := false }

/-- The sort key of a record for an INT column `k`: the `int` of the field, and 0 when
the field is NULL. -/
def int_key (cols : List cd_entry) (k : Nat) (record : List Nat) : Int :=
  if byte_at record (col_offset cols k) > 0 then
    read_int32 record (wrap32 (col_offset cols k + 1))
  else 0

/-- The sort key of a record for a string column `k`: the characters of the field, and the
empty string when the field is NULL. -/
def str_key (cols : List cd_entry) (k : Nat) (record : List Nat) : List Nat :=
  if byte_at record (col_offset cols k) > 0 then
    cstr (slice record (wrap32 (col_offset cols k + 1)) (byte_at record (col_offset cols k)))
  else []

/-- The order of two records under the comparison of the sort: by the signed integer
value for an INT column, by `strcmp` otherwise; not decreasing, or not increasing when
`desc` is set. -/
def in_order (cols : List cd_entry) (k : Nat) (desc : Bool) (r1 r2 : List Nat) : Prop :=
  if (col_at cols k).col_type = T_INT then
    (if desc then int_key cols k r2 ≤ int_key cols k r1
     else int_key cols k r1 ≤ int_key cols k r2)
  else
    (if desc then strcmp (str_key cols k r2) (str_key cols k r1) ≤ 0
     else strcmp (str_key cols k r1) (str_key cols k r2) ≤ 0)

instance (cols : List cd_entry) (k : Nat) (desc : Bool) (r1 r2 : List Nat) :
    Decidable (in_order cols k desc r1 r2) := by
  unfold in_order
  infer_instance

/-- Every element of every row is a byte. -/
def RowsAreBytes (rows : List (List Nat)) : Prop := ∀ r ∈ rows, ∀ b ∈ r, b < 256

instance (rows : List (List Nat)) : Decidable (RowsAreBytes rows) := by
  unfold RowsAreBytes
  infer_instance

/-- The parsed statement `select * from v order by x desc`. -/
def select_order_desc : Query :=
  { is_star := true, is_aggregate := false, agg_funcs := [], sel_cols := [],
    table1 := [118], tpd1 := v_table, table2 := [], tpd2 := none,
    conditions := [], has_order := true, order_col := [120], order_desc := true }

/-- The parsed statement `select * from v order by x`. -/
def select_order_asc : Query :=
  { is_star := true, is_aggregate := false, agg_funcs := [], sel_cols := [],
    table1 := [118], tpd1 := v_table, table2 := [], tpd2 := none,
    conditions := [], has_order := true, order_col := [120], order_desc := false }

/-- The table file of `v` with the two records NULL and -5 (record size 8). -/
def v_negative_file : TabFile :=
  ⟨⟨40, 8, 2, 24, 0⟩, List.replicate 24 0
    ++ [0, 0, 0, 0, 0, 0, 0, 0] ++ [4, 251, 255, 255, 255, 0, 0, 0]⟩

/-! ## SELECT: the statement parser

`sem_select` walks the token list with `cur = cur->next`; the model keeps the index of
`cur` in the list. A step of a handler yields `none` for a dereference past the end of the
list (outside the model), an error for `return rc`, or a value. -/

/-- Sequencing of two steps of a handler. -/
def and_then {α β : Type} (x : Option (Except RC α)) (f : α → Option (Except RC β)) :
    Option (Except RC β) :=
  match x with
  | none => none
  | some (Except.error rc) => some (Except.error rc)
  | some (Except.ok a) => f a

/-- The token `*cur`. -/
def at_tok (toks : List token) (cur : Nat) : Option (Except RC token) :=
  (toks[cur]?).map Except.ok

/-- Step `return rc`. -/
def ret {α : Type} (rc : RC) : Option (Except RC α) := some (Except.error rc)

/-- Step that goes on with the value `a`. -/
def go {α : Type} (a : α) : Option (Except RC α) := some (Except.ok a)

/-- The closing parenthesis of one aggregate, at `cur`: the aggregate stored and `cur`
after it. -/
def close_aggregate (toks : List token) (cur : Nat) (a : TokValue × List Nat) :
    Option (Except RC ((TokValue × List Nat) × Nat)) :=
  and_then (at_tok toks cur) fun t3 =>
    if t3.tok_value ≠ TokValue.S_RIGHT_PAREN then ret RC.INVALID_SELECT_DEFINITION
    else go (a, cur + 1)

/-- The body of the loop over the aggregate functions up to the store into `agg_funcs`,
from `cur`. -/
def parse_aggregate (toks : List token) (cur : Nat) :
    Option (Except RC ((TokValue × List Nat) × Nat)) :=
  and_then (at_tok toks cur) fun t0 =>
    if t0.tok_class ≠ TokClass.function_name then ret RC.INVALID_SELECT_DEFINITION
    else and_then (at_tok toks (cur + 1)) fun t1 =>
      if t1.tok_value ≠ TokValue.S_LEFT_PAREN then ret RC.INVALID_SELECT_DEFINITION
      else and_then (at_tok toks (cur + 2)) fun t2 =>
        if t2.tok_value = TokValue.S_STAR then
          if t0.tok_value ≠ TokValue.F_COUNT then ret RC.INVALID_SELECT_DEFINITION
          else close_aggregate toks (cur + 3) (t0.tok_value, [42])
        else if is_name_token t2 then
          close_aggregate toks (cur + 3) (t0.tok_value, t2.tok_string)
        else ret RC.INVALID_SELECT_DEFINITION

/-- The loop `do { ... } while (cur->tok_class == function_name)` over the aggregate
functions and the test after it, with at most `fuel` iterations. The test reads
`cur[-1].tok_value`, the memory before the node `cur`, which is no token of the list:
`oob i` tells whether that read, for `cur` at index `i`, yields `S_COMMA`. -/
def parse_aggs (oob : Nat → Bool) (toks : List token) :
    Nat → Nat → List (TokValue × List Nat) →
      Option (Except RC (List (TokValue × List Nat) × Nat))
  | 0, _, _ => none
  | fuel + 1, cur, acc =>
    and_then (parse_aggregate toks cur) fun r =>
      and_then (at_tok toks r.2) fun t =>
        if t.tok_value = TokValue.S_COMMA then
          and_then (at_tok toks (r.2 + 1)) fun t' =>
            if t'.tok_class = TokClass.function_name then
              parse_aggs oob toks fuel (r.2 + 1) (acc ++ [r.1])
            else if t'.tok_value = TokValue.S_COMMA ∨ oob (r.2 + 1) = true then
              ret RC.INVALID_SELECT_DEFINITION
            else go (acc ++ [r.1], r.2 + 1)
        else if oob r.2 = true then ret RC.INVALID_SELECT_DEFINITION
        else go (acc ++ [r.1], r.2)

/-- The loop over the names of an explicit column list, with at most `fuel` iterations. -/
def parse_cols (toks : List token) :
    Nat → Nat → List (List Nat) → Option (Except RC (List (List Nat) × Nat))
  | 0, _, _ => none
  | fuel + 1, cur, acc =>
    and_then (at_tok toks cur) fun t0 =>
      if is_name_token t0 = false then ret RC.INVALID_SELECT_DEFINITION
      else and_then (at_tok toks (cur + 1)) fun t1 =>
        if t1.tok_value = TokValue.S_COMMA then
          parse_cols toks fuel (cur + 2) (acc ++ [t0.tok_string])
        else go (acc ++ [t0.tok_string], cur + 1)

/-- What part 1 of `sem_select` leaves: the flags, the aggregates, the column names,
and `cur`. -/
structure SelectList where
  is_star : Bool
  is_aggregate : Bool
  agg_funcs : List (TokValue × List Nat)
  sel_cols : List (List Nat)
  cur : Nat
  deriving DecidableEq, Repr

/-- Part 1 of `sem_select`: "Parse SELECT list (star, aggregates, or column list)". -/
def parse_select_list (oob : Nat → Bool) (toks : List token) (cur : Nat) :
    Option (Except RC SelectList) :=
  and_then (at_tok toks cur) fun t0 =>
    if t0.tok_value = TokValue.S_STAR then go ⟨true, false, [], [], cur + 1⟩
    else if t0.tok_class = TokClass.function_name then
      and_then (parse_aggs oob toks toks.length cur []) fun r =>
        go ⟨false, true, r.1, [], r.2⟩
    else
      and_then (parse_cols toks toks.length cur []) fun r =>
        go ⟨false, false, [], r.1, r.2⟩

/-- Part 2 of `sem_select`: FROM, the table name and its descriptor; `cur` afterwards. -/
def parse_from (lookup : List Nat → Option tpd_entry) (toks : List token) (cur : Nat) :
    Option (Except RC (List Nat × tpd_entry × Nat)) :=
  and_then (at_tok toks cur) fun tf =>
    if tf.tok_value ≠ TokValue.K_FROM then ret RC.INVALID_STATEMENT
    else and_then (at_tok toks (cur + 1)) fun tt =>
      if is_name_token tt = false then ret RC.INVALID_TABLE_NAME
      else
        match lookup tt.tok_string with
        | none => ret RC.TABLE_NOT_EXIST
        | some tpd1 => go (tt.tok_string, tpd1, cur + 2)

/-- The loop "Validate aggregate functions on appropriate column types": 0 (`OK`) when it
runs to its end, else the code returned. -/
def validate_aggs (tpd1 : tpd_entry) : List (TokValue × List Nat) → RC
  | [] => RC.OK
  | a :: rest =>
    if a.1 = TokValue.F_SUM ∨ a.1 = TokValue.F_AVG then
      if strcmp a.2 [42] ≠ 0 then
        match find_column a.2 tpd1.cols 0 with
        | some k =>
          if (col_at tpd1.cols k).col_type ≠ T_INT then RC.INVALID_SELECT_DEFINITION
          else validate_aggs tpd1 rest
        | none => RC.COLUMN_NOT_EXIST
      else validate_aggs tpd1 rest
    else validate_aggs tpd1 rest

/-- Part 3 of `sem_select`: the optional NATURAL JOIN; the name and descriptor of table 2,
if any, and `cur` afterwards. -/
def parse_join (lookup : List Nat → Option tpd_entry) (toks : List token) (cur : Nat) :
    Option (Except RC (List Nat × Option tpd_entry × Nat)) :=
  and_then (at_tok toks cur) fun t0 =>
    if t0.tok_value = TokValue.K_NATURAL then
      and_then (at_tok toks (cur + 1)) fun t1 =>
        if t1.tok_value ≠ TokValue.K_JOIN then ret RC.INVALID_STATEMENT
        else and_then (at_tok toks (cur + 2)) fun t2 =>
          if is_name_token t2 = false then ret RC.INVALID_TABLE_NAME
          else
            match lookup t2.tok_string with
            | none => ret RC.TABLE_NOT_EXIST
            | some tpd2 => go (t2.tok_string, some tpd2, cur + 3)
    else go ([], none, cur)

/-- The check "Validate type compatibility between column and value" of one condition:
only a column of table 1 is checked. -/
def check_condition_type (tpd1 : tpd_entry) (c : query_condition) (cur : Nat) :
    Option (Except RC (query_condition × Nat)) :=
  match find_column c.col_name tpd1.cols 0 with
  | some k =>
    if (col_at tpd1.cols k).col_type = T_INT ∧ c.value_type = TokValue.STRING_LITERAL then
      ret RC.TYPE_MISMATCH
    else if (col_at tpd1.cols k).col_type ≠ T_INT ∧ c.value_type = TokValue.INT_LITERAL then
      ret RC.TYPE_MISMATCH
    else go (c, cur)
  | none => go (c, cur)

/-- One condition of the WHERE clause, from `cur`, up to the test for AND or OR: the
condition (fields that the code does not set are shown as 0 and the empty string) and
`cur` afterwards. -/
def parse_condition (tpd1 : tpd_entry) (toks : List token) (cur : Nat) :
    Option (Except RC (query_condition × Nat)) :=
  and_then (at_tok toks cur) fun t0 =>
    if is_name_token t0 = false then ret RC.COLUMN_NOT_EXIST
    else and_then (at_tok toks (cur + 1)) fun t1 =>
      if t1.tok_value = TokValue.K_IS then
        and_then (at_tok toks (cur + 2)) fun t2 =>
          if t2.tok_value = TokValue.K_NULL then
            go (⟨t0.tok_string, TokValue.K_IS, TokValue.K_NULL, 0, [], none⟩, cur + 3)
          else if t2.tok_value = TokValue.K_NOT then
            and_then (at_tok toks (cur + 3)) fun t3 =>
              if t3.tok_value = TokValue.K_NULL then
                go (⟨t0.tok_string, TokValue.K_IS, TokValue.K_NOT, 0, [], none⟩, cur + 4)
              else ret RC.INVALID_STATEMENT
          else ret RC.INVALID_STATEMENT
      else if t1.tok_value = TokValue.S_EQUAL ∨ t1.tok_value = TokValue.S_LESS
          ∨ t1.tok_value = TokValue.S_GREATER then
        and_then (at_tok toks (cur + 2)) fun t2 =>
          if t2.tok_value = TokValue.INT_LITERAL then
            check_condition_type tpd1
              ⟨t0.tok_string, t1.tok_value, TokValue.INT_LITERAL, atoi t2.tok_string, [], none⟩
              (cur + 3)
          else if t2.tok_value = TokValue.STRING_LITERAL then
            check_condition_type tpd1
              ⟨t0.tok_string, t1.tok_value, TokValue.STRING_LITERAL, 0, t2.tok_string, none⟩
              (cur + 3)
          else ret RC.INVALID_STATEMENT
      else ret RC.INVALID_STATEMENT

/-- The loop over the conditions of the WHERE clause, with at most `fuel` iterations. -/
def parse_conditions (tpd1 : tpd_entry) (toks : List token) :
    Nat → Nat → List query_condition → Option (Except RC (List query_condition × Nat))
  | 0, _, _ => none
  | fuel + 1, cur, acc =>
    and_then (parse_condition tpd1 toks cur) fun r =>
      and_then (at_tok toks r.2) fun t =>
        if t.tok_value = TokValue.K_AND ∨ t.tok_value = TokValue.K_OR then
          parse_conditions tpd1 toks fuel (r.2 + 1)
            (acc ++ [{ r.1 with logical_operator := some t.tok_value }])
        else go (acc ++ [r.1], r.2)

/-- Part 4 of `sem_select`: the optional WHERE clause. -/
def parse_where (tpd1 : tpd_entry) (toks : List token) (cur : Nat) :
    Option (Except RC (List query_condition × Nat)) :=
  and_then (at_tok toks cur) fun t0 =>
    if t0.tok_value = TokValue.K_WHERE then parse_conditions tpd1 toks toks.length (cur + 1) []
    else go ([], cur)

/-- Part 5 of `sem_select`: the optional ORDER BY; `has_order`, `order_col`, `order_desc`
and `cur` afterwards. -/
def parse_order (toks : List token) (cur : Nat) :
    Option (Except RC (Bool × List Nat × Bool × Nat)) :=
  and_then (at_tok toks cur) fun t0 =>
    if t0.tok_value = TokValue.K_ORDER then
      and_then (at_tok toks (cur + 1)) fun t1 =>
        if t1.tok_value ≠ TokValue.K_BY then ret RC.INVALID_STATEMENT
        else and_then (at_tok toks (cur + 2)) fun t2 =>
          if is_name_token t2 = false then ret RC.INVALID_COLUMN_NAME
          else and_then (at_tok toks (cur + 3)) fun t3 =>
            if t3.tok_value = TokValue.K_DESC then go (true, t2.tok_string, true, cur + 4)
            else go (true, t2.tok_string, false, cur + 3)
    else go (false, [], false, cur)

/-- The parts 3 to 5 of `sem_select` and the test for the end of the command: the parsed
statement. -/
def parse_tail (lookup : List Nat → Option tpd_entry) (toks : List token) (sl : SelectList)
    (table1 : List Nat) (tpd1 : tpd_entry) (cur : Nat) : Option (Except RC Query) :=
  and_then (parse_join lookup toks cur) fun j =>
    and_then (parse_where tpd1 toks j.2.2) fun w =>
      and_then (parse_order toks w.2) fun o =>
        and_then (at_tok toks o.2.2.2) fun te =>
          if te.tok_value ≠ TokValue.EOC then ret RC.INVALID_STATEMENT
          else go
            { is_star := sl.is_star, is_aggregate := sl.is_aggregate,
              agg_funcs := sl.agg_funcs, sel_cols := sl.sel_cols,
              table1 := table1, tpd1 := tpd1, table2 := j.1, tpd2 := j.2.1,
              conditions := w.1, has_order := o.1, order_col := o.2.1,
              order_desc := o.2.2.1 }

/-- The parse of `sem_select`: the parsed statement, or the code returned before the
execution starts. -/
def parse_select (oob : Nat → Bool) (lookup : List Nat → Option tpd_entry) (toks : List token)
    (cur : Nat) : Option (Except RC Query) :=
  and_then (parse_select_list oob toks cur) fun sl =>
    and_then (parse_from lookup toks sl.cur) fun f =>
      if sl.is_aggregate = true ∧ validate_aggs f.2.1 sl.agg_funcs ≠ RC.OK then
        ret (validate_aggs f.2.1 sl.agg_funcs)
      else parse_tail lookup toks sl f.1 f.2.1 f.2.2

/-- The end of `sem_select`: the code returned by the parse, or the execution. -/
def select_result (fs : List Nat → Option TabFile) :
    Option (Except RC Query) → Option SelectOutput
  | none => none
  | some (Except.error rc) => some (SelectOutput.failed rc)
  | some (Except.ok q) => some (sem_select_exec q fs)

/-- `sem_select(t_list)`, with `t_list` the token at index `cur` of `toks`: what it prints
and returns; `none` is a dereference past the end of the token list. -/
def sem_select (oob : Nat → Bool) (lookup : List Nat → Option tpd_entry)
    (fs : List Nat → Option TabFile) (toks : List token) (cur : Nat) : Option SelectOutput :=
  select_result fs (parse_select oob lookup toks cur)

/-! ## Statements and tables used by the closed theorems on the parser -/

/-- Token of an identifier. -/
def ident (s : List Nat) : token := ⟨s, TokClass.identifier, TokValue.IDENT⟩

/-- Token of a keyword with the value `v`. -/
def keyword_tok (s : List Nat) (v : TokValue) : token := ⟨s, TokClass.keyword, v⟩

/-- Token of the one-character symbol `c` with the value `v`. -/
def symbol_tok (c : Nat) (v : TokValue) : token := ⟨[c], TokClass.symbol, v⟩

/-- Token of the function name `s` with the value `v`. -/
def function_tok (s : List Nat) (v : TokValue) : token := ⟨s, TokClass.function_name, v⟩

/-- Token of a type name with the value `v`. -/
def type_tok (s : List Nat) (v : TokValue) : token := ⟨s, TokClass.type_name, v⟩

/-- Token of an integer literal. -/
def int_tok (s : List Nat) : token := ⟨s, TokClass.constant, TokValue.INT_LITERAL⟩

/-- The tokens `from <table>`. -/
def from_toks (table : List Nat) : List token :=
  [keyword_tok [102, 114, 111, 109] TokValue.K_FROM, ident table]

/-- The tokens `<f> ( <column> )` of one aggregate. -/
def agg_toks (fname : List Nat) (f : TokValue) (column : token) : List token :=
  [function_tok fname f, symbol_tok 40 TokValue.S_LEFT_PAREN, column,
    symbol_tok 41 TokValue.S_RIGHT_PAREN]

/-- Descriptor of `create table y (y int)`. -/
def y_table : tpd_entry := ⟨[121], [⟨[121], 0, T_INT, 4, false⟩]⟩

/-- The table file of `y` with the one record 7 (record size 8). -/
def y_file : TabFile := ⟨⟨32, 8, 1, 24, 0⟩, List.replicate 24 0 ++ [4, 7, 0, 0, 0, 0, 0, 0]⟩

/-- Catalog lookup that knows the tables `t1`, `v`, `y`, `j1` and `j2`, under any letter
case, as `get_tpd_from_list` finds them. -/
def demo_lookup (name : List Nat) : Option tpd_entry :=
  [t1_table, v_table, y_table, j1_table, j2_table].find?
    (fun t => decide (strcasecmp t.table_name name = 0))

/-- The table file of `j1` with the one record (1, 2) (record size 12). -/
def j1_file : TabFile :=
  ⟨⟨36, 12, 1, 24, 0⟩, List.replicate 24 0 ++ [4, 1, 0, 0, 0, 4, 2, 0, 0, 0, 0, 0]⟩

/-- The table file of `j2` with the one record (1, 5) (record size 12). -/
def j2_file : TabFile :=
  ⟨⟨36, 12, 1, 24, 0⟩, List.replicate 24 0 ++ [4, 1, 0, 0, 0, 4, 5, 0, 0, 0, 0, 0]⟩

/-- File system with `t1.tab` (one record), `v.tab` (three records), `y.tab`, `j1.tab`
and `j2.tab` (one record each). -/
def demo_fs (name : List Nat) : Option TabFile :=
  if name = [116, 49] then some t1_one_row_file
  else if name = [118] then some v_file
  else if name = [121] then some y_file
  else if name = [106, 49] then some j1_file
  else if name = [106, 50] then some j2_file
  else none

/-- The statement `select sum(b) from j1 natural join j2` as the parse would leave it if
the check of the aggregates let it pass. -/
def sum_b_query : Query :=
  { is_star := false, is_aggregate := true, agg_funcs := [(TokValue.F_SUM, [98])],
    sel_cols := [], table1 := [106, 49], tpd1 := j1_table, table2 := [106, 50],
    tpd2 := some j2_table, conditions := [], has_order := false, order_col := [],
    order_desc := false }

/-- The read `cur[-1].tok_value` never yields `S_COMMA`. -/
def no_oob_comma (_ : Nat) : Bool := false

/-- The tokens of `select * from t1 where zz = 1` after SELECT. -/
def star_where_zz : List token :=
  [symbol_tok 42 TokValue.S_STAR] ++ from_toks [116, 49]
    ++ [keyword_tok [119, 104, 101, 114, 101] TokValue.K_WHERE, ident [122, 122],
      symbol_tok 61 TokValue.S_EQUAL, int_tok [49], eoc_token]

/-- The tokens of `select sum(b) from j1 natural join j2` after SELECT. -/
def sum_b_join : List token :=
  agg_toks [115, 117, 109] TokValue.F_SUM (ident [98]) ++ from_toks [106, 49]
    ++ [keyword_tok [110, 97, 116, 117, 114, 97, 108] TokValue.K_NATURAL,
      keyword_tok [106, 111, 105, 110] TokValue.K_JOIN, ident [106, 50], eoc_token]

/-- The tokens of `select count(b) from j1 natural join j2` after SELECT. -/
def count_b_join : List token :=
  agg_toks [99, 111, 117, 110, 116] TokValue.F_COUNT (ident [98]) ++ from_toks [106, 49]
    ++ [keyword_tok [110, 97, 116, 117, 114, 97, 108] TokValue.K_NATURAL,
      keyword_tok [106, 111, 105, 110] TokValue.K_JOIN, ident [106, 50], eoc_token]

/-- The tokens of `select * from v natural join y` after SELECT. -/
def star_v_join_y : List token :=
  [symbol_tok 42 TokValue.S_STAR] ++ from_toks [118]
    ++ [keyword_tok [110, 97, 116, 117, 114, 97, 108] TokValue.K_NATURAL,
      keyword_tok [106, 111, 105, 110] TokValue.K_JOIN, ident [121], eoc_token]

/-- The tokens of `select count(*) from v` after SELECT. -/
def count_star_v : List token :=
  agg_toks [99, 111, 117, 110, 116] TokValue.F_COUNT (symbol_tok 42 TokValue.S_STAR)
    ++ from_toks [118] ++ [eoc_token]

/-- The tokens of `select sum(*) from v` after SELECT. -/
def sum_star_v : List token :=
  agg_toks [115, 117, 109] TokValue.F_SUM (symbol_tok 42 TokValue.S_STAR)
    ++ from_toks [118] ++ [eoc_token]

/-- The tokens of `select sum(name) from t1` after SELECT. -/
def sum_name_t1 : List token :=
  agg_toks [115, 117, 109] TokValue.F_SUM (ident [110, 97, 109, 101])
    ++ from_toks [116, 49] ++ [eoc_token]

/-- The tokens of `select sum(zz), sum(name) from t1` after SELECT. -/
def sum_zz_sum_name_t1 : List token :=
  agg_toks [115, 117, 109] TokValue.F_SUM (ident [122, 122])
    ++ [symbol_tok 44 TokValue.S_COMMA]
    ++ agg_toks [115, 117, 109] TokValue.F_SUM (ident [110, 97, 109, 101])
    ++ from_toks [116, 49] ++ [eoc_token]

/-- The tokens `<f> ( <arg> ) ,` of each pair of a function token and an argument token,
in a row: the head of a list of aggregates that goes on after the last comma. -/
def agg_list_toks (aggs : List (token × token)) : List token :=
  aggs.flatMap fun p =>
    [p.1, symbol_tok 40 TokValue.S_LEFT_PAREN, p.2, symbol_tok 41 TokValue.S_RIGHT_PAREN,
      symbol_tok 44 TokValue.S_COMMA]

/-- The token `f` is the name of SUM, AVG or COUNT. -/
def is_function_token (f : token) : Prop :=
  f.tok_class = TokClass.function_name
    ∧ (f.tok_value = TokValue.F_SUM ∨ f.tok_value = TokValue.F_AVG
      ∨ f.tok_value = TokValue.F_COUNT)

/-- The pair of a function token and an argument token is `count(*)` or an aggregate of a
name. -/
def well_formed_agg (p : token × token) : Prop :=
  is_function_token p.1
    ∧ ((p.2.tok_value = TokValue.S_STAR ∧ p.1.tok_value = TokValue.F_COUNT)
      ∨ (p.2.tok_value ≠ TokValue.S_STAR ∧ is_name_token p.2 = true))

/-! ## CREATE TABLE -/

/-- The column type that `col_entry[cur_id].col_type = cur->tok_value` stores, for the
values that a token of class `type_name` has; `none` for any other value. -/
def col_type_of : TokValue → Option ColType
  | TokValue.T_INT => some T_INT
  | TokValue.T_CHAR => some T_CHAR
  | TokValue.T_VARCHAR => some T_VARCHAR
  | _ => none

/-- The test "I must have either a comma or right paren" at the end of a column
definition, with `t` the token at `cur`: the column, `column_done`, and `cur` afterwards. -/
def column_end (t : token) (cur : Nat) (col : cd_entry) :
    Option (Except RC (cd_entry × Bool × Nat)) :=
  if t.tok_value ≠ TokValue.S_RIGHT_PAREN ∧ t.tok_value ≠ TokValue.S_COMMA then
    ret RC.INVALID_COLUMN_DEFINITION
  else go (col, decide (t.tok_value = TokValue.S_RIGHT_PAREN), cur + 1)

/-- The part of a column definition after the type (and, for char and varchar, after the
length in parentheses), the same code in both branches: the test for a comma, NOT or a
right parenthesis at `cur`, NOT NULL, and the end of the column. -/
def column_tail (toks : List token) (cur : Nat) (col : cd_entry) :
    Option (Except RC (cd_entry × Bool × Nat)) :=
  and_then (at_tok toks cur) fun t =>
    if t.tok_value ≠ TokValue.S_COMMA ∧ t.tok_value ≠ TokValue.K_NOT
        ∧ t.tok_value ≠ TokValue.S_RIGHT_PAREN then
      ret RC.INVALID_COLUMN_DEFINITION
    else if t.tok_value = TokValue.K_NOT then
      and_then (at_tok toks (cur + 1)) fun tn =>
        if tn.tok_value ≠ TokValue.K_NULL then ret RC.INVALID_COLUMN_DEFINITION
        else and_then (at_tok toks (cur + 2)) fun t' =>
          column_end t' (cur + 2) { col with not_null := true }
    else column_end t cur col

/-- One iteration of the loop "Now build a set of column entries", from `cur`, with
`cols` the entries `col_entry[0 .. cur_id)`: the new entry, `column_done`, and `cur`
afterwards. -/
def parse_column (toks : List token) (cur : Nat) (cols : List cd_entry) :
    Option (Except RC (cd_entry × Bool × Nat)) :=
  and_then (at_tok toks cur) fun t0 =>
    if is_name_token t0 = false then ret RC.INVALID_COLUMN_NAME
    else if cols.any (fun c => decide (strcmp c.col_name t0.tok_string = 0)) = true then
      ret RC.DUPLICATE_COLUMN_NAME
    else and_then (at_tok toks (cur + 1)) fun t1 =>
      if t1.tok_class ≠ TokClass.type_name then ret RC.INVALID_TYPE_NAME
      else
        match col_type_of t1.tok_value with
        | none => none
        | some T_INT =>
          column_tail toks (cur + 2) ⟨t0.tok_string, cols.length, T_INT, 4, false⟩
        | some ty =>
          and_then (at_tok toks (cur + 2)) fun t2 =>
            if t2.tok_value ≠ TokValue.S_LEFT_PAREN then ret RC.INVALID_COLUMN_DEFINITION
            else and_then (at_tok toks (cur + 3)) fun t3 =>
              if t3.tok_value ≠ TokValue.INT_LITERAL then ret RC.INVALID_COLUMN_LENGTH
              else and_then (at_tok toks (cur + 4)) fun t4 =>
                if t4.tok_value ≠ TokValue.S_RIGHT_PAREN then ret RC.INVALID_COLUMN_DEFINITION
                else
                  column_tail toks (cur + 5)
                    ⟨t0.tok_string, cols.length, ty, atoi t3.tok_string, false⟩

/-- The loop `do { ... } while ((rc == 0) && (!column_done))` with at most `fuel`
iterations: the column entries and `cur` afterwards. -/
def parse_columns (toks : List token) :
    Nat → Nat → List cd_entry → Option (Except RC (List cd_entry × Nat))
  | 0, _, _ => none
  | fuel + 1, cur, cols =>
    and_then (parse_column toks cur cols) fun r =>
      if r.2.1 = true then go (cols ++ [r.1], r.2.2)
      else parse_columns toks fuel r.2.2 (cols ++ [r.1])

/-- The parse of `sem_create_table` up to "Now finished building tpd": the table
descriptor built from `tab_entry` and `col_entry`, or the code returned. The stores
`cur->tok_value = INVALID` that go with an error are left out, and so is the bound
`MAX_NUM_COL` of the array `col_entry`, which the code does not test. -/
def parse_create_table (lookup : List Nat → Option tpd_entry) (toks : List token)
    (cur : Nat) : Option (Except RC tpd_entry) :=
  and_then (at_tok toks cur) fun t0 =>
    if is_name_token t0 = false then ret RC.INVALID_TABLE_NAME
    else if (lookup t0.tok_string).isSome = true then ret RC.DUPLICATE_TABLE_NAME
    else and_then (at_tok toks (cur + 1)) fun t1 =>
      if t1.tok_value ≠ TokValue.S_LEFT_PAREN then ret RC.INVALID_TABLE_DEFINITION
      else and_then (parse_columns toks toks.length (cur + 2) []) fun r =>
        and_then (at_tok toks r.2) fun te =>
          if te.tok_value ≠ TokValue.EOC then ret RC.INVALID_TABLE_DEFINITION
          else go ⟨t0.tok_string, r.1⟩

/-- What `sem_create_table` returns and leaves: a nonzero code, or, for the return value
0, the descriptor added to the catalog and the table file created. -/
inductive CreateOutput where
  | failed (rc : RC)
  | created (tpd : tpd_entry) (file : TabFile)
  deriving DecidableEq, Repr

/-- The end of `sem_create_table`, with the file operations of `add_tpd_to_list`,
`create_table_data_file` and `initialize_tpd_list` succeeding: the code of the parse, or
the descriptor added to the catalog and the table file created. -/
def create_result (sizeof_table_file_header : Nat) :
    Option (Except RC tpd_entry) → Option CreateOutput
  | none => none
  | some (Except.error rc) => some (CreateOutput.failed rc)
  | some (Except.ok tpd) =>
    some (CreateOutput.created tpd (create_table_data_file sizeof_table_file_header tpd))

/-- `sem_create_table(t_list)`, with `t_list` the token at index `cur` of `toks`: what it
returns and leaves; `none` is a dereference past the end of the token list. -/
def sem_create_table (sizeof_table_file_header : Nat) (lookup : List Nat → Option tpd_entry)
    (toks : List token) (cur : Nat) : Option CreateOutput :=
  create_result sizeof_table_file_header (parse_create_table lookup toks cur)

/-- The tokens of `create table t (a int, c char(<n>))` after CREATE TABLE, with `n` the
text of the length. -/
def create_t_char (n : List Nat) : List token :=
  [ident [116], symbol_tok 40 TokValue.S_LEFT_PAREN, ident [97],
    type_tok [105, 110, 116] TokValue.T_INT, symbol_tok 44 TokValue.S_COMMA, ident [99],
    type_tok [99, 104, 97, 114] TokValue.T_CHAR, symbol_tok 40 TokValue.S_LEFT_PAREN,
    int_tok n, symbol_tok 41 TokValue.S_RIGHT_PAREN, symbol_tok 41 TokValue.S_RIGHT_PAREN,
    eoc_token]

/-- The length that the loop of `sem_create_table` gives a column: 4 for INT, and for
char and varchar the value of `atoi` on an integer literal of the statement. -/
def length_as_parsed (toks : List token) (c : cd_entry) : Prop :=
  (c.col_type = T_INT ∧ c.col_len = 4)
    ∨ (c.col_type ≠ T_INT
      ∧ ∃ t ∈ toks, t.tok_value = TokValue.INT_LITERAL ∧ c.col_len = atoi t.tok_string)

/-! ## Statements and tables used by the closed theorems on INSERT, DELETE and UPDATE -/

/-- Token of a string literal. -/
def string_tok (s : List Nat) : token := ⟨s, TokClass.constant, TokValue.STRING_LITERAL⟩

/-- Token of the keyword NULL. -/
def null_tok : token := keyword_tok [110, 117, 108, 108] TokValue.K_NULL

/-- The tokens `<table> values ( v1 , v2 , ... )` and the terminator, the part of an
INSERT that `sem_insert_into` receives; `extra` is put between the right parenthesis and
the terminator. -/
def insert_toks (table : List Nat) (values : List token) (extra : List token) : List token :=
  [ident table, keyword_tok [118, 97, 108, 117, 101, 115] TokValue.K_VALUES,
    symbol_tok 40 TokValue.S_LEFT_PAREN]
    ++ values.intersperse (symbol_tok 44 TokValue.S_COMMA)
    ++ [symbol_tok 41 TokValue.S_RIGHT_PAREN] ++ extra ++ [eoc_token]

/-- Descriptor of `create table n (id int not null, name char(3))`. -/
def n_table : tpd_entry :=
  ⟨[110], [⟨[105, 100], 0, T_INT, 4, true⟩, ⟨[110, 97, 109, 101], 1, T_CHAR, 3, false⟩]⟩

/-- The table file of `n` with the two records (1, 'ab') and (2, 'abc') (record size 12). -/
def n_file : TabFile :=
  ⟨⟨48, 12, 2, 24, 0⟩, List.replicate 24 0
    ++ [4, 1, 0, 0, 0, 2, 97, 98, 0, 0, 0, 0] ++ [4, 2, 0, 0, 0, 3, 97, 98, 99, 0, 0, 0]⟩

/-- Catalog lookup that knows the tables `t1` and `n`, under any letter case. -/
def dml_lookup (name : List Nat) : Option tpd_entry :=
  [t1_table, n_table].find? (fun t => decide (strcasecmp t.table_name name = 0))

/-- File system with `t1.tab` (one record) and `n.tab` (two records). -/
def dml_fs (name : List Nat) : Option TabFile :=
  if name = [116, 49] then some t1_one_row_file
  else if name = [110] then some n_file
  else none

/-- The sort key of a record for column `k`, as the comparison of the sort reads it: the
integer key for an INT column, the string key otherwise. -/
def sort_key (cols : List cd_entry) (k : Nat) (record : List Nat) : Int × List Nat :=
  if (col_at cols k).col_type = T_INT then (int_key cols k record, [])
  else (0, str_key cols k record)

/-- The parsed statement `select * from t1 order by id` (with `desc` when `order_desc`). -/
def select_t1_order_id (order_desc : Bool) : Query :=
  { is_star := true, is_aggregate := false, agg_funcs := [], sel_cols := [],
    table1 := [116, 49], tpd1 := t1_table, table2 := [], tpd2 := none,
    conditions := [], has_order := true, order_col := [105, 100], order_desc := order_desc }

/-- Three records of `t1`: (1, 'b'), (1, 'a') and (0, 'c'). -/
def t1_three_rows : List (List Nat) :=
  [[4, 1, 0, 0, 0, 1, 98, 0, 0, 0, 0, 0, 0, 0, 0, 0],
    [4, 1, 0, 0, 0, 1, 97, 0, 0, 0, 0, 0, 0, 0, 0, 0],
    [4, 0, 0, 0, 0, 1, 99, 0, 0, 0, 0, 0, 0, 0, 0, 0]]

/-- The tokens of the column definitions `<name> int` for the names given, separated by
commas and closed by the right parenthesis. -/
def int_column_toks : List (List Nat) → List token
  | [] => []
  | [n] => [ident n, type_tok [105, 110, 116] TokValue.T_INT,
      symbol_tok 41 TokValue.S_RIGHT_PAREN]
  | n :: m :: rest =>
    [ident n, type_tok [105, 110, 116] TokValue.T_INT, symbol_tok 44 TokValue.S_COMMA]
      ++ int_column_toks (m :: rest)

/-- The tokens of `create table <table> (<name> int, ..., <name> int)` after CREATE
TABLE. -/
def create_int_table (table : List Nat) (names : List (List Nat)) : List token :=
  [ident table, symbol_tok 40 TokValue.S_LEFT_PAREN] ++ (int_column_toks names ++ [eoc_token])

/-- The column entries of INT columns with the names given, numbered from `first`. -/
def int_columns : List (List Nat) → Nat → List cd_entry
  | [], _ => []
  | n :: rest, first => ⟨n, first, T_INT, 4, false⟩ :: int_columns rest (first + 1)

/-- Seventeen column names: `ca`, `cb`, ..., `cq`. -/
def seventeen_names : List (List Nat) :=
  (List.range 17).map fun i => [99, 97 + i]

/-- The index that `cur` holds after the string branch of `get_token` has run `cur++` and
the loop `do { temp_string[i++] = *cur++; } while ((*cur) && (*cur != '\''))`, when the
opening quote is at index `quote` of the memory `mem`, which holds the command, its
terminating NUL and the bytes after it: the body runs once whatever the character is,
then as long as the test holds. -/
def literal_cursor (mem : List Nat) (quote : Nat) : Nat :=
  quote + 2 + ((mem.drop (quote + 2)).takeWhile is_literal_char).length

/-! ## DELETE and UPDATE

`sem_delete` and `sem_update` parse the statement, open the table file and then work on it
record by record. A step of the parse yields `none` for a dereference past the end of the
token list, an error with the code returned and the index of the token whose `tok_value`
was set to `INVALID` (if any), or a value. Writes to the file succeed. -/

/-- Sequencing of two steps of a handler that marks tokens. -/
def bind_step {α β : Type} (x : Option (Except (RC × Option Nat) α))
    (f : α → Option (Except (RC × Option Nat) β)) : Option (Except (RC × Option Nat) β) :=
  match x with
  | none => none
  | some (Except.error e) => some (Except.error e)
  | some (Except.ok a) => f a

/-- The token `*cur`. -/
def tok_step (toks : List token) (cur : Nat) : Option (Except (RC × Option Nat) token) :=
  (toks[cur]?).map Except.ok

/-- Step `rc = ...; cur->tok_value = INVALID; return rc;` for the token at index `cur`. -/
def mark_invalid {α : Type} (rc : RC) (cur : Nat) : Option (Except (RC × Option Nat) α) :=
  some (Except.error (rc, some cur))

/-- Step `return rc;` that leaves the tokens as they are. -/
def fail_with {α : Type} (rc : RC) : Option (Except (RC × Option Nat) α) :=
  some (Except.error (rc, none))

/-- Step that goes on with the value `a`. -/
def step_ok {α : Type} (a : α) : Option (Except (RC × Option Nat) α) := some (Except.ok a)

/-- The variables `where_column`, `where_operator`, `where_value_str`, `where_value_int`
and `where_value_type` of `sem_delete` and `sem_update`. -/
structure where_clause where
  where_column : List Nat
  where_operator : TokValue
  where_value_str : List Nat
  where_value_int : Int
  where_value_type : TokValue
  deriving DecidableEq, Repr

/-- What `sem_delete` and `sem_update` return and leave: the return code, the index of the
token whose `tok_value` was set to `INVALID` (if any), and the table file (if it could be
opened). -/
structure StatementResult where
  rc : RC
  marked : Option Nat
  file : Option TabFile
  deriving DecidableEq, Repr

/-- Function `strncmp(a, b, n)` for a buffer `a` and a C string `b`: the difference of the
first pair of characters that differ among the first `n`; the comparison ends at a NUL, and
the character after the end of `b` is its terminating NUL. -/
def strncmp : List Nat → List Nat → Nat → Int
  | _, _, 0 => 0
  | a, b, n + 1 =>
    if a.headD 0 ≠ b.headD 0 then (a.headD 0 : Int) - (b.headD 0 : Int)
    else if a.headD 0 = 0 then 0
    else strncmp a.tail b.tail n

/-- The value of `offset` in the column loops of `sem_delete` and `sem_update` when the
loop reaches column `k`: each column before it adds `offset++` and
`offset += (INT ? 4 : col_len)`. -/
def skip_fields (offset : Int) : List cd_entry → Nat → Int
  | _, 0 => offset
  | [], _ + 1 => offset
  | c :: cs, k + 1 => skip_fields (wrap32 (wrap32 (offset + 1) + payload_width c)) cs k

/-- The value of `match` in the column loop of `sem_delete` for the record `row`, with
`k = where_col_index`. -/
def delete_match (cols : List cd_entry) (w : where_clause) (k : Nat) (row : List Nat) : Bool :=
  let offset := skip_fields 0 cols k
  let len := byte_at row offset
  let offset := wrap32 (offset + 1)
  if (col_at cols k).col_type = T_INT then
    if len ≠ 0 ∧ w.where_value_type = TokValue.INT_LITERAL then
      let row_int := read_int32 row offset
      if w.where_operator = TokValue.S_EQUAL then decide (row_int = w.where_value_int)
      else if w.where_operator = TokValue.S_LESS then decide (row_int < w.where_value_int)
      else if w.where_operator = TokValue.S_GREATER then decide (row_int > w.where_value_int)
      else false
    else false
  else
    if len ≠ 0 ∧ w.where_value_type = TokValue.STRING_LITERAL then
      let cmp := strncmp (row.drop offset.toNat) w.where_value_str len
      if w.where_operator = TokValue.S_EQUAL then
        decide (cmp = 0 ∧ len = w.where_value_str.length)
      else if w.where_operator = TokValue.S_LESS then decide (cmp < 0)
      else if w.where_operator = TokValue.S_GREATER then decide (cmp > 0)
      else false
    else false

/-- The value of `match` in the first column loop of `sem_update` for the record `row`,
with `k = where_col_index`: the field is copied to `row_str`, NUL-terminated, and compared
with `strcmp`. -/
def update_match (cols : List cd_entry) (w : where_clause) (k : Nat) (row : List Nat) : Bool :=
  let offset := skip_fields 0 cols k
  let len := byte_at row offset
  let offset := wrap32 (offset + 1)
  if (col_at cols k).col_type = T_INT then
    if len ≠ 0 ∧ w.where_value_type = TokValue.INT_LITERAL then
      let row_int := read_int32 row offset
      if w.where_operator = TokValue.S_EQUAL then decide (row_int = w.where_value_int)
      else if w.where_operator = TokValue.S_LESS then decide (row_int < w.where_value_int)
      else if w.where_operator = TokValue.S_GREATER then decide (row_int > w.where_value_int)
      else false
    else false
  else
    if len > 0 ∧ w.where_value_type = TokValue.STRING_LITERAL then
      let row_str := cstr (slice row offset len)
      let cmp := strcmp row_str w.where_value_str
      if w.where_operator = TokValue.S_EQUAL then decide (cmp = 0)
      else if w.where_operator = TokValue.S_LESS then decide (cmp < 0)
      else if w.where_operator = TokValue.S_GREATER then decide (cmp > 0)
      else false
    else false

/-- The pair `fseek(f, pos, SEEK_SET); fread(row_buffer, n, 1, f)` with its test
`!= 1`: the `n` bytes read, or `none` when the file does not hold one item of `n` bytes at
`pos`. -/
def fread_record (data : List Nat) (pos : Int) (n : Int) : Option (List Nat) :=
  if 0 < n ∧ 0 ≤ pos ∧ pos.toNat + n.toNat ≤ data.length then
    some ((data.drop pos.toNat).take n.toNat)
  else none

/-- The part of the WHERE clause of DELETE after the keyword, from `cur`: the variables of
the clause and `cur` afterwards. -/
def delete_where (toks : List token) (cur : Nat) :
    Option (Except (RC × Option Nat) (where_clause × Nat)) :=
  bind_step (tok_step toks cur) fun tc =>
    if is_name_token tc = false then mark_invalid RC.COLUMN_NOT_EXIST cur
    else bind_step (tok_step toks (cur + 1)) fun op =>
      if op.tok_value ≠ TokValue.S_EQUAL ∧ op.tok_value ≠ TokValue.S_LESS
          ∧ op.tok_value ≠ TokValue.S_GREATER then
        mark_invalid RC.INVALID_STATEMENT (cur + 1)
      else bind_step (tok_step toks (cur + 2)) fun tv =>
        if tv.tok_value = TokValue.STRING_LITERAL then
          step_ok (⟨tc.tok_string, op.tok_value, tv.tok_string, 0, TokValue.STRING_LITERAL⟩,
            cur + 3)
        else if tv.tok_value = TokValue.INT_LITERAL then
          step_ok (⟨tc.tok_string, op.tok_value, [], atoi tv.tok_string, TokValue.INT_LITERAL⟩,
            cur + 3)
        else mark_invalid RC.INVALID_STATEMENT (cur + 2)

/-- The search "Find WHERE column index" of `sem_delete`, which returns
`COLUMN_NOT_EXIST` without a store to a token. -/
def delete_where_index (tpd : tpd_entry) :
    Option where_clause → Option (Except (RC × Option Nat) (Option (where_clause × Nat)))
  | none => step_ok none
  | some w =>
    match find_column w.where_column tpd.cols 0 with
    | none => fail_with RC.COLUMN_NOT_EXIST
    | some k => step_ok (some (w, k))

/-- The optional WHERE clause of DELETE, with `t` the token at `cur`. -/
def delete_clause (toks : List token) (t : token) (cur : Nat) :
    Option (Except (RC × Option Nat) (Option where_clause × Nat)) :=
  if t.tok_value = TokValue.K_WHERE then
    bind_step (delete_where toks (cur + 1)) fun r => step_ok (some r.1, r.2)
  else step_ok (none, cur)

/-- The part of `sem_delete` after the table has been found, from `cur`. -/
def parse_delete_tail (tpd : tpd_entry) (toks : List token) (cur : Nat) :
    Option (Except (RC × Option Nat) (Option (where_clause × Nat))) :=
  bind_step (tok_step toks cur) fun t1 =>
    bind_step (delete_clause toks t1 cur) fun w =>
      bind_step (tok_step toks w.2) fun te =>
        if te.tok_value ≠ TokValue.EOC then mark_invalid RC.INVALID_STATEMENT w.2
        else delete_where_index tpd w.1

/-- The table lookup of a handler after the name token `t0` at `cur` has passed the test
of its class. -/
def with_table {α : Type} (lookup : List Nat → Option tpd_entry) (t0 : token) (cur : Nat)
    (f : tpd_entry → Option (Except (RC × Option Nat) α)) :
    Option (Except (RC × Option Nat) α) :=
  match lookup t0.tok_string with
  | none => mark_invalid RC.TABLE_NOT_EXIST cur
  | some tpd => f tpd

/-- The parse of `sem_delete`: the table name, its descriptor, and the WHERE clause with
`where_col_index`, if any. -/
def parse_delete (lookup : List Nat → Option tpd_entry) (toks : List token) (cur : Nat) :
    Option (Except (RC × Option Nat) (List Nat × tpd_entry × Option (where_clause × Nat))) :=
  bind_step (tok_step toks cur) fun t0 =>
    if is_name_token t0 = false then mark_invalid RC.INVALID_TABLE_NAME cur
    else with_table lookup t0 cur fun tpd =>
      bind_step (parse_delete_tail tpd toks (cur + 1)) fun w =>
        step_ok (t0.tok_string, tpd, w)

/-- The value of `delete_this_row` for the record `row`. -/
def delete_this_row (tpd : tpd_entry) (w : Option (where_clause × Nat)) (row : List Nat) :
    Bool :=
  match w with
  | none => true
  | some (wc, k) => delete_match tpd.cols wc k row

/-- The first loop over the records of `sem_delete`, from record `row_idx` with `n` records
left: the values stored in `keep_row`, or `none` when a read fails. -/
def keep_rows (tpd : tpd_entry) (w : Option (where_clause × Nat)) (f : TabFile) :
    Nat → Nat → Option (List Bool)
  | _, 0 => some []
  | row_idx, n + 1 =>
    match fread_record f.data (row_pos f.hdr row_idx) f.hdr.record_size with
    | none => none
    | some row =>
      (keep_rows tpd w f (row_idx + 1) n).map fun ks => (!delete_this_row tpd w row) :: ks

/-- The second loop over the records of `sem_delete`, the compaction, for the entries of
`keep_row` from `row_idx` on, with `write_idx` and the bytes of the file: the code, the
bytes of the file afterwards, and the pairs `(row_idx, write_idx)` of the records copied. -/
def compact (hdr : table_file_header) :
    List Bool → Nat → Nat → List Nat → RC × List Nat × List (Nat × Nat)
  | [], _, _, data => (RC.OK, data, [])
  | keep :: rest, row_idx, write_idx, data =>
    if keep = true then
      match fread_record data (row_pos hdr row_idx) hdr.record_size with
      | none => (RC.FILE_OPEN_ERROR, data, [])
      | some row =>
        let r := compact hdr rest (row_idx + 1) (write_idx + 1)
          (file_write data (row_pos hdr write_idx) row)
        (r.1, r.2.1, (row_idx, write_idx) :: r.2.2)
    else compact hdr rest (row_idx + 1) write_idx data

/-- The end of `sem_delete` once `keep_row` is filled: nothing is written when no record
is deleted; else the compaction, and the header with `num_records` reduced. -/
def delete_finish (f : TabFile) (keep : List Bool) : RC × TabFile :=
  let deleted_count := keep.count false
  if deleted_count = 0 then (RC.OK, f)
  else
    let r := compact f.hdr keep 0 0 f.data
    if r.1 ≠ RC.OK then (r.1, ⟨f.hdr, r.2.1⟩)
    else
      (RC.OK, ⟨write_header { f.hdr with
        num_records := wrap32 (f.hdr.num_records - deleted_count) }, r.2.1⟩)

/-- The part of `sem_delete` that works on the open table file: the buffers are
allocated, the records are tested, and the file is compacted. -/
def delete_exec (tpd : tpd_entry) (w : Option (where_clause × Nat)) (f : TabFile) :
    RC × TabFile :=
  if f.hdr.record_size < 0 ∨ f.hdr.num_records < 0 then (RC.MEMORY_ERROR, f)
  else
    match keep_rows tpd w f 0 f.hdr.num_records.toNat with
    | none => (RC.FILE_OPEN_ERROR, f)
    | some keep => delete_finish f keep

/-- The end of `sem_delete`: the code of the parse, or the work on the table file. -/
def delete_result (fs : List Nat → Option TabFile) (name : List Nat) :
    Option (Except (RC × Option Nat) (List Nat × tpd_entry × Option (where_clause × Nat))) →
      Option StatementResult
  | none => none
  | some (Except.error e) => some ⟨e.1, e.2, fs name⟩
  | some (Except.ok p) =>
    match fs p.1 with
    | none => some ⟨RC.FILE_OPEN_ERROR, none, none⟩
    | some f => some ⟨(delete_exec p.2.1 p.2.2 f).1, none, some (delete_exec p.2.1 p.2.2 f).2⟩

/-- `sem_delete(t_list)`, with `t_list` the token at index `cur` of `toks`; `lookup` is
`get_tpd_from_list` on the loaded catalog and `fs` maps a table name to its `.tab` file;
`none` is a dereference past the end of the token list. -/
def sem_delete (lookup : List Nat → Option tpd_entry) (fs : List Nat → Option TabFile)
    (toks : List token) (cur : Nat) : Option StatementResult :=
  delete_result fs ((toks.getD cur default).tok_string) (parse_delete lookup toks cur)

/-- The variables `set_val_type`, `set_val_int` and `set_val_str` of `sem_update`. -/
structure set_value where
  set_val_type : TokValue
  set_val_int : Int
  set_val_str : List Nat
  deriving DecidableEq, Repr

/-- The value of an `int` converted to `size_t` (64 bits), as in the comparison
`strlen(set_val_str) > columns[set_col_idx].col_len`. -/
def to_size_t (x : Int) : Int := x % 18446744073709551616

/-- The block "Value to set" of `sem_update`, with `tv` the token at `cur` and `col` the
column to set. -/
def parse_set_value (col : cd_entry) (tv : token) (cur : Nat) :
    Option (Except (RC × Option Nat) set_value) :=
  if tv.tok_value = TokValue.INT_LITERAL then
    if col.col_type ≠ T_INT then mark_invalid RC.TYPE_MISMATCH cur
    else step_ok ⟨TokValue.INT_LITERAL, atoi tv.tok_string, []⟩
  else if tv.tok_value = TokValue.STRING_LITERAL then
    if col.col_type = T_INT then mark_invalid RC.TYPE_MISMATCH cur
    else if (tv.tok_string.length : Int) > to_size_t col.col_len then
      mark_invalid RC.INVALID_COLUMN_LENGTH cur
    else step_ok ⟨TokValue.STRING_LITERAL, 0, tv.tok_string⟩
  else if tv.tok_value = TokValue.K_NULL then
    if col.not_null = true then mark_invalid RC.NOT_NULL_CONSTRAINT_VIOLATION cur
    else step_ok ⟨TokValue.K_NULL, 0, []⟩
  else mark_invalid RC.INVALID_UPDATE_DEFINITION cur

/-- The part of the WHERE clause of UPDATE after the keyword, from `cur`: the variables of
the clause with `where_col_index`, and `cur` afterwards. -/
def update_where (tpd : tpd_entry) (toks : List token) (cur : Nat) :
    Option (Except (RC × Option Nat) ((where_clause × Nat) × Nat)) :=
  bind_step (tok_step toks cur) fun tc =>
    if is_name_token tc = false then mark_invalid RC.COLUMN_NOT_EXIST cur
    else
      match find_column tc.tok_string tpd.cols 0 with
      | none => mark_invalid RC.COLUMN_NOT_EXIST cur
      | some k =>
        bind_step (tok_step toks (cur + 1)) fun op =>
          if op.tok_value ≠ TokValue.S_EQUAL ∧ op.tok_value ≠ TokValue.S_LESS
              ∧ op.tok_value ≠ TokValue.S_GREATER then
            mark_invalid RC.INVALID_STATEMENT (cur + 1)
          else bind_step (tok_step toks (cur + 2)) fun tv =>
            if tv.tok_value = TokValue.STRING_LITERAL then
              step_ok ((⟨tc.tok_string, op.tok_value, tv.tok_string, 0,
                TokValue.STRING_LITERAL⟩, k), cur + 3)
            else if tv.tok_value = TokValue.INT_LITERAL then
              step_ok ((⟨tc.tok_string, op.tok_value, [], atoi tv.tok_string,
                TokValue.INT_LITERAL⟩, k), cur + 3)
            else mark_invalid RC.INVALID_STATEMENT (cur + 2)

/-- The optional WHERE clause of UPDATE, with `t` the token at `cur`. -/
def update_clause (tpd : tpd_entry) (toks : List token) (t : token) (cur : Nat) :
    Option (Except (RC × Option Nat) (Option (where_clause × Nat) × Nat)) :=
  if t.tok_value = TokValue.K_WHERE then
    bind_step (update_where tpd toks (cur + 1)) fun r => step_ok (some r.1, r.2)
  else step_ok (none, cur)

/-- What the parse of `sem_update` leaves: the table name and its descriptor,
`set_col_idx`, the value to set, and the WHERE clause with `where_col_index`, if any. -/
structure UpdateStmt where
  table_name : List Nat
  tpd : tpd_entry
  set_col_idx : Nat
  value : set_value
  where_part : Option (where_clause × Nat)
  deriving DecidableEq, Repr

/-- The part of `sem_update` from the value to set on, with `set_col_idx = k`; the value
token is at `cur`. -/
def parse_update_value (name : List Nat) (tpd : tpd_entry) (k : Nat) (toks : List token)
    (cur : Nat) : Option (Except (RC × Option Nat) UpdateStmt) :=
  bind_step (tok_step toks cur) fun tv =>
    bind_step (parse_set_value (col_at tpd.cols k) tv cur) fun v =>
      bind_step (tok_step toks (cur + 1)) fun t5 =>
        bind_step (update_clause tpd toks t5 (cur + 1)) fun w =>
          bind_step (tok_step toks w.2) fun te =>
            if te.tok_value ≠ TokValue.EOC then mark_invalid RC.INVALID_STATEMENT w.2
            else step_ok ⟨name, tpd, k, v, w.1⟩

/-- The search "Verify column exists" of `sem_update` for the column name token at `cur`,
and what follows it. -/
def parse_update_column (name : List Nat) (tpd : tpd_entry) (toks : List token)
    (tc : token) (cur : Nat) : Option (Except (RC × Option Nat) UpdateStmt) :=
  match find_column tc.tok_string tpd.cols 0 with
  | none => mark_invalid RC.COLUMN_NOT_EXIST cur
  | some k =>
    bind_step (tok_step toks (cur + 1)) fun te =>
      if te.tok_value ≠ TokValue.S_EQUAL then mark_invalid RC.INVALID_STATEMENT (cur + 1)
      else parse_update_value name tpd k toks (cur + 2)

/-- The parse of `sem_update`. -/
def parse_update (lookup : List Nat → Option tpd_entry) (toks : List token) (cur : Nat) :
    Option (Except (RC × Option Nat) UpdateStmt) :=
  bind_step (tok_step toks cur) fun t0 =>
    if is_name_token t0 = false then mark_invalid RC.INVALID_TABLE_NAME cur
    else with_table lookup t0 cur fun tpd =>
      bind_step (tok_step toks (cur + 1)) fun t1 =>
        if t1.tok_value ≠ TokValue.K_SET then mark_invalid RC.INVALID_STATEMENT (cur + 1)
        else bind_step (tok_step toks (cur + 2)) fun tc =>
          if is_name_token tc = false then mark_invalid RC.INVALID_COLUMN_NAME (cur + 2)
          else parse_update_column t0.tok_string tpd toks tc (cur + 2)

/-- Function `memset(buf + off, v, n)`. -/
def memset (buf : List Nat) (off : Int) (v : Nat) (n : Nat) : List Nat :=
  memcpy buf off (List.replicate n v)

/-- The store of a string in the branch "Update this column" of `sem_update`, with
`len = strlen(set_val_str)`: the length byte, the characters, and zeros in the rest of the
payload. -/
def store_string (col : cd_entry) (set_val_str : List Nat) (row_buffer : List Nat)
    (offset : Int) (len : Int) : List Nat :=
  if len < col.col_len then
    memset
      (memcpy (store row_buffer offset (len % 256).toNat) (wrap32 (offset + 1))
        (set_val_str.take len.toNat))
      (wrap32 (wrap32 (offset + 1) + len)) 0 (wrap32 (col.col_len - len)).toNat
  else
    memcpy (store row_buffer offset (len % 256).toNat) (wrap32 (offset + 1))
      (set_val_str.take len.toNat)

/-- The branch "Update this column" of `sem_update` for the column `col` whose length byte
is at `offset` in `row_buffer`. -/
def update_field (col : cd_entry) (v : set_value) (row_buffer : List Nat) (offset : Int) :
    List Nat :=
  if v.set_val_type = TokValue.K_NULL then
    memset (store row_buffer offset 0) (wrap32 (offset + 1)) 0 (payload_width col).toNat
  else if col.col_type = T_INT then
    memcpy (store row_buffer offset 4) (wrap32 (offset + 1)) (int32_bytes v.set_val_int)
  else store_string col v.set_val_str row_buffer offset (wrap32 v.set_val_str.length)

/-- The value of `update_row` for the record `row`. -/
def update_this_row (tpd : tpd_entry) (w : Option (where_clause × Nat)) (row : List Nat) :
    Bool :=
  match w with
  | none => true
  | some (wc, k) => update_match tpd.cols wc k row

/-- The record that `sem_update` writes back for a record to update: the second column
loop stores the field of column `set_col_idx` and skips the others. -/
def update_record (s : UpdateStmt) (row : List Nat) : List Nat :=
  update_field (col_at s.tpd.cols s.set_col_idx) s.value row
    (skip_fields 0 s.tpd.cols s.set_col_idx)

/-- The loop over the records of `sem_update`, from record `row_idx` with `n` records
left: the code and the bytes of the file afterwards. -/
def update_rows (s : UpdateStmt) (hdr : table_file_header) :
    Nat → Nat → List Nat → RC × List Nat
  | _, 0, data => (RC.OK, data)
  | row_idx, n + 1, data =>
    match fread_record data (row_pos hdr row_idx) hdr.record_size with
    | none => (RC.FILE_OPEN_ERROR, data)
    | some row =>
      if update_this_row s.tpd s.where_part row = true then
        update_rows s hdr (row_idx + 1) n
          (file_write data (row_pos hdr row_idx) (update_record s row))
      else update_rows s hdr (row_idx + 1) n data

/-- The part of `sem_update` that works on the open table file; the header is not
written. -/
def update_exec (s : UpdateStmt) (f : TabFile) : RC × TabFile :=
  if f.hdr.record_size < 0 then (RC.MEMORY_ERROR, f)
  else
    ((update_rows s f.hdr 0 f.hdr.num_records.toNat f.data).1,
      ⟨f.hdr, (update_rows s f.hdr 0 f.hdr.num_records.toNat f.data).2⟩)

/-- The end of `sem_update`: the code of the parse, or the work on the table file. -/
def update_result (fs : List Nat → Option TabFile) (name : List Nat) :
    Option (Except (RC × Option Nat) UpdateStmt) → Option StatementResult
  | none => none
  | some (Except.error e) => some ⟨e.1, e.2, fs name⟩
  | some (Except.ok s) =>
    match fs s.table_name with
    | none => some ⟨RC.FILE_OPEN_ERROR, none, none⟩
    | some f => some ⟨(update_exec s f).1, none, some (update_exec s f).2⟩

/-- `sem_update(t_list)`, with `t_list` the token at index `cur` of `toks`; `none` is a
dereference past the end of the token list. -/
def sem_update (lookup : List Nat → Option tpd_entry) (fs : List Nat → Option TabFile)
    (toks : List token) (cur : Nat) : Option StatementResult :=
  update_result fs ((toks.getD cur default).tok_string) (parse_update lookup toks cur)

/-- The tokens `<column> <op> <literal>`. -/
def cond_toks (column : List Nat) (op : token) (literal : token) : List token :=
  [ident column, op, literal]

/-- The tokens `<table> [where <condition>]` and the terminator, the part of a DELETE that
`sem_delete` receives. -/
def delete_toks (table : List Nat) (condition : List token) : List token :=
  [ident table]
    ++ (if condition = [] then []
      else keyword_tok [119, 104, 101, 114, 101] TokValue.K_WHERE :: condition)
    ++ [eoc_token]

/-- The tokens `<table> set <column> = <value> [where <condition>]` and the terminator,
the part of an UPDATE that `sem_update` receives. -/
def update_toks (table : List Nat) (column : List Nat) (value : token)
    (condition : List token) : List token :=
  [ident table, keyword_tok [115, 101, 116] TokValue.K_SET, ident column,
    symbol_tok 61 TokValue.S_EQUAL, value]
    ++ (if condition = [] then []
      else keyword_tok [119, 104, 101, 114, 101] TokValue.K_WHERE :: condition)
    ++ [eoc_token]

/-- The tokens of `delete from n where zz = 1` after DELETE FROM. -/
def delete_where_zz : List token :=
  delete_toks [110] (cond_toks [122, 122] (symbol_tok 61 TokValue.S_EQUAL) (int_tok [49]))

/-- The condition `name < 'abc'` as tokens. -/
def name_less_abc : List token :=
  cond_toks [110, 97, 109, 101] (symbol_tok 60 TokValue.S_LESS) (string_tok [97, 98, 99])

/-- The condition `name < 'abc'` as `sem_delete` and `sem_update` hold it. -/
def where_name_less_abc : where_clause :=
  ⟨[110, 97, 109, 101], TokValue.S_LESS, [97, 98, 99], 0, TokValue.STRING_LITERAL⟩

/-- The condition `name < 'abc'` as `sem_select` holds it. -/
def cond_name_less_abc : query_condition :=
  ⟨[110, 97, 109, 101], TokValue.S_LESS, TokValue.STRING_LITERAL, 0, [97, 98, 99], none⟩

/-- The record (1, 'ab') of the table `n`. -/
def n_row_1_ab : List Nat := [4, 1, 0, 0, 0, 2, 97, 98, 0, 0, 0, 0]

/-- The bytes of the record at index `i` of a table file with the header `hdr` and the
bytes `data`. -/
def record_bytes (hdr : table_file_header) (data : List Nat) (i : Nat) : List Nat :=
  (data.drop (row_pos hdr i).toNat).take hdr.record_size.toNat

/-- The tokens of `delete from n where id = 1` after DELETE FROM. -/
def delete_n_id_1 : List token :=
  delete_toks [110] (cond_toks [105, 100] (symbol_tok 61 TokValue.S_EQUAL) (int_tok [49]))

/-- The condition `id = 1` as `sem_delete` and `sem_update` hold it. -/
def where_id_1 : where_clause := ⟨[105, 100], TokValue.S_EQUAL, [], 1, TokValue.INT_LITERAL⟩

/-- The tokens of `update n set name = 'x' where id = 1` after UPDATE. -/
def update_n_name_x : List token :=
  update_toks [110] [110, 97, 109, 101] (string_tok [120])
    (cond_toks [105, 100] (symbol_tok 61 TokValue.S_EQUAL) (int_tok [49]))

/-- The statement `update n set name = 'x' where id = 1` as `sem_update` parses it. -/
def update_n_name_x_stmt : UpdateStmt :=
  ⟨[110], n_table, 1, ⟨TokValue.STRING_LITERAL, 0, [120]⟩, some (where_id_1, 0)⟩

/-- The tokens of `update n set id = 4294967297` after UPDATE. -/
def update_n_big_id : List token :=
  update_toks [110] [105, 100] (int_tok [52, 50, 57, 52, 57, 54, 55, 50, 57, 55]) []

/-! ## Fields of a stored record -/

/-- The bytes of the field of column `i` in the record `row`: `1 + width` bytes at the
offset that is the sum of `1 + width` over the columns before `i`. -/
def field_of (cols : List cd_entry) (row : List Nat) (i : Nat) : List Nat :=
  (row.drop (width_sum (cols.take i)).toNat).take (1 + payload_width (col_at cols i)).toNat

/-- The layout of a field as the description of the record gives it: the length byte is 0
(NULL), or 4 in an INT column, or a length L with 1 ≤ L ≤ col_len in a string column,
where every byte of the payload after the first L is zero. -/
def field_wf (col : cd_entry) (fld : List Nat) : Prop :=
  fld.headD 0 = 0 ∨ (col.col_type = T_INT ∧ fld.headD 0 = 4) ∨
  (col.col_type ≠ T_INT ∧ 1 ≤ fld.headD 0 ∧ (fld.headD 0 : Int) ≤ col.col_len ∧
    ∀ b ∈ fld.drop (1 + fld.headD 0), b = 0)

instance (col : cd_entry) (fld : List Nat) : Decidable (field_wf col fld) := by
  unfold field_wf
  infer_instance

/-- Every field of the record `row` has the layout of `field_wf` for its column. -/
def record_wf (cols : List cd_entry) (row : List Nat) : Prop :=
  ∀ i, i < cols.length → field_wf (col_at cols i) (field_of cols row i)

instance (cols : List cd_entry) (row : List Nat) : Decidable (record_wf cols row) := by
  unfold record_wf
  infer_instance

/-- The record `row` has a nonzero length byte in every column declared NOT NULL. -/
def not_null_ok (cols : List cd_entry) (row : List Nat) : Prop :=
  ∀ i, i < cols.length → (col_at cols i).not_null = true → (field_of cols row i).headD 0 ≠ 0

instance (cols : List cd_entry) (row : List Nat) : Decidable (not_null_ok cols row) := by
  unfold not_null_ok
  infer_instance

/-- The tokens of `insert into n values (3, NULL)` after INSERT INTO. -/
def insert_n_3_null : List token := insert_toks [110] [int_tok [51], null_tok] []

/-- What `insert into n values (3, NULL)` leaves for the table file `n_file`: a third
record, with the field of name all zero. -/
def insert_n_3_null_result : InsertResult :=
  ⟨RC.OK, none, some ⟨⟨60, 12, 3, 24, 0⟩, List.replicate 24 0
    ++ [4, 1, 0, 0, 0, 2, 97, 98, 0, 0, 0, 0] ++ [4, 2, 0, 0, 0, 3, 97, 98, 99, 0, 0, 0]
    ++ [4, 3, 0, 0, 0, 0, 0, 0, 0, 0, 0, 0]⟩⟩

/-- Descriptor of `create table p (name char(3), id int not null)`. -/
def p_table : tpd_entry :=
  ⟨[112], [⟨[110, 97, 109, 101], 0, T_CHAR, 3, false⟩, ⟨[105, 100], 1, T_INT, 4, true⟩]⟩

/-- The table file of `p` with no record (record size 12). -/
def p_file : TabFile := ⟨⟨24, 12, 0, 24, 0⟩, List.replicate 24 0⟩

/-- Catalog lookup that knows the table `p` only, under any letter case. -/
def p_lookup (name : List Nat) : Option tpd_entry :=
  [p_table].find? (fun t => decide (strcasecmp t.table_name name = 0))

/-- File system with `p.tab` only. -/
def p_fs (name : List Nat) : Option TabFile :=
  if name = [112] then some p_file else none

/-- The tokens of `insert into p values (1, NULL)` after INSERT INTO. -/
def insert_p_1_null : List token := insert_toks [112] [int_tok [49], null_tok] []

/-- The tokens of `insert into n values (NULL, 'a')` after INSERT INTO. -/
def insert_n_null_a : List token := insert_toks [110] [null_tok, string_tok [97]] []

/-- The tokens of `update n set id = NULL` after UPDATE. -/
def update_n_id_null : List token := update_toks [110] [105, 100] null_tok []

/-! ## The matching rule of the join on the bytes of the records -/

/-- The 32-bit integer that the first four bytes of `b` hold (little-endian, two's
complement). -/
def int32_value (b : List Nat) : Int :=
  let u : Int :=
    ((b.getD 0 0 + 256 * b.getD 1 0 + 65536 * b.getD 2 0 + 16777216 * b.getD 3 0 : Nat) : Int)
  if u < 2147483648 then u else u - 4294967296

/-- The offset of the field of column `idx` in a record: the sum of `1 + width` over the
columns before it. -/
def field_start (cols : List cd_entry) (idx : Nat) : Nat := (width_sum (cols.take idx)).toNat

/-- The matching rule of the join for column `idx1` of the left record and column `idx2`
of the right record, on the bytes of the two records: with `L1` and `L2` the length bytes
of the two fields, both are 0 (NULL), or neither is 0 and the 32-bit integers of the two
payloads are equal (INT column) or `L1 = L2` and the first `L1` bytes of the two payloads
are equal (string column). -/
def record_fields_match (row1 row2 : List Nat) (cols1 cols2 : List cd_entry)
    (idx1 idx2 : Nat) : Prop :=
  (row1.getD (field_start cols1 idx1) 0 = 0 ∧ row2.getD (field_start cols2 idx2) 0 = 0) ∨
  (row1.getD (field_start cols1 idx1) 0 ≠ 0 ∧ row2.getD (field_start cols2 idx2) 0 ≠ 0 ∧
    ((col_at cols1 idx1).col_type = T_INT →
      int32_value ((row1.drop (field_start cols1 idx1 + 1)).take 4)
        = int32_value ((row2.drop (field_start cols2 idx2 + 1)).take 4)) ∧
    ((col_at cols1 idx1).col_type ≠ T_INT →
      row1.getD (field_start cols1 idx1) 0 = row2.getD (field_start cols2 idx2) 0 ∧
      ∀ i, i < row1.getD (field_start cols1 idx1) 0 →
        row1.getD (field_start cols1 idx1 + 1 + i) 0
          = row2.getD (field_start cols2 idx2 + 1 + i) 0))

instance (row1 row2 : List Nat) (cols1 cols2 : List cd_entry) (idx1 idx2 : Nat) :
    Decidable (record_fields_match row1 row2 cols1 cols2 idx1 idx2) := by
  unfold record_fields_match
  infer_instance

/-- A record of `t1 (id int, name char(10))`: (1, 'abc'). -/
def t1_row_1_abc : List Nat := [4, 1, 0, 0, 0, 3, 97, 98, 99, 0, 0, 0, 0, 0, 0, 0]

/-- A record of `t1 (id int, name char(10))`: (1, 'abd'). -/
def t1_row_1_abd : List Nat := [4, 1, 0, 0, 0, 3, 97, 98, 100, 0, 0, 0, 0, 0, 0, 0]

/-- The rows of the cross product of two tables for the statement `q`: every record of
the first table followed by every record of the second table for which the WHERE chain of
`q` holds, in the order of the nested loops. -/
def cross_product_rows (q : Query) (tpd2 : tpd_entry) (f1 f2 : TabFile) : List (List Nat) :=
  (table_records f1).flatMap fun r1 =>
    ((table_records f2).filter
      (fun r2 => where_match (fun c => eval_join c r1 r2 q.tpd1 tpd2) q.conditions)).map
      (fun r2 => r1 ++ r2)

/-- The statement `select * from v natural join y` as the parse leaves it. -/
def select_v_join_y : Query :=
  { is_star := true, is_aggregate := false, agg_funcs := [], sel_cols := [],
    table1 := [118], tpd1 := v_table, table2 := [121], tpd2 := some y_table,
    conditions := [], has_order := false, order_col := [], order_desc := false }

/-! # Theorems -/

/-! ## Lemmas on machine integers -/

theorem wrap32_of_range {x : Int} (h1 : -2147483648 ≤ x) (h2 : x < 2147483648) :
    wrap32 x = x := by
  unfold wrap32
  omega

theorem wrap64_of_range {x : Int} (h1 : -9223372036854775808 ≤ x)
    (h2 : x < 9223372036854775808) : wrap64 x = x := by
  unfold wrap64
  omega

theorem nat_ldiff_three (m : Nat) : Nat.ldiff m 3 = m - m % 4 := by
  apply Nat.eq_of_testBit_eq
  intro i
  rw [Nat.testBit_ldiff]
  have h4 : m - m % 4 = 2 ^ 2 * (m / 4) := by omega
  rw [h4, Nat.testBit_mul_pow_two]
  rcases Nat.lt_or_ge i 2 with h | h
  · have h3 : Nat.testBit 3 i = true := by
      interval_cases i <;> decide
    simp [h3, h]
  · have h3 : Nat.testBit 3 i = false := by
      apply Nat.testBit_lt_two_pow
      calc 3 < 2 ^ 2 := by norm_num
        _ ≤ 2 ^ i := Nat.pow_le_pow_right (by norm_num) h
    have hge : 2 ≤ i := h
    simp only [h3, Bool.not_false, Bool.and_true, hge, decide_True, Bool.true_and]
    have : m / 4 = m >>> 2 := by rw [Nat.shiftRight_eq_div_pow]
    rw [this, Nat.testBit_shiftRight]
    congr 1
    omega

theorem land_not_three (x : Int) (hx : 0 ≤ x) :
    Int.land x (Int.lnot 3) = x - x % 4 := by
  lift x to Nat using hx
  have h : Int.land (↑x : Int) (Int.lnot 3) = ((Nat.ldiff x 3 : Nat) : Int) := rfl
  rw [h, nat_ldiff_three]
  omega

/-! ## Record size (C1) -/

theorem payload_width_nonneg_of {cols : List cd_entry}
    (h : ∀ c ∈ cols, c.col_type ≠ T_INT → 0 ≤ c.col_len) : ∀ c ∈ cols, 0 ≤ payload_width c := by
  intro c hc
  unfold payload_width
  split
  · decide
  · exact h c hc ‹_›

theorem width_sum_cons (c : cd_entry) (cs : List cd_entry) :
    width_sum (c :: cs) = 1 + payload_width c + width_sum cs := by
  simp [width_sum]

theorem width_sum_nonneg (cols : List cd_entry) (h : ∀ c ∈ cols, 0 ≤ payload_width c) :
    0 ≤ width_sum cols := by
  induction cols with
  | nil => simp [width_sum]
  | cons c cs ih =>
    rw [width_sum_cons]
    have := h c (List.mem_cons_self _ _)
    have := ih (fun d hd => h d (List.mem_cons_of_mem _ hd))
    omega

theorem rec_step_eq (acc : Int) (c : cd_entry) (h0 : 0 ≤ acc) (hc : 0 ≤ payload_width c)
    (hfit : acc + (1 + payload_width c) < 2147483648) :
    rec_step acc c = acc + (1 + payload_width c) := by
  unfold rec_step payload_width at *
  split
  · rename_i h
    simp only [h, if_true] at hfit hc
    rw [wrap32_of_range] <;> omega
  · rename_i h
    simp only [h, if_false] at hfit hc
    rw [wrap32_of_range (x := 1 + c.col_len), wrap32_of_range] <;> omega

theorem foldl_rec_step (cols : List cd_entry) :
    ∀ acc : Int, 0 ≤ acc → (∀ c ∈ cols, 0 ≤ payload_width c) →
      acc + width_sum cols < 2147483648 → cols.foldl rec_step acc = acc + width_sum cols := by
  induction cols with
  | nil => intro acc _ _ _; simp [width_sum]
  | cons c cs ih =>
    intro acc h0 hw hfit
    rw [width_sum_cons] at hfit
    have hc := hw c (List.mem_cons_self _ _)
    have hcs : ∀ d ∈ cs, 0 ≤ payload_width d := fun d hd => hw d (List.mem_cons_of_mem _ hd)
    have hs := width_sum_nonneg _ hcs
    rw [List.foldl_cons, rec_step_eq acc c h0 hc (by omega), ih _ (by omega) hcs (by omega),
      width_sum_cons]
    omega

theorem compute_record_size_eq (tpd : tpd_entry)
    (hlen : ∀ c ∈ tpd.cols, c.col_type ≠ T_INT → 0 ≤ c.col_len)
    (hfit : width_sum tpd.cols + 3 < 2147483648) :
    compute_record_size_from_tpd tpd
      = width_sum tpd.cols + 3 - (width_sum tpd.cols + 3) % 4 := by
  have hw := payload_width_nonneg_of hlen
  have hs := width_sum_nonneg _ hw
  unfold compute_record_size_from_tpd round4
  rw [foldl_rec_step tpd.cols 0 (le_refl _) hw (by omega), zero_add,
    wrap32_of_range (by omega) (by omega), land_not_three _ (by omega)]

/-- C1 (amended). For every table descriptor whose CHAR/VARCHAR lengths are not negative
and whose sum over the columns of `1 + payload width`, plus 3, stays below 2^31,
`compute_record_size_from_tpd` returns a multiple of 4 that is the least multiple of 4
greater than or equal to that sum. -/
theorem record_size_is_rounded_sum (tpd : tpd_entry)
    (hlen : ∀ c ∈ tpd.cols, c.col_type ≠ T_INT → 0 ≤ c.col_len)
    (hfit : width_sum tpd.cols + 3 < 2147483648) :
    4 ∣ compute_record_size_from_tpd tpd ∧
    width_sum tpd.cols ≤ compute_record_size_from_tpd tpd ∧
    ∀ m : Int, 4 ∣ m → width_sum tpd.cols ≤ m → compute_record_size_from_tpd tpd ≤ m := by
  rw [compute_record_size_eq tpd hlen hfit]
  refine ⟨?_, ?_, ?_⟩
  · omega
  · omega
  · intro m hm hle
    omega

/-- Witness of C1 on `t1 (id int, name char(10))`: the fields take 5 + 11 = 16 bytes and
the record size is 16. -/
theorem record_size_is_rounded_sum_witness :
    width_sum t1_table.cols = 16 ∧ compute_record_size_from_tpd t1_table = 16 ∧
    (4 ∣ compute_record_size_from_tpd t1_table ∧
      width_sum t1_table.cols ≤ compute_record_size_from_tpd t1_table ∧
      ∀ m : Int, 4 ∣ m → width_sum t1_table.cols ≤ m → compute_record_size_from_tpd t1_table ≤ m) := by
  refine ⟨by decide, ?_, record_size_is_rounded_sum t1_table (by decide) (by decide)⟩
  rw [compute_record_size_eq t1_table (by decide) (by decide)]
  decide

/-- Counterexample to C1 as stated: for the descriptor of
`create table t (c char(2147483647))` the column length is not negative, the sum of
`1 + payload width` is 2147483648, and the `int` that `compute_record_size_from_tpd`
returns is -2147483648, which is below that sum. -/
theorem record_size_overflow_counterexample :
    (∀ c ∈ huge_char_table.cols, c.col_type ≠ T_INT → 0 ≤ c.col_len) ∧
    compute_record_size_from_tpd huge_char_table = -2147483648 ∧
    ¬ (width_sum huge_char_table.cols ≤ compute_record_size_from_tpd huge_char_table) := by
  decide

/-! ## Buffers -/

theorem byte_at_nat (buf : List Nat) (i : Nat) : byte_at buf (i : Int) = buf.getD i 0 := by
  unfold byte_at
  have : ¬ ((i : Int) < 0) := by omega
  simp [this]

theorem byte_at_append_right (A B : List Nat) (i : Nat) :
    byte_at (A ++ B) ((A.length + i : Nat) : Int) = byte_at B (i : Int) := by
  rw [byte_at_nat, byte_at_nat]
  simp [List.getD_eq_getElem?_getD, List.getElem?_append_right]

theorem byte_at_append_left (A B : List Nat) (i : Nat) (h : i < A.length) :
    byte_at (A ++ B) (i : Int) = byte_at A (i : Int) := by
  rw [byte_at_nat, byte_at_nat]
  simp [List.getD_eq_getElem?_getD, List.getElem?_append_left h]

theorem slice_length (buf : List Nat) (off : Int) (n : Nat) : (slice buf off n).length = n := by
  induction n generalizing off with
  | zero => rfl
  | succ n ih => simp [slice, ih]

theorem slice_append_right (A B : List Nat) (i n : Nat) :
    slice (A ++ B) ((A.length + i : Nat) : Int) n = slice B (i : Int) n := by
  induction n generalizing i with
  | zero => rfl
  | succ n ih =>
    simp only [slice]
    rw [byte_at_append_right]
    have h1 : ((A.length + i : Nat) : Int) + 1 = ((A.length + (i + 1) : Nat) : Int) := by
      push_cast; ring
    have h2 : (i : Int) + 1 = ((i + 1 : Nat) : Int) := by push_cast; ring
    rw [h1, h2, ih]

theorem slice_prefix (M B : List Nat) : slice (M ++ B) 0 M.length = M := by
  induction M with
  | nil => rfl
  | cons m ms ih =>
    have h0 : byte_at (m :: (ms ++ B)) 0 = m := rfl
    have h := slice_append_right [m] (ms ++ B) 0 ms.length
    have e1 : (([m].length + 0 : Nat) : Int) = (0 : Int) + 1 := rfl
    have e2 : ((0 : Nat) : Int) = 0 := rfl
    rw [e1, e2] at h
    show slice (m :: (ms ++ B)) 0 (ms.length + 1) = m :: ms
    simp only [slice]
    rw [h0]
    have h' : slice (m :: (ms ++ B)) (0 + 1) ms.length = slice (ms ++ B) 0 ms.length := h
    rw [h', ih]

theorem slice_middle (A M B : List Nat) :
    slice (A ++ M ++ B) (A.length : Int) M.length = M := by
  have := slice_append_right A (M ++ B) 0 M.length
  simp only [Nat.add_zero, List.append_assoc] at this ⊢
  rw [this]
  exact slice_prefix M B

theorem store_append (A B : List Nat) (x v : Nat) :
    store (A ++ x :: B) (A.length : Int) v = A ++ v :: B := by
  unfold store
  have : ¬ ((A.length : Int) < 0) := by omega
  simp [this]

theorem memcpy_append (src : List Nat) : ∀ (A M B : List Nat), M.length = src.length →
    memcpy (A ++ M ++ B) (A.length : Int) src = A ++ src ++ B := by
  induction src with
  | nil =>
    intro A M B h
    have : M = [] := List.length_eq_zero.mp h
    simp [memcpy, this]
  | cons s ss ih =>
    intro A M B h
    match M, h with
    | m :: ms, h =>
      simp only [memcpy]
      have h1 : A ++ (m :: ms) ++ B = A ++ m :: (ms ++ B) := by simp
      rw [h1, store_append]
      have h2 : A ++ s :: (ms ++ B) = (A ++ [s]) ++ ms ++ B := by simp
      have h3 : (A.length : Int) + 1 = ((A ++ [s]).length : Int) := by simp
      rw [h2, h3, ih (A ++ [s]) ms B (by simpa using h)]
      simp

theorem int32_bytes_length (x : Int) : (int32_bytes x).length = 4 := rfl

theorem read_int32_append_right (A B : List Nat) (i : Nat) :
    read_int32 (A ++ B) ((A.length + i : Nat) : Int) = read_int32 B (i : Int) := by
  unfold read_int32
  have h1 : ((A.length + i : Nat) : Int) + 1 = ((A.length + (i + 1) : Nat) : Int) := by
    push_cast; ring
  have h2 : ((A.length + i : Nat) : Int) + 2 = ((A.length + (i + 2) : Nat) : Int) := by
    push_cast; ring
  have h3 : ((A.length + i : Nat) : Int) + 3 = ((A.length + (i + 3) : Nat) : Int) := by
    push_cast; ring
  have g1 : (i : Int) + 1 = ((i + 1 : Nat) : Int) := by push_cast; ring
  have g2 : (i : Int) + 2 = ((i + 2 : Nat) : Int) := by push_cast; ring
  have g3 : (i : Int) + 3 = ((i + 3 : Nat) : Int) := by push_cast; ring
  rw [h1, h2, h3, g1, g2, g3]
  simp only [byte_at_append_right]

theorem read_int32_append_left (A B : List Nat) (i : Nat) (h : i + 4 ≤ A.length) :
    read_int32 (A ++ B) (i : Int) = read_int32 A (i : Int) := by
  unfold read_int32
  have g1 : (i : Int) + 1 = ((i + 1 : Nat) : Int) := by push_cast; ring
  have g2 : (i : Int) + 2 = ((i + 2 : Nat) : Int) := by push_cast; ring
  have g3 : (i : Int) + 3 = ((i + 3 : Nat) : Int) := by push_cast; ring
  rw [g1, g2, g3]
  rw [byte_at_append_left _ _ _ (by omega), byte_at_append_left _ _ _ (by omega),
    byte_at_append_left _ _ _ (by omega), byte_at_append_left _ _ _ (by omega)]

theorem read_int32_cons4 (a b c d : Nat) (B : List Nat) :
    read_int32 (a :: b :: c :: d :: B) 0
      = wrap32 ((a + 256 * b + 65536 * c + 16777216 * d : Nat) : Int) := rfl

theorem read_int32_bytes (x : Int) (B : List Nat) :
    read_int32 (int32_bytes x ++ B) 0 = wrap32 x := by
  have h : int32_bytes x ++ B = (x % 4294967296).toNat % 256 ::
      (x % 4294967296).toNat / 256 % 256 :: (x % 4294967296).toNat / 65536 % 256 ::
      (x % 4294967296).toNat / 16777216 % 256 :: B := rfl
  rw [h, read_int32_cons4]
  have hx : 0 ≤ x % 4294967296 := Int.emod_nonneg _ (by norm_num)
  have hx2 : x % 4294967296 < 4294967296 := Int.emod_lt_of_pos _ (by norm_num)
  obtain ⟨u, hu⟩ := Int.eq_ofNat_of_zero_le hx
  have hu2 : u < 4294967296 := by omega
  rw [hu, Int.toNat_ofNat]
  have e : u % 256 + 256 * (u / 256 % 256) + 65536 * (u / 65536 % 256)
      + 16777216 * (u / 16777216 % 256) = u := by omega
  rw [e]
  unfold wrap32
  omega

theorem read_int32_middle (A B : List Nat) (x : Int) :
    read_int32 (A ++ int32_bytes x ++ B) (A.length : Int) = wrap32 x := by
  have := read_int32_append_right A (int32_bytes x ++ B) 0
  simp only [Nat.add_zero, List.append_assoc] at this ⊢
  rw [this]
  exact read_int32_bytes x B

/-! ## INSERT builds the record image (C2) -/

theorem replicate_split (a b : Nat) (h : a ≤ b) :
    List.replicate b 0 = List.replicate a 0 ++ List.replicate (b - a) 0 := by
  rw [← List.replicate_add]
  congr 1
  omega

theorem field_image_length (col : cd_entry) (tk : token) (hw : 0 ≤ payload_width col)
    (ha : Accepted col tk) :
    (field_image col tk).length = (1 + payload_width col).toNat := by
  unfold field_image
  rcases ha with ⟨h, _⟩ | ⟨h, hi⟩ | ⟨h, hi, _, hl⟩
  · simp [h]; omega
  · simp [h, hi, int32_bytes_length, payload_width]
  · have : payload_width col = col.col_len := by simp [payload_width, hi]
    simp only [h, hi, if_false, List.length_cons, List.length_append, List.length_replicate]
    simp
    omega

theorem insert_field_ok (col : cd_entry) (tk : token) (A : List Nat) (n : Nat)
    (buf' : List Nat) (off' : Int)
    (hw : 0 ≤ payload_width col) (hn : 1 + payload_width col ≤ n)
    (hR : A.length + n < 2147483648) (hlen : tk.tok_string.length < 256)
    (h : insert_field col tk (A ++ List.replicate n 0) A.length = Except.ok (buf', off')) :
    Accepted col tk ∧
    buf' = A ++ field_image col tk ++ List.replicate (n - (1 + payload_width col).toNat) 0 ∧
    off' = A.length + (1 + payload_width col) := by
  obtain ⟨w, hwv⟩ := Int.eq_ofNat_of_zero_le hw
  have hn' : 1 + w ≤ n := by omega
  have hz : List.replicate n 0 = 0 :: (List.replicate w 0 ++ List.replicate (n - (1 + w)) 0) := by
    rw [← List.replicate_add, ← List.replicate_succ]
    congr 1
    omega
  have hoff1 : wrap32 ((A.length : Int) + 1) = ((A ++ [0]).length : Int) := by
    have e : ((A ++ [0]).length : Int) = (A.length : Int) + 1 := by simp
    rw [e, wrap32_of_range] <;> omega
  have hoffw : wrap32 (wrap32 ((A.length : Int) + 1) + payload_width col)
      = A.length + (1 + payload_width col) := by
    rw [wrap32_of_range (x := (A.length : Int) + 1), wrap32_of_range] <;> omega
  have htn : (1 + payload_width col).toNat = 1 + w := by omega
  unfold insert_field at h
  by_cases hnull : tk.tok_value = TokValue.K_NULL
  · simp only [hnull, if_true] at h
    by_cases hnn : col.not_null = true
    · simp [hnn] at h
    · simp only [hnn] at h
      simp only [Bool.false_eq_true, if_false, Except.ok.injEq, Prod.mk.injEq] at h
      obtain ⟨h1, h2⟩ := h
      refine ⟨Or.inl ⟨hnull, by simpa using hnn⟩, ?_, ?_⟩
      · rw [← h1, hz, store_append, htn]
        simp [field_image, hnull, hwv]
      · rw [← h2, hoffw]
  · simp only [hnull, if_false] at h
    by_cases hint : col.col_type = T_INT
    · simp only [hint, if_true] at h
      by_cases hv : tk.tok_value = TokValue.INT_LITERAL
      · simp only [hv, ne_eq, not_true_eq_false, if_false, Except.ok.injEq, Prod.mk.injEq] at h
        obtain ⟨h1, h2⟩ := h
        have hw4 : payload_width col = 4 := by simp [payload_width, hint]
        have hw4' : w = 4 := by omega
        subst hw4'
        refine ⟨Or.inr (Or.inl ⟨hv, hint⟩), ?_, ?_⟩
        · rw [← h1, hz, store_append]
          have e : A ++ 4 :: (List.replicate 4 0 ++ List.replicate (n - (1 + 4)) 0)
              = (A ++ [4]) ++ List.replicate 4 0 ++ List.replicate (n - (1 + 4)) 0 := by
            simp only [List.append_assoc, List.cons_append, List.nil_append]
          have hoff4 : wrap32 ((A.length : Int) + 1) = ((A ++ [4]).length : Int) := by
            rw [hoff1]; simp
          rw [e, hoff4, memcpy_append _ _ _ _ (by simp [int32_bytes_length]), htn]
          simp [field_image, hnull, hint]
        · rw [← h2, ← hw4, hoffw]
      · simp [hv] at h
    · simp only [hint, if_false] at h
      by_cases hv : tk.tok_value = TokValue.STRING_LITERAL
      · simp only [hv, ne_eq, not_true_eq_false, if_false] at h
        have hL : wrap32 (tk.tok_string.length : Int) = tk.tok_string.length := by
          rw [wrap32_of_range] <;> omega
        rw [hL] at h
        have hwc : payload_width col = col.col_len := by simp [payload_width, hint]
        by_cases hbad : (tk.tok_string.length : Int) ≤ 0 ∨ (tk.tok_string.length : Int) > col.col_len
        · rw [if_pos hbad] at h
          cases h
        · rw [if_neg hbad] at h
          simp only [Except.ok.injEq, Prod.mk.injEq] at h
          obtain ⟨h1, h2⟩ := h
          have hl1 : 1 ≤ tk.tok_string.length := by omega
          have hl2 : tk.tok_string.length ≤ w := by omega
          refine ⟨Or.inr (Or.inr ⟨hv, hint, hl1, by omega⟩), ?_, ?_⟩
          · rw [← h1, hz, store_append]
            have hb : ((tk.tok_string.length : Int) % 256).toNat = tk.tok_string.length := by
              omega
            have ht : List.take (Int.toNat (tk.tok_string.length : Int)) tk.tok_string
                = tk.tok_string := by simp
            rw [hb, ht, replicate_split tk.tok_string.length w hl2]
            have e : A ++ tk.tok_string.length :: ((List.replicate tk.tok_string.length 0
                  ++ List.replicate (w - tk.tok_string.length) 0)
                  ++ List.replicate (n - (1 + w)) 0)
                = (A ++ [tk.tok_string.length]) ++ List.replicate tk.tok_string.length 0
                  ++ (List.replicate (w - tk.tok_string.length) 0
                    ++ List.replicate (n - (1 + w)) 0) := by
              simp only [List.append_assoc, List.cons_append, List.nil_append]
            have hoffL : wrap32 ((A.length : Int) + 1)
                = ((A ++ [tk.tok_string.length]).length : Int) := by
              rw [hoff1]; simp
            rw [e, hoffL, memcpy_append _ _ _ _ (by simp), htn]
            have hwn : (payload_width col).toNat = w := by omega
            simp [field_image, hnull, hint, hwn]
          · rw [← h2, ← hwc, hoffw]
      · simp [hv] at h

theorem getD_of_get? (toks : List token) (i : Nat) (tk : token) (h : toks[i]? = some tk) :
    toks.getD i default = tk := by
  simp [List.getD_eq_getElem?_getD, h]

theorem insert_loop_image (toks : List token) (htok : ∀ tk ∈ toks, tk.tok_string.length < 256) :
    ∀ (cols : List cd_entry) (cur : Nat) (A : List Nat) (n : Nat) (cur' : Nat) (row : List Nat),
      (∀ c ∈ cols, 0 ≤ payload_width c) → width_sum cols ≤ n → A.length + n < 2147483648 →
      insert_loop toks cols cur (A ++ List.replicate n 0) A.length
        = some (InsertLoop.done cur' row) →
      row = A ++ row_image toks cols cur ++ List.replicate (n - (width_sum cols).toNat) 0 ∧
      cur' = cur + 2 * cols.length ∧
      (∀ i, i < cols.length → cur + 2 * i < toks.length ∧
        Accepted (col_at cols i) (toks.getD (cur + 2 * i) default)) := by
  intro cols
  induction cols with
  | nil =>
    intro cur A n cur' row _ _ _ h
    simp only [insert_loop, Option.some.injEq, InsertLoop.done.injEq] at h
    obtain ⟨h1, h2⟩ := h
    subst h1 h2
    simp [row_image, width_sum]
  | cons col rest ih =>
    intro cur A n cur' row hw hn hR h
    have hwc := hw col (List.mem_cons_self _ _)
    have hwr : ∀ c ∈ rest, 0 ≤ payload_width c := fun c hc => hw c (List.mem_cons_of_mem _ hc)
    have hsr := width_sum_nonneg _ hwr
    rw [width_sum_cons] at hn
    unfold insert_loop at h
    simp only [List.get?_eq_getElem?] at h
    cases hg : toks[cur]? with
    | none => simp [hg] at h
    | some tk =>
      simp only [hg] at h
      have hmem : tk ∈ toks := List.getElem?_mem hg
      have hcur : cur < toks.length := by
        rcases Nat.lt_or_ge cur toks.length with hlt | hge
        · exact hlt
        · rw [List.getElem?_eq_none hge] at hg
          cases hg
      split at h
      · cases h
      · cases hf : insert_field col tk (A ++ List.replicate n 0) A.length with
        | error rc => simp [hf] at h
        | ok p =>
          obtain ⟨buf', off'⟩ := p
          simp only [hf] at h
          obtain ⟨hacc, hbuf, hoff⟩ := insert_field_ok col tk A n buf' off' hwc (by omega) hR
            (htok tk hmem) hf
          have hlenf := field_image_length col tk hwc hacc
          cases hg1 : toks[cur + 1]? with
          | none => simp [hg1] at h
          | some nx =>
            simp only [hg1] at h
            have hrec : insert_loop toks rest (cur + 2) buf' off' = some (InsertLoop.done cur' row) := by
              split at h
              · split at h
                · cases h
                · exact h
              · split at h
                · cases h
                · exact h
            have hoff2 : off' = ((A ++ field_image col tk).length : Int) := by
              rw [hoff, List.length_append, hlenf]
              push_cast
              omega
            rw [hbuf, hoff2] at hrec
            have hA : (A ++ field_image col tk).length + (n - (1 + payload_width col).toNat)
                < 2147483648 := by
              rw [List.length_append, hlenf]; omega
            obtain ⟨r1, r2, r3⟩ := ih (cur + 2) (A ++ field_image col tk)
              (n - (1 + payload_width col).toNat) cur' row hwr (by omega) hA hrec
            refine ⟨?_, ?_, ?_⟩
            · have e1 : n - (1 + payload_width col).toNat - (width_sum rest).toNat
                  = n - (1 + payload_width col + width_sum rest).toNat := by omega
              rw [r1, width_sum_cons, e1]
              simp only [row_image, getD_of_get? toks cur tk hg, List.append_assoc]
            · rw [r2, List.length_cons]; omega
            · intro i hi
              cases i with
              | zero =>
                simp only [Nat.mul_zero, Nat.add_zero]
                refine ⟨hcur, ?_⟩
                rw [getD_of_get? toks cur tk hg]
                exact hacc
              | succ j =>
                have := r3 j (by simpa using hi)
                have e : cur + 2 * (j + 1) = cur + 2 + 2 * j := by omega
                rw [e]
                simpa [col_at] using this

/-! ## SELECT decodes the record image (C2) -/

theorem offset_loop_eq (cols : List cd_entry) :
    ∀ (k : Nat) (off : Int), 0 ≤ off → (∀ c ∈ cols, 0 ≤ payload_width c) →
      off + width_sum cols < 2147483648 →
      offset_loop off cols k = off + width_sum (cols.take k) := by
  induction cols with
  | nil =>
    intro k off _ _ _
    cases k <;> simp [offset_loop, width_sum]
  | cons c cs ih =>
    intro k off h0 hw hfit
    have hc := hw c (List.mem_cons_self _ _)
    have hcs : ∀ d ∈ cs, 0 ≤ payload_width d := fun d hd => hw d (List.mem_cons_of_mem _ hd)
    have hs := width_sum_nonneg _ hcs
    rw [width_sum_cons] at hfit
    cases k with
    | zero => simp [offset_loop, width_sum]
    | succ k =>
      simp only [offset_loop, List.take_succ_cons]
      rw [wrap32_of_range (x := 1 + payload_width c) (by omega) (by omega),
        wrap32_of_range (by omega) (by omega), ih k _ (by omega) hcs (by omega), width_sum_cons]
      omega

theorem col_offset_eq (cols : List cd_entry) (k : Nat) (hw : ∀ c ∈ cols, 0 ≤ payload_width c)
    (hfit : width_sum cols < 2147483648) :
    col_offset cols k = width_sum (cols.take k) := by
  unfold col_offset
  rw [offset_loop_eq cols k 0 (le_refl _) hw (by omega), zero_add]

theorem width_sum_append (a b : List cd_entry) :
    width_sum (a ++ b) = width_sum a + width_sum b := by
  simp [width_sum]

theorem width_sum_take_le (cols : List cd_entry) (k : Nat)
    (hw : ∀ c ∈ cols, 0 ≤ payload_width c) : width_sum (cols.take k) ≤ width_sum cols := by
  have h := width_sum_append (cols.take k) (cols.drop k)
  rw [List.take_append_drop] at h
  have := width_sum_nonneg (cols.drop k) (fun c hc => hw c (List.mem_of_mem_drop hc))
  omega

theorem row_image_length (toks : List token) :
    ∀ (cols : List cd_entry) (cur : Nat), (∀ c ∈ cols, 0 ≤ payload_width c) →
      (∀ i, i < cols.length → Accepted (col_at cols i) (toks.getD (cur + 2 * i) default)) →
      ((row_image toks cols cur).length : Int) = width_sum cols := by
  intro cols
  induction cols with
  | nil => intro cur _ _; simp [row_image, width_sum]
  | cons c cs ih =>
    intro cur hw ha
    have hc := hw c (List.mem_cons_self _ _)
    have hcs : ∀ d ∈ cs, 0 ≤ payload_width d := fun d hd => hw d (List.mem_cons_of_mem _ hd)
    have h0 := ha 0 (by simp)
    simp only [Nat.mul_zero, Nat.add_zero] at h0
    have hl := field_image_length c (toks.getD cur default) hc (by simpa [col_at] using h0)
    have hrest := ih (cur + 2) hcs (by
      intro i hi
      have := ha (i + 1) (by simpa using hi)
      have e : cur + 2 * (i + 1) = cur + 2 + 2 * i := by omega
      rw [e] at this
      simpa [col_at] using this)
    simp only [row_image, List.length_append, width_sum_cons]
    push_cast
    rw [hrest, hl]
    omega

theorem row_image_split (toks : List token) :
    ∀ (cols : List cd_entry) (cur i : Nat), i < cols.length →
      row_image toks cols cur = row_image toks (cols.take i) cur
        ++ field_image (col_at cols i) (toks.getD (cur + 2 * i) default)
        ++ row_image toks (cols.drop (i + 1)) (cur + 2 * (i + 1)) := by
  intro cols
  induction cols with
  | nil => intro cur i hi; simp at hi
  | cons c cs ih =>
    intro cur i hi
    cases i with
    | zero => simp [row_image, col_at]
    | succ j =>
      have := ih (cur + 2) j (by simpa using hi)
      have e1 : cur + 2 * (j + 1) = cur + 2 + 2 * j := by omega
      have e2 : cur + 2 * (j + 1 + 1) = cur + 2 + 2 * (j + 1) := by omega
      simp only [row_image, List.take_succ_cons, List.drop_succ_cons, e1, e2]
      rw [this]
      simp [col_at, List.append_assoc]

theorem cstr_no_nul (s : List Nat) (h : 0 ∉ s) : cstr s = s := by
  unfold cstr
  rw [List.takeWhile_eq_self_iff]
  intro b hb
  have : b ≠ 0 := fun e => h (e ▸ hb)
  simpa using this

theorem print_value_shift (P F : List Nat) (ty : ColType) (hP : P.length + 1 < 2147483648) :
    print_value (P ++ F) ty (P.length : Int) = print_value F ty 0 := by
  have hoff : wrap32 ((P.length : Int) + 1) = ((P.length + 1 : Nat) : Int) := by
    rw [wrap32_of_range] <;> push_cast <;> omega
  have hoff0 : wrap32 ((0 : Int) + 1) = ((1 : Nat) : Int) := by decide
  have hb : byte_at (P ++ F) (P.length : Int) = byte_at F 0 := byte_at_append_right P F 0
  have hr : read_int32 (P ++ F) ((P.length + 1 : Nat) : Int) = read_int32 F ((1 : Nat) : Int) :=
    read_int32_append_right P F 1
  have hs : ∀ n, slice (P ++ F) ((P.length + 1 : Nat) : Int) n = slice F ((1 : Nat) : Int) n :=
    fun n => slice_append_right P F 1 n
  unfold print_value printf_prec
  simp only [hoff, hoff0, hb, hr, hs]

theorem print_value_null (w : Nat) (S : List Nat) (ty : ColType) :
    print_value (0 :: (List.replicate w 0 ++ S)) ty 0 = Value.null := by
  have hb : byte_at (0 :: (List.replicate w 0 ++ S)) 0 = 0 := rfl
  unfold print_value
  simp only [hb]
  split <;> rfl

theorem print_value_int (x : Int) (S : List Nat) :
    print_value (4 :: (int32_bytes x ++ S)) T_INT 0 = Value.int (wrap32 x) := by
  have hb : byte_at (4 :: (int32_bytes x ++ S)) 0 = 4 := rfl
  have hoff0 : wrap32 ((0 : Int) + 1) = (([4] : List Nat).length : Int) := by decide
  have hr : read_int32 (4 :: (int32_bytes x ++ S)) (([4] : List Nat).length : Int) = wrap32 x := by
    have := read_int32_middle [4] S x
    simpa using this
  unfold print_value
  simp only [hb, hoff0, hr]
  simp

theorem print_value_str (s Z : List Nat) (ty : ColType) (hty : ty ≠ T_INT) (hl : 1 ≤ s.length)
    (hn : 0 ∉ s) :
    print_value (s.length :: (s ++ Z)) ty 0 = Value.str s := by
  have hb : byte_at (s.length :: (s ++ Z)) 0 = s.length := rfl
  have hoff0 : wrap32 ((0 : Int) + 1) = (([s.length] : List Nat).length : Int) := by
    have : wrap32 ((0 : Int) + 1) = 1 := by decide
    rw [this]; rfl
  have hs : slice (s.length :: (s ++ Z)) (([s.length] : List Nat).length : Int) s.length = s := by
    have := slice_middle [s.length] s Z
    simpa using this
  have hl0 : s.length ≠ 0 := by omega
  unfold print_value printf_prec
  simp only [hb, hoff0, hs, hty, hl0, if_false, cstr_no_nul s hn]

theorem print_value_image (col : cd_entry) (tk : token) (P S : List Nat)
    (ha : Accepted col tk) (hP : P.length + 1 < 2147483648)
    (hnul : tk.tok_value = TokValue.STRING_LITERAL → 0 ∉ tk.tok_string)
    (hint : tk.tok_value = TokValue.INT_LITERAL → digits_value tk.tok_string < 2147483648) :
    print_value (P ++ field_image col tk ++ S) col.col_type (P.length : Int) = literal_value tk := by
  rw [List.append_assoc, print_value_shift P _ _ hP]
  rcases ha with ⟨h, _⟩ | ⟨h, hi⟩ | ⟨h, hi, hl1, hl2⟩
  · have e : field_image col tk ++ S = 0 :: (List.replicate (payload_width col).toNat 0 ++ S) := by
      simp [field_image, h]
    rw [e, print_value_null]
    simp [literal_value, h]
  · have e : field_image col tk ++ S = 4 :: (int32_bytes (wrap32 (strtol tk.tok_string)) ++ S) := by
      simp [field_image, h, hi]
    have hd := hint h
    have hst : strtol tk.tok_string = (digits_value tk.tok_string : Int) := by
      unfold strtol
      omega
    have hv : wrap32 (wrap32 (strtol tk.tok_string)) = (digits_value tk.tok_string : Int) := by
      rw [hst, wrap32_of_range (x := (digits_value tk.tok_string : Int)) (by omega) (by omega),
        wrap32_of_range (by omega) (by omega)]
    rw [e, hi, print_value_int, hv]
    simp [literal_value, h]
  · have e : field_image col tk ++ S = tk.tok_string.length :: (tk.tok_string
        ++ (List.replicate ((payload_width col).toNat - tk.tok_string.length) 0 ++ S)) := by
      simp [field_image, h, hi]
    rw [e, print_value_str _ _ _ hi hl1 (hnul h)]
    simp [literal_value, h]

/-! ## Successful INSERT -/

theorem insert_field_error_ne_ok (col : cd_entry) (tk : token) (buf : List Nat) (off : Int)
    (rc : RC) (h : insert_field col tk buf off = Except.error rc) : rc ≠ RC.OK := by
  unfold insert_field at h
  by_cases h1 : tk.tok_value = TokValue.K_NULL
  · rw [if_pos h1] at h
    by_cases h2 : col.not_null = true
    · rw [if_pos h2] at h
      cases h
      decide
    · rw [if_neg h2] at h
      cases h
  · rw [if_neg h1] at h
    by_cases h2 : col.col_type = T_INT
    · rw [if_pos h2] at h
      by_cases h3 : tk.tok_value ≠ TokValue.INT_LITERAL
      · rw [if_pos h3] at h
        cases h
        decide
      · rw [if_neg h3] at h
        cases h
    · rw [if_neg h2] at h
      by_cases h3 : tk.tok_value ≠ TokValue.STRING_LITERAL
      · rw [if_pos h3] at h
        cases h
        decide
      · rw [if_neg h3] at h
        simp only at h
        split at h
        · cases h
          decide
        · cases h

theorem insert_loop_fail_ne_ok (toks : List token) :
    ∀ (cols : List cd_entry) (cur : Nat) (buf : List Nat) (off : Int) (rc : RC) (mk : Nat),
      insert_loop toks cols cur buf off = some (InsertLoop.fail rc mk) → rc ≠ RC.OK := by
  intro cols
  induction cols with
  | nil => intro cur buf off rc mk h; simp [insert_loop] at h
  | cons col rest ih =>
    intro cur buf off rc mk h
    unfold insert_loop at h
    simp only [List.get?_eq_getElem?] at h
    cases hg : toks[cur]? with
    | none => simp [hg] at h
    | some tk =>
      simp only [hg] at h
      split at h
      · simp only [Option.some.injEq, InsertLoop.fail.injEq] at h
        rw [← h.1]; decide
      · cases hf : insert_field col tk buf off with
        | error rc' =>
          simp only [hf, Option.some.injEq, InsertLoop.fail.injEq] at h
          rw [← h.1]
          exact insert_field_error_ne_ok col tk buf off rc' hf
        | ok p =>
          obtain ⟨buf', off'⟩ := p
          simp only [hf] at h
          cases hg1 : toks[cur + 1]? with
          | none => simp [hg1] at h
          | some nx =>
            simp only [hg1] at h
            split at h
            · split at h
              · simp only [Option.some.injEq, InsertLoop.fail.injEq] at h
                rw [← h.1]; decide
              · exact ih _ _ _ _ _ h
            · split at h
              · simp only [Option.some.injEq, InsertLoop.fail.injEq] at h
                rw [← h.1]; decide
              · exact ih _ _ _ _ _ h

theorem sem_insert_into_ok (lookup : List Nat → Option tpd_entry) (fs : List Nat → Option TabFile)
    (toks : List token) (cur : Nat) (res : InsertResult)
    (h : sem_insert_into lookup fs toks cur = some res) (hrc : res.rc = RC.OK) :
    ∃ t0 tpd f cur' row,
      toks[cur]? = some t0 ∧ lookup t0.tok_string = some tpd ∧ fs t0.tok_string = some f ∧
      f.hdr.num_records < 100 ∧ 0 ≤ f.hdr.record_size ∧
      insert_loop toks tpd.cols (cur + 3) (List.replicate f.hdr.record_size.toNat 0) 0
        = some (InsertLoop.done cur' row) ∧
      res.file = some ⟨write_header { f.hdr with num_records := wrap32 (f.hdr.num_records + 1) },
        file_write f.data (row_pos f.hdr f.hdr.num_records) row⟩ := by
  unfold sem_insert_into at h
  simp only [List.get?_eq_getElem?] at h
  cases h0 : toks[cur]? with
  | none => simp [h0] at h
  | some t0 =>
    simp only [h0] at h
    split at h
    · simp only [Option.some.injEq] at h; subst h; cases hrc
    · cases hl : lookup t0.tok_string with
      | none => simp only [hl, Option.some.injEq] at h; subst h; cases hrc
      | some tpd =>
        simp only [hl] at h
        cases h1 : toks[cur + 1]? with
        | none => simp [h1] at h
        | some t1 =>
          simp only [h1] at h
          split at h
          · simp only [Option.some.injEq] at h; subst h; cases hrc
          · cases h2 : toks[cur + 2]? with
            | none => simp [h2] at h
            | some t2 =>
              simp only [h2] at h
              split at h
              · simp only [Option.some.injEq] at h; subst h; cases hrc
              · cases hf : fs t0.tok_string with
                | none => simp only [hf, Option.some.injEq] at h; subst h; cases hrc
                | some f =>
                  simp only [hf] at h
                  split at h
                  · simp only [Option.some.injEq] at h; subst h; cases hrc
                  · rename_i hcap
                    split at h
                    · simp only [Option.some.injEq] at h; subst h; cases hrc
                    · rename_i hneg
                      cases hloop : insert_loop toks tpd.cols (cur + 3)
                          (List.replicate f.hdr.record_size.toNat 0) 0 with
                      | none => simp [hloop] at h
                      | some r =>
                        cases r with
                        | fail rc mk =>
                          simp only [hloop, Option.some.injEq] at h
                          subst h
                          exact absurd hrc (insert_loop_fail_ne_ok toks _ _ _ _ _ _ hloop)
                        | done cur' row =>
                          simp only [hloop] at h
                          cases he : toks[cur']? with
                          | none => simp [he] at h
                          | some te =>
                            simp only [he] at h
                            split at h
                            · simp only [Option.some.injEq] at h; subst h; cases hrc
                            · simp only [Option.some.injEq] at h
                              subst h
                              exact ⟨t0, tpd, f, cur', row, rfl, hl, hf, by omega, by omega,
                                hloop, rfl⟩

/-! ## Round trip of the record codec (C2) -/

theorem file_read_write (data row buf : List Nat) (pos n : Int) (hn : n.toNat = row.length)
    (hb : buf.length ≤ row.length) :
    file_read (file_write data pos row) pos n buf = row := by
  unfold file_read file_write
  simp only [hn]
  have hX : ((data ++ List.replicate (pos.toNat - data.length) 0).take pos.toNat).length
      = pos.toNat := by
    simp only [List.length_take, List.length_append, List.length_replicate]
    omega
  have hd : ((data ++ List.replicate (pos.toNat - data.length) 0).take pos.toNat ++ row
      ++ data.drop (pos.toNat + row.length)).drop pos.toNat
      = row ++ data.drop (pos.toNat + row.length) := by
    rw [List.append_assoc, List.drop_append_eq_append_drop, hX]
    simp
  rw [hd, List.take_left' rfl, List.drop_eq_nil_of_le hb]
  simp

theorem width_sum_take_lt (cols : List cd_entry) (k : Nat)
    (hw : ∀ c ∈ cols, 0 ≤ payload_width c) (hk : k < cols.length) :
    width_sum (cols.take k) < width_sum cols := by
  have h := width_sum_append (cols.take k) (cols.drop k)
  rw [List.take_append_drop] at h
  have hd : cols.drop k = cols[k] :: cols.drop (k + 1) := List.drop_eq_getElem_cons hk
  rw [hd, width_sum_cons] at h
  have h1 := hw cols[k] (List.getElem_mem _)
  have h2 := width_sum_nonneg (cols.drop (k + 1))
    (fun c hc => hw c (List.mem_of_mem_drop hc))
  omega

/-- C2 (amended). Round trip of the record codec. Take a descriptor whose CHAR/VARCHAR
lengths are not negative and whose fields fit the record size of the table file, and a
VALUES list that `sem_insert_into` accepts, whose literals fit the token buffer (shorter
than 256 characters, no NUL) and whose integer literals are below 2^31. Then the record
that SELECT reads back at the index of the inserted row decodes, column by column as
`SELECT *` prints it, to the inserted values: NULL, the integer, or the characters. -/
theorem insert_select_roundtrip (lookup : List Nat → Option tpd_entry)
    (fs : List Nat → Option TabFile) (toks : List token) (cur : Nat) (res : InsertResult)
    (t0 : token) (tpd : tpd_entry) (f : TabFile)
    (h0 : toks[cur]? = some t0) (hl : lookup t0.tok_string = some tpd)
    (hf : fs t0.tok_string = some f)
    (hlen : ∀ c ∈ tpd.cols, c.col_type ≠ T_INT → 0 ≤ c.col_len)
    (hfit : width_sum tpd.cols ≤ f.hdr.record_size) (hR : f.hdr.record_size < 2147483648)
    (htok : ∀ tk ∈ toks, tk.tok_string.length < 256 ∧ 0 ∉ tk.tok_string)
    (hint : ∀ tk ∈ toks, tk.tok_value = TokValue.INT_LITERAL →
      digits_value tk.tok_string < 2147483648)
    (hins : sem_insert_into lookup fs toks cur = some res) (hrc : res.rc = RC.OK) :
    ∃ f', res.file = some f' ∧
      ∀ i, i < tpd.cols.length →
        print_value (record_at f' f.hdr.num_records) (col_at tpd.cols i).col_type
          (col_offset tpd.cols i) = literal_value (toks.getD (cur + 3 + 2 * i) default) := by
  obtain ⟨t0', tpd', f0, cur', row, g0, gl, gf, hcap, hrs, hloop, hfile⟩ :=
    sem_insert_into_ok lookup fs toks cur res hins hrc
  rw [h0] at g0
  cases g0
  rw [hl] at gl
  cases gl
  rw [hf] at gf
  cases gf
  have hw := payload_width_nonneg_of hlen
  have hsum := width_sum_nonneg _ hw
  obtain ⟨R, hRv⟩ := Int.eq_ofNat_of_zero_le hrs
  have hRn : f.hdr.record_size.toNat = R := by omega
  rw [hRn] at hloop
  have hloop' : insert_loop toks tpd.cols (cur + 3) ([] ++ List.replicate R 0)
      (([] : List Nat).length : Int) = some (InsertLoop.done cur' row) := by
    simpa using hloop
  obtain ⟨hrow, _, hacc⟩ := insert_loop_image toks (fun tk h => (htok tk h).1) tpd.cols
    (cur + 3) [] R cur' row hw (by omega) (by simp; omega) hloop'
  simp only [List.nil_append] at hrow
  have hrl := row_image_length toks tpd.cols (cur + 3) hw (fun i hi => (hacc i hi).2)
  have hrowlen : row.length = R := by
    rw [hrow, List.length_append, List.length_replicate]
    omega
  refine ⟨_, hfile, ?_⟩
  · intro i hi
    have hrec : record_at ⟨write_header { f.hdr with num_records := wrap32 (f.hdr.num_records + 1) },
        file_write f.data (row_pos f.hdr f.hdr.num_records) row⟩ f.hdr.num_records = row := by
      unfold record_at
      have e1 : row_pos (write_header { f.hdr with num_records := wrap32 (f.hdr.num_records + 1) })
          f.hdr.num_records = row_pos f.hdr f.hdr.num_records := rfl
      have e2 : (write_header { f.hdr with num_records := wrap32 (f.hdr.num_records + 1) }).record_size
          = f.hdr.record_size := rfl
      simp only [e1, e2]
      exact file_read_write _ _ _ _ _ (by omega) (by simp; omega)
    rw [hrec, hrow, row_image_split toks tpd.cols (cur + 3) i hi]
    obtain ⟨hi1, hi2⟩ := hacc i hi
    have hmem : toks.getD (cur + 3 + 2 * i) default ∈ toks := by
      rw [List.getD_eq_getElem?_getD, List.getElem?_eq_getElem hi1]
      exact List.getElem_mem _
    have hacct : ∀ j, j < (tpd.cols.take i).length →
        Accepted (col_at (tpd.cols.take i) j) (toks.getD (cur + 3 + 2 * j) default) := by
      intro j hj
      have hj' : j < i := by simp at hj; omega
      have := (hacc j (by omega)).2
      have e : col_at (tpd.cols.take i) j = col_at tpd.cols j := by
        simp [col_at, List.getD_eq_getElem?_getD, List.getElem?_take, hj']
      rw [e]
      exact this
    have hplen := row_image_length toks (tpd.cols.take i) (cur + 3)
      (fun c hc => hw c (List.mem_of_mem_take hc)) hacct
    have htl := width_sum_take_lt tpd.cols i hw hi
    have hsumt := width_sum_nonneg (tpd.cols.take i)
      (fun c hc => hw c (List.mem_of_mem_take hc))
    rw [col_offset_eq tpd.cols i hw (by omega), ← hplen, List.append_assoc
      (row_image toks (tpd.cols.take i) (cur + 3) ++ _)]
    exact print_value_image _ _ _ _ hi2 (by omega) (fun _ => (htok _ hmem).2) (hint _ hmem)

/-- Witness of C2: `insert into t1 values (1, 'abc')` into the empty table
`t1 (id int, name char(10))` succeeds, and the stored record decodes to 1 and 'abc'. -/
theorem insert_select_roundtrip_witness :
    sem_insert_into t1_lookup (t1_fs t1_empty_file) insert_1_abc 0
      = some ⟨RC.OK, none, some t1_one_row_file⟩ ∧
    print_value (record_at t1_one_row_file 0) T_INT (col_offset t1_table.cols 0) = Value.int 1 ∧
    print_value (record_at t1_one_row_file 0) T_CHAR (col_offset t1_table.cols 1)
      = Value.str [97, 98, 99] := by
  have hins : sem_insert_into t1_lookup (t1_fs t1_empty_file) insert_1_abc 0
      = some ⟨RC.OK, none, some t1_one_row_file⟩ := by decide
  obtain ⟨f', h1, h2⟩ := insert_select_roundtrip t1_lookup (t1_fs t1_empty_file) insert_1_abc 0
    ⟨RC.OK, none, some t1_one_row_file⟩
    ⟨[116, 49], TokClass.identifier, TokValue.IDENT⟩ t1_table t1_empty_file
    (by decide) (by decide) (by decide) (by decide) (by decide) (by decide) (by decide)
    (by decide) hins rfl
  have hf : f' = t1_one_row_file := by
    simp only [Option.some.injEq] at h1
    exact h1.symm
  subst hf
  exact ⟨hins, h2 0 (by decide), h2 1 (by decide)⟩

/-- Counterexample to C2 as stated: `insert into t1 values (4294967297, NULL)` is accepted,
and the first column of the stored record decodes to 1, which is not the value
4294967297 that the literal spells. -/
theorem roundtrip_big_int_counterexample :
    (sem_insert_into t1_lookup (t1_fs t1_empty_file) insert_big_int 0).map (fun r => r.rc)
      = some RC.OK ∧
    ((sem_insert_into t1_lookup (t1_fs t1_empty_file) insert_big_int 0).bind
        (fun r => r.file)).map
      (fun f' => print_value (record_at f' 0) (col_at t1_table.cols 0).col_type
        (col_offset t1_table.cols 0)) = some (Value.int 1) ∧
    ((sem_insert_into t1_lookup (t1_fs t1_empty_file) insert_big_int 0).bind
        (fun r => r.file)).map
      (fun f' => print_value (record_at f' 0) (col_at t1_table.cols 0).col_type
        (col_offset t1_table.cols 0)) ≠ some (literal_value (insert_big_int.getD 3 default)) := by
  decide

/-! ## Join condition (C4) -/

theorem memcmp_eq_zero_iff (n : Nat) : ∀ (a b : List Nat),
    memcmp a b n = 0 ↔ ∀ i, i < n → a.getD i 0 = b.getD i 0 := by
  induction n with
  | zero => intro a b; simp [memcmp]
  | succ n ih =>
    intro a b
    have hd : ∀ l : List Nat, l.headD 0 = l.getD 0 0 := by
      intro l; cases l <;> rfl
    have tl : ∀ (l : List Nat) (i : Nat), l.tail.getD i 0 = l.getD (i + 1) 0 := by
      intro l i; cases l <;> simp
    simp only [memcmp]
    split
    · rename_i h
      rw [ih]
      constructor
      · intro H i hi
        cases i with
        | zero => rw [← hd, ← hd]; exact h
        | succ j => rw [← tl, ← tl]; exact H j (by omega)
      · intro H i hi
        rw [tl, tl]
        exact H (i + 1) (by omega)
    · rename_i h
      constructor
      · intro H
        exfalso
        apply h
        omega
      · intro H
        exfalso
        apply h
        rw [hd, hd]
        exact H 0 (by omega)

theorem are_fields_equal_iff (col : cd_entry) (len1 : Nat) (val1 : List Nat) (len2 : Nat)
    (val2 : List Nat) :
    are_fields_equal col len1 val1 len2 val2 = true
      ↔ fields_match col.col_type len1 val1 len2 val2 := by
  unfold are_fields_equal fields_match
  by_cases h1 : len1 = 0 <;> by_cases h2 : len2 = 0 <;> by_cases ht : col.col_type = T_INT <;>
    simp [h1, h2, ht, memcmp_eq_zero_iff]

theorem rows_match_from_iff (row1 row2 : List Nat) (cols1 cols2 : List cd_entry)
    (common_map1 common_map2 : List Nat) (n : Nat) : ∀ c,
    rows_match_from row1 row2 cols1 cols2 common_map1 common_map2 c n = true
      ↔ ∀ i, c ≤ i → i < c + n →
        common_fields_equal row1 row2 cols1 cols2 common_map1 common_map2 i = true := by
  induction n with
  | zero => intro c; simp [rows_match_from]; intro i h1 h2; omega
  | succ n ih =>
    intro c
    simp only [rows_match_from]
    split
    · rename_i h
      constructor
      · intro H; cases H
      · intro H
        have := H c (le_refl _) (by omega)
        rw [h] at this
        cases this
    · rename_i h
      rw [ih]
      constructor
      · intro H i h1 h2
        rcases Nat.eq_or_lt_of_le h1 with e | l
        · subst e; simpa using h
        · exact H i l (by omega)
      · intro H i h1 h2
        exact H i (by omega) (by omega)

/-- The loop of `rows_match_on_common_columns` accepts a pair of records exactly when the
fields that `extract_field_at_column` delivers match for every common column. -/
theorem rows_match_iff_extracted_fields_match (row1 row2 : List Nat)
    (cols1 cols2 : List cd_entry) (common_map1 common_map2 : List Nat) (num_common : Nat) :
    rows_match_on_common_columns row1 row2 cols1 cols2 common_map1 common_map2 num_common = true
      ↔ ∀ c, c < num_common →
        common_column_matches row1 row2 cols1 cols2 common_map1 common_map2 c := by
  unfold rows_match_on_common_columns
  rw [rows_match_from_iff]
  constructor
  · intro H c hc
    have := H c (Nat.zero_le _) (by omega)
    unfold common_fields_equal at this
    unfold common_column_matches
    exact (are_fields_equal_iff _ _ _ _ _).mp this
  · intro H c _ hc
    have := H c (by omega)
    unfold common_column_matches at this
    unfold common_fields_equal
    exact (are_fields_equal_iff _ _ _ _ _).mpr this

/-! ## The WHERE chain (C6) -/

theorem chain_loop_eq_foldl (ev : query_condition → Bool) (pre : List query_condition) :
    ∀ (rest : List query_condition) (c : query_condition) (acc : Bool),
      chain_loop ev (pre ++ c :: rest) pre.length rest.length acc
        = (List.zip ((c :: rest).map (fun c => c.logical_operator)) rest).foldl
            (fun acc p => chain_op p.1 acc (ev p.2)) acc := by
  intro rest
  induction rest generalizing pre with
  | nil => intro c acc; simp [chain_loop]
  | cons d ds ih =>
    intro c acc
    have h1 : (pre ++ c :: d :: ds).getD (pre.length + 1) default = d := by
      rw [List.getD_eq_getElem?_getD, List.getElem?_append_right (by omega)]
      simp
    have h0 : (pre ++ c :: d :: ds).getD pre.length default = c := by
      rw [List.getD_eq_getElem?_getD, List.getElem?_append_right (by omega)]
      simp
    have hpre : pre ++ c :: d :: ds = (pre ++ [c]) ++ d :: ds := by simp
    have hlen : pre.length + 1 = (pre ++ [c]).length := by simp
    have key : ∀ b : Bool, chain_loop ev (pre ++ c :: d :: ds) (pre.length + 1) ds.length b
        = (List.zip ((d :: ds).map (fun c => c.logical_operator)) ds).foldl
            (fun acc p => chain_op p.1 acc (ev p.2)) b := by
      intro b
      rw [hpre, hlen]
      exact ih (pre ++ [c]) d b
    simp only [List.map_cons] at key
    simp only [List.length_cons, chain_loop, h1, h0, List.map_cons, List.zip_cons_cons,
      List.foldl_cons, key]
    by_cases ha : c.logical_operator = some TokValue.K_AND
    · have hc : chain_op c.logical_operator acc (ev d) = (acc && ev d) := by
        simp [chain_op, ha]
      rw [hc, if_pos ha]
    · by_cases ho : c.logical_operator = some TokValue.K_OR
      · have hc : chain_op c.logical_operator acc (ev d) = (acc || ev d) := by
          simp [chain_op, ho]
        rw [hc, if_neg ha, if_pos ho]
      · have hc : chain_op c.logical_operator acc (ev d) = acc := by
          simp [chain_op, ha, ho]
        rw [hc, if_neg ha, if_neg ho]

theorem where_match_eq_left_fold (ev : query_condition → Bool) (c0 : query_condition)
    (rest : List query_condition) :
    where_match ev (c0 :: rest) = left_fold ev c0 rest := by
  unfold where_match left_fold
  have h := chain_loop_eq_foldl ev [] rest c0 (ev c0)
  simp only [List.nil_append, List.length_nil] at h
  simp only [List.length_cons, Nat.succ_sub_one, gt_iff_lt, Nat.zero_lt_succ, if_true,
    Nat.add_sub_cancel]
  exact h

/-- C6. For every record and every WHERE chain of n >= 1 conditions the row is selected
exactly when the left fold `((c0 op0 c1) op1 c2) ...` holds, with no precedence of AND
over OR, in the single-table scan and in the join scan. For `a = 1 OR b = 2 AND c = 3`
the result is `((a=1) OR (b=2)) AND (c=3)` for every row, so a row with a = 1 and c <> 3
is not selected; the row (1, 7, 5) is such a row. -/
theorem where_chain_is_left_fold :
    (∀ (row : List Nat) (tpd : tpd_entry) (c0 : query_condition) (rest : List query_condition),
      where_match (fun c => eval c row tpd) (c0 :: rest)
        = left_fold (fun c => eval c row tpd) c0 rest) ∧
    (∀ (buf1 buf2 : List Nat) (tpd1 tpd2 : tpd_entry) (c0 : query_condition)
        (rest : List query_condition),
      where_match (fun c => eval_join c buf1 buf2 tpd1 tpd2) (c0 :: rest)
        = left_fold (fun c => eval_join c buf1 buf2 tpd1 tpd2) c0 rest) ∧
    (∀ row : List Nat,
      where_match (fun c => eval c row abc_table) [cond_a1, cond_b2, cond_c3]
        = ((eval cond_a1 row abc_table || eval cond_b2 row abc_table)
            && eval cond_c3 row abc_table)) ∧
    (∀ row : List Nat, eval cond_a1 row abc_table = true → eval cond_c3 row abc_table = false →
      where_match (fun c => eval c row abc_table) [cond_a1, cond_b2, cond_c3] = false) ∧
    (eval cond_a1 abc_row_1_7_5 abc_table = true ∧
      where_match (fun c => eval c abc_row_1_7_5 abc_table) [cond_a1, cond_b2, cond_c3] = false) := by
  have h3 : ∀ row : List Nat,
      where_match (fun c => eval c row abc_table) [cond_a1, cond_b2, cond_c3]
        = ((eval cond_a1 row abc_table || eval cond_b2 row abc_table)
            && eval cond_c3 row abc_table) := by
    intro row
    rw [where_match_eq_left_fold]
    rfl
  refine ⟨fun row tpd c0 rest => where_match_eq_left_fold _ c0 rest,
    fun buf1 buf2 tpd1 tpd2 c0 rest => where_match_eq_left_fold _ c0 rest, h3, ?_, ?_⟩
  · intro row ha hc
    rw [h3, hc]
    simp
  · decide

/-! ## Aggregates (C7, C8) -/

theorem wrap32_range (x : Int) : -2147483648 ≤ wrap32 x ∧ wrap32 x < 2147483648 := by
  unfold wrap32
  omega

theorem read_int32_range (buf : List Nat) (off : Int) :
    -2147483648 ≤ read_int32 buf off ∧ read_int32 buf off < 2147483648 :=
  wrap32_range _

theorem agg_row_get (q : Query) (f1 : TabFile) (row : List Nat) :
    ∀ (afs : List (TokValue × List Nat)) (sts : List AggregateResult) (a : Nat)
      (af : TokValue × List Nat) (st : AggregateResult),
      afs[a]? = some af → sts[a]? = some st →
      (agg_row q f1 row afs sts)[a]? = some (agg_step q f1 row af st) := by
  intro afs
  induction afs with
  | nil => intro sts a af st h; simp at h
  | cons x xs ih =>
    intro sts a af st h1 h2
    cases sts with
    | nil => simp at h2
    | cons s ss =>
      cases a with
      | zero =>
        simp only [List.getElem?_cons_zero, Option.some.injEq] at h1 h2
        subst h1 h2
        simp [agg_row]
      | succ b =>
        simp only [List.getElem?_cons_succ] at h1 h2
        simp only [agg_row, List.getElem?_cons_succ]
        exact ih ss b af st h1 h2

theorem agg_compute_get (q : Query) (f1 : TabFile) (a : Nat) (af : TokValue × List Nat)
    (haf : q.agg_funcs[a]? = some af) :
    ∀ (results : List (List Nat)) (init : List AggregateResult) (st : AggregateResult),
      init[a]? = some st →
      (agg_compute q f1 results init)[a]?
        = some (results.foldl (fun s row => agg_step q f1 row af s) st) := by
  intro results
  induction results with
  | nil => intro init st h; simpa [agg_compute] using h
  | cons row rows ih =>
    intro init st h
    have h1 := agg_row_get q f1 row q.agg_funcs init a af st haf h
    have := ih (agg_row q f1 row q.agg_funcs init) (agg_step q f1 row af st) h1
    simpa [agg_compute] using this

theorem agg_init_get (q : Query) :
    ∀ (afs : List (TokValue × List Nat)) (init : List AggregateResult) (a : Nat)
      (af : TokValue × List Nat),
      agg_init q afs = Except.ok init → afs[a]? = some af →
      ∃ st, init[a]? = some st ∧ agg_locate q af = Except.ok st := by
  intro afs
  induction afs with
  | nil => intro init a af _ h; simp at h
  | cons x xs ih =>
    intro init a af h1 h2
    unfold agg_init at h1
    cases hx : agg_locate q x with
    | error rc => simp [hx] at h1
    | ok st0 =>
      simp only [hx] at h1
      cases hr : agg_init q xs with
      | error rc => simp [hr] at h1
      | ok sts =>
        simp only [hr, Except.ok.injEq] at h1
        subst h1
        cases a with
        | zero =>
          simp only [List.getElem?_cons_zero, Option.some.injEq] at h2
          subst h2
          exact ⟨st0, by simp, hx⟩
        | succ b =>
          simp only [List.getElem?_cons_succ] at h2
          obtain ⟨st, hs1, hs2⟩ := ih sts b af hr h2
          exact ⟨st, by simpa using hs1, hs2⟩

theorem agg_values_get (n : Nat) :
    ∀ (afs : List (TokValue × List Nat)) (sts : List AggregateResult) (a : Nat)
      (af : TokValue × List Nat) (st : AggregateResult),
      afs[a]? = some af → sts[a]? = some st →
      (agg_values n afs sts)[a]? = some (agg_value n af st) := by
  intro afs
  induction afs with
  | nil => intro sts a af st h; simp at h
  | cons x xs ih =>
    intro sts a af st h1 h2
    cases sts with
    | nil => simp at h2
    | cons s ss =>
      cases a with
      | zero =>
        simp only [List.getElem?_cons_zero, Option.some.injEq] at h1 h2
        subst h1 h2
        simp [agg_values]
      | succ b =>
        simp only [List.getElem?_cons_succ] at h1 h2
        simp only [agg_values, List.getElem?_cons_succ]
        exact ih ss b af st h1 h2

theorem sem_select_exec_eq (q : Query) (fs : List Nat → Option TabFile) (f1 : TabFile)
    (hf1 : fs q.table1 = some f1) :
    sem_select_exec q fs =
      if q.has_join ∧ (if q.has_join then fs q.table2 else none) = none then
        SelectOutput.failed RC.FILE_OPEN_ERROR
      else if q.is_aggregate then
        match agg_init q q.agg_funcs with
        | Except.error rc => SelectOutput.failed rc
        | Except.ok init =>
          SelectOutput.aggregates
            (agg_values (result_set q f1 (if q.has_join then fs q.table2 else none)).length
              q.agg_funcs
              (agg_compute q f1 (result_set q f1 (if q.has_join then fs q.table2 else none))
                init))
      else
        SelectOutput.rows (build_out_cols q)
          ((result_set q f1 (if q.has_join then fs q.table2 else none)).map
            (print_row f1 (build_out_cols q)))
          (result_set q f1 (if q.has_join then fs q.table2 else none)).length := by
  unfold sem_select_exec
  rw [hf1]
  try rfl

/-- The value printed for the aggregate number `a` of a SELECT that prints aggregates. -/
theorem select_aggregate_value (q : Query) (fs : List Nat → Option TabFile) (f1 : TabFile)
    (vals : List Int) (a : Nat) (af : TokValue × List Nat)
    (hf1 : fs q.table1 = some f1)
    (hout : sem_select_exec q fs = SelectOutput.aggregates vals)
    (ha : q.agg_funcs[a]? = some af) :
    ∃ st0, agg_locate q af = Except.ok st0 ∧
      vals[a]? = some (agg_value
        (result_set q f1 (if q.has_join then fs q.table2 else none)).length af
        ((result_set q f1 (if q.has_join then fs q.table2 else none)).foldl
          (fun s row => agg_step q f1 row af s) st0)) := by
  rw [sem_select_exec_eq q fs f1 hf1] at hout
  by_cases h1 : q.has_join ∧ (if q.has_join then fs q.table2 else none) = none
  · rw [if_pos h1] at hout
    cases hout
  · rw [if_neg h1] at hout
    by_cases h2 : q.is_aggregate = true
    · rw [if_pos h2] at hout
      cases hi : agg_init q q.agg_funcs with
      | error rc => simp [hi] at hout
      | ok init =>
        simp only [hi, SelectOutput.aggregates.injEq] at hout
        obtain ⟨st0, hs1, hs2⟩ := agg_init_get q q.agg_funcs init a af hi ha
        refine ⟨st0, hs2, ?_⟩
        rw [← hout]
        exact agg_values_get _ _ _ a af _ ha (agg_compute_get q f1 a af ha _ init st0 hs1)
    · rw [if_neg h2] at hout
      cases hout

theorem column_values_cons (cols : List cd_entry) (k : Nat) (row : List Nat)
    (rows : List (List Nat)) :
    column_values cols k (row :: rows) =
      if byte_at row (col_offset cols k) = 0 then column_values cols k rows
      else read_int32 row (wrap32 (col_offset cols k + 1)) :: column_values cols k rows := by
  unfold column_values
  by_cases h : byte_at row (col_offset cols k) = 0
  · simp [List.filterMap_cons, h]
  · simp [List.filterMap_cons, h]

theorem agg_step_sum (q : Query) (f1 : TabFile) (af : TokValue × List Nat) (k : Nat)
    (hty : af.1 ≠ TokValue.F_COUNT) (row : List Nat) (st : AggregateResult)
    (hk : st.column_index = some k) (ht : st.is_in_table1 = true) :
    agg_step q f1 row af st =
        if byte_at row (col_offset q.tpd1.cols k) = 0 then st
        else { st with
          sum_value := wrap64 (st.sum_value + read_int32 row (wrap32 (col_offset q.tpd1.cols k + 1)))
          row_count := wrap32 (st.row_count + 1) } := by
  unfold agg_step
  have h1 : ¬ (af.1 = TokValue.F_COUNT ∧ is_star_name af.2 = true) := fun h => hty h.1
  rw [if_neg h1]
  simp only [ht, hk, if_true, Option.getD_some, if_neg hty]
  by_cases hb : byte_at row (col_offset q.tpd1.cols k) = 0
  · rw [if_pos hb, if_neg (by omega)]
  · rw [if_neg hb, if_pos (Nat.pos_of_ne_zero hb)]

theorem column_values_length_le (cols : List cd_entry) (k : Nat) (rows : List (List Nat)) :
    (column_values cols k rows).length ≤ rows.length := by
  unfold column_values
  exact List.length_filterMap_le _ _

theorem sum_fold (q : Query) (f1 : TabFile) (af : TokValue × List Nat) (k : Nat)
    (hty : af.1 ≠ TokValue.F_COUNT) :
    ∀ (rows : List (List Nat)) (s c : Int),
      0 ≤ c → c + rows.length < 2147483648 →
      -(c * 2147483648) ≤ s → s ≤ c * 2147483648 →
      (rows.foldl (fun st row => agg_step q f1 row af st) ⟨s, c, some k, true⟩)
        = ⟨s + (column_values q.tpd1.cols k rows).sum,
            c + (column_values q.tpd1.cols k rows).length, some k, true⟩ := by
  intro rows
  induction rows with
  | nil =>
    intro s c _ _ _ _
    simp only [List.foldl_nil, column_values, List.filterMap_nil, List.sum_nil, List.length_nil,
      add_zero, Nat.cast_zero]
  | cons row rows ih =>
    intro s c h0 hn hlo hhi
    rw [List.length_cons, Nat.cast_succ] at hn
    rw [List.foldl_cons, agg_step_sum q f1 af k hty row _ rfl rfl, column_values_cons]
    by_cases hb : byte_at row (col_offset q.tpd1.cols k) = 0
    · rw [if_pos hb, if_pos hb]
      exact ih s c h0 (by omega) hlo hhi
    · rw [if_neg hb, if_neg hb]
      have hr := read_int32_range row (wrap32 (col_offset q.tpd1.cols k + 1))
      have hw64 : wrap64 (s + read_int32 row (wrap32 (col_offset q.tpd1.cols k + 1)))
          = s + read_int32 row (wrap32 (col_offset q.tpd1.cols k + 1)) := by
        apply wrap64_of_range <;> omega
      have hw32 : wrap32 (c + 1) = c + 1 := by
        apply wrap32_of_range <;> omega
      show List.foldl (fun st row => agg_step q f1 row af st)
        ⟨wrap64 (s + read_int32 row (wrap32 (col_offset q.tpd1.cols k + 1))),
          wrap32 (c + 1), some k, true⟩ rows = _
      rw [hw64, hw32, ih _ _ (by omega) (by omega) (by omega) (by omega)]
      rw [List.sum_cons, List.length_cons, Nat.cast_succ]
      congr 1 <;> ring

theorem agg_value_avg (n : Nat) (name : List Nat) (s : Int) (c : Nat) (idx : Option Nat)
    (b : Bool) :
    agg_value n (TokValue.F_AVG, name) ⟨0 + s, 0 + (c : Int), idx, b⟩ = Int.tdiv s c := by
  unfold agg_value
  rw [if_neg (fun h => by cases h), if_pos rfl]
  simp only [zero_add]
  by_cases h : (c : Int) > 0
  · rw [if_pos h]
  · rw [if_neg h]
    have : (c : Int) = 0 := by omega
    rw [this, Int.tdiv_zero]

/-- C8. For every result set, COUNT(*) equals the number of rows of the filtered (and, if
joined, paired) result set, whatever the rows hold; for an empty result set it yields 0. -/
theorem count_star_is_row_count :
    (∀ (q : Query) (fs : List Nat → Option TabFile) (f1 : TabFile) (vals : List Int) (a : Nat)
        (name : List Nat),
      fs q.table1 = some f1 →
      sem_select_exec q fs = SelectOutput.aggregates vals →
      q.agg_funcs[a]? = some (TokValue.F_COUNT, name) → is_star_name name = true →
      vals[a]? = some
          ((result_set q f1 (if q.has_join then fs q.table2 else none)).length : Int) ∧
      (result_set q f1 (if q.has_join then fs q.table2 else none) = [] → vals[a]? = some 0)) ∧
    (result_set select_avg_count v_empty_file none = [] ∧
      sem_select_exec select_avg_count (v_fs v_empty_file) = SelectOutput.aggregates [0, 0]) := by
  refine ⟨?_, by decide⟩
  intro q fs f1 vals a name hf1 hout ha hstar
  obtain ⟨st0, _, hval⟩ := select_aggregate_value q fs f1 vals a _ hf1 hout ha
  have hv : ∀ st, agg_value (result_set q f1 (if q.has_join then fs q.table2 else none)).length
      (TokValue.F_COUNT, name) st
      = ((result_set q f1 (if q.has_join then fs q.table2 else none)).length : Int) := by
    intro st
    unfold agg_value
    simp [hstar]
  rw [hv] at hval
  refine ⟨hval, ?_⟩
  intro hnil
  rw [hval, hnil]
  rfl

/-- Witness of C8: for `select avg(x), count(*) from v` over the records 10, 20, 3 the
second value printed is 3, the number of rows. -/
theorem count_star_is_row_count_witness :
    ([11, 3] : List Int)[1]? = some ((result_set select_avg_count v_file none).length : Int) :=
  (count_star_is_row_count.1 select_avg_count (v_fs v_file) v_file [11, 3] 1 [42]
    (by decide) (by decide) (by decide) (by decide)).1

theorem sem_insert_into_file (lookup : List Nat → Option tpd_entry)
    (fs : List Nat → Option TabFile) (toks : List token) (cur : Nat) (res : InsertResult)
    (t0 : token) (h0 : toks[cur]? = some t0)
    (h : sem_insert_into lookup fs toks cur = some res) :
    res.file = fs t0.tok_string ∨
    ∃ f row, fs t0.tok_string = some f ∧ f.hdr.num_records < 100 ∧
      res.file = some ⟨write_header { f.hdr with num_records := wrap32 (f.hdr.num_records + 1) },
        file_write f.data (row_pos f.hdr f.hdr.num_records) row⟩ := by
  by_cases hrc : res.rc = RC.OK
  · obtain ⟨t0', tpd, f, cur', row, g0, _, gf, hcap, _, _, hfile⟩ :=
      sem_insert_into_ok lookup fs toks cur res h hrc
    rw [h0] at g0
    cases g0
    exact Or.inr ⟨f, row, gf, hcap, hfile⟩
  · left
    unfold sem_insert_into at h
    simp only [List.get?_eq_getElem?, h0] at h
    split at h
    · cases h; rfl
    · cases hl : lookup t0.tok_string with
      | none => simp only [hl] at h; cases h; rfl
      | some tpd =>
        simp only [hl] at h
        cases h1 : toks[cur + 1]? with
        | none => simp [h1] at h
        | some t1 =>
          simp only [h1] at h
          split at h
          · cases h; rfl
          · cases h2 : toks[cur + 2]? with
            | none => simp [h2] at h
            | some t2 =>
              simp only [h2] at h
              split at h
              · cases h; rfl
              · cases hf : fs t0.tok_string with
                | none => simp only [hf] at h; cases h; rfl
                | some f =>
                  simp only [hf] at h
                  split at h
                  · cases h; rfl
                  · split at h
                    · cases h; rfl
                    · cases hloop : insert_loop toks tpd.cols (cur + 3)
                          (List.replicate f.hdr.record_size.toNat 0) 0 with
                      | none => simp [hloop] at h
                      | some r =>
                        cases r with
                        | fail rc mk => simp only [hloop] at h; cases h; rfl
                        | done cur' row =>
                          simp only [hloop] at h
                          cases he : toks[cur']? with
                          | none => simp [he] at h
                          | some te =>
                            simp only [he] at h
                            split at h
                            · cases h; rfl
                            · cases h
                              exact absurd rfl hrc

/-- C9. For every table file whose header has num_records >= 100 and every INSERT
`t VALUES ( ...` on the existing table t, `sem_insert_into` returns MEMORY_ERROR and leaves
the file, its header included, as it was; and whatever the statement, an INSERT on a file
whose num_records (an `int`) is at most 100 leaves num_records at most 100. -/
theorem insert_capacity_guard :
    (∀ (lookup : List Nat → Option tpd_entry) (fs : List Nat → Option TabFile)
        (toks : List token) (cur : Nat) (t0 t1 t2 : token) (tpd : tpd_entry) (f : TabFile),
      toks[cur]? = some t0 → is_name_token t0 = true → lookup t0.tok_string = some tpd →
      toks[cur + 1]? = some t1 → t1.tok_value = TokValue.K_VALUES →
      toks[cur + 2]? = some t2 → t2.tok_value = TokValue.S_LEFT_PAREN →
      fs t0.tok_string = some f → f.hdr.num_records ≥ 100 →
      sem_insert_into lookup fs toks cur = some ⟨RC.MEMORY_ERROR, none, some f⟩) ∧
    (∀ (lookup : List Nat → Option tpd_entry) (fs : List Nat → Option TabFile)
        (toks : List token) (cur : Nat) (t0 : token) (f : TabFile) (res : InsertResult),
      toks[cur]? = some t0 → fs t0.tok_string = some f →
      -2147483648 ≤ f.hdr.num_records → f.hdr.num_records ≤ 100 →
      sem_insert_into lookup fs toks cur = some res →
      ∃ f', res.file = some f' ∧ f'.hdr.num_records ≤ 100) := by
  constructor
  · intro lookup fs toks cur t0 t1 t2 tpd f h0 hn hl h1 hv h2 hp hf hcap
    unfold sem_insert_into
    simp only [List.get?_eq_getElem?, h0, hn, hl, h1, hv, h2, hp, hf]
    simp [hcap]
  · intro lookup fs toks cur t0 f res h0 hf hlo hhi h
    rcases sem_insert_into_file lookup fs toks cur res t0 h0 h with hsame | ⟨f', row, hf', hcap, hfile⟩
    · exact ⟨f, by rw [hsame, hf], hhi⟩
    · rw [hf] at hf'
      cases hf'
      refine ⟨_, hfile, ?_⟩
      show wrap32 (f.hdr.num_records + 1) ≤ 100
      rw [wrap32_of_range (by omega) (by omega)]
      omega

/-- Witness of C9: `insert into t1 values (1, 'abc')` on a file of `t1` that holds 100
records returns MEMORY_ERROR and leaves the file as it was. -/
theorem insert_capacity_guard_witness :
    sem_insert_into t1_lookup (t1_fs t1_full_file) insert_1_abc 0
      = some ⟨RC.MEMORY_ERROR, none, some t1_full_file⟩ :=
  insert_capacity_guard.1 t1_lookup (t1_fs t1_full_file) insert_1_abc 0
    ⟨[116, 49], TokClass.identifier, TokValue.IDENT⟩
    ⟨[118, 97, 108, 117, 101, 115], TokClass.keyword, TokValue.K_VALUES⟩
    ⟨[40], TokClass.symbol, TokValue.S_LEFT_PAREN⟩ t1_table t1_full_file
    (by decide) (by decide) (by decide) (by decide) (by decide) (by decide) (by decide)
    rfl (by decide)

theorem file_read_full (data buf : List Nat) (pos n : Int)
    (hc : pos.toNat + n.toNat ≤ data.length) (hb : buf.length ≤ n.toNat) :
    file_read data pos n buf = (data.drop pos.toNat).take n.toNat := by
  unfold file_read
  have hl : ((data.drop pos.toNat).take n.toNat).length = n.toNat := by
    rw [List.length_take, List.length_drop]
    omega
  dsimp only
  rw [hl, List.drop_eq_nil_of_le hb, List.append_nil]

theorem file_read_length (data buf : List Nat) (pos n : Int)
    (hc : pos.toNat + n.toNat ≤ data.length) (hb : buf.length ≤ n.toNat) :
    (file_read data pos n buf).length = n.toNat := by
  rw [file_read_full data buf pos n hc hb, List.length_take, List.length_drop]
  omega

theorem covers_index (f : TabFile) (hw : FileCovers f) (i : Nat)
    (hi : i < f.hdr.num_records.toNat) :
    (row_pos f.hdr i).toNat + f.hdr.record_size.toNat ≤ f.data.length := by
  obtain ⟨h1, h2, h3⟩ := hw
  unfold row_pos at *
  have hN : ((i : Int) + 1) ≤ f.hdr.num_records := by omega
  have hm : ((i : Int) + 1) * f.hdr.record_size ≤ f.hdr.num_records * f.hdr.record_size :=
    Int.mul_le_mul_of_nonneg_right hN h2
  have hi0 : 0 ≤ (i : Int) * f.hdr.record_size := Int.mul_nonneg (by omega) h2
  have e : ((i : Int) + 1) * f.hdr.record_size
      = (i : Int) * f.hdr.record_size + f.hdr.record_size := by ring
  omega

theorem scan_single_eq (q : Query) (f1 : TabFile) (hw : FileCovers f1) :
    ∀ (n i : Nat) (buf : List Nat), i + n ≤ f1.hdr.num_records.toNat →
      buf.length ≤ f1.hdr.record_size.toNat →
      scan_single q f1 i n buf
        = ((List.range' i n).map (fun (j : Nat) => record_at f1 (j : Int))).filter
            (fun r => where_match (fun c => eval c r q.tpd1) q.conditions) := by
  intro n
  induction n with
  | zero => intro i buf _ _; simp [scan_single]
  | succ n ih =>
    intro i buf hi hb
    have hc := covers_index f1 hw i (by omega)
    have hrec : file_read f1.data (row_pos f1.hdr i) f1.hdr.record_size buf
        = record_at f1 (i : Int) := by
      unfold record_at
      rw [file_read_full _ _ _ _ hc hb, file_read_full _ _ _ _ hc (by simp)]
    have hlen : (record_at f1 (i : Int)).length ≤ f1.hdr.record_size.toNat := by
      rw [← hrec, file_read_length _ _ _ _ hc hb]
    simp only [scan_single, hrec, List.range'_succ, List.map_cons, List.filter_cons]
    split
    · rw [ih (i + 1) _ (by omega) hlen]
    · rw [ih (i + 1) _ (by omega) hlen]

theorem scan_no_join (q : Query) (f1 : TabFile) (f2 : Option TabFile) (hj : q.tpd2 = none) :
    scan q f1 f2 = scan_single q f1 0 f1.hdr.num_records.toNat
      (List.replicate f1.hdr.record_size.toNat 0) := by
  unfold scan
  rw [hj]

theorem sort_results_no_order (q : Query) (f1 : TabFile) (results : List (List Nat))
    (ho : q.has_order = false) : sort_results q f1 results = results := by
  unfold sort_results
  rw [if_neg (by rw [ho]; simp)]

/-- C5 (the code at the failing input). For `select * from j1 natural join j2`, where
j1 (id int, a int) and j2 (id int, b int) share the column `id`, the list of output columns
that `sem_select` of Project-p2 builds is id, a, id, b: the common column `id` is listed
twice. The join printer `print_join_header` lists id, a, b for the same tables: `id`
once. -/
theorem star_join_lists_common_column_twice :
    find_common_columns j1_table j2_table = [(0, 0)] ∧
    (build_out_cols select_star_join).map (fun oc => oc.name) = [[105, 100], [97], [105, 100], [98]] ∧
    ((build_out_cols select_star_join).map (fun oc => oc.name)).count [105, 100] = 2 ∧
    print_join_header j1_table j2_table
        ((find_common_columns j1_table j2_table).map Prod.fst)
        ((find_common_columns j1_table j2_table).map Prod.snd)
        (find_common_columns j1_table j2_table).length = [[105, 100], [97], [98]] := by
  decide

/-! ## The catalog: lookup (C15) -/

theorem tolower_ne_zero (c : Nat) (h : c ≠ 0) : tolower c ≠ 0 := by
  unfold tolower
  split <;> omega

theorem strcasecmp_eq_zero_iff : ∀ (a b : List Nat), 0 ∉ a → 0 ∉ b →
    (strcasecmp a b = 0 ↔ eq_ignoring_case a b) := by
  intro a
  induction a with
  | nil =>
    intro b _ hb
    cases b with
    | nil => simp [strcasecmp, eq_ignoring_case]
    | cons y ys =>
      have hy : y ≠ 0 := fun e => hb (by simp [e])
      have := tolower_ne_zero y hy
      simp only [strcasecmp, eq_ignoring_case, List.map_nil, List.map_cons]
      constructor
      · intro h; omega
      · intro h; cases h
  | cons x xs ih =>
    intro b ha hb
    have hx : x ≠ 0 := fun e => ha (by simp [e])
    have hxs : 0 ∉ xs := fun h => ha (List.mem_cons_of_mem _ h)
    cases b with
    | nil =>
      have := tolower_ne_zero x hx
      simp only [strcasecmp, eq_ignoring_case, List.map_nil, List.map_cons]
      constructor
      · intro h; omega
      · intro h; cases h
    | cons y ys =>
      have hys : 0 ∉ ys := fun h => hb (List.mem_cons_of_mem _ h)
      simp only [strcasecmp, eq_ignoring_case, List.map_cons, List.cons.injEq]
      split
      · rename_i h
        rw [ih ys hxs hys]
        simp [eq_ignoring_case, h]
      · rename_i h
        constructor
        · intro h'; exfalso; apply h; omega
        · intro h'; exact absurd h'.1 h

theorem cstr_no_zero (buf : List Nat) : 0 ∉ cstr buf := by
  unfold cstr
  intro h
  have := List.mem_takeWhile_imp h
  simp at this

theorem cstr_append (X B : List Nat) (h : 0 ∈ X) : cstr (X ++ B) = cstr X := by
  unfold cstr
  induction X with
  | nil => simp at h
  | cons x xs ih =>
    by_cases hx : x = 0
    · subst hx
      simp [List.takeWhile]
    · have hmem : 0 ∈ xs := by
        rcases List.mem_cons.mp h with e | e
        · exact absurd e.symm hx
        · exact e
      simp only [List.cons_append, List.takeWhile_cons]
      have : (x != 0) = true := by simpa using hx
      rw [this]
      simp only [if_true]
      rw [ih hmem]

theorem table_name_at_entry (L : Layout) (A e B : List Nat)
    (hz : 0 ∈ e.drop L.off_table_name) :
    table_name_at L (A ++ e ++ B) (A.length : Int) = entry_name L e := by
  unfold entry_name table_name_at
  have e1 : ((A.length : Int) + (L.off_table_name : Int)).toNat = A.length + L.off_table_name := by
    omega
  have e2 : ((0 : Int) + (L.off_table_name : Int)).toNat = L.off_table_name := by omega
  have hle : L.off_table_name ≤ e.length := by
    by_contra hc
    rw [List.drop_eq_nil_of_le (by omega)] at hz
    simp at hz
  rw [e1, e2, List.append_assoc, List.drop_append_eq_append_drop, List.drop_eq_nil_of_le (by omega),
    List.nil_append]
  have e3 : A.length + L.off_table_name - A.length = L.off_table_name := by omega
  rw [e3, List.drop_append_eq_append_drop]
  exact cstr_append _ _ hz

theorem tpd_size_at_entry (L : Layout) (A e B : List Nat) (hs : L.off_tpd_size + 4 ≤ e.length) :
    tpd_size_at L (A ++ e ++ B) (A.length : Int) = tpd_size_at L e 0 := by
  unfold tpd_size_at
  have e1 : (A.length : Int) + (L.off_tpd_size : Int) = ((A.length + L.off_tpd_size : Nat) : Int) := by
    push_cast; rfl
  have e2 : (0 : Int) + (L.off_tpd_size : Int) = ((L.off_tpd_size : Nat) : Int) := by simp
  rw [e1, e2, List.append_assoc, read_int32_append_right, read_int32_append_left _ _ _ hs]

theorem flatten_cons_length (e : List Nat) (es : List (List Nat)) :
    (e :: es).flatten.length = e.length + es.flatten.length := by
  simp

theorem catalog_mem_cons (A x B : List Nat) (rest : List (List Nat)) :
    A ++ (x :: rest).flatten ++ B = (A ++ x) ++ rest.flatten ++ B := by
  simp

theorem get_tpd_loop_step (L : Layout) (tabname : List Nat) (x : List Nat)
    (rest : List (List Nat)) (A B : List Nat) (hx : EntryWF L x)
    (hm : strcasecmp (entry_name L x) tabname ≠ 0) :
    get_tpd_loop L (A ++ (x :: rest).flatten ++ B) tabname (x :: rest).length (A.length : Int)
      = get_tpd_loop L ((A ++ x) ++ rest.flatten ++ B) tabname rest.length
          (((A ++ x).length : Nat) : Int) := by
  obtain ⟨h1, h2, h3, h4, h5⟩ := hx
  have hmem : A ++ (x :: rest).flatten ++ B = A ++ x ++ (rest.flatten ++ B) := by simp
  have hname := table_name_at_entry L A x (rest.flatten ++ B) h4
  have hsize := tpd_size_at_entry L A x (rest.flatten ++ B) h2
  have hcast : (A.length : Int) + (x.length : Int) = (((A ++ x).length : Nat) : Int) := by
    simp
  rw [List.length_cons, get_tpd_loop, hmem, hname, hsize, h3, if_neg hm, hcast,
    ← List.append_assoc (A ++ x)]
  cases rest with
  | nil => simp [get_tpd_loop]
  | cons y ys => rw [if_pos (by simp)]

theorem get_tpd_loop_hit (L : Layout) (tabname : List Nat) (x : List Nat)
    (rest : List (List Nat)) (A B : List Nat) (hx : EntryWF L x)
    (hm : strcasecmp (entry_name L x) tabname = 0) :
    get_tpd_loop L (A ++ (x :: rest).flatten ++ B) tabname (x :: rest).length (A.length : Int)
      = some (A.length : Int) := by
  obtain ⟨h1, h2, h3, h4, h5⟩ := hx
  have hmem : A ++ (x :: rest).flatten ++ B = A ++ x ++ (rest.flatten ++ B) := by simp
  have hname := table_name_at_entry L A x (rest.flatten ++ B) h4
  rw [List.length_cons, get_tpd_loop, hmem, hname, if_pos hm]

theorem get_tpd_loop_none (L : Layout) (tabname : List Nat) :
    ∀ (es : List (List Nat)) (A B : List Nat), (∀ e ∈ es, EntryWF L e) →
      (∀ e ∈ es, strcasecmp (entry_name L e) tabname ≠ 0) →
      get_tpd_loop L (A ++ es.flatten ++ B) tabname es.length (A.length : Int) = none := by
  intro es
  induction es with
  | nil => intro A B _ _; simp [get_tpd_loop]
  | cons e es ih =>
    intro A B hwf hno
    rw [get_tpd_loop_step L tabname e es A B (hwf e (List.mem_cons_self _ _))
      (hno e (List.mem_cons_self _ _))]
    exact ih (A ++ e) B (fun x hx => hwf x (List.mem_cons_of_mem _ hx))
      (fun x hx => hno x (List.mem_cons_of_mem _ hx))

theorem get_tpd_loop_found (L : Layout) (tabname : List Nat) (e : List Nat)
    (post : List (List Nat)) (he : EntryWF L e)
    (hm : strcasecmp (entry_name L e) tabname = 0) :
    ∀ (pre : List (List Nat)) (A B : List Nat), (∀ x ∈ pre, EntryWF L x) →
      (∀ x ∈ pre, strcasecmp (entry_name L x) tabname ≠ 0) →
      get_tpd_loop L (A ++ (pre ++ e :: post).flatten ++ B) tabname (pre ++ e :: post).length
        (A.length : Int) = some ((A.length + pre.flatten.length : Nat) : Int) := by
  intro pre
  induction pre with
  | nil =>
    intro A B _ _
    rw [List.nil_append, get_tpd_loop_hit L tabname e post A B he hm]
    simp
  | cons x xs ih =>
    intro A B hwf hno
    rw [List.cons_append, get_tpd_loop_step L tabname x (xs ++ e :: post) A B
      (hwf x (List.mem_cons_self _ _)) (hno x (List.mem_cons_self _ _)),
      ih (A ++ x) B (fun y hy => hwf y (List.mem_cons_of_mem _ hy))
        (fun y hy => hno y (List.mem_cons_of_mem _ hy))]
    simp [Nat.add_assoc]

theorem exists_first (P : List Nat → Prop) [DecidablePred P] :
    ∀ es : List (List Nat), (∃ e ∈ es, P e) →
      ∃ pre e post, es = pre ++ e :: post ∧ P e ∧ ∀ x ∈ pre, ¬ P x := by
  intro es
  induction es with
  | nil => intro h; obtain ⟨e, he, _⟩ := h; simp at he
  | cons a as ih =>
    intro h
    by_cases ha : P a
    · exact ⟨[], a, as, rfl, ha, by simp⟩
    · obtain ⟨e, he, hp⟩ := h
      have : ∃ e ∈ as, P e := by
        rcases List.mem_cons.mp he with e1 | e1
        · subst e1; exact absurd hp ha
        · exact ⟨e, e1, hp⟩
      obtain ⟨pre, e', post, h1, h2, h3⟩ := ih this
      refine ⟨a :: pre, e', post, by rw [h1]; rfl, h2, ?_⟩
      intro x hx
      rcases List.mem_cons.mp hx with e1 | e1
      · subst e1; exact ha
      · exact h3 x e1

theorem entry_length_pos (L : Layout) (e : List Nat) (h : EntryWF L e) : 4 ≤ e.length := by
  obtain ⟨_, h2, _⟩ := h
  omega

theorem length_le_flatten_length (L : Layout) :
    ∀ es : List (List Nat), (∀ e ∈ es, EntryWF L e) → 4 * es.length ≤ es.flatten.length := by
  intro es
  induction es with
  | nil => intro _; simp
  | cons e es ih =>
    intro h
    have h1 := entry_length_pos L e (h e (List.mem_cons_self _ _))
    have h2 := ih (fun x hx => h x (List.mem_cons_of_mem _ hx))
    simp only [List.length_cons, List.flatten_cons, List.length_append]
    omega

theorem catalog_image_nonempty (L : Layout) (es : List (List Nat)) (h : es ≠ []) :
    catalog_image L es = (int32_bytes (tpd_start + es.flatten.length : Nat)
      ++ int32_bytes es.length) ++ es.flatten ++ [] := by
  unfold catalog_image
  rw [if_neg h, List.append_nil]

theorem header_length (a b : Int) : (int32_bytes a ++ int32_bytes b).length = tpd_start := rfl

theorem num_tables_header (a b : Int) (R : List Nat) :
    num_tables (int32_bytes a ++ int32_bytes b ++ R) = wrap32 b := by
  unfold num_tables
  have := read_int32_middle (int32_bytes a) R b
  rw [int32_bytes_length] at this
  exact this

theorem list_size_header (a b : Int) (R : List Nat) :
    list_size (int32_bytes a ++ int32_bytes b ++ R) = wrap32 a := by
  unfold list_size
  rw [List.append_assoc]
  exact read_int32_bytes a _

theorem num_tables_image (L : Layout) (es : List (List Nat)) (hwf : CatalogWF L es) :
    num_tables (catalog_image L es) = es.length := by
  have hl := length_le_flatten_length L es hwf.1
  have hb := hwf.2
  unfold catalog_image
  split
  · rename_i h
    rw [h, num_tables_header]
    rfl
  · rw [num_tables_header, wrap32_of_range (by omega) (by omega)]

theorem list_size_image (L : Layout) (es : List (List Nat)) (hwf : CatalogWF L es) :
    list_size (catalog_image L es) = ((catalog_image L es).length : Int) := by
  have hb := hwf.2
  have hs : sizeof_tpd_list L = 8 + L.sizeof_tpd_entry := rfl
  rw [hs] at hb
  unfold catalog_image
  split
  · rw [list_size_header, hs, wrap32_of_range (by omega) (by omega)]
    simp only [List.length_append, int32_bytes_length, List.length_replicate]
  · have ht : tpd_start = 8 := rfl
    rw [list_size_header, ht, wrap32_of_range (by omega) (by push_cast; omega)]
    simp only [List.length_append, int32_bytes_length]

theorem get_tpd_from_list_image (L : Layout) (es : List (List Nat)) (tabname : List Nat)
    (hwf : CatalogWF L es) :
    get_tpd_from_list L (catalog_image L es) tabname
      = get_tpd_loop L ((int32_bytes (tpd_start + es.flatten.length : Nat)
          ++ int32_bytes es.length) ++ es.flatten ++ []) tabname es.length
          ((int32_bytes (tpd_start + es.flatten.length : Nat)
          ++ int32_bytes es.length).length : Int) := by
  unfold get_tpd_from_list
  rw [num_tables_image L es hwf]
  by_cases h : es = []
  · subst h
    simp [get_tpd_loop]
  · rw [catalog_image_nonempty L es h, header_length]
    simp

/-- C15. For every well-formed catalog and every name, `get_tpd_from_list` returns the
first entry, in catalog order, whose table_name equals the name ignoring ASCII letter
case (the offset it returns is the start of that entry in the catalog image), and returns
no entry exactly when no such entry exists. -/
theorem get_tpd_returns_first_match (L : Layout) (entries : List (List Nat))
    (tabname : List Nat) (hwf : CatalogWF L entries) (hname : 0 ∉ tabname) :
    (∀ (pre : List (List Nat)) (e : List Nat) (post : List (List Nat)),
      entries = pre ++ e :: post → eq_ignoring_case (entry_name L e) tabname →
      (∀ x ∈ pre, ¬ eq_ignoring_case (entry_name L x) tabname) →
      get_tpd_from_list L (catalog_image L entries) tabname
          = some ((entry_offset entries pre.length : Nat) : Int) ∧
        fwrite_bytes (catalog_image L entries) (entry_offset entries pre.length) e.length = e) ∧
    (get_tpd_from_list L (catalog_image L entries) tabname = none ↔
      ∀ e ∈ entries, ¬ eq_ignoring_case (entry_name L e) tabname) := by
  have hiff : ∀ e : List Nat, strcasecmp (entry_name L e) tabname = 0
      ↔ eq_ignoring_case (entry_name L e) tabname :=
    fun e => strcasecmp_eq_zero_iff _ _ (cstr_no_zero _) hname
  have hfound : ∀ (pre : List (List Nat)) (e : List Nat) (post : List (List Nat)),
      entries = pre ++ e :: post → eq_ignoring_case (entry_name L e) tabname →
      (∀ x ∈ pre, ¬ eq_ignoring_case (entry_name L x) tabname) →
      get_tpd_from_list L (catalog_image L entries) tabname
          = some ((entry_offset entries pre.length : Nat) : Int) := by
    intro pre e post hsplit hm hno
    rw [get_tpd_from_list_image L entries tabname hwf]
    subst hsplit
    rw [get_tpd_loop_found L tabname e post (hwf.1 e (by simp)) ((hiff e).mpr hm) pre _ _
      (fun x hx => hwf.1 x (by simp [hx])) (fun x hx h => hno x hx ((hiff x).mp h))]
    unfold entry_offset
    rw [header_length, List.take_left' rfl]
  constructor
  · intro pre e post hsplit hm hno
    refine ⟨hfound pre e post hsplit hm hno, ?_⟩
    subst hsplit
    have hne : pre ++ e :: post ≠ [] := by simp
    rw [catalog_image_nonempty L _ hne]
    unfold entry_offset fwrite_bytes
    rw [List.take_left' rfl]
    have e1 : (int32_bytes (tpd_start + (pre ++ e :: post).flatten.length : Nat)
          ++ int32_bytes (pre ++ e :: post).length) ++ (pre ++ e :: post).flatten ++ []
        = ((int32_bytes (tpd_start + (pre ++ e :: post).flatten.length : Nat)
          ++ int32_bytes (pre ++ e :: post).length) ++ pre.flatten) ++ e ++ post.flatten := by
      simp
    have e2 : ((tpd_start + pre.flatten.length : Nat) : Int)
        = (((int32_bytes (tpd_start + (pre ++ e :: post).flatten.length : Nat)
          ++ int32_bytes (pre ++ e :: post).length) ++ pre.flatten).length : Int) := by
      rw [List.length_append, header_length]
    rw [e1, e2, Int.toNat_ofNat]
    exact slice_middle _ _ _
  · constructor
    · intro hnone e he hm
      obtain ⟨pre, e', post, h1, h2, h3⟩ :=
        exists_first (fun x => eq_ignoring_case (entry_name L x) tabname) entries ⟨e, he, hm⟩
      rw [hfound pre e' post h1 h2 h3] at hnone
      cases hnone
    · intro hno
      rw [get_tpd_from_list_image L entries tabname hwf]
      exact get_tpd_loop_none L tabname entries _ _ hwf.1
        (fun x hx h => hno x hx ((hiff x).mp h))

theorem write_int32_at4 (a b v : Int) (R : List Nat) :
    write_int32 (int32_bytes a ++ int32_bytes b ++ R) 4 v
      = int32_bytes a ++ int32_bytes v ++ R := by
  unfold write_int32
  have := memcpy_append (int32_bytes v) (int32_bytes a) (int32_bytes b) R rfl
  rw [int32_bytes_length] at this
  exact this

theorem write_int32_at0 (a v : Int) (R : List Nat) :
    write_int32 (int32_bytes a ++ R) 0 v = int32_bytes v ++ R := by
  unfold write_int32
  have := memcpy_append (int32_bytes v) [] (int32_bytes a) R rfl
  simpa using this

theorem drop_tpd_loop_step (L : Layout) (tabname : List Nat) (x : List Nat)
    (rest : List (List Nat)) (A B : List Nat) (count : Nat) (hx : EntryWF L x)
    (hm : strcasecmp (entry_name L x) tabname ≠ 0) :
    drop_tpd_loop L (A ++ (x :: rest).flatten ++ B) tabname (x :: rest).length (A.length : Int)
        count
      = drop_tpd_loop L ((A ++ x) ++ rest.flatten ++ B) tabname rest.length
          (((A ++ x).length : Nat) : Int) (count + 1) := by
  obtain ⟨h1, h2, h3, h4, h5⟩ := hx
  have hmem : A ++ (x :: rest).flatten ++ B = A ++ x ++ (rest.flatten ++ B) := by simp
  have hname := table_name_at_entry L A x (rest.flatten ++ B) h4
  have hsize := tpd_size_at_entry L A x (rest.flatten ++ B) h2
  have hcast : (A.length : Int) + (x.length : Int) = (((A ++ x).length : Nat) : Int) := by
    simp
  rw [List.length_cons, drop_tpd_loop, hmem, hname, hsize, h3, if_neg hm, hcast,
    ← List.append_assoc (A ++ x)]
  cases rest with
  | nil => simp [drop_tpd_loop]
  | cons y ys => rw [if_pos (by simp)]

theorem drop_tpd_loop_none (L : Layout) (tabname : List Nat) :
    ∀ (es : List (List Nat)) (A B : List Nat) (count : Nat), (∀ e ∈ es, EntryWF L e) →
      (∀ e ∈ es, strcasecmp (entry_name L e) tabname ≠ 0) →
      drop_tpd_loop L (A ++ es.flatten ++ B) tabname es.length (A.length : Int) count = none := by
  intro es
  induction es with
  | nil => intro A B count _ _; simp [drop_tpd_loop]
  | cons e es ih =>
    intro A B count hwf hno
    rw [drop_tpd_loop_step L tabname e es A B count (hwf e (List.mem_cons_self _ _))
      (hno e (List.mem_cons_self _ _))]
    exact ih (A ++ e) B _ (fun x hx => hwf x (List.mem_cons_of_mem _ hx))
      (fun x hx => hno x (List.mem_cons_of_mem _ hx))

theorem drop_tpd_loop_found (L : Layout) (tabname : List Nat) (e : List Nat)
    (post : List (List Nat)) (he : EntryWF L e)
    (hm : strcasecmp (entry_name L e) tabname = 0) :
    ∀ (pre : List (List Nat)) (A B : List Nat) (count : Nat), (∀ x ∈ pre, EntryWF L x) →
      (∀ x ∈ pre, strcasecmp (entry_name L x) tabname ≠ 0) →
      drop_tpd_loop L (A ++ (pre ++ e :: post).flatten ++ B) tabname (pre ++ e :: post).length
        (A.length : Int) count
        = some (drop_found L (A ++ (pre ++ e :: post).flatten ++ B)
            ((A.length + pre.flatten.length : Nat) : Int) (count + pre.length)) := by
  intro pre
  induction pre with
  | nil =>
    intro A B count _ _
    obtain ⟨h1, h2, h3, h4, h5⟩ := he
    have hmem : A ++ (e :: post).flatten ++ B = A ++ e ++ (post.flatten ++ B) := by simp
    have hname := table_name_at_entry L A e (post.flatten ++ B) h4
    rw [List.nil_append, List.length_cons, drop_tpd_loop, hmem, hname, if_pos hm]
    simp
  | cons x xs ih =>
    intro A B count hwf hno
    rw [List.cons_append, drop_tpd_loop_step L tabname x (xs ++ e :: post) A B count
      (hwf x (List.mem_cons_self _ _)) (hno x (List.mem_cons_self _ _)),
      ih (A ++ x) B (count + 1) (fun y hy => hwf y (List.mem_cons_of_mem _ hy))
        (fun y hy => hno y (List.mem_cons_of_mem _ hy))]
    have e1 : (A ++ x).length + xs.flatten.length = A.length + (x :: xs).flatten.length := by
      simp [Nat.add_assoc]
    have e2 : count + 1 + xs.length = count + (x :: xs).length := by
      simp; omega
    have e3 : A ++ x ++ (xs ++ e :: post).flatten ++ B
        = A ++ (x :: (xs ++ e :: post)).flatten ++ B := by simp
    rw [e1, e2, e3]

theorem tpd_size_in_image (L : Layout) (a b : Int) (P e Q : List Nat) (he : EntryWF L e) :
    tpd_size_at L (int32_bytes a ++ int32_bytes b ++ (P ++ e ++ Q)) ((8 + P.length : Nat) : Int)
      = (e.length : Int) := by
  have h := tpd_size_at_entry L (int32_bytes a ++ int32_bytes b ++ P) e Q he.2.1
  have el : (int32_bytes a ++ int32_bytes b ++ P).length = 8 + P.length := by
    rw [List.length_append, header_length]
    rfl
  rw [el] at h
  have em : int32_bytes a ++ int32_bytes b ++ P ++ e ++ Q
      = int32_bytes a ++ int32_bytes b ++ (P ++ e ++ Q) := by simp
  rw [em] at h
  rw [h, he.2.2.1]

theorem fwrite_prefix (M B : List Nat) (n : Int) (hn : n = (M.length : Int)) :
    fwrite_bytes (M ++ B) 0 n = M := by
  unfold fwrite_bytes
  rw [hn, Int.toNat_ofNat]
  exact slice_prefix M B

theorem fwrite_middle (A M B : List Nat) (off n : Int) (ho : off = (A.length : Int))
    (hn : n = (M.length : Int)) :
    fwrite_bytes (A ++ M ++ B) off n = M := by
  unfold fwrite_bytes
  rw [hn, ho, Int.toNat_ofNat]
  exact slice_middle A M B

theorem fwrite_suffix (A M : List Nat) (off n : Int) (ho : off = (A.length : Int))
    (hn : n = (M.length : Int)) :
    fwrite_bytes (A ++ M) off n = M := by
  have := fwrite_middle A M [] off n ho hn
  rwa [List.append_nil] at this

theorem image_split (L : Layout) (pre : List (List Nat)) (e : List Nat)
    (post : List (List Nat)) :
    catalog_image L (pre ++ e :: post)
      = int32_bytes ((8 + (pre.flatten.length + e.length + post.flatten.length) : Nat) : Int)
        ++ int32_bytes ((pre.length + 1 + post.length : Nat) : Int)
        ++ (pre.flatten ++ e ++ post.flatten) := by
  unfold catalog_image
  rw [if_neg (by simp)]
  have e1 : (pre ++ e :: post).flatten = pre.flatten ++ e ++ post.flatten := by simp
  have e2 : (pre ++ e :: post).length = pre.length + 1 + post.length := by simp; omega
  have e3 : (pre.flatten ++ e ++ post.flatten).length
      = pre.flatten.length + e.length + post.flatten.length := by
    simp only [List.length_append]
  rw [e1, e2, e3]
  rfl

theorem image_of_parts (L : Layout) (es : List (List Nat)) (h : es ≠ []) :
    catalog_image L es
      = int32_bytes ((8 + es.flatten.length : Nat) : Int) ++ int32_bytes (es.length : Int)
        ++ es.flatten := by
  unfold catalog_image
  rw [if_neg h]
  rfl

theorem wrap32_nat (n : Nat) (h : n < 2147483648) : wrap32 (n : Int) = (n : Int) :=
  wrap32_of_range (by omega) (by omega)

theorem write_int32_hdr0 (a b v : Int) (R : List Nat) :
    write_int32 (int32_bytes a ++ int32_bytes b ++ R) 0 v
      = int32_bytes v ++ int32_bytes b ++ R := by
  rw [List.append_assoc, write_int32_at0, List.append_assoc]

theorem drop_found_middle (L : Layout) (P e Q : List Nat) (np nq : Nat) (he : EntryWF L e)
    (hnp : 0 < np)
    (hfit : 8 + (P.length + e.length + Q.length) < 2147483648)
    (hn : np + 1 + nq < 2147483648) :
    (drop_found L (int32_bytes ((8 + (P.length + e.length + Q.length) : Nat) : Int)
        ++ int32_bytes ((np + 1 + nq : Nat) : Int) ++ (P ++ e ++ Q))
        ((8 + P.length : Nat) : Int) np).2
      = int32_bytes ((8 + (P.length + Q.length) : Nat) : Int)
        ++ int32_bytes ((np + nq : Nat) : Int) ++ (P ++ Q) := by
  unfold drop_found
  rw [if_neg (by omega)]
  simp only [num_tables_header, list_size_header, write_int32_at4,
    tpd_size_in_image L _ _ P e Q he]
  simp only [wrap32_nat _ hn, wrap32_nat _ hfit]
  have e1 : wrap32 (((np + 1 + nq : Nat) : Int) - 1) = ((np + nq : Nat) : Int) := by
    rw [wrap32_of_range (by omega) (by omega)]
    push_cast
    ring
  have e2 : wrap32 (((8 + (P.length + e.length + Q.length) : Nat) : Int) - (e.length : Int))
      = ((8 + (P.length + Q.length) : Nat) : Int) := by
    rw [wrap32_of_range (by omega) (by omega)]
    push_cast
    ring
  simp only [e1, e2, write_int32_hdr0, list_size_header, tpd_size_in_image L _ _ P e Q he]
  rw [wrap32_nat _ (by omega)]
  have hpre : fwrite_bytes (int32_bytes ((8 + (P.length + Q.length) : Nat) : Int)
      ++ int32_bytes ((np + nq : Nat) : Int) ++ (P ++ e ++ Q)) 0 ((8 + P.length : Nat) : Int)
      = int32_bytes ((8 + (P.length + Q.length) : Nat) : Int)
        ++ int32_bytes ((np + nq : Nat) : Int) ++ P := by
    have em : int32_bytes ((8 + (P.length + Q.length) : Nat) : Int)
        ++ int32_bytes ((np + nq : Nat) : Int) ++ (P ++ e ++ Q)
        = (int32_bytes ((8 + (P.length + Q.length) : Nat) : Int)
        ++ int32_bytes ((np + nq : Nat) : Int) ++ P) ++ (e ++ Q) := by simp
    rw [em]
    apply fwrite_prefix
    rw [List.length_append, header_length]
    rfl
  rw [hpre]
  by_cases hq : Q.length = 0
  · have hQ : Q = [] := List.length_eq_zero.mp hq
    subst hQ
    rw [if_pos (by simp)]
    simp
  · rw [if_neg (by push_cast; omega)]
    have hsuf : fwrite_bytes (int32_bytes ((8 + (P.length + Q.length) : Nat) : Int)
        ++ int32_bytes ((np + nq : Nat) : Int) ++ (P ++ e ++ Q))
        (((8 + P.length : Nat) : Int) + (e.length : Int))
        (((8 + (P.length + e.length + Q.length) : Nat) : Int) - (e.length : Int)
          - ((8 + P.length : Nat) : Int)) = Q := by
      have em : int32_bytes ((8 + (P.length + Q.length) : Nat) : Int)
          ++ int32_bytes ((np + nq : Nat) : Int) ++ (P ++ e ++ Q)
          = (int32_bytes ((8 + (P.length + Q.length) : Nat) : Int)
          ++ int32_bytes ((np + nq : Nat) : Int) ++ P ++ e) ++ Q := by simp
      rw [em]
      apply fwrite_suffix
      · rw [List.length_append, List.length_append, header_length]
        have : tpd_start = 8 := rfl
        rw [this]
        push_cast
        ring
      · push_cast
        ring
    rw [hsuf]
    simp

theorem int32_bytes_zero : int32_bytes 0 = List.replicate 4 0 := by decide

theorem drop_found_only_eq (L : Layout) (g : List Nat) (cur : Int) (count : Nat)
    (hc : count = 0) (h : num_tables (write_int32 g 4 (wrap32 (num_tables g - 1))) = 0) :
    drop_found L g cur count
      = (write_int32 (memcpy (write_int32 g 4 (wrap32 (num_tables g - 1))) 0
          (List.replicate (sizeof_tpd_list L) 0)) 0 (sizeof_tpd_list L),
        fwrite_bytes (write_int32 (memcpy (write_int32 g 4 (wrap32 (num_tables g - 1))) 0
          (List.replicate (sizeof_tpd_list L) 0)) 0 (sizeof_tpd_list L)) 0 (sizeof_tpd_list L)) := by
  subst hc
  unfold drop_found
  rw [if_pos rfl]
  exact if_pos h

theorem drop_found_first_eq (L : Layout) (g : List Nat) (cur : Int) (count : Nat)
    (hc : count = 0) (h : num_tables (write_int32 g 4 (wrap32 (num_tables g - 1))) ≠ 0)
    (g1 g2 : List Nat) (h1 : g1 = write_int32 g 4 (wrap32 (num_tables g - 1)))
    (h2 : g2 = write_int32 g1 0 (wrap32 (list_size g1 - tpd_size_at L g1 cur))) :
    drop_found L g cur count
      = (g2, fwrite_bytes g2 0 tpd_start ++
        fwrite_bytes g2 (cur + tpd_size_at L g2 cur)
          (list_size g - tpd_size_at L g2 cur - tpd_start)) := by
  subst hc h2 h1
  unfold drop_found
  rw [if_pos rfl]
  exact if_neg h

theorem drop_found_only (L : Layout) (e : List Nat) (he : EntryWF L e) (cur : Int)
    (count : Nat) (hc : count = 0) :
    (drop_found L (int32_bytes ((8 + e.length : Nat) : Int) ++ int32_bytes ((1 : Nat) : Int) ++ e)
        cur count).2
      = catalog_image L [] := by
  have e1 : wrap32 (wrap32 ((1 : Nat) : Int) - 1) = 0 := by decide
  have e2 : wrap32 (0 : Int) = 0 := by decide
  rw [drop_found_only_eq L _ cur count hc
    (by rw [num_tables_header, e1, write_int32_at4, num_tables_header, e2])]
  show fwrite_bytes _ _ _ = _
  rw [num_tables_header, e1, write_int32_at4]
  generalize ((8 + e.length : Nat) : Int) = a
  obtain ⟨e₁, e₂, hsplit, hlen⟩ : ∃ e₁ e₂, e = e₁ ++ e₂ ∧ e₁.length = L.sizeof_tpd_entry :=
    ⟨e.take L.sizeof_tpd_entry, e.drop L.sizeof_tpd_entry, (List.take_append_drop _ _).symm,
      List.length_take_of_le he.1⟩
  have hz : List.replicate (sizeof_tpd_list L) 0
      = int32_bytes 0 ++ int32_bytes 0 ++ List.replicate L.sizeof_tpd_entry 0 := by
    rw [int32_bytes_zero, ← List.replicate_add, ← List.replicate_add]
    unfold sizeof_tpd_list tpd_start
    rfl
  have hm : memcpy (int32_bytes a ++ int32_bytes 0 ++ e) 0
      (List.replicate (sizeof_tpd_list L) 0)
      = int32_bytes 0 ++ int32_bytes 0 ++ List.replicate L.sizeof_tpd_entry 0 ++ e₂ := by
    have := memcpy_append (List.replicate (sizeof_tpd_list L) 0) []
      (int32_bytes a ++ int32_bytes 0 ++ e₁) e₂
      (by rw [List.length_append, header_length, hlen, List.length_replicate]; rfl)
    rw [hsplit]
    rw [List.nil_append, List.nil_append, List.length_nil, Nat.cast_zero,
      List.append_assoc _ e₁ e₂] at this
    rw [this, hz]
  rw [hm]
  have hw : write_int32 (int32_bytes 0 ++ int32_bytes 0 ++ List.replicate L.sizeof_tpd_entry 0 ++ e₂)
      0 (sizeof_tpd_list L)
      = (int32_bytes (sizeof_tpd_list L) ++ int32_bytes 0 ++ List.replicate L.sizeof_tpd_entry 0)
        ++ e₂ := by
    have := write_int32_hdr0 0 0 (sizeof_tpd_list L) (List.replicate L.sizeof_tpd_entry 0 ++ e₂)
    rw [← List.append_assoc] at this
    exact this
  rw [hw]
  unfold catalog_image
  rw [if_pos rfl]
  apply fwrite_prefix
  rw [List.length_append, header_length, List.length_replicate]
  rfl

theorem drop_found_first (L : Layout) (e Q : List Nat) (nq : Nat) (he : EntryWF L e)
    (hnq : 0 < nq)
    (hfit : 8 + (e.length + Q.length) < 2147483648)
    (hn : 1 + nq < 2147483648) (cur : Int) (count : Nat) (hc : count = 0)
    (hcur : cur = ((8 : Nat) : Int)) :
    (drop_found L (int32_bytes ((8 + (e.length + Q.length) : Nat) : Int)
        ++ int32_bytes ((1 + nq : Nat) : Int) ++ (e ++ Q))
        cur count).2
      = int32_bytes ((8 + Q.length : Nat) : Int) ++ int32_bytes (nq : Int) ++ Q := by
  have hts : ∀ a b : Int, tpd_size_at L (int32_bytes a ++ int32_bytes b ++ (e ++ Q)) cur
      = (e.length : Int) := by
    intro a b
    rw [hcur]
    exact tpd_size_in_image L a b [] e Q he
  have e1 : wrap32 (wrap32 ((1 + nq : Nat) : Int) - 1) = (nq : Int) := by
    rw [wrap32_nat _ hn, wrap32_of_range (by omega) (by omega)]
    push_cast
    ring
  have e2 : wrap32 (wrap32 ((8 + (e.length + Q.length) : Nat) : Int) - (e.length : Int))
      = ((8 + Q.length : Nat) : Int) := by
    rw [wrap32_nat _ hfit, wrap32_of_range (by omega) (by omega)]
    push_cast
    ring
  have hg1 : write_int32 (int32_bytes ((8 + (e.length + Q.length) : Nat) : Int)
        ++ int32_bytes ((1 + nq : Nat) : Int) ++ (e ++ Q)) 4
        (wrap32 (num_tables (int32_bytes ((8 + (e.length + Q.length) : Nat) : Int)
        ++ int32_bytes ((1 + nq : Nat) : Int) ++ (e ++ Q)) - 1))
      = int32_bytes ((8 + (e.length + Q.length) : Nat) : Int) ++ int32_bytes (nq : Int)
        ++ (e ++ Q) := by
    rw [num_tables_header, e1, write_int32_at4]
  have hg2 : int32_bytes ((8 + Q.length : Nat) : Int) ++ int32_bytes (nq : Int) ++ (e ++ Q)
      = write_int32 (int32_bytes ((8 + (e.length + Q.length) : Nat) : Int)
          ++ int32_bytes (nq : Int) ++ (e ++ Q)) 0
        (wrap32 (list_size (int32_bytes ((8 + (e.length + Q.length) : Nat) : Int)
          ++ int32_bytes (nq : Int) ++ (e ++ Q))
          - tpd_size_at L (int32_bytes ((8 + (e.length + Q.length) : Nat) : Int)
          ++ int32_bytes (nq : Int) ++ (e ++ Q)) cur)) := by
    rw [list_size_header, hts, e2, write_int32_hdr0]
  rw [drop_found_first_eq L _ cur count hc
    (by rw [hg1, num_tables_header, wrap32_nat nq (by omega)]; omega) _ _ hg1.symm hg2]
  show fwrite_bytes _ _ _ ++ fwrite_bytes _ _ _ = _
  rw [hts, list_size_header, wrap32_nat _ hfit]
  have hpre : fwrite_bytes (int32_bytes ((8 + Q.length : Nat) : Int) ++ int32_bytes (nq : Int)
      ++ (e ++ Q)) 0 (tpd_start : Int)
      = int32_bytes ((8 + Q.length : Nat) : Int) ++ int32_bytes (nq : Int) :=
    fwrite_prefix _ _ _ (by rw [header_length])
  have hsuf : fwrite_bytes (int32_bytes ((8 + Q.length : Nat) : Int) ++ int32_bytes (nq : Int)
      ++ (e ++ Q)) (cur + (e.length : Int))
      (((8 + (e.length + Q.length) : Nat) : Int) - (e.length : Int) - (tpd_start : Int)) = Q := by
    have em : int32_bytes ((8 + Q.length : Nat) : Int) ++ int32_bytes (nq : Int) ++ (e ++ Q)
        = (int32_bytes ((8 + Q.length : Nat) : Int) ++ int32_bytes (nq : Int) ++ e) ++ Q := by
      simp
    rw [em]
    apply fwrite_suffix
    · rw [List.length_append, header_length, hcur]
      have : tpd_start = 8 := rfl
      rw [this]
      push_cast
      ring
    · have : tpd_start = 8 := rfl
      rw [this]
      push_cast
      ring
  rw [hpre, hsuf]

theorem drop_found_image (L : Layout) (pre : List (List Nat)) (e : List Nat)
    (post : List (List Nat)) (hwf : CatalogWF L (pre ++ e :: post)) (cur : Int) (count : Nat)
    (hcur : cur = ((8 + pre.flatten.length : Nat) : Int)) (hcount : count = pre.length) :
    (drop_found L (catalog_image L (pre ++ e :: post)) cur count).2
      = catalog_image L (pre ++ post) := by
  have he : EntryWF L e := hwf.1 e (by simp)
  have hb := hwf.2
  have hl := length_le_flatten_length L _ hwf.1
  have hs : sizeof_tpd_list L = 8 + L.sizeof_tpd_entry := rfl
  have e1 : (pre ++ e :: post).flatten.length
      = pre.flatten.length + e.length + post.flatten.length := by
    simp only [List.flatten_append, List.flatten_cons, List.length_append]
    omega
  have e2 : (pre ++ e :: post).length = pre.length + 1 + post.length := by
    simp only [List.length_append, List.length_cons]
    omega
  rw [hs, e1] at hb
  rw [e1, e2] at hl
  rw [image_split]
  cases pre with
  | nil =>
    cases post with
    | nil =>
      have := drop_found_only L e he cur count hcount
      have hi : int32_bytes ((8 + (([] : List (List Nat)).flatten.length + e.length
            + ([] : List (List Nat)).flatten.length) : Nat) : Int)
          ++ int32_bytes ((([] : List (List Nat)).length + 1
            + ([] : List (List Nat)).length : Nat) : Int)
          ++ (([] : List (List Nat)).flatten ++ e ++ ([] : List (List Nat)).flatten)
          = int32_bytes ((8 + e.length : Nat) : Int) ++ int32_bytes ((1 : Nat) : Int) ++ e := by
        simp only [List.flatten_nil, List.length_nil, List.nil_append, List.append_nil,
          Nat.zero_add, Nat.add_zero]
      rw [hi, this]
      rfl
    | cons p ps =>
      have := drop_found_first L e (p :: ps).flatten (p :: ps).length he (by simp)
        (by simp only [List.flatten_nil, List.length_nil] at hb; omega)
        (by simp only [List.length_nil] at hl; omega) cur count hcount
        (by rw [hcur]; rfl)
      have hi : int32_bytes ((8 + (([] : List (List Nat)).flatten.length + e.length
            + (p :: ps).flatten.length) : Nat) : Int)
          ++ int32_bytes ((([] : List (List Nat)).length + 1 + (p :: ps).length : Nat) : Int)
          ++ (([] : List (List Nat)).flatten ++ e ++ (p :: ps).flatten)
          = int32_bytes ((8 + (e.length + (p :: ps).flatten.length) : Nat) : Int)
            ++ int32_bytes ((1 + (p :: ps).length : Nat) : Int) ++ (e ++ (p :: ps).flatten) := by
        simp only [List.flatten_nil, List.length_nil, List.nil_append, Nat.zero_add]
      rw [hi, this, List.nil_append, image_of_parts L (p :: ps) (by simp)]
  | cons p ps =>
    have := drop_found_middle L (p :: ps).flatten e post.flatten (p :: ps).length post.length he
      (by simp) (by omega) (by omega)
    have ho : catalog_image L (p :: ps ++ post)
        = int32_bytes ((8 + ((p :: ps).flatten.length + post.flatten.length) : Nat) : Int)
          ++ int32_bytes (((p :: ps).length + post.length : Nat) : Int)
          ++ ((p :: ps).flatten ++ post.flatten) := by
      rw [image_of_parts L _ (by simp)]
      simp only [List.flatten_append, List.length_append]
    rw [hcur, hcount, this, ho]

theorem drop_tpd_from_list_of_some (L : Layout) (g : List Nat) (tabname : List Nat) (n : Nat)
    (p : List Nat × List Nat) (hn : (num_tables g).toNat = n)
    (h : drop_tpd_loop L g tabname n tpd_start 0 = some p) :
    drop_tpd_from_list L g tabname = (RC.OK, p.1, some p.2) := by
  unfold drop_tpd_from_list
  rw [hn, h]
  rfl

theorem drop_tpd_from_list_of_none (L : Layout) (g : List Nat) (tabname : List Nat) (n : Nat)
    (hn : (num_tables g).toNat = n)
    (h : drop_tpd_loop L g tabname n tpd_start 0 = none) :
    drop_tpd_from_list L g tabname = (RC.INVALID_TABLE_NAME, g, none) := by
  unfold drop_tpd_from_list
  rw [hn, h]
  rfl

theorem drop_tpd_from_list_found (L : Layout) (pre : List (List Nat)) (e : List Nat)
    (post : List (List Nat)) (tabname : List Nat) (hwf : CatalogWF L (pre ++ e :: post))
    (hname : 0 ∉ tabname)
    (hm : eq_ignoring_case (entry_name L e) tabname)
    (hpre : ∀ x ∈ pre, ¬ eq_ignoring_case (entry_name L x) tabname) :
    ∃ g, drop_tpd_from_list L (catalog_image L (pre ++ e :: post)) tabname
      = (RC.OK, g, some (catalog_image L (pre ++ post))) := by
  have hiff : ∀ x : List Nat, strcasecmp (entry_name L x) tabname = 0
      ↔ eq_ignoring_case (entry_name L x) tabname :=
    fun x => strcasecmp_eq_zero_iff _ _ (cstr_no_zero _) hname
  have he : EntryWF L e := hwf.1 e (by simp)
  have hloop := drop_tpd_loop_found L tabname e post he ((hiff e).mpr hm) pre
    (int32_bytes (tpd_start + (pre ++ e :: post).flatten.length : Nat)
      ++ int32_bytes (pre ++ e :: post).length) [] 0
    (fun x hx => hwf.1 x (by simp [hx])) (fun x hx h => hpre x hx ((hiff x).mp h))
  rw [← catalog_image_nonempty L _ (by simp), header_length] at hloop
  have himg := drop_found_image L pre e post hwf ((tpd_start + pre.flatten.length : Nat) : Int)
    (0 + pre.length) rfl (by omega)
  have hn : (num_tables (catalog_image L (pre ++ e :: post))).toNat = (pre ++ e :: post).length := by
    rw [num_tables_image L _ hwf, Int.toNat_ofNat]
  have := drop_tpd_from_list_of_some L _ tabname _ _ hn hloop
  rw [himg] at this
  exact ⟨_, this⟩

theorem drop_tpd_from_list_none (L : Layout) (es : List (List Nat)) (tabname : List Nat)
    (hwf : CatalogWF L es) (hname : 0 ∉ tabname)
    (hno : ∀ x ∈ es, ¬ eq_ignoring_case (entry_name L x) tabname) :
    drop_tpd_from_list L (catalog_image L es) tabname
      = (RC.INVALID_TABLE_NAME, catalog_image L es, none) := by
  have hiff : ∀ x : List Nat, strcasecmp (entry_name L x) tabname = 0
      ↔ eq_ignoring_case (entry_name L x) tabname :=
    fun x => strcasecmp_eq_zero_iff _ _ (cstr_no_zero _) hname
  have hn : (num_tables (catalog_image L es)).toNat = es.length := by
    rw [num_tables_image L _ hwf, Int.toNat_ofNat]
  by_cases h : es = []
  · subst h
    exact drop_tpd_from_list_of_none L _ tabname 0 hn (by unfold drop_tpd_loop; rfl)
  · have hloop := drop_tpd_loop_none L tabname es
      (int32_bytes (tpd_start + es.flatten.length : Nat) ++ int32_bytes es.length) [] 0
      hwf.1 (fun x hx h => hno x hx ((hiff x).mp h))
    rw [← catalog_image_nonempty L _ h, header_length] at hloop
    exact drop_tpd_from_list_of_none L _ tabname _ hn hloop

theorem add_tpd_empty_eq (L : Layout) (g tpd : List Nat) (h : num_tables g = 0)
    (g1 g2 : List Nat) (h1 : g1 = write_int32 g 4 (wrap32 (num_tables g + 1)))
    (h2 : g2 = write_int32 g1 0
      (wrap32 (list_size g1 + (tpd_size_at L tpd 0 - (L.sizeof_tpd_entry : Int))))) :
    add_tpd_to_list L g tpd
      = (g2, fwrite_bytes g2 0 (list_size g - (L.sizeof_tpd_entry : Int))
          ++ fwrite_bytes tpd 0 (tpd_size_at L tpd 0)) := by
  subst h2 h1
  unfold add_tpd_to_list
  exact if_pos h

theorem add_tpd_append_eq (L : Layout) (g tpd : List Nat) (h : num_tables g ≠ 0)
    (g1 g2 : List Nat) (h1 : g1 = write_int32 g 4 (wrap32 (num_tables g + 1)))
    (h2 : g2 = write_int32 g1 0 (wrap32 (list_size g1 + tpd_size_at L tpd 0))) :
    add_tpd_to_list L g tpd
      = (g2, fwrite_bytes g2 0 (list_size g) ++ fwrite_bytes tpd 0 (tpd_size_at L tpd 0)) := by
  subst h2 h1
  unfold add_tpd_to_list
  exact if_neg h

theorem fwrite_whole (M : List Nat) (n : Int) (hn : n = (M.length : Int)) :
    fwrite_bytes M 0 n = M := by
  have := fwrite_prefix M [] n hn
  rwa [List.append_nil] at this

theorem add_tpd_first (L : Layout) (d : List Nat) (hd : EntryWF L d)
    (hfit : 8 + L.sizeof_tpd_entry + d.length < 2147483648) :
    (add_tpd_to_list L (catalog_image L []) d).2
      = int32_bytes ((8 + d.length : Nat) : Int) ++ int32_bytes ((1 : Nat) : Int) ++ d := by
  have hs : sizeof_tpd_list L = 8 + L.sizeof_tpd_entry := rfl
  have hi : catalog_image L [] = int32_bytes ((8 + L.sizeof_tpd_entry : Nat) : Int)
      ++ int32_bytes 0 ++ List.replicate L.sizeof_tpd_entry 0 := by
    unfold catalog_image
    rw [if_pos rfl, hs]
  have hle := hd.1
  have e0 : wrap32 (0 : Int) = 0 := by decide
  have e1 : wrap32 (wrap32 (0 : Int) + 1) = ((1 : Nat) : Int) := by decide
  have e2 : wrap32 (wrap32 ((8 + L.sizeof_tpd_entry : Nat) : Int)
      + (tpd_size_at L d 0 - (L.sizeof_tpd_entry : Int))) = ((8 + d.length : Nat) : Int) := by
    rw [wrap32_nat _ (by omega), hd.2.2.1, wrap32_of_range (by push_cast; omega)
      (by push_cast; omega)]
    push_cast
    ring
  rw [hi]
  have hg1 : int32_bytes ((8 + L.sizeof_tpd_entry : Nat) : Int) ++ int32_bytes ((1 : Nat) : Int)
        ++ List.replicate L.sizeof_tpd_entry 0
      = write_int32 (int32_bytes ((8 + L.sizeof_tpd_entry : Nat) : Int)
        ++ int32_bytes 0 ++ List.replicate L.sizeof_tpd_entry 0) 4
        (wrap32 (num_tables (int32_bytes ((8 + L.sizeof_tpd_entry : Nat) : Int)
        ++ int32_bytes 0 ++ List.replicate L.sizeof_tpd_entry 0) + 1)) := by
    rw [num_tables_header, e1, write_int32_at4]
  have hg2 : int32_bytes ((8 + d.length : Nat) : Int) ++ int32_bytes ((1 : Nat) : Int)
        ++ List.replicate L.sizeof_tpd_entry 0
      = write_int32 (int32_bytes ((8 + L.sizeof_tpd_entry : Nat) : Int)
          ++ int32_bytes ((1 : Nat) : Int) ++ List.replicate L.sizeof_tpd_entry 0) 0
        (wrap32 (list_size (int32_bytes ((8 + L.sizeof_tpd_entry : Nat) : Int)
          ++ int32_bytes ((1 : Nat) : Int) ++ List.replicate L.sizeof_tpd_entry 0)
          + (tpd_size_at L d 0 - (L.sizeof_tpd_entry : Int)))) := by
    rw [list_size_header, e2, write_int32_hdr0]
  rw [add_tpd_empty_eq L _ d (by rw [num_tables_header, e0]) _ _ hg1 hg2]
  show fwrite_bytes _ _ _ ++ fwrite_bytes _ _ _ = _
  rw [list_size_header, wrap32_nat _ (by omega), hd.2.2.1, fwrite_whole d _ rfl]
  have hpre : fwrite_bytes (int32_bytes ((8 + d.length : Nat) : Int)
      ++ int32_bytes ((1 : Nat) : Int) ++ List.replicate L.sizeof_tpd_entry 0) 0
      (((8 + L.sizeof_tpd_entry : Nat) : Int) - (L.sizeof_tpd_entry : Int))
      = int32_bytes ((8 + d.length : Nat) : Int) ++ int32_bytes ((1 : Nat) : Int) :=
    fwrite_prefix _ _ _ (by rw [header_length]; have : tpd_start = 8 := rfl; rw [this]; push_cast; ring)
  rw [hpre]

theorem add_tpd_append (L : Layout) (F d : List Nat) (n : Nat) (hd : EntryWF L d)
    (hn : 0 < n) (hn2 : n + 1 < 2147483648)
    (hfit : 8 + (F.length + d.length) < 2147483648) :
    (add_tpd_to_list L (int32_bytes ((8 + F.length : Nat) : Int) ++ int32_bytes (n : Int) ++ F)
        d).2
      = int32_bytes ((8 + (F.length + d.length) : Nat) : Int)
        ++ int32_bytes ((n + 1 : Nat) : Int) ++ (F ++ d) := by
  have e1 : wrap32 (wrap32 (n : Int) + 1) = ((n + 1 : Nat) : Int) := by
    rw [wrap32_nat _ (by omega), wrap32_of_range (by omega) (by omega)]
    push_cast
    ring
  have e2 : wrap32 (wrap32 ((8 + F.length : Nat) : Int) + tpd_size_at L d 0)
      = ((8 + (F.length + d.length) : Nat) : Int) := by
    rw [wrap32_nat _ (by omega), hd.2.2.1, wrap32_of_range (by push_cast; omega)
      (by push_cast; omega)]
    push_cast
    ring
  have hg1 : int32_bytes ((8 + F.length : Nat) : Int) ++ int32_bytes ((n + 1 : Nat) : Int) ++ F
      = write_int32 (int32_bytes ((8 + F.length : Nat) : Int) ++ int32_bytes (n : Int) ++ F) 4
        (wrap32 (num_tables (int32_bytes ((8 + F.length : Nat) : Int) ++ int32_bytes (n : Int)
          ++ F) + 1)) := by
    rw [num_tables_header, e1, write_int32_at4]
  have hg2 : int32_bytes ((8 + (F.length + d.length) : Nat) : Int)
        ++ int32_bytes ((n + 1 : Nat) : Int) ++ F
      = write_int32 (int32_bytes ((8 + F.length : Nat) : Int)
          ++ int32_bytes ((n + 1 : Nat) : Int) ++ F) 0
        (wrap32 (list_size (int32_bytes ((8 + F.length : Nat) : Int)
          ++ int32_bytes ((n + 1 : Nat) : Int) ++ F) + tpd_size_at L d 0)) := by
    rw [list_size_header, e2, write_int32_hdr0]
  rw [add_tpd_append_eq L _ d (by rw [num_tables_header, wrap32_nat _ (by omega)]; omega)
    _ _ hg1 hg2]
  show fwrite_bytes _ _ _ ++ fwrite_bytes _ _ _ = _
  rw [list_size_header, wrap32_nat _ (by omega), hd.2.2.1, fwrite_whole d _ rfl]
  have hpre : fwrite_bytes (int32_bytes ((8 + (F.length + d.length) : Nat) : Int)
      ++ int32_bytes ((n + 1 : Nat) : Int) ++ F) 0 ((8 + F.length : Nat) : Int)
      = int32_bytes ((8 + (F.length + d.length) : Nat) : Int)
        ++ int32_bytes ((n + 1 : Nat) : Int) ++ F :=
    fwrite_whole _ _ (by rw [List.length_append, header_length]; rfl)
  rw [hpre, List.append_assoc]

theorem add_tpd_image (L : Layout) (es : List (List Nat)) (d : List Nat)
    (hwf : CatalogWF L (es ++ [d])) :
    (add_tpd_to_list L (catalog_image L es) d).2 = catalog_image L (es ++ [d]) := by
  have hd : EntryWF L d := hwf.1 d (by simp)
  have hb := hwf.2
  have hl := length_le_flatten_length L _ hwf.1
  have hs : sizeof_tpd_list L = 8 + L.sizeof_tpd_entry := rfl
  have e1 : (es ++ [d]).flatten.length = es.flatten.length + d.length := by
    simp only [List.flatten_append, List.flatten_cons, List.flatten_nil, List.length_append,
      List.append_nil]
  have e2 : (es ++ [d]).length = es.length + 1 := by
    simp only [List.length_append, List.length_cons, List.length_nil]
  have e3 : (es ++ [d]).flatten = es.flatten ++ d := by
    simp only [List.flatten_append, List.flatten_cons, List.flatten_nil, List.append_nil]
  rw [hs, e1] at hb
  rw [e1, e2] at hl
  rw [image_of_parts L (es ++ [d]) (by simp), e1, e2, e3]
  cases es with
  | nil =>
    rw [add_tpd_first L d hd (by simp only [List.flatten_nil, List.length_nil] at hb; omega)]
    simp only [List.flatten_nil, List.length_nil, List.nil_append, Nat.zero_add]
  | cons p ps =>
    rw [image_of_parts L (p :: ps) (by simp)]
    exact add_tpd_append L (p :: ps).flatten d (p :: ps).length hd (by simp) (by omega)
      (by omega)

theorem catalogWF_remove (L : Layout) (pre : List (List Nat)) (e : List Nat)
    (post : List (List Nat)) (hwf : CatalogWF L (pre ++ e :: post)) :
    CatalogWF L (pre ++ post) := by
  obtain ⟨h1, h2⟩ := hwf
  refine ⟨fun x hx => h1 x ?_, ?_⟩
  · rcases List.mem_append.mp hx with h | h
    · exact List.mem_append_left _ h
    · exact List.mem_append_right _ (List.mem_cons_of_mem _ h)
  · have e1 : (pre ++ e :: post).flatten.length
        = pre.flatten.length + e.length + post.flatten.length := by
      simp only [List.flatten_append, List.flatten_cons, List.length_append]
      omega
    have e2 : (pre ++ post).flatten.length = pre.flatten.length + post.flatten.length := by
      simp only [List.flatten_append, List.length_append]
    omega

theorem get_tpd_none_of_no_match (L : Layout) (entries : List (List Nat)) (tabname : List Nat)
    (hwf : CatalogWF L entries) (hname : 0 ∉ tabname)
    (hno : ∀ e ∈ entries, ¬ eq_ignoring_case (entry_name L e) tabname) :
    get_tpd_from_list L (catalog_image L entries) tabname = none := by
  rw [get_tpd_from_list_image L entries tabname hwf]
  exact get_tpd_loop_none L tabname entries _ _ hwf.1
    (fun x hx h => hno x hx ((strcasecmp_eq_zero_iff _ _ (cstr_no_zero _) hname).mp h))

theorem initialize_image (L : Layout) (entries : List (List Nat)) (hwf : CatalogWF L entries) :
    initialize_tpd_list (catalog_image L entries) = (RC.OK, catalog_image L entries) := by
  unfold initialize_tpd_list
  rw [if_neg (by rw [list_size_image L entries hwf]; exact fun h => h rfl)]

theorem drop_result_cases (L : Layout) (entries : List (List Nat)) (tabname : List Nat)
    (hwf : CatalogWF L entries) (hname : 0 ∉ tabname) :
    (∃ pre e post g, entries = pre ++ e :: post ∧
        eq_ignoring_case (entry_name L e) tabname ∧
        (∀ x ∈ pre, ¬ eq_ignoring_case (entry_name L x) tabname) ∧
        drop_tpd_from_list L (catalog_image L entries) tabname
          = (RC.OK, g, some (catalog_image L (pre ++ post)))) ∨
    ((∀ x ∈ entries, ¬ eq_ignoring_case (entry_name L x) tabname) ∧
      drop_tpd_from_list L (catalog_image L entries) tabname
        = (RC.INVALID_TABLE_NAME, catalog_image L entries, none)) := by
  by_cases h : ∃ e ∈ entries, eq_ignoring_case (entry_name L e) tabname
  · obtain ⟨pre, e, post, h1, h2, h3⟩ :=
      exists_first (fun x => eq_ignoring_case (entry_name L x) tabname) entries h
    subst h1
    obtain ⟨g, hg⟩ := drop_tpd_from_list_found L pre e post tabname hwf hname h2 h3
    exact Or.inl ⟨pre, e, post, g, rfl, h2, h3, hg⟩
  · have hno : ∀ x ∈ entries, ¬ eq_ignoring_case (entry_name L x) tabname :=
      fun x hx hm => h ⟨x, hx, hm⟩
    exact Or.inr ⟨hno, drop_tpd_from_list_none L entries tabname hwf hname hno⟩

/-- Without any assumption on the other names: `drop_tpd_from_list` removes the first
entry whose table name equals `tabname` ignoring letter case, and writes nothing when no
entry matches. -/
theorem drop_removes_first_match (L : Layout) (pre : List (List Nat)) (e : List Nat)
    (post : List (List Nat)) (tabname : List Nat) (hname : 0 ∉ tabname) :
    (CatalogWF L (pre ++ e :: post) → eq_ignoring_case (entry_name L e) tabname →
      (∀ x ∈ pre, ¬ eq_ignoring_case (entry_name L x) tabname) →
      (∃ g, drop_tpd_from_list L (catalog_image L (pre ++ e :: post)) tabname
          = (RC.OK, g, some (catalog_image L (pre ++ post)))) ∧
        num_tables (catalog_image L (pre ++ post))
          = ((pre ++ e :: post).length : Int) - 1) ∧
    (CatalogWF L (pre ++ post) →
      (∀ x ∈ pre ++ post, ¬ eq_ignoring_case (entry_name L x) tabname) →
      drop_tpd_from_list L (catalog_image L (pre ++ post)) tabname
        = (RC.INVALID_TABLE_NAME, catalog_image L (pre ++ post), none)) := by
  constructor
  · intro hwf hm hpre
    refine ⟨drop_tpd_from_list_found L pre e post tabname hwf hname hm hpre, ?_⟩
    rw [num_tables_image L _ (catalogWF_remove L pre e post hwf)]
    simp only [List.length_append, List.length_cons]
    push_cast
    ring
  · intro hwf hno
    exact drop_tpd_from_list_none L _ tabname hwf hname hno

theorem eq_ignoring_case_trans_right (a b n : List Nat) (h1 : eq_ignoring_case a n)
    (h2 : eq_ignoring_case b n) : eq_ignoring_case a b := by
  unfold eq_ignoring_case at *
  rw [h1, h2]

/-- C3. For every well-formed catalog whose table names are pairwise distinct ignoring
case and every name present in it, `drop_tpd_from_list` succeeds, `initialize_tpd_list`
accepts the catalog bytes it wrote, and `get_tpd_from_list` on the loaded catalog finds
no descriptor for the name. -/
theorem drop_then_lookup_fails (L : Layout) (entries : List (List Nat)) (tabname : List Nat)
    (hwf : CatalogWF L entries) (hname : 0 ∉ tabname) (hdistinct : names_distinct L entries)
    (hpresent : ∃ e ∈ entries, eq_ignoring_case (entry_name L e) tabname) :
    ∃ g file, drop_tpd_from_list L (catalog_image L entries) tabname = (RC.OK, g, some file) ∧
      (initialize_tpd_list file).1 = RC.OK ∧
      get_tpd_from_list L (initialize_tpd_list file).2 tabname = none := by
  obtain ⟨pre, e, post, h1, h2, h3⟩ :=
    exists_first (fun x => eq_ignoring_case (entry_name L x) tabname) entries hpresent
  subst h1
  obtain ⟨g, hg⟩ := drop_tpd_from_list_found L pre e post tabname hwf hname h2 h3
  have hwf2 := catalogWF_remove L pre e post hwf
  refine ⟨g, _, hg, ?_, ?_⟩
  · rw [initialize_image L _ hwf2]
  · rw [initialize_image L _ hwf2]
    apply get_tpd_none_of_no_match L _ tabname hwf2 hname
    intro x hx hm
    rcases List.mem_append.mp hx with h | h
    · exact h3 x h hm
    · unfold names_distinct at hdistinct
      have hp := (List.pairwise_append.mp hdistinct).2.1
      have := (List.pairwise_cons.mp hp).1 x h
      exact this (eq_ignoring_case_trans_right _ _ _ h2 hm)

theorem drop_then_lookup_fails_witness :
    CatalogWF layout36 [entry_named 97, entry_named 98] ∧
    ∃ g file, drop_tpd_from_list layout36
        (catalog_image layout36 [entry_named 97, entry_named 98]) [66] = (RC.OK, g, some file) ∧
      (initialize_tpd_list file).1 = RC.OK ∧
      get_tpd_from_list layout36 (initialize_tpd_list file).2 [66] = none :=
  ⟨by decide, drop_then_lookup_fails layout36 [entry_named 97, entry_named 98] [66] (by decide)
    (by decide) (by unfold names_distinct; decide) ⟨entry_named 98, by decide, by decide⟩⟩

/-- C12. For every well-formed catalog, the bytes that `add_tpd_to_list` writes, and the
bytes that a successful `drop_tpd_from_list` writes, are as many as the `list_size` in
the header at their start, so `initialize_tpd_list` on them does not report
`DBFILE_CORRUPTION`. -/
theorem catalog_write_size_matches_header (L : Layout) (entries : List (List Nat))
    (d tabname : List Nat) (hname : 0 ∉ tabname) :
    (CatalogWF L (entries ++ [d]) →
      list_size (add_tpd_to_list L (catalog_image L entries) d).2
          = ((add_tpd_to_list L (catalog_image L entries) d).2.length : Int) ∧
        (initialize_tpd_list (add_tpd_to_list L (catalog_image L entries) d).2).1 = RC.OK) ∧
    (CatalogWF L entries → ∀ g file,
      drop_tpd_from_list L (catalog_image L entries) tabname = (RC.OK, g, some file) →
      list_size file = (file.length : Int) ∧ (initialize_tpd_list file).1 = RC.OK) := by
  constructor
  · intro hwf
    rw [add_tpd_image L entries d hwf]
    exact ⟨list_size_image L _ hwf, by rw [initialize_image L _ hwf]⟩
  · intro hwf g file hdrop
    rcases drop_result_cases L entries tabname hwf hname with h | h
    · obtain ⟨pre, e, post, g', h1, _, _, h4⟩ := h
      rw [h4] at hdrop
      have hf : catalog_image L (pre ++ post) = file :=
        Option.some.inj (Prod.mk.inj (Prod.mk.inj hdrop).2).2
      subst h1
      have hwf2 := catalogWF_remove L pre e post hwf
      rw [← hf]
      exact ⟨list_size_image L _ hwf2, by rw [initialize_image L _ hwf2]⟩
    · rw [h.2] at hdrop
      exact absurd (Prod.mk.inj hdrop).1 (by decide)

theorem catalog_write_size_matches_header_witness :
    0 ∉ [98] ∧ CatalogWF layout36 ([entry_named 97, entry_named 98] ++ [entry_named 99]) ∧
    list_size (add_tpd_to_list layout36
        (catalog_image layout36 [entry_named 97, entry_named 98]) (entry_named 99)).2 = 116 ∧
    (add_tpd_to_list layout36
        (catalog_image layout36 [entry_named 97, entry_named 98]) (entry_named 99)).2.length
      = 116 ∧
    list_size (catalog_image layout36 [entry_named 97]) = 44 ∧
    (catalog_image layout36 [entry_named 97]).length = 44 := by
  have h := catalog_write_size_matches_header layout36 [entry_named 97, entry_named 98]
    (entry_named 99) [98] (by decide)
  have hd : ∃ g, drop_tpd_from_list layout36
      (catalog_image layout36 [entry_named 97, entry_named 98]) [98]
      = (RC.OK, g, some (catalog_image layout36 [entry_named 97])) :=
    drop_tpd_from_list_found layout36 [entry_named 97] (entry_named 98) [] [98] (by decide)
      (by decide) (by decide) (by decide)
  obtain ⟨g, hg⟩ := hd
  have h2 := h.2 (by decide) g _ hg
  have h1 := h.1 (by decide)
  have hl : (add_tpd_to_list layout36
        (catalog_image layout36 [entry_named 97, entry_named 98]) (entry_named 99)).2.length
      = 116 := by
    rw [add_tpd_image layout36 _ _ (by decide)]
    decide
  have hl2 : (catalog_image layout36 [entry_named 97]).length = 44 := by decide
  refine ⟨by decide, by decide, ?_, hl, ?_, hl2⟩
  · rw [h1.1, hl]
    rfl
  · rw [h2.1, hl2]
    rfl

/-- C14. For every well-formed catalog with the entries `entries` (possibly none) and
every descriptor `d`, the bytes that `add_tpd_to_list` writes are the image of the
catalog `entries ++ [d]`: table count one more, and after the 8-byte header the old
entries unchanged followed by `d`; when there was no entry, `d` starts directly after
the 8-byte header, where the empty catalog had its placeholder entry. -/
theorem add_appends_descriptor (L : Layout) (entries : List (List Nat)) (d : List Nat)
    (hwf : CatalogWF L (entries ++ [d])) :
    (add_tpd_to_list L (catalog_image L entries) d).2 = catalog_image L (entries ++ [d]) ∧
    num_tables (add_tpd_to_list L (catalog_image L entries) d).2 = (entries.length : Int) + 1 ∧
    (add_tpd_to_list L (catalog_image L entries) d).2.drop tpd_start = entries.flatten ++ d ∧
    (entries = [] →
      (catalog_image L entries).drop tpd_start = List.replicate L.sizeof_tpd_entry 0 ∧
      (add_tpd_to_list L (catalog_image L entries) d).2.drop tpd_start = d) := by
  have himg := add_tpd_image L entries d hwf
  have hdrop : (catalog_image L (entries ++ [d])).drop tpd_start = entries.flatten ++ d := by
    rw [catalog_image_nonempty L _ (by simp), List.append_nil,
      List.drop_left' (header_length _ _)]
    simp only [List.flatten_append, List.flatten_cons, List.flatten_nil, List.append_nil]
  refine ⟨himg, ?_, ?_, ?_⟩
  · rw [himg, num_tables_image L _ hwf]
    simp only [List.length_append, List.length_cons, List.length_nil]
    push_cast
    ring
  · rw [himg, hdrop]
  · intro he
    subst he
    refine ⟨?_, ?_⟩
    · unfold catalog_image
      rw [if_pos rfl, List.drop_left' (header_length _ _)]
    · rw [himg, hdrop]
      rfl

theorem add_appends_descriptor_witness :
    CatalogWF layout36 ([entry_named 97] ++ [entry_named 98]) ∧
    (add_tpd_to_list layout36 (catalog_image layout36 [entry_named 97]) (entry_named 98)).2
      = catalog_image layout36 ([entry_named 97] ++ [entry_named 98]) :=
  ⟨by decide, (add_appends_descriptor layout36 [entry_named 97] (entry_named 98) (by decide)).1⟩

theorem get_tpd_returns_first_match_witness :
    CatalogWF layout36 [entry_named 97, entry_named 98] ∧ 0 ∉ [66] ∧
    get_tpd_from_list layout36 (catalog_image layout36 [entry_named 97, entry_named 98]) [66]
      = some 44 ∧
    fwrite_bytes (catalog_image layout36 [entry_named 97, entry_named 98]) 44 36
      = entry_named 98 :=
  ⟨by decide, by decide,
    (get_tpd_returns_first_match layout36 [entry_named 97, entry_named 98] [66] (by decide)
      (by decide)).1 [entry_named 97] (entry_named 98) [] rfl (by decide) (by decide)⟩

theorem write_header_file_size (hdr : table_file_header)
    (hp1 : -2147483648 ≤ hdr.record_size * hdr.num_records)
    (hp2 : hdr.record_size * hdr.num_records < 2147483648)
    (hs1 : -2147483648 ≤ hdr.record_offset + hdr.record_size * hdr.num_records)
    (hs2 : hdr.record_offset + hdr.record_size * hdr.num_records < 2147483648) :
    header_invariant (write_header hdr) := by
  unfold header_invariant write_header
  show wrap32 (hdr.record_offset + wrap32 (hdr.record_size * hdr.num_records))
    = hdr.record_offset + hdr.record_size * hdr.num_records
  rw [wrap32_of_range hp1 hp2, wrap32_of_range hs1 hs2]

/-- C11 (amended). The header that `create_table_data_file` writes has `num_records = 0`
and satisfies `file_size = record_offset + record_size * num_records`. The header that
`write_header` writes satisfies it whenever `record_size * num_records` and
`record_offset + record_size * num_records` fit an `int`, whatever `file_size` the header
in memory carried, and the other fields are written as they are; and the header that a
successful INSERT leaves in the file is the one `write_header` makes of the old header
with `num_records` one more. -/
theorem header_invariant_without_overflow :
    (∀ (sz : Nat) (tpd : tpd_entry),
      (create_table_data_file sz tpd).hdr.num_records = 0 ∧
      header_invariant (create_table_data_file sz tpd).hdr) ∧
    (∀ (hdr : table_file_header) (v : Int),
      -2147483648 ≤ hdr.record_size * hdr.num_records →
      hdr.record_size * hdr.num_records < 2147483648 →
      -2147483648 ≤ hdr.record_offset + hdr.record_size * hdr.num_records →
      hdr.record_offset + hdr.record_size * hdr.num_records < 2147483648 →
      header_invariant (write_header { hdr with file_size := v }) ∧
      write_header { hdr with file_size := v } = write_header hdr ∧
      (write_header hdr).record_size = hdr.record_size ∧
      (write_header hdr).num_records = hdr.num_records ∧
      (write_header hdr).record_offset = hdr.record_offset) ∧
    (∀ (lookup : List Nat → Option tpd_entry) (fs : List Nat → Option TabFile)
        (toks : List token) (cur : Nat) (res : InsertResult),
      sem_insert_into lookup fs toks cur = some res → res.rc = RC.OK →
      ∃ t0 f f', toks[cur]? = some t0 ∧ fs t0.tok_string = some f ∧ res.file = some f' ∧
        f'.hdr = write_header { f.hdr with num_records := wrap32 (f.hdr.num_records + 1) }) := by
  refine ⟨?_, ?_, ?_⟩
  · intro sz tpd
    refine ⟨rfl, ?_⟩
    unfold header_invariant create_table_data_file
    show (sz : Int) = (sz : Int) + compute_record_size_from_tpd tpd * 0
    rw [mul_zero, add_zero]
  · intro hdr v hp1 hp2 hs1 hs2
    exact ⟨write_header_file_size _ hp1 hp2 hs1 hs2, rfl, rfl, rfl, rfl⟩
  · intro lookup fs toks cur res h hrc
    obtain ⟨t0, tpd, f, cur', row, g0, _, gf, _, _, _, hfile⟩ :=
      sem_insert_into_ok lookup fs toks cur res h hrc
    exact ⟨t0, f, _, g0, gf, hfile, rfl⟩

theorem header_invariant_without_overflow_witness :
    header_invariant (write_header ⟨999, 16, 3, 24, 0⟩) ∧
    (write_header ⟨999, 16, 3, 24, 0⟩).file_size = 72 :=
  ⟨(header_invariant_without_overflow.2.1 ⟨0, 16, 3, 24, 0⟩ 999 (by decide) (by decide)
      (by decide) (by decide)).1, by decide⟩

/-- Counterexample to C11 as stated: for `create table w (c char(100000000))` the record
size is 100000004; when the 22nd INSERT has stored its record and `num_records` is 22,
`write_header` computes `24 + 100000004 * 22` in `int` and writes the `file_size`
-2094967184, which is not `record_offset + record_size * num_records`. -/
theorem write_header_overflow_counterexample :
    compute_record_size_from_tpd wide_char_table = wide_header_22.record_size ∧
    wide_header_22.num_records ≤ 100 ∧
    (write_header wide_header_22).file_size = -2094967184 ∧
    ¬ header_invariant (write_header wide_header_22) := by
  refine ⟨?_, by decide, by decide, by decide⟩
  rw [compute_record_size_eq wide_char_table (by decide) (by decide)]
  decide

theorem strcmp_eq_zero_iff : ∀ (a b : List Nat), 0 ∉ a → 0 ∉ b → (strcmp a b = 0 ↔ a = b) := by
  intro a
  induction a with
  | nil =>
    intro b _ hb
    cases b with
    | nil => simp [strcmp]
    | cons y ys =>
      have hy : y ≠ 0 := fun e => hb (by simp [e])
      simp only [strcmp]
      constructor
      · intro h; omega
      · intro h; cases h
  | cons x xs ih =>
    intro b ha hb
    have hx : x ≠ 0 := fun e => ha (by simp [e])
    cases b with
    | nil =>
      simp only [strcmp]
      constructor
      · intro h; omega
      · intro h; cases h
    | cons y ys =>
      simp only [strcmp]
      by_cases hxy : x = y
      · subst hxy
        rw [if_pos rfl, ih ys (fun h => ha (List.mem_cons_of_mem _ h))
          (fun h => hb (List.mem_cons_of_mem _ h))]
        simp
      · rw [if_neg hxy]
        constructor
        · intro h; omega
        · intro h
          cases h
          exact absurd rfl hxy

theorem find_same_name_iff (name : List Nat) :
    ∀ (cols : List cd_entry) (j0 j : Nat),
      find_same_name name cols j0 = some j ↔
        ∃ k c, j = j0 + k ∧ cols[k]? = some c ∧ strcmp name c.col_name = 0 ∧
          ∀ k' c', k' < k → cols[k']? = some c' → strcmp name c'.col_name ≠ 0 := by
  intro cols
  induction cols with
  | nil =>
    intro j0 j
    simp [find_same_name]
  | cons c cs ih =>
    intro j0 j
    unfold find_same_name
    by_cases hc : strcmp name c.col_name = 0
    · rw [if_pos hc]
      constructor
      · intro h
        cases h
        exact ⟨0, c, rfl, List.getElem?_cons_zero, hc, fun k' c' hk _ => absurd hk (Nat.not_lt_zero _)⟩
      · rintro ⟨k, c', hj, hk, _, hfirst⟩
        cases k with
        | zero => rw [hj]; rfl
        | succ k => exact absurd hc (hfirst 0 c (Nat.succ_pos _) List.getElem?_cons_zero)
    · rw [if_neg hc, ih (j0 + 1) j]
      constructor
      · rintro ⟨k, c', hj, hk, hm, hfirst⟩
        refine ⟨k + 1, c', by omega, by simpa using hk, hm, ?_⟩
        intro k' c'' hk' hget
        cases k' with
        | zero =>
          simp only [List.getElem?_cons_zero, Option.some.injEq] at hget
          subst hget
          exact hc
        | succ k' =>
          exact hfirst k' c'' (by omega) (by simpa using hget)
      · rintro ⟨k, c', hj, hk, hm, hfirst⟩
        cases k with
        | zero =>
          simp only [List.getElem?_cons_zero, Option.some.injEq] at hk
          subst hk
          exact absurd hm hc
        | succ k =>
          refine ⟨k, c', by omega, by simpa using hk, hm, ?_⟩
          intro k' c'' hk' hget
          exact hfirst (k' + 1) c'' (by omega) (by simpa using hget)

theorem find_common_from_iff (cols2 : List cd_entry) :
    ∀ (cols1 : List cd_entry) (i0 i j : Nat),
      (i, j) ∈ find_common_from cols2 cols1 i0 ↔
        ∃ k c, i = i0 + k ∧ cols1[k]? = some c ∧ find_same_name c.col_name cols2 0 = some j := by
  intro cols1
  induction cols1 with
  | nil =>
    intro i0 i j
    simp [find_common_from]
  | cons c cs ih =>
    intro i0 i j
    have hrest : (i, j) ∈ find_common_from cols2 cs (i0 + 1) ↔
        ∃ k c', i = i0 + (k + 1) ∧ (c :: cs)[k + 1]? = some c' ∧
          find_same_name c'.col_name cols2 0 = some j := by
      rw [ih (i0 + 1) i j]
      constructor
      · rintro ⟨k, c', h1, h2, h3⟩
        exact ⟨k, c', by omega, by simpa using h2, h3⟩
      · rintro ⟨k, c', h1, h2, h3⟩
        exact ⟨k, c', by omega, by simpa using h2, h3⟩
    have hsplit : (∃ k c', i = i0 + k ∧ (c :: cs)[k]? = some c' ∧
          find_same_name c'.col_name cols2 0 = some j) ↔
        (i = i0 ∧ find_same_name c.col_name cols2 0 = some j) ∨
        (∃ k c', i = i0 + (k + 1) ∧ (c :: cs)[k + 1]? = some c' ∧
          find_same_name c'.col_name cols2 0 = some j) := by
      constructor
      · rintro ⟨k, c', h1, h2, h3⟩
        cases k with
        | zero =>
          simp only [List.getElem?_cons_zero, Option.some.injEq] at h2
          subst h2
          exact Or.inl ⟨by omega, h3⟩
        | succ k => exact Or.inr ⟨k, c', h1, h2, h3⟩
      · rintro (⟨h1, h3⟩ | ⟨k, c', h1, h2, h3⟩)
        · exact ⟨0, c, by omega, List.getElem?_cons_zero, h3⟩
        · exact ⟨k + 1, c', h1, h2, h3⟩
    rw [hsplit, ← hrest]
    have hstep : find_common_from cols2 (c :: cs) i0
        = match find_same_name c.col_name cols2 0 with
          | some j => (i0, j) :: find_common_from cols2 cs (i0 + 1)
          | none => find_common_from cols2 cs (i0 + 1) := rfl
    rw [hstep]
    cases hf : find_same_name c.col_name cols2 0 with
    | none =>
      simp only []
      constructor
      · intro h; exact Or.inr h
      · rintro (⟨_, h⟩ | h)
        · cases h
        · exact h
    | some j' =>
      simp only [List.mem_cons, Prod.mk.injEq, Option.some.injEq]
      constructor
      · rintro (⟨h1, h2⟩ | h)
        · exact Or.inl ⟨h1, h2.symm⟩
        · exact Or.inr h
      · rintro (⟨h1, h2⟩ | h)
        · exact Or.inl ⟨h1, h2.symm⟩
        · exact Or.inr h

/-- C20 (amended). For every pair of table descriptors whose column names are C strings,
`find_common_columns` returns exactly the pairs `(i, j)` such that column `i` of the first
table and column `j` of the second table have the same name, letter case included, and
no column of the second table before `j` has that name; the types of the columns play no
part. -/
theorem common_columns_are_exact_name_matches (tpd1 tpd2 : tpd_entry)
    (h1 : ∀ c ∈ tpd1.cols, 0 ∉ c.col_name) (h2 : ∀ c ∈ tpd2.cols, 0 ∉ c.col_name)
    (i j : Nat) :
    (i, j) ∈ find_common_columns tpd1 tpd2 ↔
      ∃ c1 c2, tpd1.cols[i]? = some c1 ∧ tpd2.cols[j]? = some c2 ∧
        c1.col_name = c2.col_name ∧
        ∀ k c, k < j → tpd2.cols[k]? = some c → c1.col_name ≠ c.col_name := by
  unfold find_common_columns
  rw [find_common_from_iff]
  constructor
  · rintro ⟨k, c1, hi, hk, hf⟩
    obtain ⟨k2, c2, hj, hk2, hm, hfirst⟩ := (find_same_name_iff _ _ _ _).mp hf
    have hi' : i = k := by omega
    have hj' : j = k2 := by omega
    subst hi' hj'
    have n1 := h1 c1 (List.getElem?_mem hk)
    refine ⟨c1, c2, hk, hk2,
      (strcmp_eq_zero_iff _ _ n1 (h2 c2 (List.getElem?_mem hk2))).mp hm, ?_⟩
    intro k' c' hlt hget heq
    exact hfirst k' c' hlt hget
      ((strcmp_eq_zero_iff _ _ n1 (h2 c' (List.getElem?_mem hget))).mpr heq)
  · rintro ⟨c1, c2, hk, hk2, hm, hfirst⟩
    have n1 := h1 c1 (List.getElem?_mem hk)
    refine ⟨i, c1, by omega, hk, (find_same_name_iff _ _ _ _).mpr
      ⟨j, c2, by omega, hk2,
        (strcmp_eq_zero_iff _ _ n1 (h2 c2 (List.getElem?_mem hk2))).mpr hm, ?_⟩⟩
    intro k' c' hlt hget heq
    exact hfirst k' c' hlt hget
      ((strcmp_eq_zero_iff _ _ n1 (h2 c' (List.getElem?_mem hget))).mp heq)

theorem common_columns_are_exact_name_matches_witness :
    (∀ c ∈ j1_table.cols, 0 ∉ c.col_name) ∧ (∀ c ∈ j2_table.cols, 0 ∉ c.col_name) ∧
    ((0, 0) ∈ find_common_columns j1_table j2_table ↔
      ∃ c1 c2, j1_table.cols[0]? = some c1 ∧ j2_table.cols[0]? = some c2 ∧
        c1.col_name = c2.col_name ∧
        ∀ k c, k < 0 → j2_table.cols[k]? = some c → c1.col_name ≠ c.col_name) ∧
    find_common_columns j1_table j2_table = [(0, 0)] :=
  ⟨by decide, by decide,
    common_columns_are_exact_name_matches j1_table j2_table (by decide) (by decide) 0 0,
    by decide⟩

/-- Counterexample to C20 as stated: the column `ID` of `u` and the column `id` of `l`
have names equal ignoring letter case, and `find_common_columns` returns no pair, because
it compares the names with `strcmp`. -/
theorem common_columns_case_counterexample :
    (∃ c1 c2, upper_id_table.cols[0]? = some c1 ∧ lower_id_table.cols[0]? = some c2 ∧
      eq_ignoring_case c1.col_name c2.col_name) ∧
    find_common_columns upper_id_table lower_id_table = [] :=
  ⟨⟨_, _, rfl, rfl, by decide⟩, by decide⟩

theorem plain_singleton (tk : token) (h1 : tk.tok_class ≠ TokClass.error)
    (h2 : tk.tok_class ≠ TokClass.terminator) : PlainTokens [tk] := by
  intro t ht
  rw [List.mem_singleton] at ht
  subst ht
  exact ⟨h1, h2⟩

theorem lex_finish_shape (cfg : LexConfig) (cur0 cur : List Nat) (tk : token) (invalid : Bool)
    (hlen : cur.length < cur0.length)
    (hcls : if invalid then
        tk.tok_class = TokClass.error ∧ cfg.MAX_IDENT_LEN < tk.tok_string.length
      else tk.tok_class ≠ TokClass.error ∧ tk.tok_class ≠ TokClass.terminator) :
    StepShape cfg cur0 (lex_finish tk invalid cur) := by
  unfold lex_finish StepShape
  cases invalid with
  | false =>
    simp only [Bool.false_eq_true, if_false] at hcls
    by_cases h : peek cur = 0
    · rw [if_pos h]
      exact Or.inr (Or.inl ⟨rfl, rfl, Or.inr ⟨tk, rfl, plain_singleton tk hcls.1 hcls.2⟩⟩)
    · rw [if_neg h]
      exact Or.inl ⟨rfl, rfl, hlen, tk, rfl, plain_singleton tk hcls.1 hcls.2⟩
  | true =>
    simp only [if_true] at hcls
    by_cases h : peek cur = 0
    · rw [if_pos h]
      exact Or.inr (Or.inr ⟨rfl, rfl, tk, hcls.1, Or.inr ⟨rfl, hcls.2⟩⟩)
    · rw [if_neg h]
      exact Or.inr (Or.inr ⟨rfl, rfl, tk, hcls.1, Or.inl rfl⟩)

theorem dropWhile_length_le (p : Nat → Bool) (l : List Nat) :
    (l.dropWhile p).length ≤ l.length := by
  induction l with
  | nil => simp
  | cons a as ih =>
    simp only [List.dropWhile]
    split
    · simp only [List.length_cons]; omega
    · simp

theorem keyword_class_plain (cfg : LexConfig) (j : Nat) :
    keyword_class cfg j ≠ TokClass.error ∧ keyword_class cfg j ≠ TokClass.terminator := by
  unfold keyword_class
  split
  · exact ⟨(by intro h; cases h), (by intro h; cases h)⟩
  · split
    · exact ⟨(by intro h; cases h), (by intro h; cases h)⟩
    · exact ⟨(by intro h; cases h), (by intro h; cases h)⟩

theorem classify_word_class (cfg : LexConfig) (w : List Nat) :
    if (classify_word cfg w).2 then (classify_word cfg w).1.tok_class = TokClass.error ∧
      cfg.MAX_IDENT_LEN < (classify_word cfg w).1.tok_string.length
    else (classify_word cfg w).1.tok_class ≠ TokClass.error ∧
      (classify_word cfg w).1.tok_class ≠ TokClass.terminator := by
  unfold classify_word
  cases find_keyword w cfg.keyword_table 0 with
  | some j => exact keyword_class_plain cfg j
  | none =>
    by_cases h : w.length ≤ cfg.MAX_IDENT_LEN
    · simp only [h, if_true]
      exact ⟨(by intro h; cases h), (by intro h; cases h)⟩
    · rw [if_neg h]
      exact ⟨rfl, Nat.lt_of_not_le h⟩

theorem lex_word_shape (cfg : LexConfig) (cur0 : List Nat) (c : Nat) (rest : List Nat)
    (hlen : rest.length < cur0.length) : StepShape cfg cur0 (lex_word cfg c rest) := by
  unfold lex_word
  dsimp only
  split
  · exact Or.inr (Or.inr ⟨rfl, rfl, _, rfl, Or.inl rfl⟩)
  · exact lex_finish_shape cfg cur0 _ _ _
      (Nat.lt_of_le_of_lt (dropWhile_length_le _ _) hlen) (classify_word_class cfg _)

theorem lex_number_shape (cfg : LexConfig) (cur0 : List Nat) (c : Nat) (rest : List Nat)
    (hlen : rest.length < cur0.length) : StepShape cfg cur0 (lex_number cfg c rest) := by
  unfold lex_number
  dsimp only
  split
  · exact Or.inr (Or.inr ⟨rfl, rfl, _, rfl, Or.inl rfl⟩)
  · exact lex_finish_shape cfg cur0 _ _ _
      (Nat.lt_of_le_of_lt (dropWhile_length_le _ _) hlen) ⟨(by intro h; cases h), (by intro h; cases h)⟩

theorem lex_string_shape (cfg : LexConfig) (cur0 : List Nat) (rest : List Nat)
    (hlen : rest.length < cur0.length) : StepShape cfg cur0 (lex_string rest) := by
  unfold lex_string
  dsimp only
  split
  · exact Or.inr (Or.inr ⟨rfl, rfl, _, rfl, Or.inl rfl⟩)
  · refine lex_finish_shape cfg cur0 _ _ _ ?_ ⟨(by intro h; cases h), (by intro h; cases h)⟩
    have h1 := dropWhile_length_le is_literal_char rest.tail
    have h2 : rest.tail.length ≤ rest.length := by simp
    have h3 : (rest.tail.dropWhile is_literal_char).tail.length
        ≤ (rest.tail.dropWhile is_literal_char).length := by simp
    omega

theorem peek_ne_zero_length (cur : List Nat) (h : peek cur ≠ 0) :
    cur.tail.length < cur.length := by
  cases cur with
  | nil => exact absurd rfl h
  | cons a as => simp

theorem lex_step_shape (cfg : LexConfig) (cur0 : List Nat) :
    StepShape cfg cur0 (lex_step cfg cur0) := by
  unfold lex_step
  dsimp only
  have hd := dropWhile_length_le (fun c => c == 32) cur0
  by_cases ha : isalpha (peek (cur0.dropWhile (fun c => c == 32))) = true
  · rw [if_pos ha]
    have hne : peek (cur0.dropWhile (fun c => c == 32)) ≠ 0 := by
      intro h0
      rw [h0] at ha
      exact absurd ha (by decide)
    exact lex_word_shape cfg cur0 _ _ (by have := peek_ne_zero_length _ hne; omega)
  · rw [if_neg ha]
    by_cases hdg : isdigit (peek (cur0.dropWhile (fun c => c == 32))) = true
    · rw [if_pos hdg]
      have hne : peek (cur0.dropWhile (fun c => c == 32)) ≠ 0 := by
        intro h0
        rw [h0] at hdg
        exact absurd hdg (by decide)
      exact lex_number_shape cfg cur0 _ _ (by have := peek_ne_zero_length _ hne; omega)
    · rw [if_neg hdg]
      cases hs : symbol_value (peek (cur0.dropWhile (fun c => c == 32))) with
      | some v =>
        have hne : peek (cur0.dropWhile (fun c => c == 32)) ≠ 0 := by
          intro h0
          have hn : symbol_value 0 = none := by decide
          rw [h0, hn] at hs
          cases hs
        exact lex_finish_shape cfg cur0 _ _ _ (by have := peek_ne_zero_length _ hne; omega)
          ⟨(by intro h; cases h), (by intro h; cases h)⟩
      | none =>
        dsimp only
        by_cases hq : peek (cur0.dropWhile (fun c => c == 32)) = 39
        · rw [if_pos hq]
          have hne : peek (cur0.dropWhile (fun c => c == 32)) ≠ 0 := by rw [hq]; decide
          exact lex_string_shape cfg cur0 _ (by have := peek_ne_zero_length _ hne; omega)
        · rw [if_neg hq]
          by_cases hz : peek (cur0.dropWhile (fun c => c == 32)) = 0
          · rw [if_pos hz]
            exact Or.inr (Or.inl ⟨rfl, rfl, Or.inl rfl⟩)
          · rw [if_neg hz]
            exact Or.inr (Or.inr ⟨rfl, rfl, _, rfl, Or.inl rfl⟩)

theorem get_token_loop_total (cfg : LexConfig) :
    ∀ (n : Nat) (cur : List Nat), cur.length < n → ∃ r, get_token_loop cfg n cur = some r := by
  intro n
  induction n with
  | zero => intro cur h; exact absurd h (Nat.not_lt_zero _)
  | succ n ih =>
    intro cur h
    unfold get_token_loop
    by_cases hd : (lex_step cfg cur).done = true
    · rw [if_pos hd]
      exact ⟨_, rfl⟩
    · rw [if_neg hd]
      have hlt : (lex_step cfg cur).cur.length < cur.length := by
        rcases lex_step_shape cfg cur with h1 | h2 | h3
        · exact h1.2.2.1
        · exact absurd h2.1 hd
        · exact absurd h3.1 hd
      obtain ⟨r, hr⟩ := ih (lex_step cfg cur).cur (by omega)
      rw [hr]
      exact ⟨_, rfl⟩

theorem plain_append (a b : List token) (ha : PlainTokens a) (hb : PlainTokens b) :
    PlainTokens (a ++ b) := by
  intro t ht
  rcases List.mem_append.mp ht with h | h
  · exact ha t h
  · exact hb t h

theorem get_token_loop_shape (cfg : LexConfig) :
    ∀ (n : Nat) (cur : List Nat) (rc : LexRC) (ts : List token),
      get_token_loop cfg n cur = some (rc, ts) → ResultShape cfg rc ts := by
  intro n
  induction n with
  | zero =>
    intro cur rc ts h
    unfold get_token_loop at h
    cases h
  | succ n ih =>
    intro cur rc ts h
    unfold get_token_loop at h
    rcases lex_step_shape cfg cur with h1 | h2 | h3
    · obtain ⟨hd, _, _, tk, htk, hplain⟩ := h1
      rw [if_neg (by rw [hd]; exact Bool.false_ne_true)] at h
      cases hrec : get_token_loop cfg n (lex_step cfg cur).cur with
      | none => rw [hrec] at h; cases h
      | some r =>
        obtain ⟨rc', ts'⟩ := r
        rw [hrec] at h
        have hrc : rc' = rc := congrArg Prod.fst (Option.some.inj h)
        have hts : (lex_step cfg cur).toks ++ ts' = ts := congrArg Prod.snd (Option.some.inj h)
        subst hrc
        rw [← hts, htk]
        rcases ih _ _ _ hrec with ⟨hz, body, hb, hp⟩ | ⟨hi, body, tk', hp, he, hb⟩
        · refine Or.inl ⟨hz, tk :: body, ?_, plain_append [tk] body hplain hp⟩
          rw [hb]
          rfl
        · refine Or.inr ⟨hi, tk :: body, tk', plain_append [tk] body hplain hp, he, ?_⟩
          rcases hb with hb | ⟨hb, hl⟩
          · exact Or.inl (by rw [hb]; rfl)
          · exact Or.inr ⟨by rw [hb]; rfl, hl⟩
    · obtain ⟨hd, hi, hshape⟩ := h2
      rw [if_pos hd, hi] at h
      have hrc : LexRC.zero = rc := congrArg Prod.fst (Option.some.inj h)
      have hts : (lex_step cfg cur).toks = ts := congrArg Prod.snd (Option.some.inj h)
      subst hrc
      rw [← hts]
      rcases hshape with hs | ⟨tk, hs, hp⟩
      · exact Or.inl ⟨rfl, [], by rw [hs]; rfl, fun t ht => absurd ht (List.not_mem_nil t)⟩
      · exact Or.inl ⟨rfl, [tk], by rw [hs]; rfl, hp⟩
    · obtain ⟨hd, hi, tk, he, hshape⟩ := h3
      rw [if_pos hd, hi] at h
      have hrc : LexRC.INVALID = rc := congrArg Prod.fst (Option.some.inj h)
      have hts : (lex_step cfg cur).toks = ts := congrArg Prod.snd (Option.some.inj h)
      subst hrc
      rw [← hts]
      refine Or.inr ⟨rfl, [], tk, fun t ht => absurd ht (List.not_mem_nil t), he, ?_⟩
      rcases hshape with hs | ⟨hs, hl⟩
      · exact Or.inl (by rw [hs]; rfl)
      · exact Or.inr ⟨by rw [hs]; rfl, hl⟩

theorem get_token_shape (cfg : LexConfig) (command : List Nat) :
    ∃ rc ts, get_token cfg command = some (rc, ts) ∧ ResultShape cfg rc ts := by
  obtain ⟨⟨rc, ts⟩, hr⟩ := get_token_loop_total cfg (command.length + 1) command (by omega)
  exact ⟨rc, ts, hr, get_token_loop_shape cfg _ _ _ _ hr⟩

theorem countP_plain (body : List token) (hp : PlainTokens body) :
    body.countP (fun t => t.tok_class = TokClass.error) = 0 := by
  rw [List.countP_eq_zero]
  intro t ht
  have := (hp t ht).1
  simpa using this

/-- C16 (amended). For every command string `get_token` returns, and it returns `INVALID`
if and only if the token sequence it produced contains a token of class error; when it
does, there is exactly one error token, only plain tokens stand before it, and it is the
last token of the sequence, or the terminator token alone follows it, which can only
happen when the error token is a word longer than `MAX_IDENT_LEN`. -/
theorem invalid_iff_error_token (cfg : LexConfig) (command : List Nat) :
    ∃ rc ts, get_token cfg command = some (rc, ts) ∧
      (rc = LexRC.INVALID ↔ ∃ t ∈ ts, t.tok_class = TokClass.error) ∧
      (rc = LexRC.INVALID →
        ts.countP (fun t => t.tok_class = TokClass.error) = 1 ∧
        ∃ body tk, PlainTokens body ∧ tk.tok_class = TokClass.error ∧
          (ts = body ++ [tk] ∨
            (ts = body ++ [tk, eoc_token] ∧ cfg.MAX_IDENT_LEN < tk.tok_string.length))) := by
  obtain ⟨rc, ts, hr, hshape⟩ := get_token_shape cfg command
  refine ⟨rc, ts, hr, ?_, ?_⟩
  · rcases hshape with ⟨hz, body, hb, hp⟩ | ⟨hi, body, tk, hp, he, hb⟩
    · constructor
      · intro h
        rw [hz] at h
        cases h
      · rintro ⟨t, ht, hte⟩
        rw [hb] at ht
        rcases List.mem_append.mp ht with h | h
        · exact absurd hte (hp t h).1
        · rw [List.mem_singleton] at h
          rw [h] at hte
          cases hte
    · constructor
      · intro _
        refine ⟨tk, ?_, he⟩
        rcases hb with hb | ⟨hb, _⟩
        · rw [hb]; simp
        · rw [hb]; simp
      · intro _
        exact hi
  · intro hinv
    rcases hshape with ⟨hz, _⟩ | ⟨_, body, tk, hp, he, hb⟩
    · rw [hz] at hinv
      cases hinv
    · refine ⟨?_, body, tk, hp, he, hb⟩
      have hc := countP_plain body hp
      have h1 : [tk].countP (fun t => t.tok_class = TokClass.error) = 1 := by
        simp [List.countP_cons, he]
      have h2 : [tk, eoc_token].countP (fun t => t.tok_class = TokClass.error) = 1 := by
        simp [List.countP_cons, he, eoc_token]
      rcases hb with hb | ⟨hb, _⟩
      · rw [hb, List.countP_append, hc, h1]
      · rw [hb, List.countP_append, hc, h2]

/-- Counterexample to C16 as stated: on the command of 17 letters `a`, with identifiers
of at most 16 characters, `get_token` returns `INVALID` and the token sequence is the
error token followed by the terminator token. -/
theorem terminator_after_error_counterexample :
    get_token small_config long_word_command
      = some (LexRC.INVALID,
          [⟨long_word_command, TokClass.error, TokValue.INVALID⟩, eoc_token]) := by
  decide

/-- C17. For every command string `get_token` returns; when it returns 0 the token
sequence is not empty, its last token is the terminator (class terminator, value `EOC`,
empty text), and no token before it is a terminator; and on a string of spaces only the
sequence is that one token. -/
theorem zero_return_ends_with_terminator (cfg : LexConfig) (command : List Nat) (n : Nat) :
    (∃ r, get_token cfg command = some r) ∧
    (∀ ts, get_token cfg command = some (LexRC.zero, ts) →
      ts ≠ [] ∧ ts.getLast? = some eoc_token ∧
      eoc_token = ⟨[], TokClass.terminator, TokValue.EOC⟩ ∧
      ∀ t ∈ ts.dropLast, t.tok_class ≠ TokClass.terminator) ∧
    get_token cfg (List.replicate n 32) = some (LexRC.zero, [eoc_token]) := by
  refine ⟨?_, ?_, ?_⟩
  · obtain ⟨rc, ts, hr, _⟩ := get_token_shape cfg command
    exact ⟨_, hr⟩
  · intro ts h
    rcases get_token_loop_shape cfg _ _ _ _ h with ⟨_, body, hb, hp⟩ | ⟨hi, _⟩
    · subst hb
      refine ⟨by simp, by simp, rfl, ?_⟩
      intro t ht
      rw [List.dropLast_concat] at ht
      exact (hp t ht).2
    · cases hi
  · unfold get_token
    rw [List.length_replicate]
    unfold get_token_loop
    have hdrop : (List.replicate n 32).dropWhile (fun c => c == 32) = [] := by
      rw [List.dropWhile_eq_nil_iff]
      intro x hx
      rw [List.eq_of_mem_replicate hx]
      rfl
    have hstep : lex_step cfg (List.replicate n 32) = ⟨[eoc_token], false, true, []⟩ := by
      unfold lex_step
      rw [hdrop]
      rfl
    rw [hstep]
    rfl

theorem zero_return_ends_with_terminator_witness :
    get_token small_config [105, 110, 116, 32, 120]
      = some (LexRC.zero, [⟨[105, 110, 116], TokClass.type_name, TokValue.T_INT⟩,
          ⟨[120], TokClass.identifier, TokValue.IDENT⟩, eoc_token]) ∧
    ([⟨[105, 110, 116], TokClass.type_name, TokValue.T_INT⟩,
        ⟨[120], TokClass.identifier, TokValue.IDENT⟩, eoc_token] : List token).getLast?
      = some eoc_token :=
  ⟨by decide,
    ((zero_return_ends_with_terminator small_config [105, 110, 116, 32, 120] 0).2.1 _
      (by decide)).2.1⟩

theorem invalid_iff_error_token_witness :
    ∃ rc ts, get_token small_config long_word_command = some (rc, ts) ∧
      (rc = LexRC.INVALID ↔ ∃ t ∈ ts, t.tok_class = TokClass.error) ∧
      (rc = LexRC.INVALID →
        ts.countP (fun t => t.tok_class = TokClass.error) = 1 ∧
        ∃ body tk, PlainTokens body ∧ tk.tok_class = TokClass.error ∧
          (ts = body ++ [tk] ∨
            (ts = body ++ [tk, eoc_token] ∧
              small_config.MAX_IDENT_LEN < tk.tok_string.length))) :=
  invalid_iff_error_token small_config long_word_command

theorem find_keyword_first (w : List Nat) (k : List Nat) (post : List (List Nat))
    (hk : strcasecmp k w = 0) :
    ∀ (pre : List (List Nat)) (j0 : Nat), (∀ x ∈ pre, strcasecmp x w ≠ 0) →
      find_keyword w (pre ++ k :: post) j0 = some (j0 + pre.length) := by
  intro pre
  induction pre with
  | nil =>
    intro j0 _
    simp only [List.nil_append, find_keyword, if_pos hk, List.length_nil, Nat.add_zero]
  | cons x xs ih =>
    intro j0 hno
    show find_keyword w (x :: (xs ++ k :: post)) j0 = _
    rw [find_keyword, if_neg (hno x (List.mem_cons_self _ _)),
      ih (j0 + 1) (fun y hy => hno y (List.mem_cons_of_mem _ hy)), List.length_cons]
    congr 1
    omega

theorem find_keyword_none (w : List Nat) :
    ∀ (table : List (List Nat)) (j0 : Nat), (∀ x ∈ table, strcasecmp x w ≠ 0) →
      find_keyword w table j0 = none := by
  intro table
  induction table with
  | nil => intro j0 _; rfl
  | cons x xs ih =>
    intro j0 hno
    simp only [find_keyword, if_neg (hno x (List.mem_cons_self _ _))]
    exact ih (j0 + 1) (fun y hy => hno y (List.mem_cons_of_mem _ hy))

theorem takeWhile_append_stop (p : Nat → Bool) (ws rest : List Nat)
    (hws : ∀ x ∈ ws, p x = true) (hrest : p (peek rest) = false ∨ rest = []) :
    (ws ++ rest).takeWhile p = ws ∧ (ws ++ rest).dropWhile p = rest := by
  induction ws with
  | nil =>
    cases rest with
    | nil => exact ⟨rfl, rfl⟩
    | cons r rs =>
      rcases hrest with h | h
      · have hr : ¬ (p r = true) := by
          have h' : p r = false := h
          rw [h']
          exact Bool.false_ne_true
        rw [List.nil_append, List.takeWhile_cons_of_neg hr, List.dropWhile_cons_of_neg hr]
        exact ⟨rfl, rfl⟩
      · cases h
  | cons x xs ih =>
    have hx := hws x (List.mem_cons_self _ _)
    have := ih (fun y hy => hws y (List.mem_cons_of_mem _ hy))
    rw [List.cons_append, List.takeWhile_cons_of_pos hx, List.dropWhile_cons_of_pos hx]
    exact ⟨by rw [this.1], this.2⟩

theorem dropWhile_blanks (n : Nat) (c : Nat) (rest : List Nat) (hc : c ≠ 32) :
    (List.replicate n 32 ++ c :: rest).dropWhile (fun x => x == 32) = c :: rest := by
  induction n with
  | zero =>
    have : (c == 32) = false := by simpa using hc
    simp only [List.replicate, List.nil_append, List.dropWhile, this]
  | succ n ih =>
    simp only [List.replicate, List.cons_append, List.dropWhile]
    exact ih

theorem isalpha_facts (c : Nat) (h : isalpha c = true) : c ≠ 32 ∧ c ≠ 0 := by
  unfold isalpha at h
  simp only [Bool.or_eq_true, Bool.and_eq_true, decide_eq_true_eq] at h
  omega

theorem is_word_char_ne_zero (c : Nat) (h : is_word_char c = true) : c ≠ 0 := by
  intro h0
  rw [h0] at h
  exact absurd h (by decide)

theorem lex_step_word (cfg : LexConfig) (n : Nat) (c : Nat) (ws rest : List Nat)
    (hc : isalpha c = true) (hws : ∀ x ∈ ws, is_word_char x = true)
    (hstop : is_word_char (peek rest) = false)
    (hbrk : in_break cfg.STRING_BREAK (peek rest) = true) :
    lex_step cfg (List.replicate n 32 ++ (c :: ws) ++ rest)
      = lex_finish (classify_word cfg (c :: ws)).1 (classify_word cfg (c :: ws)).2 rest := by
  have hsc := takeWhile_append_stop is_word_char ws rest hws (Or.inl hstop)
  unfold lex_step
  dsimp only
  rw [List.append_assoc, List.cons_append, dropWhile_blanks n c _ (isalpha_facts c hc).1]
  have hp : peek (c :: (ws ++ rest)) = c := rfl
  rw [hp, if_pos hc]
  unfold lex_word
  dsimp only
  rw [List.tail_cons, hsc.1, hsc.2, hbrk]
  rfl

theorem get_token_first (cfg : LexConfig) (command : List Nat) (tk : token)
    (more : List token) (h : (lex_step cfg command).toks = tk :: more) :
    ∃ rc ts, get_token cfg command = some (rc, tk :: ts) := by
  obtain ⟨⟨rc, ts⟩, hr⟩ := get_token_loop_total cfg (command.length + 1) command (by omega)
  unfold get_token
  have hr' := hr
  unfold get_token_loop at hr'
  by_cases hd : (lex_step cfg command).done = true
  · rw [if_pos hd, h] at hr'
    rw [hr]
    have hts : tk :: more = ts := congrArg Prod.snd (Option.some.inj hr')
    exact ⟨rc, more, by rw [hts]⟩
  · rw [if_neg hd] at hr'
    cases hrec : get_token_loop cfg command.length (lex_step cfg command).cur with
    | none => rw [hrec] at hr'; cases hr'
    | some r =>
      rw [hrec, h] at hr'
      rw [hr]
      have hts : (tk :: more) ++ r.2 = ts := congrArg Prod.snd (Option.some.inj hr')
      exact ⟨rc, more ++ r.2, by rw [← hts]; rfl⟩

theorem lex_finish_toks (tk : token) (invalid : Bool) (cur : List Nat) :
    ∃ more, (lex_finish tk invalid cur).toks = tk :: more := by
  unfold lex_finish
  split
  · exact ⟨_, rfl⟩
  · exact ⟨_, rfl⟩

/-- C18. For every word `c :: ws` (a letter, then letters, digits or underscores) that
stands after `n` blanks and is followed by a character of the string break set (or by the
end of the command), the iteration of `get_token` at that place emits, and `get_token` on
that command emits first, one token whose text is the word and whose class is: for the
first keyword-table entry equal to the word ignoring case, at index `j`, `type_name` if
`KEYWORD_OFFSET + j < K_CREATE`, `function_name` if `KEYWORD_OFFSET + j >= F_SUM`, and
`keyword` otherwise; and if no entry equals the word ignoring case, `identifier` if the
word has at most `MAX_IDENT_LEN` characters, and `error` otherwise. -/
theorem word_token_class (cfg : LexConfig) (n : Nat) (c : Nat) (ws rest : List Nat)
    (hc : isalpha c = true) (hws : ∀ x ∈ ws, is_word_char x = true)
    (hstop : is_word_char (peek rest) = false)
    (hbrk : in_break cfg.STRING_BREAK (peek rest) = true)
    (htable : ∀ k ∈ cfg.keyword_table, 0 ∉ k) :
    ∃ tk more, (lex_step cfg (List.replicate n 32 ++ (c :: ws) ++ rest)).toks = tk :: more ∧
      (∃ rc ts, get_token cfg (List.replicate n 32 ++ (c :: ws) ++ rest)
        = some (rc, tk :: ts)) ∧
      tk.tok_string = c :: ws ∧
      (∀ (pre : List (List Nat)) (k : List Nat) (post : List (List Nat)),
        cfg.keyword_table = pre ++ k :: post → eq_ignoring_case k (c :: ws) →
        (∀ x ∈ pre, ¬ eq_ignoring_case x (c :: ws)) →
        tk.tok_class =
          (if cfg.KEYWORD_OFFSET + (pre.length : Int) < cfg.K_CREATE then TokClass.type_name
           else if cfg.KEYWORD_OFFSET + (pre.length : Int) ≥ cfg.F_SUM then
             TokClass.function_name
           else TokClass.keyword)) ∧
      ((∀ k ∈ cfg.keyword_table, ¬ eq_ignoring_case k (c :: ws)) →
        (ws.length + 1 ≤ cfg.MAX_IDENT_LEN → tk.tok_class = TokClass.identifier) ∧
        (cfg.MAX_IDENT_LEN < ws.length + 1 → tk.tok_class = TokClass.error)) := by
  have hw0 : 0 ∉ c :: ws := by
    intro h
    rcases List.mem_cons.mp h with h | h
    · exact (isalpha_facts c hc).2 h.symm
    · exact is_word_char_ne_zero 0 (hws 0 h) rfl
  have hiff : ∀ k ∈ cfg.keyword_table,
      (strcasecmp k (c :: ws) = 0 ↔ eq_ignoring_case k (c :: ws)) :=
    fun k hk => strcasecmp_eq_zero_iff k (c :: ws) (htable k hk) hw0
  have hstep := lex_step_word cfg n c ws rest hc hws hstop hbrk
  obtain ⟨more, hmore⟩ := lex_finish_toks (classify_word cfg (c :: ws)).1
    (classify_word cfg (c :: ws)).2 rest
  rw [← hstep] at hmore
  refine ⟨(classify_word cfg (c :: ws)).1, more, hmore,
    get_token_first cfg _ _ _ hmore, ?_, ?_, ?_⟩
  · unfold classify_word
    cases find_keyword (c :: ws) cfg.keyword_table 0 with
    | some j => rfl
    | none =>
      dsimp only
      split
      · rfl
      · rfl
  · intro pre k post htab hk hpre
    have hfind : find_keyword (c :: ws) cfg.keyword_table 0 = some (0 + pre.length) := by
      rw [htab]
      apply find_keyword_first
      · exact (hiff k (by rw [htab]; simp)).mpr hk
      · intro x hx h
        exact hpre x hx ((hiff x (by rw [htab]; simp [hx])).mp h)
    unfold classify_word
    rw [hfind, Nat.zero_add]
    rfl
  · intro hno
    have hfind : find_keyword (c :: ws) cfg.keyword_table 0 = none :=
      find_keyword_none _ _ _ (fun x hx h => hno x hx ((hiff x hx).mp h))
    unfold classify_word
    rw [hfind]
    dsimp only
    constructor
    · intro hlen
      rw [if_pos (by simpa using hlen)]
    · intro hlen
      rw [if_neg (by simp only [List.length_cons]; omega)]

theorem word_token_class_witness :
    (∃ tk more, (lex_step small_config
        (List.replicate 1 32 ++ (83 :: [117, 109]) ++ [40])).toks = tk :: more ∧
      tk.tok_string = 83 :: [117, 109] ∧ tk.tok_class = TokClass.function_name) ∧
    get_token small_config (List.replicate 1 32 ++ (83 :: [117, 109]) ++ [40])
      = some (LexRC.zero, [⟨[83, 117, 109], TokClass.function_name, TokValue.F_SUM⟩,
          ⟨[40], TokClass.symbol, TokValue.S_LEFT_PAREN⟩, eoc_token]) := by
  obtain ⟨tk, more, h1, _, h3, h4, _⟩ := word_token_class small_config 1 83 [117, 109] [40]
    (by decide) (by decide) (by decide) (by decide) (by decide)
  have h := h4 [[105, 110, 116], [99, 104, 97, 114], [99, 114, 101, 97, 116, 101],
    [116, 97, 98, 108, 101], [115, 101, 108, 101, 99, 116]] [115, 117, 109] [] rfl
    (by decide) (by decide)
  exact ⟨⟨tk, more, h1, h3, h⟩, by decide⟩

/-- C19 (failing input). On the command `''`, an empty string literal, `get_token`
copies the closing quote as the first character of the literal, reaches the end of the
command, emits an error token with the text `'` and returns `INVALID`; on `'' x'` it
emits a string literal with the text `' x`. A literal that is not empty is emitted with
its text. -/
theorem empty_string_literal_is_error (cfg : LexConfig) :
    get_token cfg [39, 39] = some (LexRC.INVALID, [⟨[39], TokClass.error, TokValue.INVALID⟩]) ∧
    get_token cfg [39, 39, 32, 120, 39]
      = some (LexRC.zero,
          [⟨[39, 32, 120], TokClass.constant, TokValue.STRING_LITERAL⟩, eoc_token]) ∧
    get_token cfg [39, 97, 98, 39]
      = some (LexRC.zero, [⟨[97, 98], TokClass.constant, TokValue.STRING_LITERAL⟩, eoc_token]) :=
  ⟨rfl, rfl, rfl⟩

theorem agg_locate_resolved (q : Query) (af : TokValue × List Nat) (in1 : Bool) (k : Nat)
    (hns : ¬ (af.1 = TokValue.F_COUNT ∧ is_star_name af.2 = true))
    (hres : ResolvesTo q af.2 in1 k) :
    agg_locate q af = Except.ok ⟨0, 0, some k, in1⟩ := by
  unfold agg_locate
  rw [if_neg hns]
  rcases hres with ⟨h1, h2⟩ | ⟨h1, h2, tpd2, h3, h4⟩
  · rw [h2, h1]
  · rw [h2, h3, h1]
    simp only [h4]

theorem pos_iff_ne_zero_if {α : Type} (n : Nat) (a b : α) :
    (if n > 0 then a else b) = if n = 0 then b else a := by
  by_cases h : n = 0
  · rw [if_pos h, if_neg (by omega)]
  · rw [if_neg h, if_pos (by omega)]

theorem agg_step_resolved (q : Query) (f1 : TabFile) (af : TokValue × List Nat) (k : Nat)
    (in1 : Bool) (hns : ¬ (af.1 = TokValue.F_COUNT ∧ is_star_name af.2 = true))
    (row : List Nat) (s c : Int) :
    agg_step q f1 row af ⟨s, c, some k, in1⟩ =
      if byte_at (row_part f1 in1 row) (col_offset (query_cols q in1) k) = 0 then
        ⟨s, c, some k, in1⟩
      else if af.1 = TokValue.F_COUNT then ⟨s, wrap32 (c + 1), some k, in1⟩
      else ⟨wrap64 (s + read_int32 (row_part f1 in1 row)
          (wrap32 (col_offset (query_cols q in1) k + 1))), wrap32 (c + 1), some k, in1⟩ := by
  unfold agg_step
  rw [if_neg hns]
  dsimp only
  rw [pos_iff_ne_zero_if]
  rfl

theorem non_null_records_cons (cols : List cd_entry) (k : Nat) (row : List Nat)
    (rows : List (List Nat)) :
    non_null_records cols k (row :: rows) =
      if byte_at row (col_offset cols k) = 0 then non_null_records cols k rows
      else row :: non_null_records cols k rows := by
  unfold non_null_records
  by_cases h : byte_at row (col_offset cols k) = 0
  · rw [if_pos h, List.filter_cons_of_neg (by simpa using h)]
  · rw [if_neg h, List.filter_cons_of_pos (by simpa using h)]

theorem non_null_records_length_le (cols : List cd_entry) (k : Nat) (rows : List (List Nat)) :
    (non_null_records cols k rows).length ≤ rows.length := by
  unfold non_null_records
  exact List.length_filter_le _ _

theorem count_fold (q : Query) (f1 : TabFile) (af : TokValue × List Nat) (k : Nat) (in1 : Bool)
    (hns : ¬ (af.1 = TokValue.F_COUNT ∧ is_star_name af.2 = true))
    (hc : af.1 = TokValue.F_COUNT) :
    ∀ (rows : List (List Nat)) (s c : Int),
      0 ≤ c → c + rows.length < 2147483648 →
      (rows.foldl (fun st row => agg_step q f1 row af st) ⟨s, c, some k, in1⟩)
        = ⟨s, c + (non_null_records (query_cols q in1) k
            (rows.map (row_part f1 in1))).length, some k, in1⟩ := by
  intro rows
  induction rows with
  | nil =>
    intro s c _ _
    simp only [List.foldl_nil, List.map_nil, non_null_records, List.filter_nil, List.length_nil,
      Nat.cast_zero, add_zero]
  | cons row rows ih =>
    intro s c h0 hn
    rw [List.length_cons, Nat.cast_succ] at hn
    rw [List.foldl_cons, agg_step_resolved q f1 af k in1 hns, List.map_cons,
      non_null_records_cons]
    by_cases hb : byte_at (row_part f1 in1 row) (col_offset (query_cols q in1) k) = 0
    · rw [if_pos hb, if_pos hb]
      exact ih s c h0 (by omega)
    · have hw32 : wrap32 (c + 1) = c + 1 := by
        apply wrap32_of_range <;> omega
      rw [if_neg hb, if_neg hb, if_pos hc, hw32,
        ih _ _ (by omega) (by omega), List.length_cons, Nat.cast_succ]
      congr 1
      ring

theorem sum_fold_resolved (q : Query) (f1 : TabFile) (af : TokValue × List Nat) (k : Nat)
    (in1 : Bool) (hc : af.1 ≠ TokValue.F_COUNT) :
    ∀ (rows : List (List Nat)) (s c : Int),
      0 ≤ c → c + rows.length < 2147483648 →
      -(c * 2147483648) ≤ s → s ≤ c * 2147483648 →
      (rows.foldl (fun st row => agg_step q f1 row af st) ⟨s, c, some k, in1⟩)
        = ⟨s + (column_values (query_cols q in1) k (rows.map (row_part f1 in1))).sum,
            c + (column_values (query_cols q in1) k (rows.map (row_part f1 in1))).length,
            some k, in1⟩ := by
  have hns : ¬ (af.1 = TokValue.F_COUNT ∧ is_star_name af.2 = true) := fun h => hc h.1
  intro rows
  induction rows with
  | nil =>
    intro s c _ _ _ _
    simp only [List.foldl_nil, List.map_nil, column_values, List.filterMap_nil, List.sum_nil,
      List.length_nil, add_zero, Nat.cast_zero]
  | cons row rows ih =>
    intro s c h0 hn hlo hhi
    rw [List.length_cons, Nat.cast_succ] at hn
    rw [List.foldl_cons, agg_step_resolved q f1 af k in1 hns, List.map_cons,
      column_values_cons]
    by_cases hb : byte_at (row_part f1 in1 row) (col_offset (query_cols q in1) k) = 0
    · rw [if_pos hb, if_pos hb]
      exact ih s c h0 (by omega) hlo hhi
    · rw [if_neg hb, if_neg hb, if_neg hc]
      have hr := read_int32_range (row_part f1 in1 row)
        (wrap32 (col_offset (query_cols q in1) k + 1))
      have hw64 : wrap64 (s + read_int32 (row_part f1 in1 row)
          (wrap32 (col_offset (query_cols q in1) k + 1)))
          = s + read_int32 (row_part f1 in1 row)
            (wrap32 (col_offset (query_cols q in1) k + 1)) := by
        apply wrap64_of_range <;> omega
      have hw32 : wrap32 (c + 1) = c + 1 := by
        apply wrap32_of_range <;> omega
      rw [hw64, hw32, ih _ _ (by omega) (by omega) (by omega) (by omega), List.sum_cons,
        List.length_cons, Nat.cast_succ]
      congr 1 <;> ring

theorem bubble_pass_perm (cmp : List Nat → List Nat → Int) :
    ∀ (n : Nat) (l : List (List Nat)), (bubble_pass cmp n l).Perm l := by
  intro n
  induction n with
  | zero => intro l; unfold bubble_pass; exact List.Perm.refl _
  | succ n ih =>
    intro l
    match l with
    | [] => unfold bubble_pass; exact List.Perm.refl _
    | [r] => unfold bubble_pass; exact List.Perm.refl _
    | r1 :: r2 :: rest =>
      unfold bubble_pass
      by_cases h : cmp r1 r2 > 0
      · rw [if_pos h]
        exact ((ih (r1 :: rest)).cons r2).trans (List.Perm.swap r1 r2 rest)
      · rw [if_neg h]
        exact (ih (r2 :: rest)).cons r1

theorem bubble_pass_append (cmp : List Nat → List Nat → Int) :
    ∀ (n : Nat) (p s : List (List Nat)), n < p.length →
      bubble_pass cmp n (p ++ s) = bubble_pass cmp n p ++ s := by
  intro n
  induction n with
  | zero => intro p s _; unfold bubble_pass; rfl
  | succ n ih =>
    intro p s h
    match p, h with
    | [], h => exact absurd h (Nat.not_lt_zero _)
    | [r], h => simp at h
    | r1 :: r2 :: rest, h =>
      show bubble_pass cmp (n + 1) (r1 :: r2 :: (rest ++ s)) = _
      unfold bubble_pass
      have h1 : n < (r1 :: rest).length := by simp only [List.length_cons] at h ⊢; omega
      have h2 : n < (r2 :: rest).length := by simp only [List.length_cons] at h ⊢; omega
      by_cases hc : cmp r1 r2 > 0
      · rw [if_pos hc, if_pos hc]
        have := ih (r1 :: rest) s h1
        rw [List.cons_append] at this
        rw [this]
        rfl
      · rw [if_neg hc, if_neg hc]
        have := ih (r2 :: rest) s h2
        rw [List.cons_append] at this
        rw [this]
        rfl

theorem bubble_pass_max (cmp : List Nat → List Nat → Int) (R : List Nat → List Nat → Prop)
    (P : List Nat → Prop)
    (htotal : ∀ a b, ¬ R a b → R b a) (htrans : ∀ a b c, R a b → R b c → R a c)
    (hcmp : ∀ a b, P a → P b → (cmp a b > 0 ↔ ¬ R a b)) :
    ∀ (n : Nat) (x : List Nat) (rest : List (List Nat)), rest.length ≤ n →
      (∀ y ∈ x :: rest, P y) →
      ∃ q m, bubble_pass cmp n (x :: rest) = q ++ [m] ∧ ∀ y ∈ x :: rest, R y m := by
  have hrefl : ∀ a, R a a := fun a => by
    by_contra h
    exact h (htotal a a h)
  intro n
  induction n with
  | zero =>
    intro x rest hlen _
    have : rest = [] := List.length_eq_zero.mp (Nat.le_zero.mp hlen)
    subst this
    refine ⟨[], x, by unfold bubble_pass; rfl, ?_⟩
    intro y hy
    rw [List.mem_singleton] at hy
    rw [hy]
    exact hrefl x
  | succ n ih =>
    intro x rest hlen hP
    match rest, hlen, hP with
    | [], _, _ =>
      refine ⟨[], x, by unfold bubble_pass; rfl, ?_⟩
      intro y hy
      rw [List.mem_singleton] at hy
      rw [hy]
      exact hrefl x
    | r2 :: rest', hlen, hP =>
      have hl : rest'.length ≤ n := by simp only [List.length_cons] at hlen; omega
      have hPx : P x := hP x (List.mem_cons_self _ _)
      have hP2 : P r2 := hP r2 (List.mem_cons_of_mem _ (List.mem_cons_self _ _))
      unfold bubble_pass
      by_cases hc : cmp x r2 > 0
      · rw [if_pos hc]
        obtain ⟨q, m, hq, hm⟩ := ih x rest' hl (by
          intro y hy
          rcases List.mem_cons.mp hy with h | h
          · rw [h]; exact hPx
          · exact hP y (List.mem_cons_of_mem _ (List.mem_cons_of_mem _ h)))
        refine ⟨r2 :: q, m, by rw [hq]; rfl, ?_⟩
        have hxm : R x m := hm x (List.mem_cons_self _ _)
        have h2x : R r2 x := htotal x r2 ((hcmp x r2 hPx hP2).mp hc)
        intro y hy
        rcases List.mem_cons.mp hy with h | h
        · rw [h]; exact hxm
        · rcases List.mem_cons.mp h with h' | h'
          · rw [h']; exact htrans _ _ _ h2x hxm
          · exact hm y (List.mem_cons_of_mem _ h')
      · rw [if_neg hc]
        obtain ⟨q, m, hq, hm⟩ := ih r2 rest' hl (by
          intro y hy
          exact hP y (List.mem_cons_of_mem _ hy))
        refine ⟨x :: q, m, by rw [hq]; rfl, ?_⟩
        have hx2 : R x r2 := by
          by_contra h
          exact hc ((hcmp x r2 hPx hP2).mpr h)
        intro y hy
        rcases List.mem_cons.mp hy with h | h
        · rw [h]; exact htrans _ _ _ hx2 (hm r2 (List.mem_cons_self _ _))
        · exact hm y h

theorem bubble_sort_perm (cmp : List Nat → List Nat → Int) :
    ∀ (n i : Nat) (l : List (List Nat)), (bubble_sort cmp i n l).Perm l := by
  intro n
  induction n with
  | zero => intro i l; unfold bubble_sort; exact List.Perm.refl _
  | succ n ih =>
    intro i l
    unfold bubble_sort
    exact (ih (i + 1) _).trans (bubble_pass_perm cmp _ l)

theorem bubble_sort_sorted (cmp : List Nat → List Nat → Int) (R : List Nat → List Nat → Prop)
    (P : List Nat → Prop)
    (htotal : ∀ a b, ¬ R a b → R b a) (htrans : ∀ a b c, R a b → R b c → R a c)
    (hcmp : ∀ a b, P a → P b → (cmp a b > 0 ↔ ¬ R a b)) :
    ∀ (n i : Nat) (p s : List (List Nat)), p.length = n + 1 → s.length = i →
      (∀ y ∈ p ++ s, P y) → s.Pairwise R → (∀ x ∈ p, ∀ y ∈ s, R x y) →
      (bubble_sort cmp i n (p ++ s)).Pairwise R := by
  intro n
  induction n with
  | zero =>
    intro i p s hp _ _ hs hps
    unfold bubble_sort
    match p, hp with
    | [x], _ =>
      rw [List.singleton_append, List.pairwise_cons]
      exact ⟨fun y hy => hps x (List.mem_singleton_self x) y hy, hs⟩
  | succ n ih =>
    intro i p s hp hsl hP hs hps
    unfold bubble_sort
    have hlen : (p ++ s).length - i - 1 = n + 1 := by
      rw [List.length_append, hp, hsl]
      omega
    rw [hlen, bubble_pass_append cmp (n + 1) p s (by omega)]
    match p, hp with
    | x :: rest, hp =>
      have hrl : rest.length ≤ n + 1 := by simp only [List.length_cons] at hp; omega
      obtain ⟨q, m, hq, hm⟩ := bubble_pass_max cmp R P htotal htrans hcmp (n + 1) x rest hrl
        (fun y hy => hP y (List.mem_append_left _ hy))
      have hperm : (q ++ [m]).Perm (x :: rest) := by
        rw [← hq]
        exact bubble_pass_perm cmp _ _
      have hmem : ∀ y, y ∈ q ++ [m] ↔ y ∈ x :: rest := fun y => hperm.mem_iff
      have hqlen : q.length = n + 1 := by
        have := hperm.length_eq
        simp only [List.length_append, List.length_cons, List.length_nil] at this hp
        omega
      rw [hq, List.append_assoc, List.singleton_append]
      apply ih (i + 1) q (m :: s) hqlen (by simp only [List.length_cons]; omega)
      · intro y hy
        rcases List.mem_append.mp hy with h | h
        · exact hP y (List.mem_append_left _ ((hmem y).mp (List.mem_append_left _ h)))
        · rcases List.mem_cons.mp h with h' | h'
          · rw [h']
            exact hP m (List.mem_append_left _
              ((hmem m).mp (List.mem_append_right _ (List.mem_singleton_self m))))
          · exact hP y (List.mem_append_right _ h')
      · rw [List.pairwise_cons]
        refine ⟨fun y hy => hps m ((hmem m).mp
          (List.mem_append_right _ (List.mem_singleton_self m))) y hy, hs⟩
      · intro a ha b hb
        have ha' : a ∈ x :: rest := (hmem a).mp (List.mem_append_left _ ha)
        rcases List.mem_cons.mp hb with h | h
        · rw [h]; exact hm a ha'
        · exact hps a ha' b h

theorem strcmp_le_trans : ∀ (a b c : List Nat), 0 ∉ a → 0 ∉ b → 0 ∉ c →
    strcmp a b ≤ 0 → strcmp b c ≤ 0 → strcmp a c ≤ 0 := by
  intro a
  induction a with
  | nil =>
    intro b c _ _ _ _ _
    cases c with
    | nil => simp [strcmp]
    | cons z zs => simp only [strcmp]; omega
  | cons x xs ih =>
    intro b c ha hb hc h1 h2
    cases b with
    | nil =>
      have hx : x ≠ 0 := fun e => ha (by simp [e])
      simp only [strcmp] at h1
      omega
    | cons y ys =>
      cases c with
      | nil =>
        have hy : y ≠ 0 := fun e => hb (by simp [e])
        simp only [strcmp] at h2
        omega
      | cons z zs =>
        simp only [strcmp] at h1 h2 ⊢
        by_cases hxy : x = y
        · subst hxy
          rw [if_pos rfl] at h1
          by_cases hyz : x = z
          · subst hyz
            rw [if_pos rfl] at h2 ⊢
            exact ih ys zs (fun h => ha (List.mem_cons_of_mem _ h))
              (fun h => hb (List.mem_cons_of_mem _ h))
              (fun h => hc (List.mem_cons_of_mem _ h)) h1 h2
          · rw [if_neg hyz] at h2 ⊢
            exact h2
        · rw [if_neg hxy] at h1
          by_cases hyz : y = z
          · subst hyz
            rw [if_neg hxy]
            exact h1
          · rw [if_neg hyz] at h2
            have : x ≠ z := by omega
            rw [if_neg this]
            omega

theorem strcmp_neg_iff : ∀ (a b : List Nat), 0 ∉ a → 0 ∉ b →
    (strcmp a b < 0 ↔ strcmp b a > 0) := by
  intro a
  induction a with
  | nil =>
    intro b _ hb
    cases b with
    | nil => simp [strcmp]
    | cons y ys =>
      have hy : y ≠ 0 := fun e => hb (by simp [e])
      simp only [strcmp]
      omega
  | cons x xs ih =>
    intro b ha hb
    have hx : x ≠ 0 := fun e => ha (by simp [e])
    cases b with
    | nil =>
      simp only [strcmp]
      omega
    | cons y ys =>
      simp only [strcmp]
      by_cases hxy : x = y
      · subst hxy
        rw [if_pos rfl, if_pos rfl]
        exact ih ys (fun h => ha (List.mem_cons_of_mem _ h))
          (fun h => hb (List.mem_cons_of_mem _ h))
      · rw [if_neg hxy, if_neg (fun h => hxy h.symm)]
        omega

theorem strcmp_bound : ∀ (a b : List Nat), (∀ x ∈ a, x < 256) → (∀ x ∈ b, x < 256) →
    -256 < strcmp a b ∧ strcmp a b < 256 := by
  intro a
  induction a with
  | nil =>
    intro b _ hb
    cases b with
    | nil => simp [strcmp]
    | cons y ys =>
      have := hb y (List.mem_cons_self _ _)
      simp only [strcmp]
      omega
  | cons x xs ih =>
    intro b ha hb
    have hx := ha x (List.mem_cons_self _ _)
    cases b with
    | nil =>
      simp only [strcmp]
      omega
    | cons y ys =>
      have hy := hb y (List.mem_cons_self _ _)
      simp only [strcmp]
      by_cases hxy : x = y
      · rw [if_pos hxy]
        exact ih ys (fun z hz => ha z (List.mem_cons_of_mem _ hz))
          (fun z hz => hb z (List.mem_cons_of_mem _ hz))
      · rw [if_neg hxy]
        omega

theorem str_key_no_zero (cols : List cd_entry) (k : Nat) (r : List Nat) :
    0 ∉ str_key cols k r := by
  unfold str_key
  split
  · exact cstr_no_zero _
  · simp

theorem byte_at_lt (buf : List Nat) (off : Int) (h : ∀ b ∈ buf, b < 256) :
    byte_at buf off < 256 := by
  unfold byte_at
  split
  · omega
  · rw [List.getD_eq_getElem?_getD]
    cases hg : buf[off.toNat]? with
    | none => simp
    | some v => exact h v (List.getElem?_mem hg)

theorem slice_lt (buf : List Nat) (h : ∀ b ∈ buf, b < 256) :
    ∀ (n : Nat) (off : Int), ∀ b ∈ slice buf off n, b < 256 := by
  intro n
  induction n with
  | zero => intro off b hb; simp [slice] at hb
  | succ n ih =>
    intro off b hb
    simp only [slice, List.mem_cons] at hb
    rcases hb with e | e
    · rw [e]; exact byte_at_lt buf off h
    · exact ih _ b e

theorem str_key_lt (cols : List cd_entry) (k : Nat) (r : List Nat) (h : ∀ b ∈ r, b < 256) :
    ∀ b ∈ str_key cols k r, b < 256 := by
  intro b hb
  unfold str_key at hb
  split at hb
  · unfold cstr at hb
    exact slice_lt r h _ _ b (List.mem_takeWhile_imp hb |> fun _ => (List.takeWhile_sublist _).subset hb)
  · simp at hb

theorem in_order_total (cols : List cd_entry) (k : Nat) (desc : Bool) (a b : List Nat) :
    ¬ in_order cols k desc a b → in_order cols k desc b a := by
  unfold in_order
  have hs : ∀ x y : List Nat, ¬ strcmp (str_key cols k x) (str_key cols k y) ≤ 0 →
      strcmp (str_key cols k y) (str_key cols k x) ≤ 0 := by
    intro x y h
    have := (strcmp_neg_iff (str_key cols k y) (str_key cols k x) (str_key_no_zero _ _ _)
      (str_key_no_zero _ _ _)).mpr (by omega)
    omega
  by_cases ht : (col_at cols k).col_type = T_INT
  · rw [if_pos ht, if_pos ht]
    cases desc
    · simp only [Bool.false_eq_true, if_false]
      omega
    · simp only [if_true]
      omega
  · rw [if_neg ht, if_neg ht]
    cases desc
    · simp only [Bool.false_eq_true, if_false]
      exact hs a b
    · simp only [if_true]
      exact hs b a

theorem in_order_trans (cols : List cd_entry) (k : Nat) (desc : Bool) (a b c : List Nat) :
    in_order cols k desc a b → in_order cols k desc b c → in_order cols k desc a c := by
  unfold in_order
  by_cases ht : (col_at cols k).col_type = T_INT
  · rw [if_pos ht, if_pos ht, if_pos ht]
    cases desc
    · simp only [Bool.false_eq_true, if_false]
      omega
    · simp only [if_true]
      omega
  · rw [if_neg ht, if_neg ht, if_neg ht]
    cases desc
    · simp only [Bool.false_eq_true, if_false]
      exact strcmp_le_trans _ _ _ (str_key_no_zero _ _ _) (str_key_no_zero _ _ _)
        (str_key_no_zero _ _ _)
    · simp only [if_true]
      intro h1 h2
      exact strcmp_le_trans _ _ _ (str_key_no_zero _ _ _) (str_key_no_zero _ _ _)
        (str_key_no_zero _ _ _) h2 h1

theorem sort_cmp_eq (cols : List cd_entry) (k : Nat) (base : Nat) (desc : Bool)
    (r1 r2 : List Nat) :
    sort_cmp cols k base desc r1 r2 =
      if desc then
        wrap32 (-(if (col_at cols k).col_type = T_INT then
          (if int_key cols k (r1.drop base) < int_key cols k (r2.drop base) then -1
           else if int_key cols k (r1.drop base) > int_key cols k (r2.drop base) then 1 else 0)
          else strcmp (str_key cols k (r1.drop base)) (str_key cols k (r2.drop base))))
      else
        (if (col_at cols k).col_type = T_INT then
          (if int_key cols k (r1.drop base) < int_key cols k (r2.drop base) then -1
           else if int_key cols k (r1.drop base) > int_key cols k (r2.drop base) then 1 else 0)
          else strcmp (str_key cols k (r1.drop base)) (str_key cols k (r2.drop base))) := rfl

theorem sort_cmp_gt_iff (cols : List cd_entry) (k : Nat) (base : Nat) (desc : Bool)
    (r1 r2 : List Nat) (h1 : ∀ b ∈ r1.drop base, b < 256) (h2 : ∀ b ∈ r2.drop base, b < 256) :
    sort_cmp cols k base desc r1 r2 > 0 ↔
      ¬ in_order cols k desc (r1.drop base) (r2.drop base) := by
  rw [sort_cmp_eq]
  unfold in_order
  have hbound := strcmp_bound (str_key cols k (r1.drop base)) (str_key cols k (r2.drop base))
    (str_key_lt cols k _ h1) (str_key_lt cols k _ h2)
  have hneg := strcmp_neg_iff (str_key cols k (r2.drop base)) (str_key cols k (r1.drop base))
    (str_key_no_zero _ _ _) (str_key_no_zero _ _ _)
  have hneg2 := strcmp_neg_iff (str_key cols k (r1.drop base)) (str_key cols k (r2.drop base))
    (str_key_no_zero _ _ _) (str_key_no_zero _ _ _)
  by_cases ht : (col_at cols k).col_type = T_INT
  · simp only [if_pos ht]
    cases desc
    · simp only [Bool.false_eq_true, if_false]
      by_cases ha : int_key cols k (r1.drop base) < int_key cols k (r2.drop base)
      · rw [if_pos ha]
        omega
      · rw [if_neg ha]
        by_cases hb : int_key cols k (r1.drop base) > int_key cols k (r2.drop base)
        · rw [if_pos hb]
          omega
        · rw [if_neg hb]
          omega
    · simp only [if_true]
      by_cases ha : int_key cols k (r1.drop base) < int_key cols k (r2.drop base)
      · rw [if_pos ha]
        have : wrap32 (-(-1 : Int)) = 1 := by decide
        rw [this]
        omega
      · rw [if_neg ha]
        by_cases hb : int_key cols k (r1.drop base) > int_key cols k (r2.drop base)
        · rw [if_pos hb]
          have : wrap32 (-(1 : Int)) = -1 := by decide
          rw [this]
          omega
        · rw [if_neg hb]
          have : wrap32 (-(0 : Int)) = 0 := by decide
          rw [this]
          omega
  · simp only [if_neg ht]
    cases desc
    · simp only [Bool.false_eq_true, if_false]
      omega
    · simp only [if_true]
      rw [wrap32_of_range (by omega) (by omega)]
      omega

theorem pairwise_chain (R : List Nat → List Nat → Prop) (l : List (List Nat))
    (h : l.Pairwise R) : l.Chain' R :=
  List.Pairwise.chain' h

theorem sort_cmp_sorts (cols : List cd_entry) (k : Nat) (base : Nat) (desc : Bool)
    (results : List (List Nat)) (hbytes : RowsAreBytes results) (hne : results ≠ []) :
    (bubble_sort (sort_cmp cols k base desc) 0 (results.length - 1) results).Perm results ∧
    (bubble_sort (sort_cmp cols k base desc) 0 (results.length - 1) results).Pairwise
      (fun r1 r2 => in_order cols k desc (r1.drop base) (r2.drop base)) := by
  refine ⟨bubble_sort_perm _ _ _ _, ?_⟩
  have hlen : results.length = (results.length - 1) + 1 := by
    have : 0 < results.length := List.length_pos.mpr hne
    omega
  have := bubble_sort_sorted (sort_cmp cols k base desc)
    (fun r1 r2 => in_order cols k desc (r1.drop base) (r2.drop base))
    (fun r => ∀ b ∈ r.drop base, b < 256)
    (fun a b => in_order_total cols k desc _ _)
    (fun a b c => in_order_trans cols k desc _ _ _)
    (fun a b ha hb => sort_cmp_gt_iff cols k base desc a b ha hb)
    (results.length - 1) 0 results [] hlen rfl
    (by
      intro y hy b hb
      rw [List.append_nil] at hy
      exact hbytes y hy b (List.mem_of_mem_drop hb))
    List.Pairwise.nil
    (fun x _ y hy => absurd hy (List.not_mem_nil y))
  rw [List.append_nil] at this
  exact this

theorem sort_results_resolved (q : Query) (f1 : TabFile) (results : List (List Nat))
    (in1 : Bool) (k : Nat) (ho : q.has_order = true) (hlen : results.length > 1)
    (hres : ResolvesTo q q.order_col in1 k) :
    sort_results q f1 results =
      bubble_sort (sort_cmp (query_cols q in1) k (if in1 then 0 else f1.hdr.record_size.toNat)
        q.order_desc) 0 (results.length - 1) results := by
  unfold sort_results
  rw [if_pos ⟨ho, hlen⟩]
  unfold query_cols
  rcases hres with ⟨h1, h2⟩ | ⟨h1, h2, tpd2, h3, h4⟩
  · rw [h2, h1]
    rfl
  · rw [h2, h3, h1]
    simp only [h4]
    rfl

theorem row_part_eq_drop (f1 : TabFile) (in1 : Bool) (r : List Nat) :
    row_part f1 in1 r = r.drop (if in1 then 0 else f1.hdr.record_size.toNat) := by
  unfold row_part
  cases in1
  · rfl
  · rfl

/-- C25 (the code at the failing input). For `select * from v order by x` on the records
NULL and -5 the sort leaves the record -5 first and the record with the NULL second: the
comparison takes 0 as the key of a NULL field of an INT column, so a NULL stands after
every negative value and is not moved before a 0 that precedes it. -/
theorem null_sorts_as_zero :
    scan select_order_asc v_negative_file none
      = [[0, 0, 0, 0, 0, 0, 0, 0], [4, 251, 255, 255, 255, 0, 0, 0]] ∧
    result_set select_order_asc v_negative_file none
      = [[4, 251, 255, 255, 255, 0, 0, 0], [0, 0, 0, 0, 0, 0, 0, 0]] ∧
    int_key v_table.cols 0 [0, 0, 0, 0, 0, 0, 0, 0] = 0 ∧
    int_key v_table.cols 0 [4, 251, 255, 255, 255, 0, 0, 0] = -5 ∧
    sort_results select_order_asc v_file
        [[4, 0, 0, 0, 0, 0, 0, 0], [0, 0, 0, 0, 0, 0, 0, 0]]
      = [[4, 0, 0, 0, 0, 0, 0, 0], [0, 0, 0, 0, 0, 0, 0, 0]] := by
  decide

theorem and_then_go {α β : Type} (a : α) (f : α → Option (Except RC β)) :
    and_then (go a) f = f a := rfl

theorem and_then_ret {α β : Type} (rc : RC) (f : α → Option (Except RC β)) :
    and_then (ret rc : Option (Except RC α)) f = ret rc := rfl

theorem at_tok_some (toks : List token) (cur : Nat) (t : token) (h : toks[cur]? = some t) :
    at_tok toks cur = go t := by
  unfold at_tok
  rw [h]
  rfl

/-- C21 (counterexample). The tables v (x int) and y (y int) have no common column, and
`select * from v natural join y`, with three records in v and one in y, returns 0 with
the three rows (10, 7), (20, 7), (3, 7) of the cross product, not an empty result set:
`rows_match_on_common_columns` accepts every pair of records when there is no common
column. -/
theorem join_without_common_column_counterexample :
    find_common_columns v_table y_table = [] ∧
    (∀ (row1 row2 : List Nat) (cols1 cols2 : List cd_entry) (m1 m2 : List Nat),
      rows_match_on_common_columns row1 row2 cols1 cols2 m1 m2 0 = true) ∧
    sem_select no_oob_comma demo_lookup demo_fs star_v_join_y 0
      = some (SelectOutput.rows
          (out_cols_of v_table.cols true v_table.cols 0
            ++ out_cols_of y_table.cols false y_table.cols 0)
          [[Value.int 10, Value.int 7], [Value.int 20, Value.int 7],
            [Value.int 3, Value.int 7]] 3) := by
  refine ⟨by decide, fun _ _ _ _ _ _ => rfl, by decide⟩

/-- C22 (the code at the failing input). A condition on a column that no table of the
statement has is evaluated to false for every record, in the single-table scan and in the
join scan, and no error is raised: `select * from t1 where zz = 1`, on the table
t1 (id int, name char(10)) with one record, returns 0 with an empty result set. -/
theorem unknown_where_column_is_no_error :
    (∀ (c : query_condition) (row : List Nat) (tpd : tpd_entry),
      find_column c.col_name tpd.cols 0 = none → eval c row tpd = false) ∧
    (∀ (c : query_condition) (buf1 buf2 : List Nat) (tpd1 tpd2 : tpd_entry),
      find_column c.col_name tpd1.cols 0 = none → find_column c.col_name tpd2.cols 0 = none →
      eval_join c buf1 buf2 tpd1 tpd2 = false) ∧
    find_column [122, 122] t1_table.cols 0 = none ∧
    sem_select no_oob_comma demo_lookup demo_fs star_where_zz 0
      = some (SelectOutput.rows (out_cols_of t1_table.cols true t1_table.cols 0) [] 0) := by
  refine ⟨?_, ?_, by decide, by decide⟩
  · intro c row tpd h
    unfold eval
    rw [h]
  · intro c buf1 buf2 tpd1 tpd2 h1 h2
    unfold eval_join
    rw [h1, h2]

/-- C29 (the code at the failing input). For j1 (id int, a int) and j2 (id int, b int),
`select sum(b) from j1 natural join j2` returns COLUMN_NOT_EXIST: the check of the
aggregates, which runs before NATURAL JOIN is parsed, looks for `b` in the FROM table
only. The execution part would compute the sum over the joined rows from the record of
j2 (5 for the one pair of records), and `count(b)`, which is not checked, succeeds. -/
theorem sum_of_right_table_column_is_rejected :
    find_column [98] j1_table.cols 0 = none ∧ find_column [98] j2_table.cols 0 = some 1 ∧
    sem_select no_oob_comma demo_lookup demo_fs sum_b_join 0
      = some (SelectOutput.failed RC.COLUMN_NOT_EXIST) ∧
    sem_select_exec sum_b_query demo_fs = SelectOutput.aggregates [5] ∧
    sem_select no_oob_comma demo_lookup demo_fs count_b_join 0
      = some (SelectOutput.aggregates [1]) := by
  decide

theorem select_result_ret (fs : List Nat → Option TabFile) (rc : RC) :
    select_result fs (ret rc) = some (SelectOutput.failed rc) := rfl

theorem and_then_eq_go {α β : Type} (x : Option (Except RC α))
    (f : α → Option (Except RC β)) (b : β) (h : and_then x f = go b) :
    ∃ a, x = go a ∧ f a = go b := by
  cases x with
  | none => cases h
  | some e =>
    cases e with
    | error rc => cases h
    | ok a => exact ⟨a, rfl, h⟩

theorem validate_aggs_cons (tpd1 : tpd_entry) (a : TokValue × List Nat)
    (rest : List (TokValue × List Nat)) :
    validate_aggs tpd1 (a :: rest) =
      if a.1 = TokValue.F_SUM ∨ a.1 = TokValue.F_AVG then
        if strcmp a.2 [42] ≠ 0 then
          match find_column a.2 tpd1.cols 0 with
          | some k =>
            if (col_at tpd1.cols k).col_type ≠ T_INT then RC.INVALID_SELECT_DEFINITION
            else validate_aggs tpd1 rest
          | none => RC.COLUMN_NOT_EXIST
        else validate_aggs tpd1 rest
      else validate_aggs tpd1 rest := rfl

theorem validate_aggs_step (tpd1 : tpd_entry) (a : TokValue × List Nat)
    (rest : List (TokValue × List Nat)) :
    validate_aggs tpd1 (a :: rest) = validate_aggs tpd1 rest
      ∨ validate_aggs tpd1 (a :: rest) = RC.INVALID_SELECT_DEFINITION
      ∨ validate_aggs tpd1 (a :: rest) = RC.COLUMN_NOT_EXIST := by
  rw [validate_aggs_cons]
  by_cases h1 : a.1 = TokValue.F_SUM ∨ a.1 = TokValue.F_AVG
  · rw [if_pos h1]
    by_cases h2 : strcmp a.2 [42] ≠ 0
    · rw [if_pos h2]
      cases hf : find_column a.2 tpd1.cols 0 with
      | none => right; right; rfl
      | some k =>
        by_cases h3 : (col_at tpd1.cols k).col_type ≠ T_INT
        · right; left; exact if_pos h3
        · left; exact if_neg h3
    · rw [if_neg h2]; left; rfl
  · rw [if_neg h1]; left; rfl

theorem validate_aggs_non_int (tpd1 : tpd_entry) (fn : TokValue) (name : List Nat)
    (post : List (TokValue × List Nat)) (k : Nat)
    (hfn : fn = TokValue.F_SUM ∨ fn = TokValue.F_AVG) (hname : strcmp name [42] ≠ 0)
    (hk : find_column name tpd1.cols 0 = some k)
    (hty : (col_at tpd1.cols k).col_type ≠ T_INT) :
    validate_aggs tpd1 ((fn, name) :: post) = RC.INVALID_SELECT_DEFINITION := by
  rw [validate_aggs_cons, if_pos hfn, if_pos hname]
  show (match find_column name tpd1.cols 0 with
    | some k => if (col_at tpd1.cols k).col_type ≠ T_INT then RC.INVALID_SELECT_DEFINITION
        else validate_aggs tpd1 post
    | none => RC.COLUMN_NOT_EXIST) = RC.INVALID_SELECT_DEFINITION
  rw [hk]
  exact if_pos hty

theorem validate_aggs_append (tpd1 : tpd_entry) (pre l : List (TokValue × List Nat)) :
    (validate_aggs tpd1 pre = RC.OK → validate_aggs tpd1 (pre ++ l) = validate_aggs tpd1 l)
    ∧ (validate_aggs tpd1 pre ≠ RC.OK →
        validate_aggs tpd1 (pre ++ l) = validate_aggs tpd1 pre) := by
  induction pre with
  | nil => exact ⟨fun _ => rfl, fun h => absurd rfl h⟩
  | cons a rest ih =>
    have hc1 := validate_aggs_cons tpd1 a rest
    have hc2 := validate_aggs_cons tpd1 a (rest ++ l)
    rw [List.cons_append, hc1, hc2]
    by_cases h1 : a.1 = TokValue.F_SUM ∨ a.1 = TokValue.F_AVG
    · rw [if_pos h1, if_pos h1]
      by_cases h2 : strcmp a.2 [42] ≠ 0
      · rw [if_pos h2, if_pos h2]
        cases hf : find_column a.2 tpd1.cols 0 with
        | none => exact ⟨(fun h => nomatch h), fun _ => rfl⟩
        | some k =>
          by_cases h3 : (col_at tpd1.cols k).col_type ≠ T_INT
          · dsimp only
            rw [if_pos h3, if_pos h3]
            exact ⟨(fun h => nomatch h), fun _ => rfl⟩
          · dsimp only
            rw [if_neg h3, if_neg h3]
            exact ih
      · rw [if_neg h2, if_neg h2]; exact ih
    · rw [if_neg h1, if_neg h1]; exact ih

theorem validate_aggs_codes (tpd1 : tpd_entry) (l : List (TokValue × List Nat)) :
    validate_aggs tpd1 l = RC.OK ∨ validate_aggs tpd1 l = RC.INVALID_SELECT_DEFINITION
      ∨ validate_aggs tpd1 l = RC.COLUMN_NOT_EXIST := by
  induction l with
  | nil => left; rfl
  | cons a rest ih =>
    rcases validate_aggs_step tpd1 a rest with h | h | h
    · rw [h]; exact ih
    · right; left; exact h
    · right; right; exact h

theorem validate_aggs_rejects (tpd1 : tpd_entry) (pre post : List (TokValue × List Nat))
    (fn : TokValue) (name : List Nat) (k : Nat)
    (hfn : fn = TokValue.F_SUM ∨ fn = TokValue.F_AVG) (hname : strcmp name [42] ≠ 0)
    (hk : find_column name tpd1.cols 0 = some k)
    (hty : (col_at tpd1.cols k).col_type ≠ T_INT) :
    validate_aggs tpd1 (pre ++ (fn, name) :: post) ≠ RC.OK
    ∧ (validate_aggs tpd1 pre = RC.OK →
        validate_aggs tpd1 (pre ++ (fn, name) :: post) = RC.INVALID_SELECT_DEFINITION)
    ∧ (validate_aggs tpd1 pre ≠ RC.OK →
        validate_aggs tpd1 (pre ++ (fn, name) :: post) = validate_aggs tpd1 pre)
    ∧ (validate_aggs tpd1 (pre ++ (fn, name) :: post) = RC.INVALID_SELECT_DEFINITION
      ∨ validate_aggs tpd1 (pre ++ (fn, name) :: post) = RC.COLUMN_NOT_EXIST) := by
  have hni := validate_aggs_non_int tpd1 fn name post k hfn hname hk hty
  have happ := validate_aggs_append tpd1 pre ((fn, name) :: post)
  have hne : validate_aggs tpd1 (pre ++ (fn, name) :: post) ≠ RC.OK := by
    by_cases hp : validate_aggs tpd1 pre = RC.OK
    · rw [happ.1 hp, hni]; intro h; cases h
    · rw [happ.2 hp]; exact hp
  refine ⟨hne, fun hp => by rw [happ.1 hp, hni], happ.2, ?_⟩
  rcases validate_aggs_codes tpd1 (pre ++ (fn, name) :: post) with h | h | h
  · exact absurd h hne
  · left; exact h
  · right; exact h

theorem select_list_is_aggregate (oob : Nat → Bool) (toks : List token) (cur : Nat)
    (sl : SelectList) (h : parse_select_list oob toks cur = go sl) (hne : sl.agg_funcs ≠ []) :
    sl.is_aggregate = true := by
  unfold parse_select_list at h
  obtain ⟨t0, _, h⟩ := and_then_eq_go _ _ _ h
  by_cases h1 : t0.tok_value = TokValue.S_STAR
  · rw [if_pos h1] at h
    have := Except.ok.inj (Option.some.inj h)
    rw [← this] at hne
    exact absurd rfl hne
  · rw [if_neg h1] at h
    by_cases h2 : t0.tok_class = TokClass.function_name
    · rw [if_pos h2] at h
      obtain ⟨r, _, h⟩ := and_then_eq_go _ _ _ h
      have := Except.ok.inj (Option.some.inj h)
      rw [← this]
    · rw [if_neg h2] at h
      obtain ⟨r, _, h⟩ := and_then_eq_go _ _ _ h
      have := Except.ok.inj (Option.some.inj h)
      rw [← this] at hne
      exact absurd rfl hne

theorem sem_select_rejects_aggs (oob : Nat → Bool) (lookup : List Nat → Option tpd_entry)
    (fs : List Nat → Option TabFile) (toks : List token) (cur : Nat) (sl : SelectList)
    (f : List Nat × tpd_entry × Nat)
    (h1 : parse_select_list oob toks cur = go sl) (h2 : parse_from lookup toks sl.cur = go f)
    (hagg : sl.is_aggregate = true) (hne : validate_aggs f.2.1 sl.agg_funcs ≠ RC.OK) :
    sem_select oob lookup fs toks cur
      = some (SelectOutput.failed (validate_aggs f.2.1 sl.agg_funcs)) := by
  unfold sem_select parse_select
  rw [h1, and_then_go, h2, and_then_go, if_pos ⟨hagg, hne⟩]
  rfl

theorem getElem?_after (pfx l : List token) (i : Nat) :
    (pfx ++ l)[pfx.length + i]? = l[i]? := by
  rw [List.getElem?_append_right (Nat.le_add_right _ _), Nat.add_sub_cancel_left]

theorem at_tok_after (pfx l : List token) (i : Nat) (t : token) (h : l[i]? = some t) :
    at_tok (pfx ++ l) (pfx.length + i) = go t :=
  at_tok_some _ _ _ ((getElem?_after pfx l i).trans h)

theorem parse_aggregate_star (toks : List token) (cur : Nat) (g t1 t2 : token)
    (h0 : toks[cur]? = some g) (h1 : toks[cur + 1]? = some t1) (h2 : toks[cur + 2]? = some t2)
    (hg : g.tok_class = TokClass.function_name) (hv : g.tok_value ≠ TokValue.F_COUNT)
    (ht1 : t1.tok_value = TokValue.S_LEFT_PAREN) (ht2 : t2.tok_value = TokValue.S_STAR) :
    parse_aggregate toks cur = ret RC.INVALID_SELECT_DEFINITION := by
  unfold parse_aggregate
  rw [at_tok_some _ _ _ h0, and_then_go, if_neg (not_not.mpr hg), at_tok_some _ _ _ h1,
    and_then_go, if_neg (not_not.mpr ht1), at_tok_some _ _ _ h2, and_then_go, if_pos ht2,
    if_pos hv]

theorem parse_aggregate_accepts (toks : List token) (cur : Nat) (p : token × token)
    (t1 t3 : token) (hp : well_formed_agg p)
    (h0 : toks[cur]? = some p.1) (h1 : toks[cur + 1]? = some t1)
    (h2 : toks[cur + 2]? = some p.2) (h3 : toks[cur + 3]? = some t3)
    (ht1 : t1.tok_value = TokValue.S_LEFT_PAREN) (ht3 : t3.tok_value = TokValue.S_RIGHT_PAREN) :
    ∃ name, parse_aggregate toks cur = go ((p.1.tok_value, name), cur + 4) := by
  unfold parse_aggregate
  rw [at_tok_some _ _ _ h0, and_then_go, if_neg (not_not.mpr hp.1.1), at_tok_some _ _ _ h1,
    and_then_go, if_neg (not_not.mpr ht1), at_tok_some _ _ _ h2, and_then_go]
  rcases hp.2 with ⟨hs, hc⟩ | ⟨hs, hn⟩
  · rw [if_pos hs, if_neg (not_not.mpr hc)]
    refine ⟨[42], ?_⟩
    unfold close_aggregate
    rw [at_tok_some _ _ _ h3, and_then_go, if_neg (not_not.mpr ht3)]
  · rw [if_neg hs, if_pos hn]
    refine ⟨p.2.tok_string, ?_⟩
    unfold close_aggregate
    rw [at_tok_some _ _ _ h3, and_then_go, if_neg (not_not.mpr ht3)]

theorem agg_list_toks_cons (p : token × token) (ps : List (token × token)) :
    agg_list_toks (p :: ps) =
      [p.1, symbol_tok 40 TokValue.S_LEFT_PAREN, p.2, symbol_tok 41 TokValue.S_RIGHT_PAREN,
        symbol_tok 44 TokValue.S_COMMA] ++ agg_list_toks ps := rfl

theorem agg_list_head (ps : List (token × token)) (g : token) (rest : List token)
    (hps : ∀ p ∈ ps, well_formed_agg p) (hg : is_function_token g) :
    ∃ t, (agg_list_toks ps ++ g :: rest)[0]? = some t ∧ is_function_token t := by
  cases ps with
  | nil => exact ⟨g, by simp [agg_list_toks], hg⟩
  | cons p ps => exact ⟨p.1, by simp [agg_list_toks], (hps p (List.mem_cons_self _ _)).1⟩

theorem parse_aggs_star (oob : Nat → Bool) (g : token) (rest : List token)
    (hg : g.tok_class = TokClass.function_name)
    (hv : g.tok_value = TokValue.F_SUM ∨ g.tok_value = TokValue.F_AVG) :
    ∀ (aggs : List (token × token)) (pfx : List token) (fuel : Nat)
      (acc : List (TokValue × List Nat)),
      (∀ p ∈ aggs, well_formed_agg p) → aggs.length < fuel →
      parse_aggs oob
        (pfx ++ (agg_list_toks aggs
          ++ g :: symbol_tok 40 TokValue.S_LEFT_PAREN :: symbol_tok 42 TokValue.S_STAR :: rest))
        fuel pfx.length acc = ret RC.INVALID_SELECT_DEFINITION := by
  have hgc : g.tok_value ≠ TokValue.F_COUNT := by
    rcases hv with h | h <;> rw [h] <;> intro h' <;> cases h'
  intro aggs
  induction aggs with
  | nil =>
    intro pfx fuel acc _ hf
    obtain ⟨n, rfl⟩ : ∃ n, fuel = n + 1 := ⟨fuel - 1, by simp at hf; omega⟩
    rw [show agg_list_toks [] = [] from rfl, List.nil_append]
    have hstar : parse_aggregate
        (pfx ++ g :: symbol_tok 40 TokValue.S_LEFT_PAREN :: symbol_tok 42 TokValue.S_STAR :: rest)
        pfx.length = ret RC.INVALID_SELECT_DEFINITION :=
      parse_aggregate_star _ _ g (symbol_tok 40 TokValue.S_LEFT_PAREN)
        (symbol_tok 42 TokValue.S_STAR)
        ((getElem?_after pfx _ 0).trans (by simp)) ((getElem?_after pfx _ 1).trans (by simp))
        ((getElem?_after pfx _ 2).trans (by simp)) hg hgc rfl rfl
    show and_then (parse_aggregate _ pfx.length) _ = _
    rw [hstar]
    rfl
  | cons p ps ih =>
    intro pfx fuel acc hps hf
    obtain ⟨n, rfl⟩ : ∃ n, fuel = n + 1 := ⟨fuel - 1, by simp at hf; omega⟩
    have hp := hps p (List.mem_cons_self _ _)
    have hps2 : ∀ q ∈ ps, well_formed_agg q := fun q hq => hps q (List.mem_cons_of_mem _ hq)
    have hn : ps.length < n := by simp at hf; omega
    obtain ⟨t, ht, htf⟩ := agg_list_head ps g
      (symbol_tok 40 TokValue.S_LEFT_PAREN :: symbol_tok 42 TokValue.S_STAR :: rest) hps2
      ⟨hg, hv.elim Or.inl (fun h => Or.inr (Or.inl h))⟩
    have hrec := fun acc2 => ih (pfx ++ [p.1, symbol_tok 40 TokValue.S_LEFT_PAREN, p.2,
            symbol_tok 41 TokValue.S_RIGHT_PAREN, symbol_tok 44 TokValue.S_COMMA]) n
            acc2 hps2 hn
    rw [agg_list_toks_cons, List.append_assoc]
    generalize agg_list_toks ps ++ g :: symbol_tok 40 TokValue.S_LEFT_PAREN
      :: symbol_tok 42 TokValue.S_STAR :: rest = L at ht hrec ⊢
    have htoks : (pfx ++ [p.1, symbol_tok 40 TokValue.S_LEFT_PAREN, p.2,
            symbol_tok 41 TokValue.S_RIGHT_PAREN, symbol_tok 44 TokValue.S_COMMA]) ++ L
        = pfx ++ ([p.1, symbol_tok 40 TokValue.S_LEFT_PAREN, p.2,
            symbol_tok 41 TokValue.S_RIGHT_PAREN, symbol_tok 44 TokValue.S_COMMA] ++ L) :=
      List.append_assoc _ _ _
    have hlen : (pfx ++ [p.1, symbol_tok 40 TokValue.S_LEFT_PAREN, p.2,
            symbol_tok 41 TokValue.S_RIGHT_PAREN, symbol_tok 44 TokValue.S_COMMA]).length
        = pfx.length + 4 + 1 := by simp
    rw [htoks, hlen] at hrec
    obtain ⟨name, hacc⟩ := parse_aggregate_accepts
      (pfx ++ ([p.1, symbol_tok 40 TokValue.S_LEFT_PAREN, p.2,
            symbol_tok 41 TokValue.S_RIGHT_PAREN, symbol_tok 44 TokValue.S_COMMA] ++ L))
      pfx.length p
      (symbol_tok 40 TokValue.S_LEFT_PAREN) (symbol_tok 41 TokValue.S_RIGHT_PAREN) hp
      ((getElem?_after pfx _ 0).trans (by simp)) ((getElem?_after pfx _ 1).trans (by simp))
      ((getElem?_after pfx _ 2).trans (by simp)) ((getElem?_after pfx _ 3).trans (by simp))
      rfl rfl
    have hcomma : at_tok (pfx ++ ([p.1, symbol_tok 40 TokValue.S_LEFT_PAREN, p.2,
            symbol_tok 41 TokValue.S_RIGHT_PAREN, symbol_tok 44 TokValue.S_COMMA] ++ L))
          (pfx.length + 4)
        = go (symbol_tok 44 TokValue.S_COMMA) := at_tok_after pfx _ 4 _ (by simp)
    have hnext : at_tok (pfx ++ ([p.1, symbol_tok 40 TokValue.S_LEFT_PAREN, p.2,
            symbol_tok 41 TokValue.S_RIGHT_PAREN, symbol_tok 44 TokValue.S_COMMA] ++ L))
          (pfx.length + 4 + 1)
        = go t := at_tok_after pfx _ 5 _ (by simpa using ht)
    show and_then (parse_aggregate _ pfx.length) _ = _
    rw [hacc, and_then_go]
    show and_then (at_tok _ (pfx.length + 4)) _ = _
    rw [hcomma, and_then_go,
      if_pos (show (symbol_tok 44 TokValue.S_COMMA).tok_value = TokValue.S_COMMA from rfl)]
    show and_then (at_tok _ (pfx.length + 4 + 1)) _ = _
    rw [hnext, and_then_go, if_pos htf.1]
    exact hrec _

theorem agg_list_toks_length (aggs : List (token × token)) :
    (agg_list_toks aggs).length = 5 * aggs.length := by
  induction aggs with
  | nil => rfl
  | cons p ps ih =>
    rw [agg_list_toks_cons, List.length_append, ih, List.length_cons]
    simp
    omega

theorem sem_select_star (oob : Nat → Bool) (lookup : List Nat → Option tpd_entry)
    (fs : List Nat → Option TabFile) (aggs : List (token × token)) (g : token)
    (rest : List token) (haggs : ∀ p ∈ aggs, well_formed_agg p)
    (hg : g.tok_class = TokClass.function_name)
    (hv : g.tok_value = TokValue.F_SUM ∨ g.tok_value = TokValue.F_AVG) :
    sem_select oob lookup fs
      (agg_list_toks aggs
        ++ g :: symbol_tok 40 TokValue.S_LEFT_PAREN :: symbol_tok 42 TokValue.S_STAR :: rest) 0
      = some (SelectOutput.failed RC.INVALID_SELECT_DEFINITION) := by
  obtain ⟨t, ht, htf⟩ := agg_list_head aggs g
    (symbol_tok 40 TokValue.S_LEFT_PAREN :: symbol_tok 42 TokValue.S_STAR :: rest) haggs
    ⟨hg, hv.elim Or.inl (fun h => Or.inr (Or.inl h))⟩
  have hns : t.tok_value ≠ TokValue.S_STAR := by
    rcases htf.2 with h | h | h <;> rw [h] <;> intro h' <;> cases h'
  have hfuel : aggs.length < (agg_list_toks aggs
        ++ g :: symbol_tok 40 TokValue.S_LEFT_PAREN :: symbol_tok 42 TokValue.S_STAR
          :: rest).length := by
    rw [List.length_append, agg_list_toks_length]
    simp
    omega
  have hstar := parse_aggs_star oob g rest hg hv aggs [] _ [] haggs hfuel
  rw [List.nil_append] at hstar
  unfold sem_select parse_select parse_select_list
  rw [at_tok_some _ _ _ ht, and_then_go, if_neg hns, if_pos htf.1]
  have h0 : ([] : List token).length = 0 := rfl
  rw [h0] at hstar
  rw [hstar]
  rfl

/-- C28 (amended). For every SELECT whose select list and FROM clause parse and whose
projection contains SUM(c) or AVG(c) with c a column of the FROM table that is not of type
INT, `sem_select` returns, whatever the table files hold, the nonzero code of the first
aggregate that fails the check of the aggregates: INVALID_SELECT_DEFINITION when every
aggregate before this one passes the check, and otherwise the code of the earlier failure,
INVALID_SELECT_DEFINITION or COLUMN_NOT_EXIST. Every select list in which SUM(*) or AVG(*)
follows any number of well-formed aggregates returns INVALID_SELECT_DEFINITION, whatever
the table files hold. COUNT of any argument passes the check, and `select count(*) from v`
on three records succeeds with the count 3. -/
theorem sum_avg_need_int_column (oob : Nat → Bool) (lookup : List Nat → Option tpd_entry)
    (toks : List token) (cur : Nat) (sl : SelectList) (f : List Nat × tpd_entry × Nat)
    (pre post : List (TokValue × List Nat)) (fn : TokValue) (name : List Nat) (k : Nat)
    (h1 : parse_select_list oob toks cur = go sl)
    (h2 : parse_from lookup toks sl.cur = go f)
    (hl : sl.agg_funcs = pre ++ (fn, name) :: post)
    (hfn : fn = TokValue.F_SUM ∨ fn = TokValue.F_AVG) (hname : strcmp name [42] ≠ 0)
    (hk : find_column name f.2.1.cols 0 = some k)
    (hty : (col_at f.2.1.cols k).col_type ≠ T_INT) :
    ((∀ fs : List Nat → Option TabFile, sem_select oob lookup fs toks cur
        = some (SelectOutput.failed (validate_aggs f.2.1 sl.agg_funcs)))
      ∧ validate_aggs f.2.1 sl.agg_funcs ≠ RC.OK
      ∧ (validate_aggs f.2.1 pre = RC.OK →
          validate_aggs f.2.1 sl.agg_funcs = RC.INVALID_SELECT_DEFINITION)
      ∧ (validate_aggs f.2.1 pre ≠ RC.OK →
          validate_aggs f.2.1 sl.agg_funcs = validate_aggs f.2.1 pre)
      ∧ (validate_aggs f.2.1 sl.agg_funcs = RC.INVALID_SELECT_DEFINITION
        ∨ validate_aggs f.2.1 sl.agg_funcs = RC.COLUMN_NOT_EXIST))
    ∧ (∀ (oob2 : Nat → Bool) (lookup2 : List Nat → Option tpd_entry)
        (fs : List Nat → Option TabFile) (aggs : List (token × token)) (g : token)
        (rest : List token), (∀ p ∈ aggs, well_formed_agg p) →
        g.tok_class = TokClass.function_name →
        (g.tok_value = TokValue.F_SUM ∨ g.tok_value = TokValue.F_AVG) →
        sem_select oob2 lookup2 fs
          (agg_list_toks aggs ++ g :: symbol_tok 40 TokValue.S_LEFT_PAREN
            :: symbol_tok 42 TokValue.S_STAR :: rest) 0
          = some (SelectOutput.failed RC.INVALID_SELECT_DEFINITION))
    ∧ (∀ (tpd1 : tpd_entry) (arg : List Nat) (rest : List (TokValue × List Nat)),
        validate_aggs tpd1 ((TokValue.F_COUNT, arg) :: rest) = validate_aggs tpd1 rest)
    ∧ sem_select no_oob_comma demo_lookup demo_fs count_star_v 0
        = some (SelectOutput.aggregates [3]) := by
  have hrej := validate_aggs_rejects f.2.1 pre post fn name k hfn hname hk hty
  rw [← hl] at hrej
  have hagg : sl.is_aggregate = true :=
    select_list_is_aggregate oob toks cur sl h1 (by rw [hl]; exact List.append_ne_nil_of_right_ne_nil _ (List.cons_ne_nil _ _))
  refine ⟨⟨fun fs => sem_select_rejects_aggs oob lookup fs toks cur sl f h1 h2 hagg hrej.1,
    hrej⟩, ?_, ?_, by decide⟩
  · intro oob2 lookup2 fs aggs g rest haggs hg hv
    exact sem_select_star oob2 lookup2 fs aggs g rest haggs hg hv
  · intro tpd1 arg rest
    rw [validate_aggs_cons]
    exact if_neg (by intro h; rcases h with h | h <;> cases h)

theorem sum_avg_need_int_column_witness :
    sem_select no_oob_comma demo_lookup demo_fs sum_name_t1 0
      = some (SelectOutput.failed (validate_aggs t1_table [(TokValue.F_SUM, [110, 97, 109, 101])]))
    ∧ validate_aggs t1_table [(TokValue.F_SUM, [110, 97, 109, 101])]
      = RC.INVALID_SELECT_DEFINITION :=
  have h := sum_avg_need_int_column no_oob_comma demo_lookup sum_name_t1 0
    ⟨false, true, [(TokValue.F_SUM, [110, 97, 109, 101])], [], 4⟩ ([116, 49], t1_table, 6)
    [] [] TokValue.F_SUM [110, 97, 109, 101] 1 rfl rfl rfl (Or.inl rfl)
    (by decide) (by decide) (by decide)
  ⟨h.1.1 demo_fs, h.1.2.2.1 rfl⟩

/-- C28 (counterexample). The projection of `select sum(zz), sum(name) from t1` contains
SUM(name), and name is a CHAR column of the FROM table t1 (id int, name char(10)); the
statement returns COLUMN_NOT_EXIST, the code of the check of `sum(zz)`, not
INVALID_SELECT_DEFINITION. -/
theorem sum_after_unknown_column_counterexample :
    parse_select_list no_oob_comma sum_zz_sum_name_t1 0
      = go ⟨false, true, [(TokValue.F_SUM, [122, 122]), (TokValue.F_SUM, [110, 97, 109, 101])],
          [], 9⟩
    ∧ find_column [110, 97, 109, 101] t1_table.cols 0 = some 1
    ∧ (col_at t1_table.cols 1).col_type = T_CHAR
    ∧ sem_select no_oob_comma demo_lookup demo_fs sum_zz_sum_name_t1 0
      = some (SelectOutput.failed RC.COLUMN_NOT_EXIST)
    ∧ RC.COLUMN_NOT_EXIST ≠ RC.INVALID_SELECT_DEFINITION :=
  ⟨rfl, by decide, by decide, by decide, by decide⟩

theorem at_tok_eq_go (toks : List token) (cur : Nat) (t : token)
    (h : at_tok toks cur = go t) : toks[cur]? = some t := by
  unfold at_tok at h
  cases hc : toks[cur]? with
  | none => rw [hc] at h; cases h
  | some t' =>
    rw [hc] at h
    exact congrArg some (Except.ok.inj (Option.some.inj h))

theorem column_end_keeps (t : token) (cur : Nat) (col : cd_entry)
    (r : cd_entry × Bool × Nat) (h : column_end t cur col = go r) : r.1 = col := by
  unfold column_end at h
  by_cases hc : t.tok_value ≠ TokValue.S_RIGHT_PAREN ∧ t.tok_value ≠ TokValue.S_COMMA
  · rw [if_pos hc] at h; cases h
  · rw [if_neg hc] at h
    rw [← Except.ok.inj (Option.some.inj h)]

theorem column_tail_keeps (toks : List token) (cur : Nat) (col : cd_entry)
    (r : cd_entry × Bool × Nat) (h : column_tail toks cur col = go r) :
    r.1.col_type = col.col_type ∧ r.1.col_len = col.col_len := by
  unfold column_tail at h
  obtain ⟨t, _, h⟩ := and_then_eq_go _ _ _ h
  by_cases h1 : t.tok_value ≠ TokValue.S_COMMA ∧ t.tok_value ≠ TokValue.K_NOT
        ∧ t.tok_value ≠ TokValue.S_RIGHT_PAREN
  · rw [if_pos h1] at h; cases h
  · rw [if_neg h1] at h
    by_cases h2 : t.tok_value = TokValue.K_NOT
    · rw [if_pos h2] at h
      obtain ⟨tn, _, h⟩ := and_then_eq_go _ _ _ h
      by_cases h3 : tn.tok_value ≠ TokValue.K_NULL
      · rw [if_pos h3] at h; cases h
      · rw [if_neg h3] at h
        obtain ⟨t', _, h⟩ := and_then_eq_go _ _ _ h
        rw [column_end_keeps _ _ _ _ h]
        exact ⟨rfl, rfl⟩
    · rw [if_neg h2] at h
      rw [column_end_keeps _ _ _ _ h]
      exact ⟨rfl, rfl⟩

theorem parse_column_length (toks : List token) (cur : Nat) (cols : List cd_entry)
    (r : cd_entry × Bool × Nat) (h : parse_column toks cur cols = go r) :
    length_as_parsed toks r.1 := by
  unfold parse_column at h
  obtain ⟨t0, _, h⟩ := and_then_eq_go _ _ _ h
  by_cases h1 : is_name_token t0 = false
  · rw [if_pos h1] at h; cases h
  · rw [if_neg h1] at h
    by_cases h2 : cols.any (fun c => decide (strcmp c.col_name t0.tok_string = 0)) = true
    · rw [if_pos h2] at h; cases h
    · rw [if_neg h2] at h
      obtain ⟨t1, _, h⟩ := and_then_eq_go _ _ _ h
      by_cases h3 : t1.tok_class ≠ TokClass.type_name
      · rw [if_pos h3] at h; cases h
      · rw [if_neg h3] at h
        have hchar : ∀ ty : ColType, ty ≠ T_INT →
            (and_then (at_tok toks (cur + 2)) fun t2 =>
              if t2.tok_value ≠ TokValue.S_LEFT_PAREN then ret RC.INVALID_COLUMN_DEFINITION
              else and_then (at_tok toks (cur + 3)) fun t3 =>
                if t3.tok_value ≠ TokValue.INT_LITERAL then ret RC.INVALID_COLUMN_LENGTH
                else and_then (at_tok toks (cur + 4)) fun t4 =>
                  if t4.tok_value ≠ TokValue.S_RIGHT_PAREN then
                    ret RC.INVALID_COLUMN_DEFINITION
                  else
                    column_tail toks (cur + 5)
                      ⟨t0.tok_string, cols.length, ty, atoi t3.tok_string, false⟩) = go r →
            length_as_parsed toks r.1 := by
          intro ty hty h
          obtain ⟨t2, _, h⟩ := and_then_eq_go _ _ _ h
          by_cases h4 : t2.tok_value ≠ TokValue.S_LEFT_PAREN
          · rw [if_pos h4] at h; cases h
          · rw [if_neg h4] at h
            obtain ⟨t3, ht3, h⟩ := and_then_eq_go _ _ _ h
            by_cases h5 : t3.tok_value ≠ TokValue.INT_LITERAL
            · rw [if_pos h5] at h; cases h
            · rw [if_neg h5] at h
              obtain ⟨t4, _, h⟩ := and_then_eq_go _ _ _ h
              by_cases h6 : t4.tok_value ≠ TokValue.S_RIGHT_PAREN
              · rw [if_pos h6] at h; cases h
              · rw [if_neg h6] at h
                have hk := column_tail_keeps _ _ _ _ h
                right
                refine ⟨by rw [hk.1]; exact hty, t3, ?_, not_not.mp h5, hk.2⟩
                exact List.getElem?_mem (at_tok_eq_go _ _ _ ht3)
        cases hty : col_type_of t1.tok_value with
        | none => rw [hty] at h; cases h
        | some ty =>
          rw [hty] at h
          cases ty with
          | T_INT =>
            have hk := column_tail_keeps _ _ _ _ h
            left
            exact hk
          | T_CHAR => exact hchar T_CHAR (by intro h'; cases h') h
          | T_VARCHAR => exact hchar T_VARCHAR (by intro h'; cases h') h

theorem parse_columns_length (toks : List token) :
    ∀ (fuel cur : Nat) (cols : List cd_entry) (r : List cd_entry × Nat),
      (∀ c ∈ cols, length_as_parsed toks c) → parse_columns toks fuel cur cols = go r →
      ∀ c ∈ r.1, length_as_parsed toks c := by
  intro fuel
  induction fuel with
  | zero => intro cur cols r _ h; cases h
  | succ n ih =>
    intro cur cols r hcols h
    have hstep : parse_columns toks (n + 1) cur cols =
        and_then (parse_column toks cur cols) fun r =>
          if r.2.1 = true then go (cols ++ [r.1], r.2.2)
          else parse_columns toks n r.2.2 (cols ++ [r.1]) := rfl
    rw [hstep] at h
    obtain ⟨q, hq, h⟩ := and_then_eq_go _ _ _ h
    have hq1 := parse_column_length toks cur cols q hq
    have hnew : ∀ c ∈ cols ++ [q.1], length_as_parsed toks c := by
      intro c hc
      rcases List.mem_append.mp hc with hc | hc
      · exact hcols c hc
      · rw [List.mem_singleton.mp hc]; exact hq1
    by_cases hd : q.2.1 = true
    · rw [if_pos hd] at h
      rw [← Except.ok.inj (Option.some.inj h)]
      exact hnew
    · rw [if_neg hd] at h
      exact ih _ _ _ hnew h

theorem parse_char_300 :
    parse_create_table demo_lookup (create_t_char [51, 48, 48]) 0
      = go ⟨[116], [⟨[97], 0, T_INT, 4, false⟩, ⟨[99], 1, T_CHAR, 300, false⟩]⟩ := by
  rfl

theorem parse_char_0 :
    parse_create_table demo_lookup (create_t_char [48]) 0
      = go ⟨[116], [⟨[97], 0, T_INT, 4, false⟩, ⟨[99], 1, T_CHAR, 0, false⟩]⟩ := by
  rfl

theorem sem_create_char_300 :
    sem_create_table 24 demo_lookup (create_t_char [51, 48, 48]) 0
      = some (CreateOutput.created
          ⟨[116], [⟨[97], 0, T_INT, 4, false⟩, ⟨[99], 1, T_CHAR, 300, false⟩]⟩
          ⟨⟨24, 308, 0, 24, 0⟩, List.replicate 24 0⟩) := by
  unfold sem_create_table
  rw [parse_char_300]
  show some (CreateOutput.created _ (create_table_data_file 24 _)) = _
  unfold create_table_data_file
  rw [compute_record_size_eq _ (by decide) (by decide)]
  decide

theorem sem_create_char_0 :
    sem_create_table 24 demo_lookup (create_t_char [48]) 0
      = some (CreateOutput.created
          ⟨[116], [⟨[97], 0, T_INT, 4, false⟩, ⟨[99], 1, T_CHAR, 0, false⟩]⟩
          ⟨⟨24, 8, 0, 24, 0⟩, List.replicate 24 0⟩) := by
  unfold sem_create_table
  rw [parse_char_0]
  show some (CreateOutput.created _ (create_table_data_file 24 _)) = _
  unfold create_table_data_file
  rw [compute_record_size_eq _ (by decide) (by decide)]
  decide

theorem sem_insert_into_rejected (lookup : List Nat → Option tpd_entry)
    (fs : List Nat → Option TabFile) (toks : List token) (cur : Nat) (res : InsertResult)
    (t0 : token) (h0 : toks[cur]? = some t0)
    (h : sem_insert_into lookup fs toks cur = some res) (hrc : res.rc ≠ RC.OK) :
    res.file = fs t0.tok_string := by
  unfold sem_insert_into at h
  simp only [List.get?_eq_getElem?, h0] at h
  split at h
  · cases h; rfl
  · cases hl : lookup t0.tok_string with
    | none => simp only [hl] at h; cases h; rfl
    | some tpd =>
      simp only [hl] at h
      cases h1 : toks[cur + 1]? with
      | none => simp [h1] at h
      | some t1 =>
        simp only [h1] at h
        split at h
        · cases h; rfl
        · cases h2 : toks[cur + 2]? with
          | none => simp [h2] at h
          | some t2 =>
            simp only [h2] at h
            split at h
            · cases h; rfl
            · cases hf : fs t0.tok_string with
              | none => simp only [hf] at h; cases h; rfl
              | some f =>
                simp only [hf] at h
                split at h
                · cases h; rfl
                · split at h
                  · cases h; rfl
                  · cases hloop : insert_loop toks tpd.cols (cur + 3)
                        (List.replicate f.hdr.record_size.toNat 0) 0 with
                    | none => simp [hloop] at h
                    | some r =>
                      cases r with
                      | fail rc mk => simp only [hloop] at h; cases h; rfl
                      | done cur' row =>
                        simp only [hloop] at h
                        cases he : toks[cur']? with
                        | none => simp [he] at h
                        | some te =>
                          simp only [he] at h
                          split at h
                          · cases h; rfl
                          · cases h
                            exact absurd rfl hrc

/-- C38. For every INSERT that `sem_insert_into` rejects, whatever the reason, the table
file that the statement names is left as it was, bytes and header: the record is written
and `num_records` incremented only on the path on which every value has been accepted and
the terminator follows the right parenthesis. -/
theorem rejected_insert_leaves_file (lookup : List Nat → Option tpd_entry)
    (fs : List Nat → Option TabFile) (toks : List token) (cur : Nat) (res : InsertResult)
    (t0 : token) (h0 : toks[cur]? = some t0)
    (h : sem_insert_into lookup fs toks cur = some res) (hrc : res.rc ≠ RC.OK) :
    res.file = fs t0.tok_string :=
  sem_insert_into_rejected lookup fs toks cur res t0 h0 h hrc

/-- Witness of C38 on the table n (id int not null, name char(3)) with two records: each
of the statements `insert into n values (1)`, `(1, 2)`, `(1, 'abcd')`, `(1, '')`,
`(NULL, 'a')` and `(1, 'a') x` is rejected with the code shown, and the file is the one
before the statement. -/
theorem rejected_insert_leaves_file_witness :
    sem_insert_into dml_lookup dml_fs (insert_toks [110] [int_tok [49]] []) 0
      = some ⟨RC.INVALID_INSERT_DEFINITION, some 4, some n_file⟩ ∧
    sem_insert_into dml_lookup dml_fs (insert_toks [110] [int_tok [49], int_tok [50]] []) 0
      = some ⟨RC.TYPE_MISMATCH, some 5, some n_file⟩ ∧
    sem_insert_into dml_lookup dml_fs
        (insert_toks [110] [int_tok [49], string_tok [97, 98, 99, 100]] []) 0
      = some ⟨RC.INVALID_COLUMN_LENGTH, some 5, some n_file⟩ ∧
    sem_insert_into dml_lookup dml_fs (insert_toks [110] [int_tok [49], string_tok []] []) 0
      = some ⟨RC.INVALID_COLUMN_LENGTH, some 5, some n_file⟩ ∧
    sem_insert_into dml_lookup dml_fs (insert_toks [110] [null_tok, string_tok [97]] []) 0
      = some ⟨RC.NOT_NULL_CONSTRAINT_VIOLATION, some 3, some n_file⟩ ∧
    sem_insert_into dml_lookup dml_fs
        (insert_toks [110] [int_tok [49], string_tok [97]] [ident [120]]) 0
      = some ⟨RC.INVALID_STATEMENT, some 7, some n_file⟩ ∧
    (⟨RC.TYPE_MISMATCH, some 5, some n_file⟩ : InsertResult).file = dml_fs [110] :=
  ⟨by decide, by decide, by decide, by decide, by decide, by decide,
    rejected_insert_leaves_file dml_lookup dml_fs
      (insert_toks [110] [int_tok [49], int_tok [50]] []) 0
      ⟨RC.TYPE_MISMATCH, some 5, some n_file⟩ (ident [110]) rfl (by decide) (by decide)⟩

theorem bubble_pass_stable (cmp : List Nat → List Nat → Int)
    (key : List Nat → Int × List Nat) (P : List Nat → Prop)
    (hcmp : ∀ a b, P a → P b → cmp a b > 0 → key a ≠ key b) (v : Int × List Nat) :
    ∀ (n : Nat) (l : List (List Nat)), (∀ y ∈ l, P y) →
      (bubble_pass cmp n l).filter (fun r => decide (key r = v))
        = l.filter (fun r => decide (key r = v)) := by
  intro n
  induction n with
  | zero => intro l _; unfold bubble_pass; rfl
  | succ n ih =>
    intro l hP
    match l, hP with
    | [], _ => unfold bubble_pass; rfl
    | [r], _ => unfold bubble_pass; rfl
    | r1 :: r2 :: rest, hP =>
      have hP1 : P r1 := hP r1 (List.mem_cons_self _ _)
      have hP2 : P r2 := hP r2 (List.mem_cons_of_mem _ (List.mem_cons_self _ _))
      have hPr : ∀ y ∈ rest, P y := fun y hy =>
        hP y (List.mem_cons_of_mem _ (List.mem_cons_of_mem _ hy))
      unfold bubble_pass
      by_cases hc : cmp r1 r2 > 0
      · rw [if_pos hc]
        have hne := hcmp r1 r2 hP1 hP2 hc
        have hrec := ih (r1 :: rest) (by
          intro y hy
          rcases List.mem_cons.mp hy with h | h
          · rw [h]; exact hP1
          · exact hPr y h)
        rw [List.filter_cons, hrec]
        by_cases h1 : key r1 = v
        · have h2 : key r2 ≠ v := fun h => hne (h1.trans h.symm)
          simp [List.filter_cons, h1, h2]
        · simp [List.filter_cons, h1]
      · rw [if_neg hc]
        have hrec := ih (r2 :: rest) (by
          intro y hy
          exact hP y (List.mem_cons_of_mem _ hy))
        rw [List.filter_cons, hrec]
        simp only [List.filter_cons]

theorem bubble_sort_stable (cmp : List Nat → List Nat → Int)
    (key : List Nat → Int × List Nat) (P : List Nat → Prop)
    (hcmp : ∀ a b, P a → P b → cmp a b > 0 → key a ≠ key b) (v : Int × List Nat) :
    ∀ (n i : Nat) (l : List (List Nat)), (∀ y ∈ l, P y) →
      (bubble_sort cmp i n l).filter (fun r => decide (key r = v))
        = l.filter (fun r => decide (key r = v)) := by
  intro n
  induction n with
  | zero => intro i l _; unfold bubble_sort; rfl
  | succ n ih =>
    intro i l hP
    unfold bubble_sort
    have hP' : ∀ y ∈ bubble_pass cmp (l.length - i - 1) l, P y := fun y hy =>
      hP y ((bubble_pass_perm cmp _ l).mem_iff.mp hy)
    rw [ih (i + 1) _ hP', bubble_pass_stable cmp key P hcmp v _ l hP]

theorem in_order_of_key_eq (cols : List cd_entry) (k : Nat) (desc : Bool) (a b : List Nat)
    (h : sort_key cols k a = sort_key cols k b) : in_order cols k desc a b := by
  unfold sort_key at h
  unfold in_order
  by_cases ht : (col_at cols k).col_type = T_INT
  · rw [if_pos ht] at h ⊢
    rw [if_pos ht] at h
    have := (Prod.mk.inj h).1
    cases desc
    · simp only [Bool.false_eq_true, if_false]; omega
    · simp only [if_true]; omega
  · rw [if_neg ht] at h ⊢
    rw [if_neg ht] at h
    have hs := (Prod.mk.inj h).2
    have hz : strcmp (str_key cols k b) (str_key cols k b) = 0 :=
      (strcmp_eq_zero_iff _ _ (str_key_no_zero _ _ _) (str_key_no_zero _ _ _)).mpr rfl
    rw [hs]
    cases desc
    · simp only [Bool.false_eq_true, if_false]; omega
    · simp only [if_true]; omega

theorem sort_cmp_zero_iff (cols : List cd_entry) (k : Nat) (base : Nat) (desc : Bool)
    (r1 r2 : List Nat) (h1 : ∀ b ∈ r1.drop base, b < 256) (h2 : ∀ b ∈ r2.drop base, b < 256) :
    sort_cmp cols k base desc r1 r2 = 0 ↔
      sort_key cols k (r1.drop base) = sort_key cols k (r2.drop base) := by
  rw [sort_cmp_eq]
  unfold sort_key
  have hbound := strcmp_bound (str_key cols k (r1.drop base)) (str_key cols k (r2.drop base))
    (str_key_lt cols k _ h1) (str_key_lt cols k _ h2)
  have hz := strcmp_eq_zero_iff (str_key cols k (r1.drop base)) (str_key cols k (r2.drop base))
    (str_key_no_zero _ _ _) (str_key_no_zero _ _ _)
  by_cases ht : (col_at cols k).col_type = T_INT
  · simp only [if_pos ht]
    have hkey : ((int_key cols k (r1.drop base), ([] : List Nat))
        = (int_key cols k (r2.drop base), ([] : List Nat)))
        ↔ int_key cols k (r1.drop base) = int_key cols k (r2.drop base) :=
      ⟨fun h => (Prod.mk.inj h).1, fun h => by rw [h]⟩
    rw [hkey]
    have e1 : wrap32 (-(-1 : Int)) = 1 := by decide
    have e2 : wrap32 (-(1 : Int)) = -1 := by decide
    have e3 : wrap32 (-(0 : Int)) = 0 := by decide
    cases desc
    · simp only [Bool.false_eq_true, if_false]
      by_cases ha : int_key cols k (r1.drop base) < int_key cols k (r2.drop base)
      · rw [if_pos ha]; omega
      · rw [if_neg ha]
        by_cases hb : int_key cols k (r1.drop base) > int_key cols k (r2.drop base)
        · rw [if_pos hb]; omega
        · rw [if_neg hb]; omega
    · simp only [if_true]
      by_cases ha : int_key cols k (r1.drop base) < int_key cols k (r2.drop base)
      · rw [if_pos ha, e1]; omega
      · rw [if_neg ha]
        by_cases hb : int_key cols k (r1.drop base) > int_key cols k (r2.drop base)
        · rw [if_pos hb, e2]; omega
        · rw [if_neg hb, e3]; omega
  · simp only [if_neg ht]
    have hkey : (((0 : Int), str_key cols k (r1.drop base))
        = ((0 : Int), str_key cols k (r2.drop base)))
        ↔ str_key cols k (r1.drop base) = str_key cols k (r2.drop base) :=
      ⟨fun h => (Prod.mk.inj h).2, fun h => by rw [h]⟩
    rw [hkey, ← hz]
    cases desc
    · simp only [Bool.false_eq_true, if_false]
    · simp only [if_true]
      rw [wrap32_of_range (by omega) (by omega)]
      omega

/-- C39. For every result set (rows of bytes) and every ORDER BY column that is resolved
to column `k` of table 1, or of table 2 of a join, ascending or DESC: two rows compare
equal under the comparison of the sort exactly when their sort keys are equal, and for
every key value the rows with that key stand after the sort in the same order as before
it. -/
theorem order_by_is_stable (q : Query) (f1 : TabFile) (results : List (List Nat))
    (in1 : Bool) (k : Nat) (hres : ResolvesTo q q.order_col in1 k)
    (hbytes : RowsAreBytes results) :
    (∀ r1 ∈ results, ∀ r2 ∈ results,
      (sort_cmp (query_cols q in1) k (if in1 then 0 else f1.hdr.record_size.toNat)
          q.order_desc r1 r2 = 0
        ↔ sort_key (query_cols q in1) k (row_part f1 in1 r1)
          = sort_key (query_cols q in1) k (row_part f1 in1 r2))) ∧
    (∀ v : Int × List Nat,
      (sort_results q f1 results).filter
          (fun r => decide (sort_key (query_cols q in1) k (row_part f1 in1 r) = v))
        = results.filter
          (fun r => decide (sort_key (query_cols q in1) k (row_part f1 in1 r) = v))) := by
  refine ⟨?_, ?_⟩
  · intro r1 hr1 r2 hr2
    rw [row_part_eq_drop, row_part_eq_drop]
    exact sort_cmp_zero_iff _ _ _ _ r1 r2
      (fun b hb => hbytes r1 hr1 b (List.mem_of_mem_drop hb))
      (fun b hb => hbytes r2 hr2 b (List.mem_of_mem_drop hb))
  · intro v
    by_cases hs : q.has_order = true ∧ results.length > 1
    · rw [sort_results_resolved q f1 results in1 k hs.1 hs.2 hres]
      simp only [row_part_eq_drop]
      exact bubble_sort_stable _
        (fun r => sort_key (query_cols q in1) k
          (r.drop (if in1 then 0 else f1.hdr.record_size.toNat)))
        (fun r => ∀ b ∈ r.drop (if in1 then 0 else f1.hdr.record_size.toNat), b < 256)
        (fun a b ha hb hc hk =>
          ((sort_cmp_gt_iff _ _ _ _ a b ha hb).mp hc)
            (in_order_of_key_eq _ _ _ _ _ hk))
        v _ 0 results
        (fun y hy b hb => hbytes y hy b (List.mem_of_mem_drop hb))
    · have hsame : sort_results q f1 results = results := by
        unfold sort_results
        rw [if_neg hs]
      rw [hsame]

/-- Witness of C39 on `select * from t1 order by id`, ascending and DESC, for the rows
(1, 'b'), (1, 'a'), (0, 'c'): the two rows with the key 1 keep their order. -/
theorem order_by_is_stable_witness :
    sort_results (select_t1_order_id false) t1_one_row_file t1_three_rows
      = [[4, 0, 0, 0, 0, 1, 99, 0, 0, 0, 0, 0, 0, 0, 0, 0],
          [4, 1, 0, 0, 0, 1, 98, 0, 0, 0, 0, 0, 0, 0, 0, 0],
          [4, 1, 0, 0, 0, 1, 97, 0, 0, 0, 0, 0, 0, 0, 0, 0]] ∧
    sort_results (select_t1_order_id true) t1_one_row_file t1_three_rows
      = [[4, 1, 0, 0, 0, 1, 98, 0, 0, 0, 0, 0, 0, 0, 0, 0],
          [4, 1, 0, 0, 0, 1, 97, 0, 0, 0, 0, 0, 0, 0, 0, 0],
          [4, 0, 0, 0, 0, 1, 99, 0, 0, 0, 0, 0, 0, 0, 0, 0]] ∧
    (sort_results (select_t1_order_id true) t1_one_row_file t1_three_rows).filter
        (fun r => decide (sort_key (query_cols (select_t1_order_id true) true) 0
          (row_part t1_one_row_file true r) = (1, [])))
      = t1_three_rows.filter
        (fun r => decide (sort_key (query_cols (select_t1_order_id true) true) 0
          (row_part t1_one_row_file true r) = (1, []))) :=
  ⟨by decide, by decide,
    (order_by_is_stable (select_t1_order_id true) t1_one_row_file t1_three_rows true 0
      (Or.inl ⟨rfl, by decide⟩) (by decide)).2 (1, [])⟩

theorem column_end_go (t : token) (cur : Nat) (col : cd_entry)
    (ht : t.tok_value = TokValue.S_COMMA ∨ t.tok_value = TokValue.S_RIGHT_PAREN) :
    column_end t cur col = go (col, decide (t.tok_value = TokValue.S_RIGHT_PAREN), cur + 1) := by
  unfold column_end
  rw [if_neg]
  intro h
  rcases ht with h' | h'
  · exact h.2 h'
  · exact h.1 h'

theorem column_tail_go (toks : List token) (cur : Nat) (col : cd_entry) (t : token)
    (h : toks[cur]? = some t)
    (ht : t.tok_value = TokValue.S_COMMA ∨ t.tok_value = TokValue.S_RIGHT_PAREN) :
    column_tail toks cur col
      = go (col, decide (t.tok_value = TokValue.S_RIGHT_PAREN), cur + 1) := by
  unfold column_tail
  rw [at_tok_some _ _ _ h, and_then_go, if_neg, if_neg, column_end_go t cur col ht]
  · intro hn
    rcases ht with h' | h' <;> rw [hn] at h' <;> cases h'
  · intro hn
    rcases ht with h' | h'
    · exact hn.1 h'
    · exact hn.2.2 h'

theorem parse_column_int (toks : List token) (cur : Nat) (cols : List cd_entry)
    (n s : List Nat) (t : token)
    (h0 : toks[cur]? = some (ident n))
    (h1 : toks[cur + 1]? = some (type_tok s TokValue.T_INT))
    (h2 : toks[cur + 2]? = some t)
    (ht : t.tok_value = TokValue.S_COMMA ∨ t.tok_value = TokValue.S_RIGHT_PAREN)
    (hnew : ∀ c ∈ cols, strcmp c.col_name n ≠ 0) :
    parse_column toks cur cols
      = go (⟨n, cols.length, T_INT, 4, false⟩,
          decide (t.tok_value = TokValue.S_RIGHT_PAREN), cur + 3) := by
  have hany : ¬ (cols.any (fun c => decide (strcmp c.col_name (ident n).tok_string = 0))
      = true) := by
    rw [List.any_eq_true]
    rintro ⟨c, hc, hd⟩
    exact hnew c hc (of_decide_eq_true hd)
  have hname : ¬ (is_name_token (ident n) = false) := by
    intro h
    have : is_name_token (ident n) = true := by
      unfold is_name_token ident
      simp
    rw [this] at h
    cases h
  have hty : ¬ ((type_tok s TokValue.T_INT).tok_class ≠ TokClass.type_name) :=
    fun h => h rfl
  unfold parse_column
  rw [at_tok_some _ _ _ h0, and_then_go, if_neg hname, if_neg hany,
    at_tok_some _ _ _ h1, and_then_go, if_neg hty]
  show column_tail toks (cur + 2) ⟨n, cols.length, T_INT, 4, false⟩ = _
  exact column_tail_go toks (cur + 2) _ t h2 ht

theorem int_column_toks_cons2 (n m : List Nat) (rest : List (List Nat)) :
    int_column_toks (n :: m :: rest)
      = [ident n, type_tok [105, 110, 116] TokValue.T_INT, symbol_tok 44 TokValue.S_COMMA]
        ++ int_column_toks (m :: rest) := rfl

theorem int_columns_length : ∀ (names : List (List Nat)) (first : Nat),
    (int_columns names first).length = names.length := by
  intro names
  induction names with
  | nil => intro _; rfl
  | cons n rest ih =>
    intro first
    show (int_columns rest (first + 1)).length + 1 = rest.length + 1
    rw [ih]

theorem parse_columns_int (tl : List token) :
    ∀ (names : List (List Nat)) (pfx : List token) (fuel : Nat) (cols : List cd_entry),
      names ≠ [] → names.length ≤ fuel →
      names.Pairwise (fun a b => strcmp a b ≠ 0) →
      (∀ c ∈ cols, ∀ n ∈ names, strcmp c.col_name n ≠ 0) →
      parse_columns (pfx ++ (int_column_toks names ++ tl)) fuel pfx.length cols
        = go (cols ++ int_columns names cols.length, pfx.length + 3 * names.length) := by
  intro names
  induction names with
  | nil => intro _ _ _ h; exact absurd rfl h
  | cons n rest ih =>
    intro pfx fuel cols _ hfuel hpw hnew
    obtain ⟨f, rfl⟩ : ∃ f, fuel = f + 1 := ⟨fuel - 1, by simp at hfuel; omega⟩
    have hn : ∀ c ∈ cols, strcmp c.col_name n ≠ 0 := fun c hc =>
      hnew c hc n (List.mem_cons_self _ _)
    have hstep : ∀ toks cur, parse_columns toks (f + 1) cur cols =
        and_then (parse_column toks cur cols) fun r =>
          if r.2.1 = true then go (cols ++ [r.1], r.2.2)
          else parse_columns toks f r.2.2 (cols ++ [r.1]) := fun _ _ => rfl
    cases rest with
    | nil =>
      have hcol := parse_column_int
        (pfx ++ (int_column_toks [n] ++ tl)) pfx.length cols n [105, 110, 116]
        (symbol_tok 41 TokValue.S_RIGHT_PAREN)
        ((getElem?_after pfx _ 0).trans (by simp [int_column_toks]))
        ((getElem?_after pfx _ 1).trans (by simp [int_column_toks]))
        ((getElem?_after pfx _ 2).trans (by simp [int_column_toks]))
        (Or.inr rfl) hn
      rw [hstep, hcol, and_then_go]
      rfl
    | cons m rest' =>
      have hcol := parse_column_int
        (pfx ++ (int_column_toks (n :: m :: rest') ++ tl)) pfx.length cols n [105, 110, 116]
        (symbol_tok 44 TokValue.S_COMMA)
        ((getElem?_after pfx _ 0).trans (by simp [int_column_toks]))
        ((getElem?_after pfx _ 1).trans (by simp [int_column_toks]))
        ((getElem?_after pfx _ 2).trans (by simp [int_column_toks]))
        (Or.inl rfl) hn
      rw [hstep, hcol, and_then_go]
      have hrec := ih
        (pfx ++ [ident n, type_tok [105, 110, 116] TokValue.T_INT,
          symbol_tok 44 TokValue.S_COMMA]) f (cols ++ [⟨n, cols.length, T_INT, 4, false⟩])
        (List.cons_ne_nil _ _) (by simp at hfuel ⊢; omega)
        (List.pairwise_cons.mp hpw).2
        (by
          intro c hc x hx
          rcases List.mem_append.mp hc with h | h
          · exact hnew c h x (List.mem_cons_of_mem _ hx)
          · rw [List.mem_singleton.mp h]
            exact (List.pairwise_cons.mp hpw).1 x hx)
      have htoks : (pfx ++ [ident n, type_tok [105, 110, 116] TokValue.T_INT,
          symbol_tok 44 TokValue.S_COMMA]) ++ (int_column_toks (m :: rest') ++ tl)
          = pfx ++ (int_column_toks (n :: m :: rest') ++ tl) := by
        rw [int_column_toks_cons2, List.append_assoc, List.append_assoc]
      have hlen : (pfx ++ [ident n, type_tok [105, 110, 116] TokValue.T_INT,
          symbol_tok 44 TokValue.S_COMMA]).length = pfx.length + 3 := by simp
      rw [htoks, hlen] at hrec
      show parse_columns _ f (pfx.length + 3) (cols ++ [⟨n, cols.length, T_INT, 4, false⟩]) = _
      rw [hrec]
      have hl2 : (cols ++ [(⟨n, cols.length, T_INT, 4, false⟩ : cd_entry)]).length
          = cols.length + 1 := by simp
      rw [hl2, List.append_assoc]
      have : pfx.length + 3 + 3 * (m :: rest').length
          = pfx.length + 3 * (n :: m :: rest').length := by
        simp only [List.length_cons]; omega
      rw [this]
      rfl

theorem int_column_toks_length : ∀ (names : List (List Nat)),
    (int_column_toks names).length = 3 * names.length := by
  intro names
  induction names with
  | nil => rfl
  | cons n rest ih =>
    cases rest with
    | nil => rfl
    | cons m rest' =>
      rw [int_column_toks_cons2, List.length_append, ih]
      simp only [List.length_cons, List.length_nil]
      omega

theorem sem_create_table_int (hsz : Nat) (lookup : List Nat → Option tpd_entry)
    (table : List Nat) (names : List (List Nat)) (hne : names ≠ [])
    (hpw : names.Pairwise (fun a b => strcmp a b ≠ 0)) (hl : lookup table = none) :
    sem_create_table hsz lookup (create_int_table table names) 0
      = some (CreateOutput.created ⟨table, int_columns names 0⟩
          (create_table_data_file hsz ⟨table, int_columns names 0⟩)) := by
  have hcols := parse_columns_int [eoc_token] names
    [ident table, symbol_tok 40 TokValue.S_LEFT_PAREN]
    (create_int_table table names).length [] hne
    (by
      unfold create_int_table
      simp only [List.length_append, List.length_cons, List.length_nil,
        int_column_toks_length]
      omega)
    hpw (fun c hc => absurd hc (List.not_mem_nil c))
  have htoks : [ident table, symbol_tok 40 TokValue.S_LEFT_PAREN]
      ++ (int_column_toks names ++ [eoc_token]) = create_int_table table names := rfl
  rw [htoks] at hcols
  have h0 : (create_int_table table names)[0]? = some (ident table) := rfl
  have h1 : (create_int_table table names)[0 + 1]?
      = some (symbol_tok 40 TokValue.S_LEFT_PAREN) := by
    unfold create_int_table
    simp
  have he : (create_int_table table names)[
      [ident table, symbol_tok 40 TokValue.S_LEFT_PAREN].length + 3 * names.length]?
      = some eoc_token := by
    rw [← htoks, getElem?_after,
      List.getElem?_append_right (by rw [int_column_toks_length]),
      int_column_toks_length, Nat.sub_self]
    rfl
  have hname : ¬ (is_name_token (ident table) = false) := by
    intro h
    have : is_name_token (ident table) = true := by
      unfold is_name_token ident
      simp
    rw [this] at h
    cases h
  have hlook : ¬ ((lookup (ident table).tok_string).isSome = true) := by
    show ¬ ((lookup table).isSome = true)
    rw [hl]
    intro h
    cases h
  unfold sem_create_table parse_create_table
  rw [at_tok_some _ _ _ h0, and_then_go, if_neg hname, if_neg hlook,
    at_tok_some _ _ _ h1, and_then_go, if_neg (fun h => h rfl)]
  show create_result hsz (and_then (parse_columns _ _ (0 + 2) []) _) = _
  have h2 : (0 + 2 : Nat) = [ident table, symbol_tok 40 TokValue.S_LEFT_PAREN].length := rfl
  rw [h2, hcols, and_then_go]
  show create_result hsz (and_then (at_tok _ _) _) = _
  rw [at_tok_some _ _ _ he, and_then_go, if_neg (fun h => h rfl)]
  rfl

/-- C31 (the code at the failing input). The loop over the column definitions of
`sem_create_table` has no test of the number of columns: for every list of column names,
however long, that are pairwise different under `strcmp`, the statement
`create table t (<name> int, ..., <name> int)` on a new table name returns 0 with a
descriptor of as many columns as are listed; so does the statement with the seventeen
columns `ca` ... `cq`. -/
theorem create_has_no_column_limit :
    (∀ (hsz : Nat) (lookup : List Nat → Option tpd_entry) (table : List Nat)
      (names : List (List Nat)), names ≠ [] →
      names.Pairwise (fun a b => strcmp a b ≠ 0) → lookup table = none →
      sem_create_table hsz lookup (create_int_table table names) 0
        = some (CreateOutput.created ⟨table, int_columns names 0⟩
            (create_table_data_file hsz ⟨table, int_columns names 0⟩))
      ∧ (int_columns names 0).length = names.length) ∧
    sem_create_table 24 dml_lookup (create_int_table [116] seventeen_names) 0
      = some (CreateOutput.created ⟨[116], int_columns seventeen_names 0⟩
          (create_table_data_file 24 ⟨[116], int_columns seventeen_names 0⟩)) ∧
    (int_columns seventeen_names 0).length = 17 :=
  ⟨fun hsz lookup table names hne hpw hl =>
      ⟨sem_create_table_int hsz lookup table names hne hpw hl, int_columns_length names 0⟩,
    sem_create_table_int 24 dml_lookup [116] seventeen_names (by decide) (by decide)
      (by decide),
    by decide⟩

theorem lex_step_nil (cfg : LexConfig) :
    lex_step cfg [] = ⟨[eoc_token], false, true, []⟩ := by
  rfl

theorem lex_step_count (cfg : LexConfig) (cur : List Nat) :
    ((lex_step cfg cur).done = false →
      (lex_step cfg cur).toks.length = 1 ∧ (lex_step cfg cur).cur.length < cur.length) ∧
    (lex_step cfg cur).toks.length ≤ cur.length + 1 := by
  have hshape := lex_step_shape cfg cur
  have h2 : (lex_step cfg cur).toks.length ≤ 2 := by
    rcases hshape with ⟨_, _, _, tk, ht, _⟩ | ⟨_, _, ht | ⟨tk, ht, _⟩⟩ |
      ⟨_, _, tk, _, ht | ⟨ht, _⟩⟩ <;> rw [ht] <;> simp
  refine ⟨?_, ?_⟩
  · intro hd
    rcases hshape with ⟨_, _, hlt, tk, ht, _⟩ | ⟨hd', _⟩ | ⟨hd', _⟩
    · exact ⟨by rw [ht]; rfl, hlt⟩
    · rw [hd] at hd'; cases hd'
    · rw [hd] at hd'; cases hd'
  · cases cur with
    | nil => rw [lex_step_nil]; simp
    | cons c cs => simp only [List.length_cons]; omega

theorem get_token_loop_count (cfg : LexConfig) :
    ∀ (n : Nat) (cur : List Nat) (r : LexRC × List token),
      get_token_loop cfg n cur = some r → r.2.length ≤ cur.length + 1 := by
  intro n
  induction n with
  | zero => intro cur r h; cases h
  | succ n ih =>
    intro cur r h
    have hstep : get_token_loop cfg (n + 1) cur =
        if (lex_step cfg cur).done then
          some (if (lex_step cfg cur).invalid then LexRC.INVALID else LexRC.zero,
            (lex_step cfg cur).toks)
        else
          (get_token_loop cfg n (lex_step cfg cur).cur).map
            (fun r => (r.1, (lex_step cfg cur).toks ++ r.2)) := rfl
    rw [hstep] at h
    have hc := lex_step_count cfg cur
    by_cases hd : (lex_step cfg cur).done = true
    · rw [if_pos hd] at h
      rw [← Option.some.inj h]
      exact hc.2
    · rw [if_neg hd] at h
      have hd' : (lex_step cfg cur).done = false := by
        cases hx : (lex_step cfg cur).done
        · rfl
        · exact absurd hx hd
      obtain ⟨h1, hlt⟩ := hc.1 hd'
      cases hrec : get_token_loop cfg n (lex_step cfg cur).cur with
      | none => rw [hrec] at h; cases h
      | some r' =>
        rw [hrec] at h
        have hr := ih _ r' hrec
        rw [← Option.some.inj h]
        show ((lex_step cfg cur).toks ++ r'.2).length ≤ cur.length + 1
        rw [List.length_append, h1]
        omega

theorem literal_cursor_overrun (pre after : List Nat) :
    pre.length + 1 < literal_cursor (pre ++ [39, 0] ++ after) pre.length := by
  unfold literal_cursor
  omega

/-- C40 (the code at the failing input). In the string branch the body of the loop
`do { temp_string[i++] = *cur++; } while (...)` runs once before any test: when the
opening quote is the last character of the command (as in the command of the one
character `'`), `cur` is moved past the terminating NUL, whatever the bytes after it are,
and the test of the loop reads them. When a read past the NUL yields a NUL, every
iteration that does not set `done` leaves fewer characters to scan, `get_token` returns
for every command, and the tokens are at most the length of the command plus one. -/
theorem literal_scan_passes_terminator :
    (∀ pre after : List Nat,
      (pre ++ [39, 0] ++ after)[pre.length + 1]? = some 0 ∧
      pre.length + 1 < literal_cursor (pre ++ [39, 0] ++ after) pre.length) ∧
    literal_cursor [39, 0, 120, 121, 39, 0] 0 = 4 ∧
    (∀ (cfg : LexConfig) (cur : List Nat), (lex_step cfg cur).done = false →
      (lex_step cfg cur).cur.length < cur.length) ∧
    (∀ (cfg : LexConfig) (command : List Nat),
      ∃ rc ts, get_token cfg command = some (rc, ts) ∧ ts.length ≤ command.length + 1) := by
  refine ⟨fun pre after => ⟨?_, literal_cursor_overrun pre after⟩, by decide,
    fun cfg cur hd => ((lex_step_count cfg cur).1 hd).2, ?_⟩
  · rw [List.append_assoc, List.getElem?_append_right (Nat.le_add_right _ _),
      Nat.add_sub_cancel_left]
    simp
  · intro cfg command
    obtain ⟨r, hr⟩ := get_token_loop_total cfg (command.length + 1) command (by omega)
    exact ⟨r.1, r.2, hr, get_token_loop_count cfg _ command r hr⟩

/-- C33 (the code at the failing inputs). `sem_delete` looks for the column of the WHERE
clause after the whole statement has been read and returns COLUMN_NOT_EXIST with no store
to a token: for `delete from n where zz = 1`, on the table n (id int not null,
name char(3)), no token is marked and no token of the statement has the value INVALID.
`sem_select`, which has no store to a token at all, returns INVALID_SELECT_DEFINITION for
`select sum(*) from v` with the tokens as they were. -/
theorem unknown_delete_column_marks_no_token :
    (∀ (tpd : tpd_entry) (w : where_clause), find_column w.where_column tpd.cols 0 = none →
      delete_where_index tpd (some w) = fail_with RC.COLUMN_NOT_EXIST) ∧
    sem_delete dml_lookup dml_fs delete_where_zz 0
      = some ⟨RC.COLUMN_NOT_EXIST, none, some n_file⟩ ∧
    (∀ t ∈ delete_where_zz, t.tok_value ≠ TokValue.INVALID) ∧
    sem_select no_oob_comma demo_lookup demo_fs sum_star_v 0
      = some (SelectOutput.failed RC.INVALID_SELECT_DEFINITION) ∧
    (∀ t ∈ sum_star_v, t.tok_value ≠ TokValue.INVALID) := by
  refine ⟨?_, by decide, by decide, by decide, by decide⟩
  intro tpd w h
  show (match find_column w.where_column tpd.cols 0 with
    | none => fail_with RC.COLUMN_NOT_EXIST
    | some k => step_ok (some (w, k))) = _
  rw [h]

theorem match_int_same (cols : List cd_entry) (w : where_clause) (k : Nat) (row : List Nat)
    (ht : (col_at cols k).col_type = T_INT) :
    delete_match cols w k row = update_match cols w k row := by
  unfold delete_match update_match
  simp only [if_pos ht]

/-- C37 (the code at the failing input). For the record (1, 'ab') of the table
n (id int not null, name char(3)) and the condition `name < 'abc'`, the test of
`sem_delete`, which compares only the first `len` = 2 characters with `strncmp`, finds the
strings equal and gives false, while the tests of `sem_update` and of `sem_select`, which
compare the whole strings with `strcmp`, give true: the DELETE leaves the file as it was
and the UPDATE with the same WHERE clause changes the record. For an INT column the tests
of `sem_delete` and `sem_update` are the same, whatever the record. -/
theorem delete_compares_prefix_only :
    record_at n_file 0 = n_row_1_ab ∧
    delete_match n_table.cols where_name_less_abc 1 n_row_1_ab = false ∧
    update_match n_table.cols where_name_less_abc 1 n_row_1_ab = true ∧
    eval_field cond_name_less_abc n_row_1_ab n_table.cols 1 = true ∧
    sem_delete dml_lookup dml_fs (delete_toks [110] name_less_abc) 0
      = some ⟨RC.OK, none, some n_file⟩ ∧
    sem_update dml_lookup dml_fs (update_toks [110] [105, 100] (int_tok [55]) name_less_abc) 0
      = some ⟨RC.OK, none, some ⟨⟨48, 12, 2, 24, 0⟩, List.replicate 24 0
          ++ [4, 7, 0, 0, 0, 2, 97, 98, 0, 0, 0, 0] ++ [4, 2, 0, 0, 0, 3, 97, 98, 99, 0, 0, 0]⟩⟩ ∧
    (∀ (cols : List cd_entry) (w : where_clause) (k : Nat) (row : List Nat),
      (col_at cols k).col_type = T_INT →
      delete_match cols w k row = update_match cols w k row) := by
  refine ⟨by decide, by decide, by decide, by decide, by decide, by decide, ?_⟩
  intro cols w k row ht
  exact match_int_same cols w k row ht

theorem file_write_inside (data bytes : List Nat) (pos : Int)
    (h : pos.toNat + bytes.length ≤ data.length) :
    file_write data pos bytes
      = data.take pos.toNat ++ bytes ++ data.drop (pos.toNat + bytes.length) := by
  unfold file_write
  have : pos.toNat - data.length = 0 := by omega
  simp only [this, List.replicate_zero, List.append_nil]

theorem file_write_length (data bytes : List Nat) (pos : Int)
    (h : pos.toNat + bytes.length ≤ data.length) :
    (file_write data pos bytes).length = data.length := by
  rw [file_write_inside data bytes pos h]
  simp only [List.length_append, List.length_take, List.length_drop]
  omega

theorem splice_same (data bytes : List Nat) (p : Nat) (hp : p + bytes.length ≤ data.length) :
    ((data.take p ++ bytes ++ data.drop (p + bytes.length)).drop p).take bytes.length
      = bytes := by
  have hl : (data.take p).length = p := by rw [List.length_take]; omega
  apply List.ext_getElem?
  intro i
  simp only [List.getElem?_take, List.getElem?_drop]
  by_cases hi : i < bytes.length
  · simp only [if_pos hi]
    rw [List.append_assoc, List.getElem?_append_right (by omega), hl,
      List.getElem?_append_left (by omega)]
    congr 1
    omega
  · simp only [if_neg hi]
    rw [List.getElem?_eq_none (by omega)]

theorem splice_other (data bytes : List Nat) (p q n : Nat) (hb : bytes.length = n)
    (hp : p + n ≤ data.length) (hq : q + n ≤ p ∨ p + n ≤ q) :
    ((data.take p ++ bytes ++ data.drop (p + n)).drop q).take n = (data.drop q).take n := by
  apply List.ext_getElem?
  intro i
  simp only [List.getElem?_take, List.getElem?_drop]
  by_cases hi : i < n
  · simp only [if_pos hi]
    have hl : (data.take p).length = p := by rw [List.length_take]; omega
    rcases hq with hq | hq
    · rw [List.append_assoc, List.getElem?_append_left (by omega), List.getElem?_take]
      rw [if_pos (by omega)]
    · rw [List.getElem?_append_right (by simp only [List.length_append, hl, hb]; omega)]
      simp only [List.length_append, hl, hb, List.getElem?_drop]
      congr 1
      omega
  · simp only [if_neg hi]

theorem row_pos_toNat (hdr : table_file_header) (i : Nat) (h0 : 0 ≤ hdr.record_offset)
    (hR : 0 ≤ hdr.record_size) :
    (row_pos hdr (i : Int)).toNat = hdr.record_offset.toNat + i * hdr.record_size.toNat := by
  unfold row_pos
  obtain ⟨a, ha⟩ : ∃ a : Nat, hdr.record_offset = a := ⟨_, (Int.toNat_of_nonneg h0).symm⟩
  obtain ⟨b, hb⟩ : ∃ b : Nat, hdr.record_size = b := ⟨_, (Int.toNat_of_nonneg hR).symm⟩
  rw [ha, hb]
  have : ((a : Int) + (i : Int) * (b : Int)) = ((a + i * b : Nat) : Int) := by
    push_cast
    rfl
  rw [this, Int.toNat_natCast, Int.toNat_natCast, Int.toNat_natCast]

theorem row_pos_nonneg (hdr : table_file_header) (i : Nat) (h0 : 0 ≤ hdr.record_offset)
    (hR : 0 ≤ hdr.record_size) : 0 ≤ row_pos hdr (i : Int) := by
  unfold row_pos
  have : 0 ≤ (i : Int) * hdr.record_size := Int.mul_nonneg (Int.natCast_nonneg i) hR
  omega

theorem record_fits (hdr : table_file_header) (data : List Nat) (n i : Nat)
    (hfit : hdr.record_offset.toNat + n * hdr.record_size.toNat ≤ data.length) (hi : i < n) :
    hdr.record_offset.toNat + i * hdr.record_size.toNat + hdr.record_size.toNat
      ≤ data.length := by
  have h := Nat.mul_le_mul_right hdr.record_size.toNat (Nat.succ_le_of_lt hi)
  rw [Nat.succ_mul] at h
  omega

theorem fread_record_eq (hdr : table_file_header) (data : List Nat) (n i : Nat)
    (h0 : 0 ≤ hdr.record_offset) (hR : 0 < hdr.record_size)
    (hfit : hdr.record_offset.toNat + n * hdr.record_size.toNat ≤ data.length) (hi : i < n) :
    fread_record data (row_pos hdr (i : Int)) hdr.record_size
      = some (record_bytes hdr data i) := by
  unfold fread_record record_bytes
  have hp := row_pos_toNat hdr i h0 (le_of_lt hR)
  have hf := record_fits hdr data n i hfit hi
  rw [if_pos ⟨hR, row_pos_nonneg hdr i h0 (le_of_lt hR), by rw [hp]; exact hf⟩]

theorem record_bytes_length (hdr : table_file_header) (data : List Nat) (n i : Nat)
    (h0 : 0 ≤ hdr.record_offset) (hR : 0 ≤ hdr.record_size)
    (hfit : hdr.record_offset.toNat + n * hdr.record_size.toNat ≤ data.length) (hi : i < n) :
    (record_bytes hdr data i).length = hdr.record_size.toNat := by
  unfold record_bytes
  have hp := row_pos_toNat hdr i h0 hR
  have hf := record_fits hdr data n i hfit hi
  rw [List.length_take, List.length_drop, hp]
  omega

theorem record_bytes_write_same (hdr : table_file_header) (data row : List Nat) (n w : Nat)
    (h0 : 0 ≤ hdr.record_offset) (hR : 0 ≤ hdr.record_size)
    (hfit : hdr.record_offset.toNat + n * hdr.record_size.toNat ≤ data.length) (hw : w < n)
    (hlen : row.length = hdr.record_size.toNat) :
    record_bytes hdr (file_write data (row_pos hdr (w : Int)) row) w = row := by
  unfold record_bytes
  have hp := row_pos_toNat hdr w h0 hR
  have hf := record_fits hdr data n w hfit hw
  rw [file_write_inside data row _ (by rw [hp, hlen]; exact hf), ← hlen]
  exact splice_same data row _ (by rw [hp, hlen]; exact hf)

theorem record_bytes_write_other (hdr : table_file_header) (data row : List Nat) (n w j : Nat)
    (h0 : 0 ≤ hdr.record_offset) (hR : 0 ≤ hdr.record_size)
    (hfit : hdr.record_offset.toNat + n * hdr.record_size.toNat ≤ data.length) (hw : w < n)
    (hlen : row.length = hdr.record_size.toNat) (hj : j ≠ w) :
    record_bytes hdr (file_write data (row_pos hdr (w : Int)) row) j
      = record_bytes hdr data j := by
  unfold record_bytes
  have hp := row_pos_toNat hdr w h0 hR
  have hq := row_pos_toNat hdr j h0 hR
  have hf := record_fits hdr data n w hfit hw
  rw [file_write_inside data row _ (by rw [hp, hlen]; exact hf), hlen]
  apply splice_other data row _ _ _ hlen (by rw [hp]; exact hf)
  rw [hp, hq]
  rcases Nat.lt_or_gt_of_ne hj with h | h
  · left
    have := Nat.mul_le_mul_right hdr.record_size.toNat (Nat.succ_le_of_lt h)
    rw [Nat.succ_mul] at this
    omega
  · right
    have := Nat.mul_le_mul_right hdr.record_size.toNat (Nat.succ_le_of_lt h)
    rw [Nat.succ_mul] at this
    omega

theorem file_write_record_length (hdr : table_file_header) (data row : List Nat) (n w : Nat)
    (h0 : 0 ≤ hdr.record_offset) (hR : 0 ≤ hdr.record_size)
    (hfit : hdr.record_offset.toNat + n * hdr.record_size.toNat ≤ data.length) (hw : w < n)
    (hlen : row.length = hdr.record_size.toNat) :
    (file_write data (row_pos hdr (w : Int)) row).length = data.length := by
  have hp := row_pos_toNat hdr w h0 hR
  have hf := record_fits hdr data n w hfit hw
  exact file_write_length data row _ (by rw [hp, hlen]; exact hf)

theorem record_at_eq (f : TabFile) (hw : FileCovers f) (i : Nat)
    (hi : i < f.hdr.num_records.toNat) :
    record_at f (i : Int) = record_bytes f.hdr f.data i := by
  unfold record_at record_bytes
  exact file_read_full _ _ _ _ (covers_index f hw i hi) (by simp)

theorem covers_fit (f : TabFile) (hw : FileCovers f) (hn : 0 ≤ f.hdr.num_records) :
    f.hdr.record_offset.toNat + f.hdr.num_records.toNat * f.hdr.record_size.toNat
      ≤ f.data.length := by
  obtain ⟨h0, hR, hc⟩ := hw
  have := row_pos_toNat f.hdr f.hdr.num_records.toNat h0 hR
  rw [Int.toNat_of_nonneg hn] at this
  have h2 : (row_pos f.hdr f.hdr.num_records).toNat ≤ f.data.length := by omega
  omega

theorem compact_cons_keep (hdr : table_file_header) (rest : List Bool)
    (row_idx write_idx : Nat) (data row : List Nat)
    (h : fread_record data (row_pos hdr row_idx) hdr.record_size = some row) :
    compact hdr (true :: rest) row_idx write_idx data
      = ((compact hdr rest (row_idx + 1) (write_idx + 1)
            (file_write data (row_pos hdr write_idx) row)).1,
          (compact hdr rest (row_idx + 1) (write_idx + 1)
            (file_write data (row_pos hdr write_idx) row)).2.1,
          (row_idx, write_idx) :: (compact hdr rest (row_idx + 1) (write_idx + 1)
            (file_write data (row_pos hdr write_idx) row)).2.2) := by
  show (if true = true then
      match fread_record data (row_pos hdr row_idx) hdr.record_size with
      | none => (RC.FILE_OPEN_ERROR, data, [])
      | some row =>
        ((compact hdr rest (row_idx + 1) (write_idx + 1)
            (file_write data (row_pos hdr write_idx) row)).1,
          (compact hdr rest (row_idx + 1) (write_idx + 1)
            (file_write data (row_pos hdr write_idx) row)).2.1,
          (row_idx, write_idx) :: (compact hdr rest (row_idx + 1) (write_idx + 1)
            (file_write data (row_pos hdr write_idx) row)).2.2)
    else compact hdr rest (row_idx + 1) write_idx data) = _
  rw [if_pos rfl, h]

theorem compact_cons_drop (hdr : table_file_header) (rest : List Bool)
    (row_idx write_idx : Nat) (data : List Nat) :
    compact hdr (false :: rest) row_idx write_idx data
      = compact hdr rest (row_idx + 1) write_idx data := rfl

theorem compact_spec (hdr : table_file_header) (h0 : 0 ≤ hdr.record_offset)
    (hR : 0 < hdr.record_size) (data0 : List Nat) (p : List Nat → Bool) (n : Nat)
    (hfit : hdr.record_offset.toNat + n * hdr.record_size.toNat ≤ data0.length) :
    ∀ (len row_idx write_idx : Nat) (data : List Nat),
      row_idx + len = n → write_idx ≤ row_idx → data.length = data0.length →
      (∀ j, row_idx ≤ j → j < n → record_bytes hdr data j = record_bytes hdr data0 j) →
      (compact hdr (((List.range' row_idx len).map (record_bytes hdr data0)).map p)
          row_idx write_idx data).1 = RC.OK ∧
      (compact hdr (((List.range' row_idx len).map (record_bytes hdr data0)).map p)
          row_idx write_idx data).2.1.length = data0.length ∧
      (List.range' write_idx
          (((List.range' row_idx len).map (record_bytes hdr data0)).filter p).length).map
        (record_bytes hdr
          (compact hdr (((List.range' row_idx len).map (record_bytes hdr data0)).map p)
            row_idx write_idx data).2.1)
        = ((List.range' row_idx len).map (record_bytes hdr data0)).filter p ∧
      (∀ j, j < write_idx →
        record_bytes hdr
          (compact hdr (((List.range' row_idx len).map (record_bytes hdr data0)).map p)
            row_idx write_idx data).2.1 j = record_bytes hdr data j) ∧
      (∀ c ∈ (compact hdr (((List.range' row_idx len).map (record_bytes hdr data0)).map p)
          row_idx write_idx data).2.2, c.2 ≤ c.1) := by
  intro len
  induction len with
  | zero =>
    intro row_idx write_idx data _ _ hlen _
    refine ⟨rfl, hlen, rfl, fun j _ => rfl, fun c hc => absurd hc (List.not_mem_nil c)⟩
  | succ len ih =>
    intro row_idx write_idx data hn hwi hlen hinv
    have hri : row_idx < n := by omega
    have hrange : List.range' row_idx (len + 1) = row_idx :: List.range' (row_idx + 1) len :=
      List.range'_succ _ _ _
    rw [hrange, List.map_cons, List.map_cons, List.filter_cons]
    have hfitd : hdr.record_offset.toNat + n * hdr.record_size.toNat ≤ data.length := by
      rw [hlen]; exact hfit
    by_cases hp : p (record_bytes hdr data0 row_idx) = true
    · rw [hp, if_pos rfl]
      have hread : fread_record data (row_pos hdr row_idx) hdr.record_size
          = some (record_bytes hdr data0 row_idx) := by
        rw [fread_record_eq hdr data n row_idx h0 hR hfitd hri, hinv row_idx (le_refl _) hri]
      rw [compact_cons_keep hdr _ row_idx write_idx data _ hread]
      have hrl : (record_bytes hdr data0 row_idx).length = hdr.record_size.toNat :=
        record_bytes_length hdr data0 n row_idx h0 (le_of_lt hR) hfit hri
      have hwn : write_idx < n := by omega
      have hlen' : (file_write data (row_pos hdr (write_idx : Int))
          (record_bytes hdr data0 row_idx)).length = data0.length := by
        rw [file_write_record_length hdr data _ n write_idx h0 (le_of_lt hR) hfitd hwn hrl, hlen]
      have hinv' : ∀ j, row_idx + 1 ≤ j → j < n →
          record_bytes hdr (file_write data (row_pos hdr (write_idx : Int))
            (record_bytes hdr data0 row_idx)) j = record_bytes hdr data0 j := by
        intro j hj1 hj2
        rw [record_bytes_write_other hdr data _ n write_idx j h0 (le_of_lt hR) hfitd hwn hrl
          (by omega)]
        exact hinv j (by omega) hj2
      obtain ⟨i1, i2, i3, i4, i5⟩ := ih (row_idx + 1) (write_idx + 1) _ (by omega) (by omega)
        hlen' hinv'
      refine ⟨i1, i2, ?_, ?_, ?_⟩
      · rw [List.length_cons, List.range'_succ, List.map_cons, i3]
        congr 1
        rw [i4 write_idx (by omega)]
        exact record_bytes_write_same hdr data _ n write_idx h0 (le_of_lt hR) hfitd hwn hrl
      · intro j hj
        rw [i4 j (by omega)]
        exact record_bytes_write_other hdr data _ n write_idx j h0 (le_of_lt hR) hfitd hwn hrl
          (by omega)
      · intro c hc
        rcases List.mem_cons.mp hc with h | h
        · rw [h]; exact hwi
        · exact i5 c h
    · have hpf : p (record_bytes hdr data0 row_idx) = false := by
        cases hx : p (record_bytes hdr data0 row_idx)
        · rfl
        · exact absurd hx hp
      rw [hpf, compact_cons_drop]
      simp only [Bool.false_eq_true, if_false]
      exact ih (row_idx + 1) write_idx data (by omega) (by omega) hlen
        (fun j hj1 hj2 => hinv j (by omega) hj2)

theorem keep_rows_eq (tpd : tpd_entry) (w : Option (where_clause × Nat)) (f : TabFile)
    (h0 : 0 ≤ f.hdr.record_offset) (hR : 0 < f.hdr.record_size) (n : Nat)
    (hfit : f.hdr.record_offset.toNat + n * f.hdr.record_size.toNat ≤ f.data.length) :
    ∀ (len row_idx : Nat), row_idx + len = n →
      keep_rows tpd w f row_idx len
        = some (((List.range' row_idx len).map (record_bytes f.hdr f.data)).map
            (fun r => !delete_this_row tpd w r)) := by
  intro len
  induction len with
  | zero => intro row_idx _; rfl
  | succ len ih =>
    intro row_idx hn
    have hstep : keep_rows tpd w f row_idx (len + 1) =
        match fread_record f.data (row_pos f.hdr row_idx) f.hdr.record_size with
        | none => none
        | some row =>
          (keep_rows tpd w f (row_idx + 1) len).map
            fun ks => (!delete_this_row tpd w row) :: ks := rfl
    rw [hstep, fread_record_eq f.hdr f.data n row_idx h0 hR hfit (by omega),
      ih (row_idx + 1) (by omega), List.range'_succ]
    rfl

theorem count_false_map (p : List Nat → Bool) (l : List (List Nat)) :
    (l.map p).count false + (l.filter p).length = l.length := by
  induction l with
  | nil => rfl
  | cons a l ih =>
    rw [List.map_cons, List.filter_cons, List.length_cons]
    cases hp : p a
    · rw [List.count_cons_self]
      simp only [Bool.false_eq_true, if_false]
      omega
    · rw [List.count_cons_of_ne (by decide)]
      simp only [if_true, List.length_cons]
      omega

theorem table_records_eq (f : TabFile) (hw : FileCovers f) :
    table_records f
      = (List.range' 0 f.hdr.num_records.toNat).map (record_bytes f.hdr f.data) := by
  unfold table_records
  rw [List.range_eq_range']
  apply List.map_congr_left
  intro i hi
  have : i < f.hdr.num_records.toNat := by
    have := (List.mem_range'_1.mp hi).2
    omega
  exact record_at_eq f hw i this

theorem delete_exec_eq (tpd : tpd_entry) (w : Option (where_clause × Nat)) (f : TabFile)
    (hw : FileCovers f) (hR : 0 < f.hdr.record_size) (hn : 0 ≤ f.hdr.num_records) :
    delete_exec tpd w f
      = delete_finish f ((table_records f).map (fun r => !delete_this_row tpd w r)) := by
  have hk := keep_rows_eq tpd w f hw.1 hR f.hdr.num_records.toNat (covers_fit f hw hn)
    f.hdr.num_records.toNat 0 (Nat.zero_add _)
  unfold delete_exec
  rw [if_neg (by omega), hk, table_records_eq f hw]

theorem delete_finish_none (f : TabFile) (keep : List Bool) (h : keep.count false = 0) :
    delete_finish f keep = (RC.OK, f) := by
  unfold delete_finish
  exact if_pos h

theorem delete_finish_some (f : TabFile) (keep : List Bool) (h : keep.count false ≠ 0)
    (hc : (compact f.hdr keep 0 0 f.data).1 = RC.OK) :
    delete_finish f keep
      = (RC.OK, ⟨write_header { f.hdr with
          num_records := wrap32 (f.hdr.num_records - (keep.count false : Nat)) },
            (compact f.hdr keep 0 0 f.data).2.1⟩) := by
  unfold delete_finish
  rw [if_neg h]
  exact if_neg (not_not.mpr hc)

theorem record_bytes_hdr (hdr hdr2 : table_file_header) (data : List Nat) (i : Nat)
    (h1 : hdr2.record_offset = hdr.record_offset) (h2 : hdr2.record_size = hdr.record_size) :
    record_bytes hdr2 data i = record_bytes hdr data i := by
  unfold record_bytes row_pos
  rw [h1, h2]

theorem table_records_of (hdr : table_file_header) (data : List Nat) (m : Nat)
    (h0 : 0 ≤ hdr.record_offset) (hR : 0 ≤ hdr.record_size)
    (hm : hdr.num_records = (m : Int))
    (hfit : hdr.record_offset.toNat + m * hdr.record_size.toNat ≤ data.length) :
    table_records ⟨hdr, data⟩ = (List.range' 0 m).map (record_bytes hdr data) := by
  have hcov : FileCovers ⟨hdr, data⟩ := by
    refine ⟨h0, hR, ?_⟩
    show row_pos hdr hdr.num_records ≤ (data.length : Int)
    rw [hm]
    have := row_pos_toNat hdr m h0 hR
    have hnn := row_pos_nonneg hdr m h0 hR
    omega
  rw [table_records_eq _ hcov]
  show (List.range' 0 hdr.num_records.toNat).map (record_bytes hdr data) = _
  rw [hm, Int.toNat_natCast]

theorem delete_exec_spec (tpd : tpd_entry) (w : Option (where_clause × Nat)) (f : TabFile)
    (hw : FileCovers f) (hR : 0 < f.hdr.record_size) (hn : 0 ≤ f.hdr.num_records)
    (hn2 : f.hdr.num_records < 2147483648) :
    ∃ f' : TabFile, delete_exec tpd w f = (RC.OK, f') ∧
      table_records f' = (table_records f).filter (fun r => !delete_this_row tpd w r) ∧
      f'.hdr.num_records
        = (((table_records f).filter (fun r => !delete_this_row tpd w r)).length : Int) ∧
      f'.hdr.record_size = f.hdr.record_size ∧ f'.hdr.record_offset = f.hdr.record_offset ∧
      f'.data.length = f.data.length ∧
      (((table_records f).filter (fun r => !delete_this_row tpd w r)).length
          = (table_records f).length → f' = f) ∧
      (∀ c ∈ (compact f.hdr ((table_records f).map (fun r => !delete_this_row tpd w r))
          0 0 f.data).2.2, c.2 ≤ c.1) := by
  have hfit := covers_fit f hw hn
  have hrows := table_records_eq f hw
  have hcount := count_false_map (fun r => !delete_this_row tpd w r) (table_records f)
  have hlenrows : (table_records f).length = f.hdr.num_records.toNat := by
    rw [hrows, List.length_map, List.length_range']
  have hspec := compact_spec f.hdr hw.1 hR f.data (fun r => !delete_this_row tpd w r)
    f.hdr.num_records.toNat hfit f.hdr.num_records.toNat 0 0 f.data (Nat.zero_add _)
    (le_refl _) rfl (fun _ _ _ => rfl)
  rw [← hrows] at hspec
  obtain ⟨s1, s2, s3, _, s5⟩ := hspec
  rw [delete_exec_eq tpd w f hw hR hn]
  by_cases hz : ((table_records f).map (fun r => !delete_this_row tpd w r)).count false = 0
  · rw [delete_finish_none f _ hz]
    have hall : ((table_records f).filter (fun r => !delete_this_row tpd w r)).length
        = (table_records f).length := by omega
    have hfil : (table_records f).filter (fun r => !delete_this_row tpd w r)
        = table_records f :=
      List.filter_eq_self.mpr (by
        intro a ha
        have hnot := List.count_eq_zero.mp hz
        cases hp : (!delete_this_row tpd w a)
        · exact absurd (List.mem_map.mpr ⟨a, ha, hp⟩) hnot
        · rfl)
    refine ⟨f, rfl, hfil.symm, ?_, rfl, rfl, rfl, fun _ => rfl, s5⟩
    rw [hall, hlenrows]
    omega
  · rw [delete_finish_some f _ hz s1]
    have hnum : wrap32 (f.hdr.num_records
        - ((((table_records f).map (fun r => !delete_this_row tpd w r)).count false : Nat)
          : Int))
        = (((table_records f).filter (fun r => !delete_this_row tpd w r)).length : Int) := by
      rw [wrap32_of_range (by omega) (by omega)]
      omega
    obtain ⟨hdr', hdef⟩ : ∃ h : table_file_header, h = write_header { f.hdr with
        num_records := wrap32 (f.hdr.num_records
          - ((((table_records f).map (fun r => !delete_this_row tpd w r)).count false : Nat)
            : Int)) } := ⟨_, rfl⟩
    have e1 : hdr'.record_offset = f.hdr.record_offset := by rw [hdef]; rfl
    have e2 : hdr'.record_size = f.hdr.record_size := by rw [hdef]; rfl
    have e3 : hdr'.num_records
        = (((table_records f).filter (fun r => !delete_this_row tpd w r)).length : Int) := by
      rw [hdef]
      exact hnum
    rw [← hdef]
    refine ⟨_, rfl, ?_, e3, e2, e1, s2, ?_, s5⟩
    · have hm : ((table_records f).filter (fun r => !delete_this_row tpd w r)).length
          ≤ f.hdr.num_records.toNat := by omega
      have hfit' : hdr'.record_offset.toNat
          + ((table_records f).filter (fun r => !delete_this_row tpd w r)).length
            * hdr'.record_size.toNat
          ≤ (compact f.hdr ((table_records f).map (fun r => !delete_this_row tpd w r))
              0 0 f.data).2.1.length := by
        rw [s2, e1, e2]
        have := Nat.mul_le_mul_right f.hdr.record_size.toNat hm
        omega
      rw [table_records_of hdr' _ _ (by rw [e1]; exact hw.1) (by rw [e2]; exact le_of_lt hR)
        e3 hfit']
      refine Eq.trans ?_ s3
      apply List.map_congr_left
      intro i _
      exact record_bytes_hdr _ _ _ _ e1 e2
    · intro hall
      exact absurd (by omega) hz

theorem sem_delete_of_parse (lookup : List Nat → Option tpd_entry)
    (fs : List Nat → Option TabFile) (toks : List token) (cur : Nat) (name : List Nat)
    (tpd : tpd_entry) (w : Option (where_clause × Nat)) (f f' : TabFile) (rc : RC)
    (hp : parse_delete lookup toks cur = step_ok (name, tpd, w)) (hf : fs name = some f)
    (he : delete_exec tpd w f = (rc, f')) :
    sem_delete lookup fs toks cur = some ⟨rc, none, some f'⟩ := by
  unfold sem_delete
  rw [hp]
  show (match fs name with
    | none => some (StatementResult.mk RC.FILE_OPEN_ERROR none none)
    | some f => some (StatementResult.mk (delete_exec tpd w f).1 none
        (some (delete_exec tpd w f).2))) = _
  rw [hf]
  show some (StatementResult.mk (delete_exec tpd w f).1 none
    (some (delete_exec tpd w f).2)) = _
  rw [he]

/-- C34. For every table file that holds the records its header counts (record size
above 0) and every DELETE that `sem_delete` has parsed, with or without WHERE, the
statement returns 0 and the file afterwards holds, at the indices 0 .. m-1, exactly the
records for which the test of the statement is false, in their original order and byte
for byte, with num_records = m; record size and record offset stay; when every record is
kept the file is the one before. The compaction copies a record only to an index that is
not above its own, and DELETE without WHERE leaves num_records = 0. -/
theorem delete_keeps_non_matching (lookup : List Nat → Option tpd_entry)
    (fs : List Nat → Option TabFile) (toks : List token) (cur : Nat) (name : List Nat)
    (tpd : tpd_entry) (w : Option (where_clause × Nat)) (f : TabFile)
    (hp : parse_delete lookup toks cur = step_ok (name, tpd, w)) (hf : fs name = some f)
    (hcov : FileCovers f) (hR : 0 < f.hdr.record_size) (hn : 0 ≤ f.hdr.num_records)
    (hn2 : f.hdr.num_records < 2147483648) :
    ∃ f' : TabFile, sem_delete lookup fs toks cur = some ⟨RC.OK, none, some f'⟩ ∧
      table_records f' = (table_records f).filter (fun r => !delete_this_row tpd w r) ∧
      f'.hdr.num_records
        = (((table_records f).filter (fun r => !delete_this_row tpd w r)).length : Int) ∧
      f'.hdr.record_size = f.hdr.record_size ∧ f'.hdr.record_offset = f.hdr.record_offset ∧
      (((table_records f).filter (fun r => !delete_this_row tpd w r)).length
          = (table_records f).length → f' = f) ∧
      (∀ c ∈ (compact f.hdr ((table_records f).map (fun r => !delete_this_row tpd w r))
          0 0 f.data).2.2, c.2 ≤ c.1) ∧
      (w = none → f'.hdr.num_records = 0) := by
  obtain ⟨f', he, h1, h2, h3, h4, _, h6, h7⟩ := delete_exec_spec tpd w f hcov hR hn hn2
  refine ⟨f', sem_delete_of_parse lookup fs toks cur name tpd w f f' RC.OK hp hf he,
    h1, h2, h3, h4, h6, h7, ?_⟩
  intro hw
  rw [h2, hw]
  have : (table_records f).filter (fun r => !delete_this_row tpd none r) = [] := by
    apply List.filter_eq_nil_iff.mpr
    intro a _
    show ¬ ((!true) = true)
    decide
  rw [this]
  rfl

/-- Witness of C34 on `delete from n where id = 1`, for the table n with the records
(1, 'ab') and (2, 'abc'): the file afterwards has one record, (2, 'abc'). -/
theorem delete_keeps_non_matching_witness :
    sem_delete dml_lookup dml_fs delete_n_id_1 0
      = some ⟨RC.OK, none, some ⟨⟨36, 12, 1, 24, 0⟩, List.replicate 24 0
          ++ [4, 2, 0, 0, 0, 3, 97, 98, 99, 0, 0, 0]
          ++ [4, 2, 0, 0, 0, 3, 97, 98, 99, 0, 0, 0]⟩⟩ ∧
    (table_records n_file).filter (fun r => !delete_this_row n_table (some (where_id_1, 0)) r)
      = [[4, 2, 0, 0, 0, 3, 97, 98, 99, 0, 0, 0]] ∧
    ∃ f' : TabFile, sem_delete dml_lookup dml_fs delete_n_id_1 0
        = some ⟨RC.OK, none, some f'⟩ ∧
      table_records f' = (table_records n_file).filter
        (fun r => !delete_this_row n_table (some (where_id_1, 0)) r) :=
  ⟨by decide, by decide,
    (delete_keeps_non_matching dml_lookup dml_fs delete_n_id_1 0 [110] n_table
      (some (where_id_1, 0)) n_file rfl rfl (by decide) (by decide) (by decide)
      (by decide)).imp fun _ h => ⟨h.1, h.2.1⟩⟩

theorem bind_step_ok {α β : Type} (a : α) (f : α → Option (Except (RC × Option Nat) β)) :
    bind_step (step_ok a) f = f a := rfl

theorem bind_step_eq_ok {α β : Type} (x : Option (Except (RC × Option Nat) α))
    (f : α → Option (Except (RC × Option Nat) β)) (b : β) (h : bind_step x f = step_ok b) :
    ∃ a, x = step_ok a ∧ f a = step_ok b := by
  cases x with
  | none => cases h
  | some e =>
    cases e with
    | error rc => cases h
    | ok a => exact ⟨a, rfl, h⟩

theorem tok_step_eq_ok (toks : List token) (cur : Nat) (t : token)
    (h : tok_step toks cur = step_ok t) : toks[cur]? = some t := by
  unfold tok_step at h
  cases hc : toks[cur]? with
  | none => rw [hc] at h; cases h
  | some t' =>
    rw [hc] at h
    exact congrArg some (Except.ok.inj (Option.some.inj h))

theorem tok_step_some (toks : List token) (cur : Nat) (t : token) (h : toks[cur]? = some t) :
    tok_step toks cur = step_ok t := by
  unfold tok_step
  rw [h]
  rfl

theorem to_size_t_of_nonneg (x : Int) (h0 : 0 ≤ x) (h1 : x < 2147483648) : to_size_t x = x := by
  unfold to_size_t
  omega

theorem parse_set_value_ok (col : cd_entry) (tk : token) (cur : Nat) (v : set_value)
    (h : parse_set_value col tk cur = step_ok v) :
    (tk.tok_value = TokValue.INT_LITERAL ∧ col.col_type = T_INT ∧
      v = ⟨TokValue.INT_LITERAL, atoi tk.tok_string, []⟩) ∨
    (tk.tok_value = TokValue.STRING_LITERAL ∧ col.col_type ≠ T_INT ∧
      (tk.tok_string.length : Int) ≤ to_size_t col.col_len ∧
      v = ⟨TokValue.STRING_LITERAL, 0, tk.tok_string⟩) ∨
    (tk.tok_value = TokValue.K_NULL ∧ col.not_null = false ∧
      v = ⟨TokValue.K_NULL, 0, []⟩) := by
  unfold parse_set_value at h
  by_cases h1 : tk.tok_value = TokValue.INT_LITERAL
  · rw [if_pos h1] at h
    by_cases h2 : col.col_type ≠ T_INT
    · rw [if_pos h2] at h; cases h
    · rw [if_neg h2] at h
      exact Or.inl ⟨h1, not_not.mp h2, (Except.ok.inj (Option.some.inj h)).symm⟩
  · rw [if_neg h1] at h
    by_cases h2 : tk.tok_value = TokValue.STRING_LITERAL
    · rw [if_pos h2] at h
      by_cases h3 : col.col_type = T_INT
      · rw [if_pos h3] at h; cases h
      · rw [if_neg h3] at h
        by_cases h4 : (tk.tok_string.length : Int) > to_size_t col.col_len
        · rw [if_pos h4] at h; cases h
        · rw [if_neg h4] at h
          exact Or.inr (Or.inl ⟨h2, h3, by omega, (Except.ok.inj (Option.some.inj h)).symm⟩)
    · rw [if_neg h2] at h
      by_cases h3 : tk.tok_value = TokValue.K_NULL
      · rw [if_pos h3] at h
        by_cases h4 : col.not_null = true
        · rw [if_pos h4] at h; cases h
        · rw [if_neg h4] at h
          refine Or.inr (Or.inr ⟨h3, ?_, (Except.ok.inj (Option.some.inj h)).symm⟩)
          cases hx : col.not_null
          · rfl
          · exact absurd hx h4
      · rw [if_neg h3] at h; cases h

theorem update_field_null (col : cd_entry) (x : Nat) (P F' S : List Nat) (w : Nat)
    (hwn : (payload_width col).toNat = w) (hF' : F'.length = w)
    (hP : (P.length : Int) + 1 < 2147483648) :
    update_field col ⟨TokValue.K_NULL, 0, []⟩ (P ++ x :: F' ++ S) P.length
      = P ++ 0 :: List.replicate w 0 ++ S := by
  have hrow : P ++ x :: F' ++ S = P ++ x :: (F' ++ S) := by simp
  have hoff : wrap32 ((P.length : Int) + 1) = ((P ++ [0]).length : Int) := by
    have e : ((P ++ [0]).length : Int) = (P.length : Int) + 1 := by simp
    rw [e, wrap32_of_range] <;> omega
  have hshape : P ++ 0 :: (F' ++ S) = (P ++ [0]) ++ F' ++ S := by simp
  have hu : update_field col ⟨TokValue.K_NULL, 0, []⟩ (P ++ x :: F' ++ S) P.length
      = memset (store (P ++ x :: F' ++ S) P.length 0) (wrap32 ((P.length : Int) + 1)) 0
          (payload_width col).toNat := by
    unfold update_field
    exact if_pos rfl
  rw [hu]
  unfold memset
  rw [hrow, store_append, hoff, hshape, hwn,
    memcpy_append _ _ _ _ (by rw [hF', List.length_replicate])]
  simp

theorem update_field_int (col : cd_entry) (x : Nat) (P F' S : List Nat) (v : Int)
    (hc : col.col_type = T_INT) (hF' : F'.length = 4)
    (hP : (P.length : Int) + 1 < 2147483648) :
    update_field col ⟨TokValue.INT_LITERAL, v, []⟩ (P ++ x :: F' ++ S) P.length
      = P ++ 4 :: int32_bytes v ++ S := by
  have hrow : P ++ x :: F' ++ S = P ++ x :: (F' ++ S) := by simp
  have hoff : wrap32 ((P.length : Int) + 1) = ((P ++ [4]).length : Int) := by
    have e : ((P ++ [4]).length : Int) = (P.length : Int) + 1 := by simp
    rw [e, wrap32_of_range] <;> omega
  have hshape : P ++ 4 :: (F' ++ S) = (P ++ [4]) ++ F' ++ S := by simp
  have hu : update_field col ⟨TokValue.INT_LITERAL, v, []⟩ (P ++ x :: F' ++ S) P.length
      = memcpy (store (P ++ x :: F' ++ S) P.length 4) (wrap32 ((P.length : Int) + 1))
          (int32_bytes v) := by
    unfold update_field
    rw [if_neg (by intro h; cases h)]
    exact if_pos hc
  rw [hu, hrow, store_append, hoff, hshape,
    memcpy_append _ _ _ _ (by rw [hF', int32_bytes_length])]
  simp

theorem update_field_str (col : cd_entry) (x : Nat) (P F' S s : List Nat) (w : Nat)
    (hc : col.col_type ≠ T_INT) (hwv : col.col_len = (w : Int)) (hF' : F'.length = w)
    (hl2 : s.length ≤ w) (hlen : s.length < 256)
    (hP : (P.length : Int) + (1 + w) < 2147483648) :
    update_field col ⟨TokValue.STRING_LITERAL, 0, s⟩ (P ++ x :: F' ++ S) P.length
      = P ++ s.length :: (s ++ List.replicate (w - s.length) 0) ++ S := by
  have hrow : P ++ x :: F' ++ S = P ++ x :: (F' ++ S) := by simp
  have hoff : wrap32 ((P.length : Int) + 1) = ((P ++ [s.length]).length : Int) := by
    have e : ((P ++ [s.length]).length : Int) = (P.length : Int) + 1 := by simp
    rw [e, wrap32_of_range] <;> omega
  have hL : wrap32 (s.length : Int) = s.length := by
    rw [wrap32_of_range] <;> omega
  have hb : ((s.length : Int) % 256).toNat = s.length := by omega
  have ht2 : List.take (Int.toNat (s.length : Int)) s = s := by simp
  have hstep1 : memcpy (store (P ++ x :: F' ++ S) (P.length : Int) s.length)
      (wrap32 ((P.length : Int) + 1)) s
      = (P ++ [s.length] ++ s) ++ F'.drop s.length ++ S := by
    rw [hrow, store_append, hoff]
    have e : P ++ s.length :: (F' ++ S)
        = (P ++ [s.length]) ++ F'.take s.length ++ (F'.drop s.length ++ S) := by
      rw [List.append_assoc, List.append_assoc, ← List.append_assoc (F'.take s.length),
        List.take_append_drop]
      simp
    rw [e, memcpy_append _ _ _ _ (by rw [List.length_take]; omega)]
    simp
  have hu : update_field col ⟨TokValue.STRING_LITERAL, 0, s⟩ (P ++ x :: F' ++ S) P.length
      = store_string col s (P ++ x :: F' ++ S) P.length (wrap32 (s.length : Int)) := by
    unfold update_field
    rw [if_neg (by intro h; cases h)]
    exact if_neg hc
  rw [hu, hL]
  unfold store_string
  rw [hb, ht2, hstep1]
  by_cases hlt : (s.length : Int) < col.col_len
  · rw [if_pos hlt]
    have hoff2 : wrap32 (wrap32 ((P.length : Int) + 1) + (s.length : Int))
        = ((P ++ [s.length] ++ s).length : Int) := by
      have e : ((P ++ [s.length] ++ s).length : Int) = (P.length : Int) + 1 + s.length := by
        simp only [List.length_append, List.length_cons, List.length_nil]
        push_cast
        omega
      rw [e, wrap32_of_range (x := (P.length : Int) + 1), wrap32_of_range] <;> omega
    have hcnt : (wrap32 (col.col_len - (s.length : Int))).toNat = w - s.length := by
      rw [wrap32_of_range] <;> omega
    unfold memset
    rw [hoff2, hcnt, memcpy_append _ _ _ _ (by simp [hF'])]
    simp
  · rw [if_neg hlt]
    have hwl : w = s.length := by omega
    have hd : F'.drop s.length = [] := by
      apply List.drop_eq_nil_of_le
      omega
    rw [hd, hwl]
    simp

theorem field_image_null (col : cd_entry) (tk : token) (h : tk.tok_value = TokValue.K_NULL) :
    field_image col tk = 0 :: List.replicate (payload_width col).toNat 0 := by
  unfold field_image
  exact if_pos h

theorem field_image_int (col : cd_entry) (tk : token) (h : tk.tok_value ≠ TokValue.K_NULL)
    (hc : col.col_type = T_INT) :
    field_image col tk = 4 :: int32_bytes (atoi tk.tok_string) := by
  unfold field_image
  rw [if_neg h]
  exact if_pos hc

theorem field_image_str (col : cd_entry) (tk : token) (h : tk.tok_value ≠ TokValue.K_NULL)
    (hc : col.col_type ≠ T_INT) :
    field_image col tk = tk.tok_string.length :: (tk.tok_string
      ++ List.replicate ((payload_width col).toNat - tk.tok_string.length) 0) := by
  unfold field_image
  rw [if_neg h]
  exact if_neg hc

theorem update_field_image (col : cd_entry) (tk : token) (cur : Nat) (v : set_value)
    (P F S : List Nat) (hv : parse_set_value col tk cur = step_ok v)
    (hw : 0 ≤ payload_width col) (hF : F.length = (1 + payload_width col).toNat)
    (hP : P.length + (1 + payload_width col) < 2147483648)
    (hlen : tk.tok_string.length < 256) :
    update_field col v (P ++ F ++ S) P.length = P ++ field_image col tk ++ S := by
  obtain ⟨w, hwv⟩ := Int.eq_ofNat_of_zero_le hw
  have htn : (1 + payload_width col).toNat = 1 + w := by omega
  have hwn : (payload_width col).toNat = w := by omega
  rw [htn] at hF
  obtain ⟨x, F', rfl⟩ : ∃ x F', F = x :: F' := by
    cases F with
    | nil => simp at hF; omega
    | cons x F' => exact ⟨x, F', rfl⟩
  have hF' : F'.length = w := by simp at hF; omega
  rcases parse_set_value_ok col tk cur v hv with ⟨ht, hc, hveq⟩ | ⟨ht, hc, hl, hveq⟩ |
    ⟨ht, _, hveq⟩
  · have hnn : tk.tok_value ≠ TokValue.K_NULL := by rw [ht]; intro h; cases h
    have hw4 : payload_width col = 4 := by
      unfold payload_width
      exact if_pos hc
    rw [hveq, field_image_int col tk hnn hc]
    exact update_field_int col x P F' S _ hc (by omega) (by omega)
  · have hnn : tk.tok_value ≠ TokValue.K_NULL := by rw [ht]; intro h; cases h
    have hwc : payload_width col = col.col_len := by
      unfold payload_width
      exact if_neg hc
    have hsz : to_size_t col.col_len = col.col_len := by
      apply to_size_t_of_nonneg <;> omega
    rw [hsz] at hl
    rw [hveq, field_image_str col tk hnn hc, hwn]
    exact update_field_str col x P F' S tk.tok_string w hc (by omega) hF' (by omega) hlen
      (by omega)
  · rw [hveq, field_image_null col tk ht, hwn]
    exact update_field_null col x P F' S w hwn hF' (by omega)

theorem store_length (buf : List Nat) (off : Int) (v : Nat) :
    (store buf off v).length = buf.length := by
  unfold store
  split
  · rfl
  · exact List.length_set _ _ _

theorem memcpy_length (src : List Nat) : ∀ (buf : List Nat) (off : Int),
    (memcpy buf off src).length = buf.length := by
  induction src with
  | nil => intro buf off; rfl
  | cons b bs ih =>
    intro buf off
    show (memcpy (store buf off b) (off + 1) bs).length = buf.length
    rw [ih, store_length]

theorem update_field_length (col : cd_entry) (v : set_value) (row : List Nat) (off : Int) :
    (update_field col v row off).length = row.length := by
  unfold update_field
  split
  · unfold memset
    rw [memcpy_length, store_length]
  · split
    · rw [memcpy_length, store_length]
    · unfold store_string
      split
      · unfold memset
        rw [memcpy_length, memcpy_length, store_length]
      · rw [memcpy_length, store_length]

theorem skip_fields_eq (cols : List cd_entry) :
    ∀ (k : Nat) (off : Int), 0 ≤ off → (∀ c ∈ cols, 0 ≤ payload_width c) →
      off + width_sum cols < 2147483648 →
      skip_fields off cols k = off + width_sum (cols.take k) := by
  induction cols with
  | nil =>
    intro k off _ _ _
    cases k <;> simp [skip_fields, width_sum]
  | cons c cs ih =>
    intro k off h0 hw hfit
    have hc := hw c (List.mem_cons_self _ _)
    have hcs : ∀ d ∈ cs, 0 ≤ payload_width d := fun d hd => hw d (List.mem_cons_of_mem _ hd)
    have hs := width_sum_nonneg _ hcs
    rw [width_sum_cons] at hfit
    cases k with
    | zero => simp [skip_fields, width_sum]
    | succ k =>
      simp only [skip_fields, List.take_succ_cons]
      rw [wrap32_of_range (x := off + 1) (by omega) (by omega),
        wrap32_of_range (by omega) (by omega), ih k _ (by omega) hcs (by omega), width_sum_cons]
      omega

theorem skip_fields_col_offset (cols : List cd_entry) (k : Nat)
    (hw : ∀ c ∈ cols, 0 ≤ payload_width c) (hfit : width_sum cols < 2147483648) :
    skip_fields 0 cols k = col_offset cols k := by
  rw [skip_fields_eq cols k 0 (le_refl _) hw (by omega), col_offset_eq cols k hw hfit,
    zero_add]

theorem find_column_lt (name : List Nat) : ∀ (cols : List cd_entry) (first k : Nat),
    find_column name cols first = some k → first ≤ k ∧ k < first + cols.length := by
  intro cols
  induction cols with
  | nil => intro first k h; cases h
  | cons c cs ih =>
    intro first k h
    unfold find_column at h
    by_cases hc : strcasecmp c.col_name name = 0
    · rw [if_pos hc] at h
      have := Option.some.inj h
      simp only [List.length_cons]
      omega
    · rw [if_neg hc] at h
      have := ih (first + 1) k h
      simp only [List.length_cons]
      omega

theorem update_rows_step (s : UpdateStmt) (hdr : table_file_header) (row_idx n : Nat)
    (data row : List Nat)
    (h : fread_record data (row_pos hdr row_idx) hdr.record_size = some row) :
    update_rows s hdr row_idx (n + 1) data =
      if update_this_row s.tpd s.where_part row = true then
        update_rows s hdr (row_idx + 1) n
          (file_write data (row_pos hdr row_idx) (update_record s row))
      else update_rows s hdr (row_idx + 1) n data := by
  show (match fread_record data (row_pos hdr row_idx) hdr.record_size with
    | none => (RC.FILE_OPEN_ERROR, data)
    | some row =>
      if update_this_row s.tpd s.where_part row = true then
        update_rows s hdr (row_idx + 1) n
          (file_write data (row_pos hdr row_idx) (update_record s row))
      else update_rows s hdr (row_idx + 1) n data) = _
  rw [h]

theorem update_record_length (s : UpdateStmt) (row : List Nat) :
    (update_record s row).length = row.length := by
  unfold update_record
  exact update_field_length _ _ _ _

theorem update_rows_spec (s : UpdateStmt) (hdr : table_file_header)
    (h0 : 0 ≤ hdr.record_offset) (hR : 0 < hdr.record_size) (data0 : List Nat) (n : Nat)
    (hfit : hdr.record_offset.toNat + n * hdr.record_size.toNat ≤ data0.length) :
    ∀ (len row_idx : Nat) (data : List Nat),
      row_idx + len = n → data.length = data0.length →
      (∀ j, row_idx ≤ j → j < n → record_bytes hdr data j = record_bytes hdr data0 j) →
      (update_rows s hdr row_idx len data).1 = RC.OK ∧
      (update_rows s hdr row_idx len data).2.length = data0.length ∧
      (∀ j, row_idx ≤ j → j < n →
        record_bytes hdr (update_rows s hdr row_idx len data).2 j
          = if update_this_row s.tpd s.where_part (record_bytes hdr data0 j) = true then
              update_record s (record_bytes hdr data0 j)
            else record_bytes hdr data0 j) ∧
      (∀ j, j < row_idx →
        record_bytes hdr (update_rows s hdr row_idx len data).2 j
          = record_bytes hdr data j) := by
  intro len
  induction len with
  | zero =>
    intro row_idx data hn hlen _
    refine ⟨rfl, hlen, fun j h1 h2 => absurd h2 (by omega), fun j _ => rfl⟩
  | succ len ih =>
    intro row_idx data hn hlen hinv
    have hri : row_idx < n := by omega
    have hfitd : hdr.record_offset.toNat + n * hdr.record_size.toNat ≤ data.length := by
      rw [hlen]; exact hfit
    have hread : fread_record data (row_pos hdr row_idx) hdr.record_size
        = some (record_bytes hdr data0 row_idx) := by
      rw [fread_record_eq hdr data n row_idx h0 hR hfitd hri, hinv row_idx (le_refl _) hri]
    rw [update_rows_step s hdr row_idx len data _ hread]
    have hrl : (record_bytes hdr data0 row_idx).length = hdr.record_size.toNat :=
      record_bytes_length hdr data0 n row_idx h0 (le_of_lt hR) hfit hri
    by_cases hu : update_this_row s.tpd s.where_part (record_bytes hdr data0 row_idx) = true
    · rw [if_pos hu]
      have hul : (update_record s (record_bytes hdr data0 row_idx)).length
          = hdr.record_size.toNat := by rw [update_record_length, hrl]
      have hlen' : (file_write data (row_pos hdr (row_idx : Int))
          (update_record s (record_bytes hdr data0 row_idx))).length = data0.length := by
        rw [file_write_record_length hdr data _ n row_idx h0 (le_of_lt hR) hfitd hri hul, hlen]
      have hinv' : ∀ j, row_idx + 1 ≤ j → j < n →
          record_bytes hdr (file_write data (row_pos hdr (row_idx : Int))
            (update_record s (record_bytes hdr data0 row_idx))) j
            = record_bytes hdr data0 j := by
        intro j hj1 hj2
        rw [record_bytes_write_other hdr data _ n row_idx j h0 (le_of_lt hR) hfitd hri hul
          (by omega)]
        exact hinv j (by omega) hj2
      obtain ⟨i1, i2, i3, i4⟩ := ih (row_idx + 1) _ (by omega) hlen' hinv'
      refine ⟨i1, i2, ?_, ?_⟩
      · intro j hj1 hj2
        by_cases hj : j = row_idx
        · rw [hj, i4 row_idx (by omega), if_pos hu]
          exact record_bytes_write_same hdr data _ n row_idx h0 (le_of_lt hR) hfitd hri hul
        · exact i3 j (by omega) hj2
      · intro j hj
        rw [i4 j (by omega)]
        exact record_bytes_write_other hdr data _ n row_idx j h0 (le_of_lt hR) hfitd hri hul
          (by omega)
    · rw [if_neg hu]
      obtain ⟨i1, i2, i3, i4⟩ := ih (row_idx + 1) data (by omega) hlen
        (fun j hj1 hj2 => hinv j (by omega) hj2)
      refine ⟨i1, i2, ?_, fun j hj => i4 j (by omega)⟩
      intro j hj1 hj2
      by_cases hj : j = row_idx
      · rw [hj, i4 row_idx (by omega), if_neg hu]
        exact hinv row_idx (le_refl _) hri
      · exact i3 j (by omega) hj2

theorem update_exec_spec (s : UpdateStmt) (f : TabFile) (hw : FileCovers f)
    (hR : 0 < f.hdr.record_size) (hn : 0 ≤ f.hdr.num_records) :
    ∃ data' : List Nat, update_exec s f = (RC.OK, ⟨f.hdr, data'⟩) ∧
      data'.length = f.data.length ∧
      table_records ⟨f.hdr, data'⟩ = (table_records f).map
        (fun r => if update_this_row s.tpd s.where_part r = true then update_record s r
          else r) := by
  have hfit := covers_fit f hw hn
  obtain ⟨s1, s2, s3, _⟩ := update_rows_spec s f.hdr hw.1 hR f.data f.hdr.num_records.toNat
    hfit f.hdr.num_records.toNat 0 f.data (Nat.zero_add _) rfl (fun _ _ _ => rfl)
  refine ⟨(update_rows s f.hdr 0 f.hdr.num_records.toNat f.data).2, ?_, s2, ?_⟩
  · unfold update_exec
    rw [if_neg (by omega), s1]
  · rw [table_records_of f.hdr _ f.hdr.num_records.toNat hw.1 (le_of_lt hR)
      (Int.toNat_of_nonneg hn).symm (by rw [s2]; exact hfit), table_records_eq f hw,
      List.map_map]
    apply List.map_congr_left
    intro j hj
    have hj2 : j < f.hdr.num_records.toNat := by
      have := (List.mem_range'_1.mp hj).2
      omega
    exact s3 j (Nat.zero_le _) hj2

theorem take_succ_col_at (cols : List cd_entry) (k : Nat) (hk : k < cols.length) :
    cols.take (k + 1) = cols.take k ++ [col_at cols k] := by
  unfold col_at
  rw [List.take_succ, List.getD_eq_getElem?_getD, List.getElem?_eq_getElem hk]
  rfl

theorem width_sum_take_succ (cols : List cd_entry) (k : Nat) (hk : k < cols.length) :
    width_sum (cols.take (k + 1))
      = width_sum (cols.take k) + (1 + payload_width (col_at cols k)) := by
  rw [take_succ_col_at cols k hk, width_sum_append]
  simp [width_sum]

theorem col_at_mem (cols : List cd_entry) (k : Nat) (hk : k < cols.length) :
    col_at cols k ∈ cols := by
  unfold col_at
  rw [List.getD_eq_getElem?_getD, List.getElem?_eq_getElem hk]
  exact List.getElem_mem _

theorem update_record_image (s : UpdateStmt) (tk : token) (cur : Nat) (row : List Nat)
    (hv : parse_set_value (col_at s.tpd.cols s.set_col_idx) tk cur = step_ok s.value)
    (hk : s.set_col_idx < s.tpd.cols.length)
    (hw : ∀ c ∈ s.tpd.cols, 0 ≤ payload_width c)
    (hfit : width_sum s.tpd.cols ≤ row.length) (hR : row.length < 2147483648)
    (hlen : tk.tok_string.length < 256) :
    update_record s row
      = row.take (width_sum (s.tpd.cols.take s.set_col_idx)).toNat
        ++ field_image (col_at s.tpd.cols s.set_col_idx) tk
        ++ row.drop ((width_sum (s.tpd.cols.take s.set_col_idx)).toNat
          + (1 + payload_width (col_at s.tpd.cols s.set_col_idx)).toNat) := by
  have hwk := hw _ (col_at_mem s.tpd.cols s.set_col_idx hk)
  have hsum0 := width_sum_nonneg (s.tpd.cols.take s.set_col_idx)
    (fun c hc => hw c (List.mem_of_mem_take hc))
  have hsucc := width_sum_take_succ s.tpd.cols s.set_col_idx hk
  have hle := width_sum_take_le s.tpd.cols (s.set_col_idx + 1) hw
  obtain ⟨off, hoff⟩ := Int.eq_ofNat_of_zero_le hsum0
  obtain ⟨w1, hw1⟩ := Int.eq_ofNat_of_zero_le (show 0 ≤ 1 + payload_width
    (col_at s.tpd.cols s.set_col_idx) by omega)
  have ho : (width_sum (s.tpd.cols.take s.set_col_idx)).toNat = off := by omega
  have hw1n : (1 + payload_width (col_at s.tpd.cols s.set_col_idx)).toNat = w1 := by omega
  rw [ho, hw1n]
  have hsplit : row = row.take off ++ (row.drop off).take w1 ++ row.drop (off + w1) := by
    rw [List.append_assoc, ← List.drop_drop, List.take_append_drop, List.take_append_drop]
  have hPl : (row.take off).length = off := by
    rw [List.length_take]; omega
  have hFl : ((row.drop off).take w1).length
      = (1 + payload_width (col_at s.tpd.cols s.set_col_idx)).toNat := by
    rw [List.length_take, List.length_drop, hw1n]; omega
  have hskip : skip_fields 0 s.tpd.cols s.set_col_idx = ((row.take off).length : Int) := by
    rw [skip_fields_eq s.tpd.cols s.set_col_idx 0 (le_refl _) hw (by omega), hPl]
    omega
  have himg := update_field_image (col_at s.tpd.cols s.set_col_idx) tk cur s.value
    (row.take off) ((row.drop off).take w1) (row.drop (off + w1)) hv hwk hFl
    (by rw [hPl]; omega) hlen
  rw [← hsplit] at himg
  unfold update_record
  rw [hskip]
  exact himg

theorem with_table_eq_ok {α : Type} (lookup : List Nat → Option tpd_entry) (t0 : token)
    (cur : Nat) (f : tpd_entry → Option (Except (RC × Option Nat) α)) (a : α)
    (h : with_table lookup t0 cur f = step_ok a) :
    ∃ tpd, lookup t0.tok_string = some tpd ∧ f tpd = step_ok a := by
  unfold with_table at h
  cases hl : lookup t0.tok_string with
  | none => rw [hl] at h; cases h
  | some tpd => rw [hl] at h; exact ⟨tpd, rfl, h⟩

theorem parse_update_inv (lookup : List Nat → Option tpd_entry) (toks : List token)
    (cur : Nat) (s : UpdateStmt) (h : parse_update lookup toks cur = step_ok s) :
    ∃ t0 tc tk, toks[cur]? = some t0 ∧ lookup t0.tok_string = some s.tpd ∧
      s.table_name = t0.tok_string ∧ toks[cur + 2]? = some tc ∧
      find_column tc.tok_string s.tpd.cols 0 = some s.set_col_idx ∧
      toks[cur + 4]? = some tk ∧
      parse_set_value (col_at s.tpd.cols s.set_col_idx) tk (cur + 4) = step_ok s.value := by
  unfold parse_update at h
  obtain ⟨t0, h0, h⟩ := bind_step_eq_ok _ _ _ h
  by_cases hn : is_name_token t0 = false
  · rw [if_pos hn] at h; cases h
  · rw [if_neg hn] at h
    obtain ⟨tpd, hl, h⟩ := with_table_eq_ok _ _ _ _ _ h
    obtain ⟨t1, _, h⟩ := bind_step_eq_ok _ _ _ h
    by_cases h1 : t1.tok_value ≠ TokValue.K_SET
    · rw [if_pos h1] at h; cases h
    · rw [if_neg h1] at h
      obtain ⟨tc, hc, h⟩ := bind_step_eq_ok _ _ _ h
      by_cases h2 : is_name_token tc = false
      · rw [if_pos h2] at h; cases h
      · rw [if_neg h2] at h
        unfold parse_update_column at h
        cases hf : find_column tc.tok_string tpd.cols 0 with
        | none => rw [hf] at h; cases h
        | some k =>
          rw [hf] at h
          obtain ⟨te, _, h⟩ := bind_step_eq_ok _ _ _ h
          by_cases h3 : te.tok_value ≠ TokValue.S_EQUAL
          · rw [if_pos h3] at h; cases h
          · rw [if_neg h3] at h
            unfold parse_update_value at h
            obtain ⟨tv, hv, h⟩ := bind_step_eq_ok _ _ _ h
            obtain ⟨v, hpv, h⟩ := bind_step_eq_ok _ _ _ h
            obtain ⟨t5, _, h⟩ := bind_step_eq_ok _ _ _ h
            obtain ⟨w, _, h⟩ := bind_step_eq_ok _ _ _ h
            obtain ⟨te2, _, h⟩ := bind_step_eq_ok _ _ _ h
            by_cases h4 : te2.tok_value ≠ TokValue.EOC
            · rw [if_pos h4] at h; cases h
            · rw [if_neg h4] at h
              have hs := Except.ok.inj (Option.some.inj h)
              rw [← hs]
              exact ⟨t0, tc, tv, tok_step_eq_ok _ _ _ h0, hl, rfl, tok_step_eq_ok _ _ _ hc,
                hf, tok_step_eq_ok _ _ _ hv, hpv⟩

theorem sem_update_of_parse (lookup : List Nat → Option tpd_entry)
    (fs : List Nat → Option TabFile) (toks : List token) (cur : Nat) (s : UpdateStmt)
    (f f' : TabFile) (rc : RC)
    (hp : parse_update lookup toks cur = step_ok s) (hf : fs s.table_name = some f)
    (he : update_exec s f = (rc, f')) :
    sem_update lookup fs toks cur = some ⟨rc, none, some f'⟩ := by
  unfold sem_update
  rw [hp]
  show (match fs s.table_name with
    | none => some (StatementResult.mk RC.FILE_OPEN_ERROR none none)
    | some f => some (StatementResult.mk (update_exec s f).1 none
        (some (update_exec s f).2))) = _
  rw [hf]
  show some (StatementResult.mk (update_exec s f).1 none (some (update_exec s f).2)) = _
  rw [he]

theorem table_records_length (f : TabFile) (hw : FileCovers f) (hn : 0 ≤ f.hdr.num_records)
    (r : List Nat) (hr : r ∈ table_records f) : r.length = f.hdr.record_size.toNat := by
  rw [table_records_eq f hw] at hr
  obtain ⟨i, hi, rfl⟩ := List.mem_map.mp hr
  have hi2 : i < f.hdr.num_records.toNat := by
    have := (List.mem_range'_1.mp hi).2
    omega
  exact record_bytes_length f.hdr f.data _ i hw.1 hw.2.1 (covers_fit f hw hn) hi2

theorem accepted_of_set_value (col : cd_entry) (tk : token) (cur : Nat) (v : set_value)
    (hv : parse_set_value col tk cur = step_ok v) (hw : 0 ≤ payload_width col)
    (hfit : payload_width col < 2147483648)
    (hne : tk.tok_value = TokValue.STRING_LITERAL → tk.tok_string ≠ []) :
    Accepted col tk := by
  rcases parse_set_value_ok col tk cur v hv with ⟨ht, hc, _⟩ | ⟨ht, hc, hl, _⟩ | ⟨ht, hnn, _⟩
  · exact Or.inr (Or.inl ⟨ht, hc⟩)
  · have hwc : payload_width col = col.col_len := by
      unfold payload_width
      exact if_neg hc
    rw [to_size_t_of_nonneg col.col_len (by omega) (by omega)] at hl
    refine Or.inr (Or.inr ⟨ht, hc, ?_, hl⟩)
    have := List.length_pos.mpr (hne ht)
    omega
  · exact Or.inl ⟨ht, hnn⟩

/-- C35 (amended). For every table file that holds the records its header counts, whose
record size covers the fields of the descriptor, and every UPDATE t SET c = v [WHERE ...]
that `sem_update` has parsed, with literals as the lexer yields them (under 256
characters, no NUL, a string literal not empty) and an integer literal below 2^31: the
statement returns 0, the header (num_records and record_size included) is unchanged, the
records for which the test of the WHERE clause is false are unchanged, and in each of the
others the bytes before and after the field of c are unchanged while the field is the
image of v, which decodes to v as SELECT decodes it. -/
theorem update_changes_only_the_field (lookup : List Nat → Option tpd_entry)
    (fs : List Nat → Option TabFile) (toks : List token) (cur : Nat) (s : UpdateStmt)
    (f : TabFile)
    (hp : parse_update lookup toks cur = step_ok s) (hf : fs s.table_name = some f)
    (hcov : FileCovers f) (hR : 0 < f.hdr.record_size) (hR2 : f.hdr.record_size < 2147483648)
    (hn : 0 ≤ f.hdr.num_records)
    (hw : ∀ c ∈ s.tpd.cols, 0 ≤ payload_width c)
    (hfit : width_sum s.tpd.cols ≤ f.hdr.record_size)
    (htok : ∀ tk ∈ toks, tk.tok_string.length < 256 ∧ 0 ∉ tk.tok_string ∧
      (tk.tok_value = TokValue.STRING_LITERAL → tk.tok_string ≠ []))
    (hint : ∀ tk ∈ toks, tk.tok_value = TokValue.INT_LITERAL →
      digits_value tk.tok_string < 2147483648) :
    ∃ f' : TabFile, sem_update lookup fs toks cur = some ⟨RC.OK, none, some f'⟩ ∧
      f'.hdr = f.hdr ∧
      table_records f' = (table_records f).map
        (fun r => if update_this_row s.tpd s.where_part r = true then update_record s r
          else r) ∧
      ∀ r ∈ table_records f,
        update_record s r
          = r.take (width_sum (s.tpd.cols.take s.set_col_idx)).toNat
            ++ field_image (col_at s.tpd.cols s.set_col_idx) (toks.getD (cur + 4) default)
            ++ r.drop ((width_sum (s.tpd.cols.take s.set_col_idx)).toNat
              + (1 + payload_width (col_at s.tpd.cols s.set_col_idx)).toNat) ∧
        print_value (update_record s r) (col_at s.tpd.cols s.set_col_idx).col_type
            (col_offset s.tpd.cols s.set_col_idx)
          = literal_value (toks.getD (cur + 4) default) := by
  obtain ⟨t0, tc, tk, _, _, _, _, hfc, htk, hv⟩ := parse_update_inv lookup toks cur s hp
  have hk : s.set_col_idx < s.tpd.cols.length := by
    have := (find_column_lt _ _ _ _ hfc).2
    omega
  have hgetD : toks.getD (cur + 4) default = tk := getD_of_get? toks (cur + 4) tk htk
  have hmem : tk ∈ toks := List.getElem?_mem htk
  obtain ⟨hlen, hnul, hne⟩ := htok tk hmem
  obtain ⟨data', he, _, hrec⟩ := update_exec_spec s f hcov hR hn
  refine ⟨⟨f.hdr, data'⟩, sem_update_of_parse lookup fs toks cur s f _ RC.OK hp hf he, rfl,
    hrec, ?_⟩
  intro r hr
  have hrl := table_records_length f hcov hn r hr
  have hwk := hw _ (col_at_mem s.tpd.cols s.set_col_idx hk)
  have hsum0 := width_sum_nonneg (s.tpd.cols.take s.set_col_idx)
    (fun c hc => hw c (List.mem_of_mem_take hc))
  have hsucc := width_sum_take_succ s.tpd.cols s.set_col_idx hk
  have hle := width_sum_take_le s.tpd.cols (s.set_col_idx + 1) hw
  have himg := update_record_image s tk (cur + 4) r hv hk hw (by omega) (by omega) hlen
  rw [hgetD]
  refine ⟨himg, ?_⟩
  rw [himg, col_offset_eq s.tpd.cols s.set_col_idx hw (by omega)]
  have hPl : ((r.take (width_sum (s.tpd.cols.take s.set_col_idx)).toNat).length : Int)
      = width_sum (s.tpd.cols.take s.set_col_idx) := by
    rw [List.length_take]
    omega
  have hP1 : (r.take (width_sum (s.tpd.cols.take s.set_col_idx)).toNat).length + 1
      < 2147483648 := by
    omega
  have hpv := print_value_image (col_at s.tpd.cols s.set_col_idx) tk
    (r.take (width_sum (s.tpd.cols.take s.set_col_idx)).toNat)
    (r.drop ((width_sum (s.tpd.cols.take s.set_col_idx)).toNat
      + (1 + payload_width (col_at s.tpd.cols s.set_col_idx)).toNat))
    (accepted_of_set_value _ tk (cur + 4) s.value hv hwk (by omega) hne) hP1
    (fun _ => hnul) (hint tk hmem)
  rw [hPl] at hpv
  exact hpv

/-- Witness of C35 on `update n set name = 'x' where id = 1`, for the table n with the
records (1, 'ab') and (2, 'abc'): the first record becomes (1, 'x'), the second stays. -/
theorem update_changes_only_the_field_witness :
    sem_update dml_lookup dml_fs update_n_name_x 0
      = some ⟨RC.OK, none, some ⟨⟨48, 12, 2, 24, 0⟩, List.replicate 24 0
          ++ [4, 1, 0, 0, 0, 1, 120, 0, 0, 0, 0, 0]
          ++ [4, 2, 0, 0, 0, 3, 97, 98, 99, 0, 0, 0]⟩⟩ ∧
    ∃ f' : TabFile, sem_update dml_lookup dml_fs update_n_name_x 0
        = some ⟨RC.OK, none, some f'⟩ ∧ f'.hdr = n_file.hdr ∧
      table_records f' = (table_records n_file).map
        (fun r => if update_this_row n_table (some (where_id_1, 0)) r = true then
          update_record update_n_name_x_stmt r else r) :=
  ⟨by decide,
    (update_changes_only_the_field dml_lookup dml_fs update_n_name_x 0 update_n_name_x_stmt
      n_file rfl rfl (by decide) (by decide) (by decide) (by decide) (by decide) (by decide)
      (by decide) (by decide)).imp fun _ h => ⟨h.1, h.2.1, h.2.2.1⟩⟩

/-- C35 (counterexample). `update n set id = 4294967297` is accepted and returns 0; the
field of id in the first record then decodes to 1, not to the value 4294967297 of the
statement. -/
theorem update_big_int_counterexample :
    sem_update dml_lookup dml_fs update_n_big_id 0
      = some ⟨RC.OK, none, some ⟨⟨48, 12, 2, 24, 0⟩, List.replicate 24 0
          ++ [4, 1, 0, 0, 0, 2, 97, 98, 0, 0, 0, 0]
          ++ [4, 1, 0, 0, 0, 3, 97, 98, 99, 0, 0, 0]⟩⟩ ∧
    print_value [4, 1, 0, 0, 0, 2, 97, 98, 0, 0, 0, 0] T_INT (col_offset n_table.cols 0)
      = Value.int 1 ∧
    literal_value (update_n_big_id.getD 4 default) = Value.int 4294967297 := by
  decide

theorem splice_field (data bytes : List Nat) (p q n m : Nat) (hb : bytes.length = m)
    (hp : p + m ≤ data.length) (hq : q + n ≤ p ∨ p + m ≤ q) :
    ((data.take p ++ bytes ++ data.drop (p + m)).drop q).take n = (data.drop q).take n := by
  apply List.ext_getElem?
  intro i
  simp only [List.getElem?_take, List.getElem?_drop]
  by_cases hi : i < n
  · simp only [if_pos hi]
    have hl : (data.take p).length = p := by rw [List.length_take]; omega
    rcases hq with hq | hq
    · rw [List.append_assoc, List.getElem?_append_left (by omega), List.getElem?_take]
      rw [if_pos (by omega)]
    · rw [List.getElem?_append_right (by simp only [List.length_append, hl, hb]; omega)]
      simp only [List.length_append, hl, hb, List.getElem?_drop]
      congr 1
      omega
  · simp only [if_neg hi]

theorem width_sum_take_mono (cols : List cd_entry) (i j : Nat)
    (hw : ∀ c ∈ cols, 0 ≤ payload_width c) (hij : i ≤ j) :
    width_sum (cols.take i) ≤ width_sum (cols.take j) := by
  have h := width_sum_take_le (cols.take j) i (fun c hc => hw c (List.mem_of_mem_take hc))
  rw [List.take_take, Nat.min_eq_left hij] at h
  exact h

theorem field_of_splice_same (cols : List cd_entry) (row img : List Nat) (k : Nat)
    (hk : k < cols.length) (hw : ∀ c ∈ cols, 0 ≤ payload_width c)
    (himg : img.length = (1 + payload_width (col_at cols k)).toNat)
    (hfit : width_sum cols ≤ row.length) :
    field_of cols (row.take (width_sum (cols.take k)).toNat ++ img
      ++ row.drop ((width_sum (cols.take k)).toNat
        + (1 + payload_width (col_at cols k)).toNat)) k = img := by
  unfold field_of
  have h0 := width_sum_nonneg (cols.take k) (fun c hc => hw c (List.mem_of_mem_take hc))
  have hs := width_sum_take_succ cols k hk
  have hle := width_sum_take_le cols (k + 1) hw
  have hwk := hw _ (col_at_mem cols k hk)
  rw [← himg]
  exact splice_same row img _ (by omega)

theorem field_of_splice_other (cols : List cd_entry) (row img : List Nat) (k i : Nat)
    (hk : k < cols.length) (hi : i < cols.length) (hik : i ≠ k)
    (hw : ∀ c ∈ cols, 0 ≤ payload_width c)
    (himg : img.length = (1 + payload_width (col_at cols k)).toNat)
    (hfit : width_sum cols ≤ row.length) :
    field_of cols (row.take (width_sum (cols.take k)).toNat ++ img
      ++ row.drop ((width_sum (cols.take k)).toNat
        + (1 + payload_width (col_at cols k)).toNat)) i = field_of cols row i := by
  unfold field_of
  have h0 := width_sum_nonneg (cols.take k) (fun c hc => hw c (List.mem_of_mem_take hc))
  have h0i := width_sum_nonneg (cols.take i) (fun c hc => hw c (List.mem_of_mem_take hc))
  have hs := width_sum_take_succ cols k hk
  have hsi := width_sum_take_succ cols i hi
  have hle := width_sum_take_le cols (k + 1) hw
  have hwk := hw _ (col_at_mem cols k hk)
  have hwi := hw _ (col_at_mem cols i hi)
  refine splice_field row img _ _ _ _ himg (by omega) ?_
  rcases Nat.lt_or_gt_of_ne hik with h | h
  · left
    have := width_sum_take_mono cols (i + 1) k hw (by omega)
    omega
  · right
    have := width_sum_take_mono cols (k + 1) i hw (by omega)
    omega

theorem field_of_row_image (toks : List token) (cols : List cd_entry) (cur i : Nat)
    (Z : List Nat) (hi : i < cols.length) (hw : ∀ c ∈ cols, 0 ≤ payload_width c)
    (hacc : ∀ j, j < cols.length → Accepted (col_at cols j) (toks.getD (cur + 2 * j) default)) :
    field_of cols (row_image toks cols cur ++ Z) i
      = field_image (col_at cols i) (toks.getD (cur + 2 * i) default) := by
  unfold field_of
  have hacct : ∀ j, j < (cols.take i).length →
      Accepted (col_at (cols.take i) j) (toks.getD (cur + 2 * j) default) := by
    intro j hj
    have hj' : j < i := by simp at hj; omega
    have := hacc j (by omega)
    have e : col_at (cols.take i) j = col_at cols j := by
      simp [col_at, List.getD_eq_getElem?_getD, List.getElem?_take, hj']
    rw [e]
    exact this
  have hplen := row_image_length toks (cols.take i) cur
    (fun c hc => hw c (List.mem_of_mem_take hc)) hacct
  have hfl := field_image_length (col_at cols i) (toks.getD (cur + 2 * i) default)
    (hw _ (col_at_mem cols i hi)) (hacc i hi)
  have hpl : (width_sum (cols.take i)).toNat = (row_image toks (cols.take i) cur).length := by
    omega
  rw [row_image_split toks cols cur i hi, hpl, List.append_assoc, List.append_assoc,
    List.drop_left, ← hfl, List.take_left]

theorem field_image_wf (col : cd_entry) (tk : token) (ha : Accepted col tk) :
    field_wf col (field_image col tk) := by
  unfold field_wf field_image
  rcases ha with ⟨h, _⟩ | ⟨h, hi⟩ | ⟨h, hi, hl1, hl2⟩
  · left
    rw [if_pos h]
    rfl
  · right
    left
    have hn : ¬ tk.tok_value = TokValue.K_NULL := by rw [h]; decide
    rw [if_neg hn, if_pos hi]
    exact ⟨hi, rfl⟩
  · right
    right
    have hn : ¬ tk.tok_value = TokValue.K_NULL := by rw [h]; decide
    rw [if_neg hn, if_neg hi]
    refine ⟨hi, hl1, hl2, ?_⟩
    intro b hb
    simp only [List.headD_cons] at hb
    rw [Nat.add_comm, List.drop_succ_cons, List.drop_left] at hb
    exact List.eq_of_mem_replicate hb

theorem field_image_not_null (col : cd_entry) (tk : token) (ha : Accepted col tk)
    (hnn : col.not_null = true) : (field_image col tk).headD 0 ≠ 0 := by
  unfold field_image
  rcases ha with ⟨h, hf⟩ | ⟨h, hi⟩ | ⟨h, hi, hl1, hl2⟩
  · rw [hnn] at hf
    cases hf
  · have hn : ¬ tk.tok_value = TokValue.K_NULL := by rw [h]; decide
    rw [if_neg hn, if_pos hi]
    simp
  · have hn : ¬ tk.tok_value = TokValue.K_NULL := by rw [h]; decide
    rw [if_neg hn, if_neg hi]
    simp only [List.headD_cons]
    omega

theorem field_image_of_null (col : cd_entry) (tk : token) (h : tk.tok_value = TokValue.K_NULL)
    (hw : 0 ≤ payload_width col) :
    field_image col tk = List.replicate (1 + payload_width col).toNat 0 := by
  unfold field_image
  rw [if_pos h]
  have e : (1 + payload_width col).toNat = (payload_width col).toNat + 1 := by omega
  rw [e, List.replicate_succ]

theorem file_write_at_end (data row : List Nat) (pos : Int) (hp : pos.toNat ≤ data.length) :
    file_write data pos row
      = data.take pos.toNat ++ row ++ data.drop (pos.toNat + row.length) := by
  unfold file_write
  have : pos.toNat - data.length = 0 := by omega
  simp only [this, List.replicate_zero, List.append_nil]

theorem write_end_other (data row : List Nat) (pos : Int) (q n : Nat)
    (hp : pos.toNat ≤ data.length) (hq : q + n ≤ pos.toNat) :
    ((file_write data pos row).drop q).take n = (data.drop q).take n := by
  rw [file_write_at_end data row pos hp]
  apply List.ext_getElem?
  intro i
  simp only [List.getElem?_take, List.getElem?_drop]
  by_cases hi : i < n
  · simp only [if_pos hi]
    have hl : (data.take pos.toNat).length = pos.toNat := by rw [List.length_take]; omega
    rw [List.append_assoc, List.getElem?_append_left (by omega), List.getElem?_take,
      if_pos (by omega)]
  · simp only [if_neg hi]

theorem drop_take_mid (A B C : List Nat) (p : Nat) (h : A.length = p) :
    ((A ++ (B ++ C)).drop p).take B.length = B := by
  subst h
  rw [List.drop_left, List.take_left]

theorem insert_appends_record (f : TabFile) (row : List Nat) (hcov : FileCovers f)
    (hn : 0 ≤ f.hdr.num_records) (hcap : f.hdr.num_records < 100)
    (hlen : row.length = f.hdr.record_size.toNat) :
    table_records ⟨write_header { f.hdr with num_records := wrap32 (f.hdr.num_records + 1) },
        file_write f.data (row_pos f.hdr f.hdr.num_records) row⟩
      = table_records f ++ [row] := by
  obtain ⟨h0, hR, hc⟩ := hcov
  obtain ⟨n, hnv⟩ := Int.eq_ofNat_of_zero_le hn
  have hfit := covers_fit f ⟨h0, hR, hc⟩ hn
  have hnn : f.hdr.num_records.toNat = n := by omega
  rw [hnn] at hfit
  have hp := row_pos_toNat f.hdr n h0 hR
  have hw32 : wrap32 (f.hdr.num_records + 1) = ((n + 1 : Nat) : Int) := by
    rw [wrap32_of_range (by omega) (by omega)]
    omega
  have hwl : (file_write f.data (row_pos f.hdr (n : Int)) row).length
      = (row_pos f.hdr (n : Int)).toNat + row.length
        + (f.data.length - ((row_pos f.hdr (n : Int)).toNat + row.length)) := by
    rw [file_write_at_end f.data row _ (by omega)]
    simp only [List.length_append, List.length_take, List.length_drop]
    omega
  have hfit' : f.hdr.record_offset.toNat + (n + 1) * f.hdr.record_size.toNat
      ≤ (file_write f.data (row_pos f.hdr (n : Int)) row).length := by
    rw [hwl, hp, Nat.succ_mul]
    omega
  have hpos : row_pos f.hdr f.hdr.num_records = row_pos f.hdr (n : Int) := by rw [hnv]
  rw [hpos]
  have hrec := table_records_of
    (write_header { f.hdr with num_records := wrap32 (f.hdr.num_records + 1) })
    (file_write f.data (row_pos f.hdr (n : Int)) row) (n + 1) h0 hR hw32 hfit'
  refine Eq.trans hrec ?_
  have hrec0 : table_records f = (List.range' 0 n).map (record_bytes f.hdr f.data) :=
    table_records_of f.hdr f.data n h0 hR hnv hfit
  rw [hrec0, List.range'_1_concat, List.map_append]
  congr 1
  · apply List.map_congr_left
    intro i hi
    have hi2 : i < n := by
      have := (List.mem_range'_1.mp hi).2
      omega
    unfold record_bytes
    have e1 : row_pos (write_header { f.hdr with num_records := wrap32 (f.hdr.num_records + 1) })
        (i : Int) = row_pos f.hdr (i : Int) := rfl
    have e2 : (write_header { f.hdr with num_records := wrap32 (f.hdr.num_records + 1) }).record_size
        = f.hdr.record_size := rfl
    rw [e1, e2]
    refine write_end_other _ _ _ _ _ (by omega) ?_
    rw [hp, row_pos_toNat f.hdr i h0 hR]
    have := Nat.mul_le_mul_right f.hdr.record_size.toNat (show i + 1 ≤ n by omega)
    rw [Nat.succ_mul] at this
    omega
  · simp only [List.map_cons, List.map_nil, Nat.zero_add, List.cons.injEq, and_true]
    unfold record_bytes
    have e1 : row_pos (write_header { f.hdr with num_records := wrap32 (f.hdr.num_records + 1) })
        (n : Int) = row_pos f.hdr (n : Int) := rfl
    have e2 : (write_header { f.hdr with num_records := wrap32 (f.hdr.num_records + 1) }).record_size
        = f.hdr.record_size := rfl
    rw [e1, e2, file_write_at_end f.data row _ (by omega), ← hlen]
    have hl : (f.data.take (row_pos f.hdr (n : Int)).toNat).length
        = (row_pos f.hdr (n : Int)).toNat := by
      rw [List.length_take]
      omega
    rw [List.append_assoc]
    exact drop_take_mid _ _ _ _ hl

/-- The record a successful INSERT writes, and the records of the table after it. -/
theorem sem_insert_into_records (lookup : List Nat → Option tpd_entry)
    (fs : List Nat → Option TabFile) (toks : List token) (cur : Nat) (res : InsertResult)
    (t0 : token) (tpd : tpd_entry) (f : TabFile)
    (h0 : toks[cur]? = some t0) (hl : lookup t0.tok_string = some tpd)
    (hf : fs t0.tok_string = some f)
    (hw : ∀ c ∈ tpd.cols, 0 ≤ payload_width c)
    (hfit : width_sum tpd.cols ≤ f.hdr.record_size) (hR : f.hdr.record_size < 2147483648)
    (htok : ∀ tk ∈ toks, tk.tok_string.length < 256)
    (hcov : FileCovers f) (hn : 0 ≤ f.hdr.num_records)
    (hins : sem_insert_into lookup fs toks cur = some res) (hrc : res.rc = RC.OK) :
    ∃ f' Z, res.file = some f' ∧
      table_records f' = table_records f ++ [row_image toks tpd.cols (cur + 3) ++ Z] ∧
      (∀ b ∈ Z, b = 0) ∧
      (∀ i, i < tpd.cols.length →
        Accepted (col_at tpd.cols i) (toks.getD (cur + 3 + 2 * i) default)) := by
  obtain ⟨t0', tpd', f0, cur', row, g0, gl, gf, hcap, hrs, hloop, hfile⟩ :=
    sem_insert_into_ok lookup fs toks cur res hins hrc
  rw [h0] at g0
  cases g0
  rw [hl] at gl
  cases gl
  rw [hf] at gf
  cases gf
  have hsum := width_sum_nonneg _ hw
  obtain ⟨R, hRv⟩ := Int.eq_ofNat_of_zero_le hrs
  have hRn : f.hdr.record_size.toNat = R := by omega
  rw [hRn] at hloop
  have hloop' : insert_loop toks tpd.cols (cur + 3) ([] ++ List.replicate R 0)
      (([] : List Nat).length : Int) = some (InsertLoop.done cur' row) := by
    simpa using hloop
  obtain ⟨hrow, _, hacc⟩ := insert_loop_image toks htok tpd.cols
    (cur + 3) [] R cur' row hw (by omega) (by simp; omega) hloop'
  simp only [List.nil_append] at hrow
  have hrl := row_image_length toks tpd.cols (cur + 3) hw (fun i hi => (hacc i hi).2)
  have hrowlen : row.length = f.hdr.record_size.toNat := by
    rw [hrow, List.length_append, List.length_replicate]
    omega
  refine ⟨_, List.replicate (R - (width_sum tpd.cols).toNat) 0, hfile, ?_,
    fun b hb => List.eq_of_mem_replicate hb, fun i hi => (hacc i hi).2⟩
  rw [← hrow]
  exact insert_appends_record f row hcov hn hcap hrowlen

/-- A successful UPDATE, record by record: the records of the table afterwards, and the
shape of each rewritten record. -/
theorem sem_update_records (lookup : List Nat → Option tpd_entry)
    (fs : List Nat → Option TabFile) (toks : List token) (cur : Nat) (s : UpdateStmt)
    (f : TabFile)
    (hp : parse_update lookup toks cur = step_ok s) (hf : fs s.table_name = some f)
    (hcov : FileCovers f) (hR : 0 < f.hdr.record_size) (hR2 : f.hdr.record_size < 2147483648)
    (hn : 0 ≤ f.hdr.num_records)
    (hw : ∀ c ∈ s.tpd.cols, 0 ≤ payload_width c)
    (hfit : width_sum s.tpd.cols ≤ f.hdr.record_size)
    (htok : ∀ tk ∈ toks, tk.tok_string.length < 256 ∧
      (tk.tok_value = TokValue.STRING_LITERAL → tk.tok_string ≠ [])) :
    s.set_col_idx < s.tpd.cols.length ∧
    Accepted (col_at s.tpd.cols s.set_col_idx) (toks.getD (cur + 4) default) ∧
    ∃ f' : TabFile, sem_update lookup fs toks cur = some ⟨RC.OK, none, some f'⟩ ∧
      f'.hdr = f.hdr ∧
      table_records f' = (table_records f).map
        (fun r => if update_this_row s.tpd s.where_part r = true then update_record s r
          else r) ∧
      ∀ r ∈ table_records f, width_sum s.tpd.cols ≤ r.length ∧
        update_record s r
          = r.take (width_sum (s.tpd.cols.take s.set_col_idx)).toNat
            ++ field_image (col_at s.tpd.cols s.set_col_idx) (toks.getD (cur + 4) default)
            ++ r.drop ((width_sum (s.tpd.cols.take s.set_col_idx)).toNat
              + (1 + payload_width (col_at s.tpd.cols s.set_col_idx)).toNat) := by
  obtain ⟨t0, tc, tk, _, _, _, _, hfc, htk, hv⟩ := parse_update_inv lookup toks cur s hp
  have hk : s.set_col_idx < s.tpd.cols.length := by
    have := (find_column_lt _ _ _ _ hfc).2
    omega
  have hgetD : toks.getD (cur + 4) default = tk := getD_of_get? toks (cur + 4) tk htk
  have hmem : tk ∈ toks := List.getElem?_mem htk
  obtain ⟨hlen, hne⟩ := htok tk hmem
  obtain ⟨data', he, _, hrec⟩ := update_exec_spec s f hcov hR hn
  have hwk := hw _ (col_at_mem s.tpd.cols s.set_col_idx hk)
  have hs := width_sum_take_succ s.tpd.cols s.set_col_idx hk
  have hle := width_sum_take_le s.tpd.cols (s.set_col_idx + 1) hw
  have h0 := width_sum_nonneg (s.tpd.cols.take s.set_col_idx)
    (fun c hc => hw c (List.mem_of_mem_take hc))
  rw [hgetD]
  refine ⟨hk, accepted_of_set_value _ tk (cur + 4) s.value hv hwk (by omega) hne,
    ⟨f.hdr, data'⟩, sem_update_of_parse lookup fs toks cur s f _ RC.OK hp hf he, rfl,
    hrec, ?_⟩
  intro r hr
  have hrl := table_records_length f hcov hn r hr
  exact ⟨by omega, update_record_image s tk (cur + 4) r hv hk hw (by omega) (by omega) hlen⟩

theorem update_record_fields (cols : List cd_entry) (k : Nat) (tk : token) (r : List Nat)
    (hk : k < cols.length) (hw : ∀ c ∈ cols, 0 ≤ payload_width c)
    (ha : Accepted (col_at cols k) tk) (hfit : width_sum cols ≤ r.length) (i : Nat)
    (hi : i < cols.length) :
    field_of cols (r.take (width_sum (cols.take k)).toNat ++ field_image (col_at cols k) tk
        ++ r.drop ((width_sum (cols.take k)).toNat
          + (1 + payload_width (col_at cols k)).toNat)) i
      = if i = k then field_image (col_at cols k) tk else field_of cols r i := by
  have himg := field_image_length (col_at cols k) tk (hw _ (col_at_mem cols k hk)) ha
  by_cases hik : i = k
  · rw [if_pos hik, hik]
    exact field_of_splice_same cols r _ k hk hw himg hfit
  · rw [if_neg hik]
    exact field_of_splice_other cols r _ k i hk hi hik hw himg hfit

/-- C32. The record that a successful INSERT appends is well formed for the descriptor:
the field of each column, at the offset that is the sum of `1 + width` over the columns
before it, is the image of the value (length byte 0 and an all-zero payload for NULL, 4
for an INT, the length L with 1 ≤ L ≤ col_len and zeros after the first L payload bytes
for a string). In a record that a successful UPDATE rewrites, the field of the column set
has this layout and the other fields are the bytes they were, so the record is well formed
when the record it replaces was. Literals are as the lexer yields them (under 256
characters, a string literal not empty), column lengths are not negative, and the fields
fit the record size of the file, which holds the records its header counts. -/
theorem written_records_are_well_formed :
    (∀ (lookup : List Nat → Option tpd_entry) (fs : List Nat → Option TabFile)
        (toks : List token) (cur : Nat) (res : InsertResult) (t0 : token) (tpd : tpd_entry)
        (f : TabFile),
      toks[cur]? = some t0 → lookup t0.tok_string = some tpd → fs t0.tok_string = some f →
      (∀ c ∈ tpd.cols, 0 ≤ payload_width c) → width_sum tpd.cols ≤ f.hdr.record_size →
      f.hdr.record_size < 2147483648 → (∀ tk ∈ toks, tk.tok_string.length < 256) →
      FileCovers f → 0 ≤ f.hdr.num_records →
      sem_insert_into lookup fs toks cur = some res → res.rc = RC.OK →
      ∃ f' row, res.file = some f' ∧ table_records f' = table_records f ++ [row] ∧
        record_wf tpd.cols row ∧
        ∀ i, i < tpd.cols.length →
          field_of tpd.cols row i
            = field_image (col_at tpd.cols i) (toks.getD (cur + 3 + 2 * i) default) ∧
          ((toks.getD (cur + 3 + 2 * i) default).tok_value = TokValue.K_NULL →
            field_of tpd.cols row i
              = List.replicate (1 + payload_width (col_at tpd.cols i)).toNat 0)) ∧
    (∀ (lookup : List Nat → Option tpd_entry) (fs : List Nat → Option TabFile)
        (toks : List token) (cur : Nat) (s : UpdateStmt) (f : TabFile),
      parse_update lookup toks cur = step_ok s → fs s.table_name = some f →
      FileCovers f → 0 < f.hdr.record_size → f.hdr.record_size < 2147483648 →
      0 ≤ f.hdr.num_records →
      (∀ c ∈ s.tpd.cols, 0 ≤ payload_width c) → width_sum s.tpd.cols ≤ f.hdr.record_size →
      (∀ tk ∈ toks, tk.tok_string.length < 256 ∧
        (tk.tok_value = TokValue.STRING_LITERAL → tk.tok_string ≠ [])) →
      ∃ f' : TabFile, sem_update lookup fs toks cur = some ⟨RC.OK, none, some f'⟩ ∧
        table_records f' = (table_records f).map
          (fun r => if update_this_row s.tpd s.where_part r = true then update_record s r
            else r) ∧
        ∀ r ∈ table_records f,
          field_wf (col_at s.tpd.cols s.set_col_idx)
            (field_of s.tpd.cols (update_record s r) s.set_col_idx) ∧
          (∀ i, i < s.tpd.cols.length → i ≠ s.set_col_idx →
            field_of s.tpd.cols (update_record s r) i = field_of s.tpd.cols r i) ∧
          (record_wf s.tpd.cols r → record_wf s.tpd.cols (update_record s r))) := by
  constructor
  · intro lookup fs toks cur res t0 tpd f h0 hl hf hw hfit hR htok hcov hn hins hrc
    obtain ⟨f', Z, hfile, hrec, _, hacc⟩ := sem_insert_into_records lookup fs toks cur res
      t0 tpd f h0 hl hf hw hfit hR htok hcov hn hins hrc
    have hfield : ∀ i, i < tpd.cols.length →
        field_of tpd.cols (row_image toks tpd.cols (cur + 3) ++ Z) i
          = field_image (col_at tpd.cols i) (toks.getD (cur + 3 + 2 * i) default) :=
      fun i hi => field_of_row_image toks tpd.cols (cur + 3) i Z hi hw hacc
    refine ⟨f', _, hfile, hrec, ?_, ?_⟩
    · intro i hi
      rw [hfield i hi]
      exact field_image_wf _ _ (hacc i hi)
    · intro i hi
      refine ⟨hfield i hi, fun hnull => ?_⟩
      rw [hfield i hi]
      exact field_image_of_null _ _ hnull (hw _ (col_at_mem tpd.cols i hi))
  · intro lookup fs toks cur s f hp hf hcov hR hR2 hn hw hfit htok
    obtain ⟨hk, ha, f', hsem, _, hrec, hrows⟩ := sem_update_records lookup fs toks cur s f
      hp hf hcov hR hR2 hn hw hfit htok
    refine ⟨f', hsem, hrec, ?_⟩
    intro r hr
    obtain ⟨hrl, himg⟩ := hrows r hr
    have hfields := update_record_fields s.tpd.cols s.set_col_idx _ r hk hw ha hrl
    rw [← himg] at hfields
    have hset : field_wf (col_at s.tpd.cols s.set_col_idx)
        (field_of s.tpd.cols (update_record s r) s.set_col_idx) := by
      rw [hfields _ hk, if_pos rfl]
      exact field_image_wf _ _ ha
    have hother : ∀ i, i < s.tpd.cols.length → i ≠ s.set_col_idx →
        field_of s.tpd.cols (update_record s r) i = field_of s.tpd.cols r i := by
      intro i hi hik
      rw [hfields i hi, if_neg hik]
    refine ⟨hset, hother, ?_⟩
    intro hwf i hi
    by_cases hik : i = s.set_col_idx
    · rw [hik]
      exact hset
    · rw [hother i hi hik]
      exact hwf i hi

/-- Witness of C32: `insert into n values (3, NULL)` appends the record 4 3 0 0 0 and
eight zeros, which is well formed; `update n set name = 'x' where id = 1` leaves two well
formed records. -/
theorem written_records_are_well_formed_witness :
    (∃ f' row, insert_n_3_null_result.file = some f' ∧
      table_records f' = table_records n_file ++ [row] ∧ record_wf n_table.cols row ∧
      ∀ i, i < n_table.cols.length →
        field_of n_table.cols row i
          = field_image (col_at n_table.cols i) (insert_n_3_null.getD (0 + 3 + 2 * i) default) ∧
        ((insert_n_3_null.getD (0 + 3 + 2 * i) default).tok_value = TokValue.K_NULL →
          field_of n_table.cols row i
            = List.replicate (1 + payload_width (col_at n_table.cols i)).toNat 0)) ∧
    (∃ f' : TabFile, sem_update dml_lookup dml_fs update_n_name_x 0
        = some ⟨RC.OK, none, some f'⟩ ∧
      ∀ r ∈ table_records n_file,
        record_wf n_table.cols r → record_wf n_table.cols (update_record update_n_name_x_stmt r)) :=
  ⟨written_records_are_well_formed.1 dml_lookup dml_fs insert_n_3_null 0
      insert_n_3_null_result (ident [110]) n_table n_file rfl rfl rfl (by decide) (by decide)
      (by decide) (by decide) (by decide) (by decide) (by decide) rfl,
    (written_records_are_well_formed.2 dml_lookup dml_fs update_n_name_x 0
      update_n_name_x_stmt n_file rfl rfl (by decide) (by decide) (by decide) (by decide)
      (by decide) (by decide) (by decide)).imp
      fun _ h => ⟨h.1, fun r hr => (h.2.2 r hr).2.2⟩⟩

theorem insert_field_of_accepted (col : cd_entry) (tk : token) (buf : List Nat) (off : Int)
    (ha : Accepted col tk) (hlen : tk.tok_string.length < 256) :
    ∃ p, insert_field col tk buf off = Except.ok p := by
  unfold insert_field
  rcases ha with ⟨h, hf⟩ | ⟨h, hi⟩ | ⟨h, hi, hl1, hl2⟩
  · rw [if_pos h, hf]
    exact ⟨_, rfl⟩
  · have hn : ¬ tk.tok_value = TokValue.K_NULL := by rw [h]; decide
    rw [if_neg hn, if_pos hi, if_neg (not_not.mpr h)]
    exact ⟨_, rfl⟩
  · have hn : ¬ tk.tok_value = TokValue.K_NULL := by rw [h]; decide
    have hws : wrap32 (tk.tok_string.length : Int) = tk.tok_string.length :=
      wrap32_of_range (by omega) (by omega)
    rw [if_neg hn, if_neg hi, if_neg (not_not.mpr h)]
    dsimp only
    rw [hws, if_neg (by omega)]
    exact ⟨_, rfl⟩

theorem insert_field_null_violation (col : cd_entry) (tk : token) (buf : List Nat) (off : Int)
    (h : tk.tok_value = TokValue.K_NULL) (hnn : col.not_null = true) :
    insert_field col tk buf off = Except.error RC.NOT_NULL_CONSTRAINT_VIOLATION := by
  unfold insert_field
  rw [if_pos h, hnn]
  rfl

theorem accepted_value_class (col : cd_entry) (tk : token) (ha : Accepted col tk) :
    ¬ (tk.tok_value ≠ TokValue.STRING_LITERAL ∧ tk.tok_value ≠ TokValue.INT_LITERAL
      ∧ tk.tok_value ≠ TokValue.K_NULL) := by
  rintro ⟨h1, h2, h3⟩
  rcases ha with ⟨h, _⟩ | ⟨h, _⟩ | ⟨h, _⟩
  · exact h3 h
  · exact h2 h
  · exact h1 h

theorem insert_loop_null_violation (toks : List token)
    (htok : ∀ tk ∈ toks, tk.tok_string.length < 256) :
    ∀ (cols : List cd_entry) (cur : Nat) (buf : List Nat) (off : Int) (i : Nat) (tk : token),
      i < cols.length →
      (∀ j, j < i → ∃ tj cj, toks[cur + 2 * j]? = some tj ∧ Accepted (col_at cols j) tj ∧
        toks[cur + 2 * j + 1]? = some cj ∧ cj.tok_value = TokValue.S_COMMA) →
      toks[cur + 2 * i]? = some tk → tk.tok_value = TokValue.K_NULL →
      (col_at cols i).not_null = true →
      insert_loop toks cols cur buf off
        = some (InsertLoop.fail RC.NOT_NULL_CONSTRAINT_VIOLATION (cur + 2 * i)) := by
  intro cols
  induction cols with
  | nil =>
    intro cur buf off i tk hi
    simp at hi
  | cons col rest ih =>
    intro cur buf off i tk hi hbefore htk hnull hnn
    cases i with
    | zero =>
      simp only [Nat.mul_zero, Nat.add_zero] at htk ⊢
      have hnn' : col.not_null = true := hnn
      unfold insert_loop
      simp only [List.get?_eq_getElem?, htk]
      rw [if_neg (by rw [hnull]; simp), insert_field_null_violation col tk buf off hnull hnn']
    | succ i =>
      obtain ⟨t0, c0, g0, ha0, g1, hc0⟩ := hbefore 0 (by omega)
      simp only [Nat.mul_zero, Nat.add_zero] at g0 g1
      have ha0' : Accepted col t0 := ha0
      obtain ⟨p, hp⟩ := insert_field_of_accepted col t0 buf off ha0'
        (htok t0 (List.getElem?_mem g0))
      obtain ⟨buf', off'⟩ := p
      have hrest : rest ≠ [] := by
        intro h
        rw [h] at hi
        simp at hi
      have hrec := ih (cur + 2) buf' off' i tk (by simpa using hi)
        (by
          intro j hj
          obtain ⟨tj, cj, a1, a2, a3, a4⟩ := hbefore (j + 1) (by omega)
          have e1 : cur + 2 * (j + 1) = cur + 2 + 2 * j := by omega
          rw [e1] at a1 a3
          refine ⟨tj, cj, a1, ?_, a3, a4⟩
          simpa [col_at] using a2)
        (by
          have e1 : cur + 2 * (i + 1) = cur + 2 + 2 * i := by omega
          rw [← e1]
          exact htk)
        hnull (by simpa [col_at] using hnn)
      unfold insert_loop
      simp only [List.get?_eq_getElem?, g0]
      rw [if_neg (accepted_value_class col t0 ha0'), hp]
      simp only [g1]
      rw [if_pos hrest, if_neg (not_not.mpr hc0), hrec]
      have e1 : cur + 2 * (i + 1) = cur + 2 + 2 * i := by omega
      rw [e1]

theorem sem_insert_into_null_violation (lookup : List Nat → Option tpd_entry)
    (fs : List Nat → Option TabFile) (toks : List token) (cur : Nat) (t0 t1 t2 tk : token)
    (tpd : tpd_entry) (f : TabFile) (i : Nat)
    (htok : ∀ tk ∈ toks, tk.tok_string.length < 256)
    (h0 : toks[cur]? = some t0) (hname : is_name_token t0 = true)
    (hl : lookup t0.tok_string = some tpd)
    (h1 : toks[cur + 1]? = some t1) (hv : t1.tok_value = TokValue.K_VALUES)
    (h2 : toks[cur + 2]? = some t2) (hp : t2.tok_value = TokValue.S_LEFT_PAREN)
    (hf : fs t0.tok_string = some f) (hcap : f.hdr.num_records < 100)
    (hrs : 0 ≤ f.hdr.record_size) (hi : i < tpd.cols.length)
    (hbefore : ∀ j, j < i → ∃ tj cj, toks[cur + 3 + 2 * j]? = some tj ∧
      Accepted (col_at tpd.cols j) tj ∧ toks[cur + 3 + 2 * j + 1]? = some cj ∧
      cj.tok_value = TokValue.S_COMMA)
    (htk : toks[cur + 3 + 2 * i]? = some tk) (hnull : tk.tok_value = TokValue.K_NULL)
    (hnn : (col_at tpd.cols i).not_null = true) :
    sem_insert_into lookup fs toks cur
      = some ⟨RC.NOT_NULL_CONSTRAINT_VIOLATION, some (cur + 3 + 2 * i), some f⟩ := by
  have hloop := insert_loop_null_violation toks htok tpd.cols (cur + 3)
    (List.replicate f.hdr.record_size.toNat 0) 0 i tk hi hbefore htk hnull hnn
  unfold sem_insert_into
  simp only [List.get?_eq_getElem?, h0, h1, h2]
  rw [if_neg (by rw [hname]; simp), hl]
  simp only []
  rw [if_neg (not_not.mpr hv), if_neg (not_not.mpr hp), hf]
  simp only []
  rw [if_neg (by omega), if_neg (by omega)]
  simp only [hloop]

theorem sem_update_null_violation (lookup : List Nat → Option tpd_entry)
    (fs : List Nat → Option TabFile) (toks : List token) (cur : Nat) (t0 t1 tc t3 tk : token)
    (tpd : tpd_entry) (k : Nat)
    (h0 : toks[cur]? = some t0) (hname : is_name_token t0 = true)
    (hl : lookup t0.tok_string = some tpd)
    (h1 : toks[cur + 1]? = some t1) (hset : t1.tok_value = TokValue.K_SET)
    (h2 : toks[cur + 2]? = some tc) (hcname : is_name_token tc = true)
    (hfc : find_column tc.tok_string tpd.cols 0 = some k)
    (h3 : toks[cur + 3]? = some t3) (heq : t3.tok_value = TokValue.S_EQUAL)
    (h4 : toks[cur + 4]? = some tk) (hnull : tk.tok_value = TokValue.K_NULL)
    (hnn : (col_at tpd.cols k).not_null = true) :
    sem_update lookup fs toks cur
      = some ⟨RC.NOT_NULL_CONSTRAINT_VIOLATION, some (cur + 4), fs t0.tok_string⟩ := by
  have hv : parse_set_value (col_at tpd.cols k) tk (cur + 4)
      = mark_invalid RC.NOT_NULL_CONSTRAINT_VIOLATION (cur + 4) := by
    unfold parse_set_value
    rw [if_neg (by rw [hnull]; decide), if_neg (by rw [hnull]; decide), if_pos hnull,
      if_pos hnn]
  have hpv : parse_update_value t0.tok_string tpd k toks (cur + 2 + 2)
      = mark_invalid RC.NOT_NULL_CONSTRAINT_VIOLATION (cur + 4) := by
    unfold parse_update_value
    rw [tok_step_some toks (cur + 2 + 2) tk h4, bind_step_ok, hv]
    rfl
  have hpc : parse_update_column t0.tok_string tpd toks tc (cur + 2)
      = mark_invalid RC.NOT_NULL_CONSTRAINT_VIOLATION (cur + 4) := by
    unfold parse_update_column
    rw [hfc]
    show bind_step (tok_step toks (cur + 2 + 1)) _ = _
    rw [tok_step_some toks (cur + 2 + 1) t3 h3, bind_step_ok, if_neg (not_not.mpr heq), hpv]
  have hpu : parse_update lookup toks cur
      = mark_invalid RC.NOT_NULL_CONSTRAINT_VIOLATION (cur + 4) := by
    unfold parse_update
    rw [tok_step_some toks cur t0 h0, bind_step_ok, if_neg (by rw [hname]; simp)]
    unfold with_table
    rw [hl]
    show bind_step (tok_step toks (cur + 1)) _ = _
    rw [tok_step_some toks (cur + 1) t1 h1, bind_step_ok, if_neg (not_not.mpr hset),
      tok_step_some toks (cur + 2) tc h2, bind_step_ok, if_neg (by rw [hcname]; simp), hpc]
  unfold sem_update
  rw [hpu, getD_of_get? toks cur t0 h0]
  rfl

theorem insert_field_ok_null (col : cd_entry) (tk : token) (buf : List Nat) (off : Int)
    (p : List Nat × Int) (h : insert_field col tk buf off = Except.ok p)
    (hnull : tk.tok_value = TokValue.K_NULL) : col.not_null = false := by
  unfold insert_field at h
  rw [if_pos hnull] at h
  cases hb : col.not_null with
  | false => rfl
  | true =>
    rw [hb] at h
    cases h

theorem insert_loop_done_null (toks : List token) :
    ∀ (cols : List cd_entry) (cur : Nat) (buf : List Nat) (off : Int) (cur' : Nat)
      (row : List Nat),
      insert_loop toks cols cur buf off = some (InsertLoop.done cur' row) →
      ∀ (i : Nat) (tk : token), i < cols.length → toks[cur + 2 * i]? = some tk →
        tk.tok_value = TokValue.K_NULL → (col_at cols i).not_null = false := by
  intro cols
  induction cols with
  | nil =>
    intro cur buf off cur' row _ i tk hi
    simp at hi
  | cons col rest ih =>
    intro cur buf off cur' row h i tk hi htk hnull
    unfold insert_loop at h
    simp only [List.get?_eq_getElem?] at h
    cases hg : toks[cur]? with
    | none => simp [hg] at h
    | some t0 =>
      simp only [hg] at h
      split at h
      · cases h
      · cases hf : insert_field col t0 buf off with
        | error rc => simp [hf] at h
        | ok p =>
          obtain ⟨buf', off'⟩ := p
          simp only [hf] at h
          cases hg1 : toks[cur + 1]? with
          | none => simp [hg1] at h
          | some nx =>
            simp only [hg1] at h
            have hrec : insert_loop toks rest (cur + 2) buf' off'
                = some (InsertLoop.done cur' row) := by
              split at h
              · split at h
                · cases h
                · exact h
              · split at h
                · cases h
                · exact h
            cases i with
            | zero =>
              simp only [Nat.mul_zero, Nat.add_zero] at htk
              have e : t0 = tk := Option.some.inj (hg.symm.trans htk)
              rw [e] at hf
              exact insert_field_ok_null col tk buf off _ hf hnull
            | succ i =>
              have e1 : cur + 2 * (i + 1) = cur + 2 + 2 * i := by omega
              rw [e1] at htk
              have := ih (cur + 2) buf' off' cur' row hrec i tk (by simpa using hi) htk hnull
              simpa [col_at] using this

theorem sem_insert_into_null_rejected (lookup : List Nat → Option tpd_entry)
    (fs : List Nat → Option TabFile) (toks : List token) (cur : Nat) (res : InsertResult)
    (t0 tk : token) (tpd : tpd_entry) (i : Nat)
    (h0 : toks[cur]? = some t0) (hl : lookup t0.tok_string = some tpd)
    (hi : i < tpd.cols.length) (htk : toks[cur + 3 + 2 * i]? = some tk)
    (hnull : tk.tok_value = TokValue.K_NULL) (hnn : (col_at tpd.cols i).not_null = true)
    (hins : sem_insert_into lookup fs toks cur = some res) :
    res.rc ≠ RC.OK ∧ res.file = fs t0.tok_string := by
  have hrc : res.rc ≠ RC.OK := by
    intro hrc
    obtain ⟨t0', tpd', f0, cur', row, g0, gl, _, _, _, hloop, _⟩ :=
      sem_insert_into_ok lookup fs toks cur res hins hrc
    rw [h0] at g0
    cases g0
    rw [hl] at gl
    cases gl
    have := insert_loop_done_null toks tpd.cols (cur + 3) _ _ cur' row hloop i tk hi htk hnull
    rw [hnn] at this
    cases this
  exact ⟨hrc, sem_insert_into_rejected lookup fs toks cur res t0 h0 hins hrc⟩

theorem not_null_ok_image (toks : List token) (cols : List cd_entry) (cur : Nat)
    (Z : List Nat) (hw : ∀ c ∈ cols, 0 ≤ payload_width c)
    (hacc : ∀ j, j < cols.length → Accepted (col_at cols j) (toks.getD (cur + 2 * j) default)) :
    not_null_ok cols (row_image toks cols cur ++ Z) := by
  intro i hi hnn
  rw [field_of_row_image toks cols cur i Z hi hw hacc]
  exact field_image_not_null _ _ (hacc i hi) hnn

theorem not_null_ok_update (cols : List cd_entry) (k : Nat) (tk : token) (r : List Nat)
    (hk : k < cols.length) (hw : ∀ c ∈ cols, 0 ≤ payload_width c)
    (ha : Accepted (col_at cols k) tk) (hfit : width_sum cols ≤ r.length)
    (hr : not_null_ok cols r) :
    not_null_ok cols (r.take (width_sum (cols.take k)).toNat ++ field_image (col_at cols k) tk
      ++ r.drop ((width_sum (cols.take k)).toNat
        + (1 + payload_width (col_at cols k)).toNat)) := by
  intro i hi hnn
  rw [update_record_fields cols k tk r hk hw ha hfit i hi]
  by_cases hik : i = k
  · rw [if_pos hik]
    rw [hik] at hnn
    exact field_image_not_null _ _ ha hnn
  · rw [if_neg hik]
    exact hr i hi hnn

/-- C36 (amended). NOT NULL is an invariant of the stored records: if every record of the
table has a nonzero length byte in every column declared NOT NULL, so has every record
after a successful INSERT, UPDATE or DELETE on the table (literals as the lexer yields
them, column lengths not negative, fields within the record size, a file that holds the
records its header counts). An INSERT whose value for a NOT NULL column is NULL does not
return 0 and leaves the file as it was; it returns NOT_NULL_CONSTRAINT_VIOLATION when the
table holds fewer than 100 records and every value before the NULL is accepted and
followed by a comma. An UPDATE of an existing table that sets a NOT NULL column to NULL
returns NOT_NULL_CONSTRAINT_VIOLATION and leaves the file as it was. -/
theorem not_null_is_an_invariant :
    (∀ (lookup : List Nat → Option tpd_entry) (fs : List Nat → Option TabFile)
        (toks : List token) (cur : Nat) (res : InsertResult) (t0 : token) (tpd : tpd_entry)
        (f : TabFile),
      toks[cur]? = some t0 → lookup t0.tok_string = some tpd → fs t0.tok_string = some f →
      (∀ c ∈ tpd.cols, 0 ≤ payload_width c) → width_sum tpd.cols ≤ f.hdr.record_size →
      f.hdr.record_size < 2147483648 → (∀ tk ∈ toks, tk.tok_string.length < 256) →
      FileCovers f → 0 ≤ f.hdr.num_records →
      sem_insert_into lookup fs toks cur = some res → res.rc = RC.OK →
      (∀ r ∈ table_records f, not_null_ok tpd.cols r) →
      ∃ f', res.file = some f' ∧ ∀ r ∈ table_records f', not_null_ok tpd.cols r) ∧
    (∀ (lookup : List Nat → Option tpd_entry) (fs : List Nat → Option TabFile)
        (toks : List token) (cur : Nat) (s : UpdateStmt) (f : TabFile),
      parse_update lookup toks cur = step_ok s → fs s.table_name = some f →
      FileCovers f → 0 < f.hdr.record_size → f.hdr.record_size < 2147483648 →
      0 ≤ f.hdr.num_records →
      (∀ c ∈ s.tpd.cols, 0 ≤ payload_width c) → width_sum s.tpd.cols ≤ f.hdr.record_size →
      (∀ tk ∈ toks, tk.tok_string.length < 256 ∧
        (tk.tok_value = TokValue.STRING_LITERAL → tk.tok_string ≠ [])) →
      (∀ r ∈ table_records f, not_null_ok s.tpd.cols r) →
      ∃ f' : TabFile, sem_update lookup fs toks cur = some ⟨RC.OK, none, some f'⟩ ∧
        ∀ r ∈ table_records f', not_null_ok s.tpd.cols r) ∧
    (∀ (lookup : List Nat → Option tpd_entry) (fs : List Nat → Option TabFile)
        (toks : List token) (cur : Nat) (name : List Nat) (tpd : tpd_entry)
        (w : Option (where_clause × Nat)) (f : TabFile),
      parse_delete lookup toks cur = step_ok (name, tpd, w) → fs name = some f →
      FileCovers f → 0 < f.hdr.record_size → 0 ≤ f.hdr.num_records →
      f.hdr.num_records < 2147483648 →
      (∀ r ∈ table_records f, not_null_ok tpd.cols r) →
      ∃ f' : TabFile, sem_delete lookup fs toks cur = some ⟨RC.OK, none, some f'⟩ ∧
        ∀ r ∈ table_records f', not_null_ok tpd.cols r) ∧
    (∀ (lookup : List Nat → Option tpd_entry) (fs : List Nat → Option TabFile)
        (toks : List token) (cur : Nat) (res : InsertResult) (t0 tk : token)
        (tpd : tpd_entry) (i : Nat),
      toks[cur]? = some t0 → lookup t0.tok_string = some tpd → i < tpd.cols.length →
      toks[cur + 3 + 2 * i]? = some tk → tk.tok_value = TokValue.K_NULL →
      (col_at tpd.cols i).not_null = true →
      sem_insert_into lookup fs toks cur = some res →
      res.rc ≠ RC.OK ∧ res.file = fs t0.tok_string) ∧
    (∀ (lookup : List Nat → Option tpd_entry) (fs : List Nat → Option TabFile)
        (toks : List token) (cur : Nat) (t0 t1 t2 tk : token) (tpd : tpd_entry)
        (f : TabFile) (i : Nat),
      (∀ tk ∈ toks, tk.tok_string.length < 256) →
      toks[cur]? = some t0 → is_name_token t0 = true → lookup t0.tok_string = some tpd →
      toks[cur + 1]? = some t1 → t1.tok_value = TokValue.K_VALUES →
      toks[cur + 2]? = some t2 → t2.tok_value = TokValue.S_LEFT_PAREN →
      fs t0.tok_string = some f → f.hdr.num_records < 100 → 0 ≤ f.hdr.record_size →
      i < tpd.cols.length →
      (∀ j, j < i → ∃ tj cj, toks[cur + 3 + 2 * j]? = some tj ∧
        Accepted (col_at tpd.cols j) tj ∧ toks[cur + 3 + 2 * j + 1]? = some cj ∧
        cj.tok_value = TokValue.S_COMMA) →
      toks[cur + 3 + 2 * i]? = some tk → tk.tok_value = TokValue.K_NULL →
      (col_at tpd.cols i).not_null = true →
      sem_insert_into lookup fs toks cur
        = some ⟨RC.NOT_NULL_CONSTRAINT_VIOLATION, some (cur + 3 + 2 * i), some f⟩) ∧
    (∀ (lookup : List Nat → Option tpd_entry) (fs : List Nat → Option TabFile)
        (toks : List token) (cur : Nat) (t0 t1 tc t3 tk : token) (tpd : tpd_entry) (k : Nat),
      toks[cur]? = some t0 → is_name_token t0 = true → lookup t0.tok_string = some tpd →
      toks[cur + 1]? = some t1 → t1.tok_value = TokValue.K_SET →
      toks[cur + 2]? = some tc → is_name_token tc = true →
      find_column tc.tok_string tpd.cols 0 = some k →
      toks[cur + 3]? = some t3 → t3.tok_value = TokValue.S_EQUAL →
      toks[cur + 4]? = some tk → tk.tok_value = TokValue.K_NULL →
      (col_at tpd.cols k).not_null = true →
      sem_update lookup fs toks cur
        = some ⟨RC.NOT_NULL_CONSTRAINT_VIOLATION, some (cur + 4), fs t0.tok_string⟩) := by
  refine ⟨?_, ?_, ?_, ?_, ?_, ?_⟩
  · intro lookup fs toks cur res t0 tpd f h0 hl hf hw hfit hR htok hcov hn hins hrc hold
    obtain ⟨f', Z, hfile, hrec, _, hacc⟩ := sem_insert_into_records lookup fs toks cur res
      t0 tpd f h0 hl hf hw hfit hR htok hcov hn hins hrc
    refine ⟨f', hfile, ?_⟩
    intro r hr
    rw [hrec] at hr
    rcases List.mem_append.mp hr with h | h
    · exact hold r h
    · rw [List.mem_singleton.mp h]
      exact not_null_ok_image toks tpd.cols (cur + 3) Z hw hacc
  · intro lookup fs toks cur s f hp hf hcov hR hR2 hn hw hfit htok hold
    obtain ⟨hk, ha, f', hsem, _, hrec, hrows⟩ := sem_update_records lookup fs toks cur s f
      hp hf hcov hR hR2 hn hw hfit htok
    refine ⟨f', hsem, ?_⟩
    intro r' hr'
    rw [hrec] at hr'
    obtain ⟨r, hr, rfl⟩ := List.mem_map.mp hr'
    by_cases hm : update_this_row s.tpd s.where_part r = true
    · rw [if_pos hm]
      obtain ⟨hrl, himg⟩ := hrows r hr
      rw [himg]
      exact not_null_ok_update s.tpd.cols s.set_col_idx _ r hk hw ha hrl (hold r hr)
    · rw [if_neg hm]
      exact hold r hr
  · intro lookup fs toks cur name tpd w f hp hf hcov hR hn hn2 hold
    obtain ⟨f', he, hrec, _⟩ := delete_exec_spec tpd w f hcov hR hn hn2
    refine ⟨f', sem_delete_of_parse lookup fs toks cur name tpd w f f' RC.OK hp hf he, ?_⟩
    intro r hr
    rw [hrec] at hr
    exact hold r (List.mem_filter.mp hr).1
  · intro lookup fs toks cur res t0 tk tpd i h0 hl hi htk hnull hnn hins
    exact sem_insert_into_null_rejected lookup fs toks cur res t0 tk tpd i h0 hl hi htk
      hnull hnn hins
  · intro lookup fs toks cur t0 t1 t2 tk tpd f i htok h0 hname hl h1 hv h2 hp hf hcap hrs hi
      hbefore htk hnull hnn
    exact sem_insert_into_null_violation lookup fs toks cur t0 t1 t2 tk tpd f i htok h0
      hname hl h1 hv h2 hp hf hcap hrs hi hbefore htk hnull hnn
  · intro lookup fs toks cur t0 t1 tc t3 tk tpd k h0 hname hl h1 hset h2 hcname hfc h3 heq
      h4 hnull hnn
    exact sem_update_null_violation lookup fs toks cur t0 t1 tc t3 tk tpd k h0 hname hl h1
      hset h2 hcname hfc h3 heq h4 hnull hnn

/-- Witness of C36 on the table n (id int not null, name char(3)) with the records
(1, 'ab') and (2, 'abc'): the invariant holds after `insert into n values (3, NULL)`,
after `update n set name = 'x' where id = 1` and after `delete from n where id = 1`;
`insert into n values (NULL, 'a')` and `update n set id = NULL` return
NOT_NULL_CONSTRAINT_VIOLATION and leave the file. -/
theorem not_null_is_an_invariant_witness :
    (∃ f', insert_n_3_null_result.file = some f' ∧
      ∀ r ∈ table_records f', not_null_ok n_table.cols r) ∧
    (∃ f' : TabFile, sem_update dml_lookup dml_fs update_n_name_x 0
        = some ⟨RC.OK, none, some f'⟩ ∧
      ∀ r ∈ table_records f', not_null_ok n_table.cols r) ∧
    (∃ f' : TabFile, sem_delete dml_lookup dml_fs delete_n_id_1 0
        = some ⟨RC.OK, none, some f'⟩ ∧
      ∀ r ∈ table_records f', not_null_ok n_table.cols r) ∧
    sem_insert_into dml_lookup dml_fs insert_n_null_a 0
      = some ⟨RC.NOT_NULL_CONSTRAINT_VIOLATION, some (0 + 3 + 2 * 0), some n_file⟩ ∧
    sem_update dml_lookup dml_fs update_n_id_null 0
      = some ⟨RC.NOT_NULL_CONSTRAINT_VIOLATION, some (0 + 4), dml_fs (ident [110]).tok_string⟩ :=
  ⟨not_null_is_an_invariant.1 dml_lookup dml_fs insert_n_3_null 0 insert_n_3_null_result
      (ident [110]) n_table n_file rfl rfl rfl (by decide) (by decide) (by decide)
      (by decide) (by decide) (by decide) (by decide) rfl (by decide),
    not_null_is_an_invariant.2.1 dml_lookup dml_fs update_n_name_x 0 update_n_name_x_stmt
      n_file rfl rfl (by decide) (by decide) (by decide) (by decide) (by decide) (by decide)
      (by decide) (by decide),
    not_null_is_an_invariant.2.2.1 dml_lookup dml_fs delete_n_id_1 0 [110] n_table
      (some (where_id_1, 0)) n_file rfl rfl (by decide) (by decide) (by decide) (by decide)
      (by decide),
    not_null_is_an_invariant.2.2.2.2.1 dml_lookup dml_fs insert_n_null_a 0 (ident [110])
      (keyword_tok [118, 97, 108, 117, 101, 115] TokValue.K_VALUES)
      (symbol_tok 40 TokValue.S_LEFT_PAREN) null_tok n_table n_file 0 (by decide) rfl rfl rfl
      rfl rfl rfl rfl rfl (by decide) (by decide) (by decide) (fun j hj => absurd hj (by omega))
      rfl rfl rfl,
    not_null_is_an_invariant.2.2.2.2.2 dml_lookup dml_fs update_n_id_null 0 (ident [110])
      (keyword_tok [115, 101, 116] TokValue.K_SET) (ident [105, 100])
      (symbol_tok 61 TokValue.S_EQUAL) null_tok n_table 0 rfl rfl rfl rfl rfl rfl rfl rfl rfl
      rfl rfl rfl rfl⟩

/-- C36 (counterexample). For the table p (name char(3), id int not null),
`insert into p values (1, NULL)` supplies NULL for the NOT NULL column id and returns
TYPE_MISMATCH, the error of the first value, not NOT_NULL_CONSTRAINT_VIOLATION; the file
is left as it was. -/
theorem null_after_bad_value_counterexample :
    insert_p_1_null[5]? = some null_tok ∧ (col_at p_table.cols 1).not_null = true ∧
    sem_insert_into p_lookup p_fs insert_p_1_null 0
      = some ⟨RC.TYPE_MISMATCH, some 3, some p_file⟩ := by
  decide

/-- A string literal token that the branch of the quote yields is not empty: the first
character after the quote is copied whatever it is. -/
theorem lex_string_literal_nonempty (rest : List Nat) (h0 : 0 ∉ rest) :
    ∀ tk ∈ (lex_string rest).toks, tk.tok_value = TokValue.STRING_LITERAL →
      tk.tok_string ≠ [] := by
  intro tk htk hv
  cases rest with
  | nil =>
    have e : (lex_string []).toks = [⟨[], TokClass.error, TokValue.INVALID⟩] := rfl
    rw [e] at htk
    rw [List.mem_singleton.mp htk] at hv
    cases hv
  | cons c t =>
    have hc : c ≠ 0 := fun h => h0 (by rw [h]; exact List.mem_cons_self _ _)
    have hne : cstr (c :: t.takeWhile is_literal_char) ≠ [] := by
      unfold cstr
      rw [List.takeWhile_cons_of_pos (by simpa using hc)]
      exact List.cons_ne_nil _ _
    unfold lex_string lex_finish at htk
    simp only [peek, List.headD_cons, List.tail_cons] at htk
    split at htk
    · rw [List.mem_singleton.mp htk] at hv
      cases hv
    · split at htk
      · rcases List.mem_cons.mp htk with h | h
        · rw [h]
          exact hne
        · rw [List.mem_singleton.mp h] at hv
          cases hv
      · rw [List.mem_singleton.mp htk]
        exact hne

theorem getD_lt_of_bytes (row : List Nat) (hb : ∀ b ∈ row, b < 256) (i : Nat) :
    row.getD i 0 < 256 := by
  rw [List.getD_eq_getElem?_getD]
  cases h : row[i]? with
  | none => simp
  | some b => exact hb b (List.getElem?_mem h)

theorem drop_take_getD (row : List Nat) (o n k : Nat) (hk : k < n) :
    ((row.drop o).take n).getD k 0 = row.getD (o + k) 0 := by
  simp only [List.getD_eq_getElem?_getD, List.getElem?_take, List.getElem?_drop, if_pos hk]

theorem read_int32_eq_value (row : List Nat) (o : Nat) (hb : ∀ b ∈ row, b < 256) :
    read_int32 row (o : Int) = int32_value ((row.drop o).take 4) := by
  unfold read_int32 int32_value
  have g1 : (o : Int) + 1 = ((o + 1 : Nat) : Int) := by push_cast; ring
  have g2 : (o : Int) + 2 = ((o + 2 : Nat) : Int) := by push_cast; ring
  have g3 : (o : Int) + 3 = ((o + 3 : Nat) : Int) := by push_cast; ring
  rw [g1, g2, g3, byte_at_nat, byte_at_nat, byte_at_nat, byte_at_nat,
    drop_take_getD row o 4 0 (by omega), drop_take_getD row o 4 1 (by omega),
    drop_take_getD row o 4 2 (by omega), drop_take_getD row o 4 3 (by omega)]
  have h0 := getD_lt_of_bytes row hb (o + 0)
  have h1 := getD_lt_of_bytes row hb (o + 1)
  have h2 := getD_lt_of_bytes row hb (o + 2)
  have h3 := getD_lt_of_bytes row hb (o + 3)
  simp only [Nat.add_zero] at h0 ⊢
  generalize row.getD o 0 = a at *
  generalize row.getD (o + 1) 0 = b at *
  generalize row.getD (o + 2) 0 = c at *
  generalize row.getD (o + 3) 0 = d at *
  unfold wrap32
  split <;> omega

theorem slice_getD (buf : List Nat) : ∀ (n : Nat) (off : Int) (i : Nat), i < n →
    (slice buf off n).getD i 0 = byte_at buf (off + i) := by
  intro n
  induction n with
  | zero => intro off i hi; omega
  | succ n ih =>
    intro off i hi
    cases i with
    | zero => simp [slice]
    | succ j =>
      have := ih (off + 1) j (by omega)
      simp only [slice, List.getD_cons_succ, this]
      congr 1
      push_cast
      ring

theorem str_buffer_getD (row : List Nat) (off : Int) (len i : Nat) (hlen : len ≤ 256)
    (hi : i < len) :
    (memcpy (List.replicate 256 0) 0 (slice row off len)).getD i 0 = byte_at row (off + i) := by
  have hsplit : List.replicate 256 0
      = ([] : List Nat) ++ List.replicate len 0 ++ List.replicate (256 - len) 0 := by
    rw [List.nil_append, ← List.replicate_add]
    congr 1
    omega
  have h := memcpy_append (slice row off len) [] (List.replicate len 0)
    (List.replicate (256 - len) 0) (by rw [List.length_replicate, slice_length])
  rw [← hsplit] at h
  have h' : memcpy (List.replicate 256 0) 0 (slice row off len)
      = slice row off len ++ List.replicate (256 - len) 0 := by
    rw [show (([] : List Nat).length : Int) = 0 from rfl, List.nil_append] at h
    exact h
  rw [h', List.getD_eq_getElem?_getD,
    List.getElem?_append_left (by rw [slice_length]; exact hi), ← List.getD_eq_getElem?_getD]
  exact slice_getD row len off i hi

theorem extract_length (row : List Nat) (cols : List cd_entry) (idx : Nat) (buf : List Nat)
    (iv : Int) :
    (extract_field_at_column row cols idx buf iv).length = byte_at row (col_offset cols idx) := by
  unfold extract_field_at_column
  dsimp only
  split <;> split <;> rfl

theorem extract_int_ptr (row : List Nat) (cols : List cd_entry) (idx : Nat) (buf : List Nat)
    (iv : Int) (ht : (col_at cols idx).col_type = T_INT)
    (hl : byte_at row (col_offset cols idx) ≠ 0) :
    field_value_ptr cols idx (extract_field_at_column row cols idx buf iv)
      = int32_bytes (read_int32 row (wrap32 (col_offset cols idx + 1))) := by
  unfold field_value_ptr extract_field_at_column
  dsimp only
  rw [if_pos ht, if_pos ht, if_pos (Nat.pos_of_ne_zero hl)]

theorem extract_str_ptr (row : List Nat) (cols : List cd_entry) (idx : Nat) (buf : List Nat)
    (iv : Int) (ht : (col_at cols idx).col_type ≠ T_INT)
    (hl : byte_at row (col_offset cols idx) ≠ 0) :
    field_value_ptr cols idx (extract_field_at_column row cols idx buf iv)
      = memcpy buf 0 (slice row (wrap32 (col_offset cols idx + 1))
          (byte_at row (col_offset cols idx))) := by
  unfold field_value_ptr extract_field_at_column
  dsimp only
  rw [if_neg ht, if_neg ht, if_pos (Nat.pos_of_ne_zero hl)]

theorem col_offset_start (cols : List cd_entry) (idx : Nat)
    (hw : ∀ c ∈ cols, 0 ≤ payload_width c) (hs : width_sum cols < 2147483648)
    (hi : idx < cols.length) :
    col_offset cols idx = (field_start cols idx : Int) ∧
    wrap32 (col_offset cols idx + 1) = ((field_start cols idx + 1 : Nat) : Int) := by
  have h0 := width_sum_nonneg (cols.take idx) (fun c hc => hw c (List.mem_of_mem_take hc))
  have hlt := width_sum_take_lt cols idx hw hi
  have e : col_offset cols idx = (field_start cols idx : Int) := by
    rw [col_offset_eq cols idx hw hs]
    unfold field_start
    omega
  refine ⟨e, ?_⟩
  rw [e, wrap32_of_range (by omega) (by unfold field_start; omega)]
  push_cast
  rfl

theorem common_column_matches_iff (row1 row2 : List Nat) (cols1 cols2 : List cd_entry)
    (common_map1 common_map2 : List Nat) (c : Nat)
    (hb1 : ∀ b ∈ row1, b < 256) (hb2 : ∀ b ∈ row2, b < 256)
    (hw1 : ∀ c ∈ cols1, 0 ≤ payload_width c) (hw2 : ∀ c ∈ cols2, 0 ≤ payload_width c)
    (hs1 : width_sum cols1 < 2147483648) (hs2 : width_sum cols2 < 2147483648)
    (hi1 : common_map1.getD c 0 < cols1.length) (hi2 : common_map2.getD c 0 < cols2.length)
    (htype : (col_at cols1 (common_map1.getD c 0)).col_type = T_INT
      ↔ (col_at cols2 (common_map2.getD c 0)).col_type = T_INT) :
    common_column_matches row1 row2 cols1 cols2 common_map1 common_map2 c
      ↔ record_fields_match row1 row2 cols1 cols2 (common_map1.getD c 0)
          (common_map2.getD c 0) := by
  obtain ⟨e1, e1'⟩ := col_offset_start cols1 _ hw1 hs1 hi1
  obtain ⟨e2, e2'⟩ := col_offset_start cols2 _ hw2 hs2 hi2
  have hL1 : byte_at row1 (col_offset cols1 (common_map1.getD c 0))
      = row1.getD (field_start cols1 (common_map1.getD c 0)) 0 := by
    rw [e1, byte_at_nat]
  have hL2 : byte_at row2 (col_offset cols2 (common_map2.getD c 0))
      = row2.getD (field_start cols2 (common_map2.getD c 0)) 0 := by
    rw [e2, byte_at_nat]
  have hwr : ∀ (row : List Nat) (off : Int), wrap32 (read_int32 row off) = read_int32 row off :=
    fun row off => wrap32_of_range (read_int32_range row off).1 (read_int32_range row off).2
  have hrb : ∀ x : Int, read_int32 (int32_bytes x) 0 = wrap32 x := by
    intro x
    have := read_int32_bytes x []
    rw [List.append_nil] at this
    exact this
  unfold common_column_matches record_fields_match fields_match
  dsimp only
  rw [extract_length, extract_length, hL1, hL2]
  refine or_congr Iff.rfl (and_congr_right fun h1 => and_congr_right fun h2 =>
    and_congr ?_ ?_)
  · refine imp_congr_right fun ht => ?_
    have ht2 := htype.mp ht
    rw [extract_int_ptr row1 cols1 _ _ _ ht (by rw [hL1]; exact h1),
      extract_int_ptr row2 cols2 _ _ _ ht2 (by rw [hL2]; exact h2), hrb, hrb, hwr, hwr, e1',
      e2', read_int32_eq_value row1 _ hb1, read_int32_eq_value row2 _ hb2]
  · refine imp_congr_right fun ht => ?_
    have ht2 : (col_at cols2 (common_map2.getD c 0)).col_type ≠ T_INT :=
      fun h => ht (htype.mpr h)
    refine and_congr_right fun hL => forall_congr' fun i => imp_congr_right fun hi => ?_
    have hl1 := getD_lt_of_bytes row1 hb1 (field_start cols1 (common_map1.getD c 0))
    have hl2 := getD_lt_of_bytes row2 hb2 (field_start cols2 (common_map2.getD c 0))
    have g1 : ((field_start cols1 (common_map1.getD c 0) + 1 : Nat) : Int) + (i : Int)
        = ((field_start cols1 (common_map1.getD c 0) + 1 + i : Nat) : Int) := by
      push_cast
      ring
    have g2 : ((field_start cols2 (common_map2.getD c 0) + 1 : Nat) : Int) + (i : Int)
        = ((field_start cols2 (common_map2.getD c 0) + 1 + i : Nat) : Int) := by
      push_cast
      ring
    rw [extract_str_ptr row1 cols1 _ _ _ ht (by rw [hL1]; exact h1),
      extract_str_ptr row2 cols2 _ _ _ ht2 (by rw [hL2]; exact h2), hL1, hL2,
      str_buffer_getD row1 _ _ i (by omega) hi,
      str_buffer_getD row2 _ _ i (by omega) (by omega), e1', e2', g1, g2, byte_at_nat,
      byte_at_nat]

/-- C13. For every well-formed catalog (well-formed entries whose table names are pairwise
distinct ignoring letter case, as CREATE TABLE keeps them) with the entries
`pre ++ e :: post` and every name that matches the entry `e` ignoring case, wherever `e`
stands (first, middle or last), `drop_tpd_from_list` returns 0 and the bytes it writes to
the catalog file are the image of the catalog `pre ++ post`: table count one less, the
other entries in their original order, byte for byte. When no entry matches, nothing is
written, the catalog in memory is untouched and the code `INVALID_TABLE_NAME` is
returned. -/
theorem drop_removes_matching_entry (L : Layout) (pre : List (List Nat)) (e : List Nat)
    (post : List (List Nat)) (tabname : List Nat) (hname : 0 ∉ tabname) :
    (CatalogWF L (pre ++ e :: post) → names_distinct L (pre ++ e :: post) →
      eq_ignoring_case (entry_name L e) tabname →
      (∃ g, drop_tpd_from_list L (catalog_image L (pre ++ e :: post)) tabname
          = (RC.OK, g, some (catalog_image L (pre ++ post)))) ∧
        num_tables (catalog_image L (pre ++ post))
          = ((pre ++ e :: post).length : Int) - 1) ∧
    (CatalogWF L (pre ++ post) →
      (∀ x ∈ pre ++ post, ¬ eq_ignoring_case (entry_name L x) tabname) →
      drop_tpd_from_list L (catalog_image L (pre ++ post)) tabname
        = (RC.INVALID_TABLE_NAME, catalog_image L (pre ++ post), none)) := by
  constructor
  · intro hwf hdist hm
    have hpre : ∀ x ∈ pre, ¬ eq_ignoring_case (entry_name L x) tabname := by
      intro x hx hxm
      unfold names_distinct at hdist
      have hp := (List.pairwise_append.mp hdist).2.2 x hx e (List.mem_cons_self _ _)
      exact hp (eq_ignoring_case_trans_right _ _ _ hxm hm)
    refine ⟨drop_tpd_from_list_found L pre e post tabname hwf hname hm hpre, ?_⟩
    rw [num_tables_image L _ (catalogWF_remove L pre e post hwf)]
    simp only [List.length_append, List.length_cons]
    push_cast
    ring
  · intro hwf hno
    exact drop_tpd_from_list_none L _ tabname hwf hname hno

/-- Witness of C13 on the catalog with the tables a, b, c: the name `B` matches the entry
b in the middle, and the bytes written are the image of the catalog a, c; on that catalog
the name `B` matches nothing and `INVALID_TABLE_NAME` is returned. -/
theorem drop_removes_matching_entry_witness :
    0 ∉ [66] ∧ CatalogWF layout36 ([entry_named 97] ++ entry_named 98 :: [entry_named 99]) ∧
    (∃ g, drop_tpd_from_list layout36
        (catalog_image layout36 ([entry_named 97] ++ entry_named 98 :: [entry_named 99])) [66]
      = (RC.OK, g, some (catalog_image layout36 ([entry_named 97] ++ [entry_named 99])))) ∧
    drop_tpd_from_list layout36 (catalog_image layout36 ([entry_named 97] ++ [entry_named 99]))
        [66]
      = (RC.INVALID_TABLE_NAME, catalog_image layout36 ([entry_named 97] ++ [entry_named 99]),
          none) :=
  ⟨by decide, by decide,
    ((drop_removes_matching_entry layout36 [entry_named 97] (entry_named 98) [entry_named 99]
      [66] (by decide)).1 (by decide) (by unfold names_distinct; decide) (by decide)).1,
    (drop_removes_matching_entry layout36 [entry_named 97] (entry_named 98) [entry_named 99]
      [66] (by decide)).2 (by decide) (by decide)⟩

theorem record_at_length (f : TabFile) (hw : FileCovers f) (i : Nat)
    (hi : i < f.hdr.num_records.toNat) :
    (record_at f (i : Int)).length = f.hdr.record_size.toNat := by
  unfold record_at
  exact file_read_length _ _ _ _ (covers_index f hw i hi) (by simp)

theorem file_read_record (f : TabFile) (hw : FileCovers f) (i : Nat)
    (hi : i < f.hdr.num_records.toNat) (buf : List Nat)
    (hb : buf.length ≤ f.hdr.record_size.toNat) :
    file_read f.data (row_pos f.hdr i) f.hdr.record_size buf = record_at f (i : Int) := by
  have hc := covers_index f hw i hi
  unfold record_at
  rw [file_read_full _ _ _ _ hc hb, file_read_full _ _ _ _ hc (by simp)]

theorem scan_right_no_common (q : Query) (tpd2 : tpd_entry) (f1 f2 : TabFile)
    (buf1 : List Nat) (hw2 : FileCovers f2) :
    ∀ (n j : Nat) (buf2 : List Nat), j + n ≤ f2.hdr.num_records.toNat →
      buf2.length ≤ f2.hdr.record_size.toNat →
      (scan_right q tpd2 f1 f2 [] buf1 j n buf2).1
        = ((((List.range' j n).map (fun (k : Nat) => record_at f2 (k : Int))).filter
            (fun r2 => where_match (fun c => eval_join c buf1 r2 q.tpd1 tpd2)
              q.conditions)).map
            (fun r2 => buf1.take f1.hdr.record_size.toNat ++ r2)) ∧
      (scan_right q tpd2 f1 f2 [] buf1 j n buf2).2.length ≤ f2.hdr.record_size.toNat := by
  intro n
  induction n with
  | zero =>
    intro j buf2 _ hb
    exact ⟨rfl, hb⟩
  | succ n ih =>
    intro j buf2 hj hb
    have hrec := file_read_record f2 hw2 j (by omega) buf2 hb
    have hlen := record_at_length f2 hw2 j (by omega)
    obtain ⟨h1, h2⟩ := ih (j + 1) (record_at f2 (j : Int)) (by omega) (by omega)
    have hm : rows_match_on_common_columns buf1 (record_at f2 (j : Int)) q.tpd1.cols tpd2.cols
        (([] : List (Nat × Nat)).map Prod.fst) (([] : List (Nat × Nat)).map Prod.snd)
        ([] : List (Nat × Nat)).length = true := rfl
    have htake : (record_at f2 (j : Int)).take f2.hdr.record_size.toNat
        = record_at f2 (j : Int) := List.take_of_length_le (by omega)
    simp only [scan_right, hrec, hm, Bool.true_and, htake, List.range'_succ, List.map_cons,
      List.filter_cons]
    split
    · exact ⟨by rw [h1]; rfl, h2⟩
    · exact ⟨h1, h2⟩

theorem scan_join_no_common (q : Query) (tpd2 : tpd_entry) (f1 f2 : TabFile)
    (hw1 : FileCovers f1) (hw2 : FileCovers f2) :
    ∀ (n i : Nat) (buf1 buf2 : List Nat), i + n ≤ f1.hdr.num_records.toNat →
      buf1.length ≤ f1.hdr.record_size.toNat → buf2.length ≤ f2.hdr.record_size.toNat →
      scan_join q tpd2 f1 f2 [] i n buf1 buf2
        = ((List.range' i n).map (fun (k : Nat) => record_at f1 (k : Int))).flatMap fun r1 =>
            ((table_records f2).filter
              (fun r2 => where_match (fun c => eval_join c r1 r2 q.tpd1 tpd2)
                q.conditions)).map (fun r2 => r1 ++ r2) := by
  intro n
  induction n with
  | zero =>
    intro i buf1 buf2 _ _ _
    rfl
  | succ n ih =>
    intro i buf1 buf2 hi hb1 hb2
    have hrec := file_read_record f1 hw1 i (by omega) buf1 hb1
    have hlen := record_at_length f1 hw1 i (by omega)
    obtain ⟨h1, h2⟩ := scan_right_no_common q tpd2 f1 f2 (record_at f1 (i : Int)) hw2
      f2.hdr.num_records.toNat 0 buf2 (by omega) hb2
    have htake : (record_at f1 (i : Int)).take f1.hdr.record_size.toNat
        = record_at f1 (i : Int) := List.take_of_length_le (by omega)
    have htab : table_records f2
        = (List.range' 0 f2.hdr.num_records.toNat).map (fun (k : Nat) => record_at f2 (k : Int)) := by
      unfold table_records
      rw [List.range_eq_range']
    simp only [scan_join, hrec, List.range'_succ, List.map_cons, List.flatMap_cons]
    rw [ih (i + 1) _ _ (by omega) (by omega) h2, h1, htake, htab]

theorem sort_results_perm (q : Query) (f1 : TabFile) (results : List (List Nat)) :
    (sort_results q f1 results).Perm results := by
  unfold sort_results
  split
  · split
    · exact bubble_sort_perm _ _ _ _
    · split
      · exact bubble_sort_perm _ _ _ _
      · exact List.Perm.refl _
    · exact List.Perm.refl _
  · exact List.Perm.refl _

/-- C21 (amended). For every NATURAL JOIN of two tables with no common column, on table
files that hold the records their headers count, the loop of `sem_select` yields the cross
product: every record of the first table followed by every record of the second table for
which the WHERE chain holds, in the order of the nested loops. The result set is this
list, reordered by ORDER BY if there is one; without WHERE it has as many rows as the
product of the two record counts, so it is empty only when one of the tables is. -/
theorem join_without_common_column_is_product (q : Query) (tpd2 : tpd_entry)
    (f1 f2 : TabFile) (hj : q.tpd2 = some tpd2)
    (hc : find_common_columns q.tpd1 tpd2 = []) (hw1 : FileCovers f1) (hw2 : FileCovers f2) :
    scan q f1 (some f2) = cross_product_rows q tpd2 f1 f2 ∧
    (result_set q f1 (some f2)).Perm (cross_product_rows q tpd2 f1 f2) ∧
    (q.has_order = false → result_set q f1 (some f2) = cross_product_rows q tpd2 f1 f2) ∧
    (q.conditions = [] →
      (result_set q f1 (some f2)).length
        = (table_records f1).length * (table_records f2).length) := by
  have hscan : scan q f1 (some f2) = cross_product_rows q tpd2 f1 f2 := by
    unfold scan cross_product_rows
    rw [hj]
    show scan_join q tpd2 f1 f2 (find_common_columns q.tpd1 tpd2) 0 _ _ _ = _
    rw [hc, scan_join_no_common q tpd2 f1 f2 hw1 hw2 _ 0 _ _ (by omega) (by simp) (by simp)]
    unfold table_records
    simp only [List.range_eq_range']
  have hperm : (result_set q f1 (some f2)).Perm (cross_product_rows q tpd2 f1 f2) := by
    unfold result_set
    rw [← hscan]
    exact sort_results_perm q f1 _
  refine ⟨hscan, hperm, ?_, ?_⟩
  · intro ho
    unfold result_set
    rw [sort_results_no_order q f1 _ ho, hscan]
  · intro hcond
    rw [hperm.length_eq]
    unfold cross_product_rows where_match
    rw [hcond]
    simp only [List.length_nil, gt_iff_lt, Nat.lt_irrefl, if_false, List.filter_true,
      List.length_flatMap, List.length_map]
    have hconst : (List.length ∘ fun r1 => List.map (fun r2 => r1 ++ r2) (table_records f2))
        = fun _ => (table_records f2).length := by
      funext r1
      simp only [Function.comp, List.length_map]
    rw [hconst, List.map_const', List.sum_replicate, smul_eq_mul]

/-- Witness of C21 on `select * from v natural join y` with the records 10, 20, 3 in v
and the record 7 in y: the result set is the three rows of the cross product. -/
theorem join_without_common_column_is_product_witness :
    result_set select_v_join_y v_file (some y_file)
      = cross_product_rows select_v_join_y y_table v_file y_file ∧
    (result_set select_v_join_y v_file (some y_file)).length
      = (table_records v_file).length * (table_records y_file).length ∧
    (table_records v_file).length * (table_records y_file).length = 3 :=
  ⟨(join_without_common_column_is_product select_v_join_y y_table v_file y_file rfl
      (by decide) (by decide) (by decide)).2.2.1 rfl,
    (join_without_common_column_is_product select_v_join_y y_table v_file y_file rfl
      (by decide) (by decide) (by decide)).2.2.2 rfl,
    by decide⟩

end DB
